import Mathlib

/-!
Dual-channel TCP relay: timer manager, outbound tracker, framed records.

A shallow embedding of `timemanager.cpp`, `serverx.cpp` and the record readers of
`libtcp.cpp`.  Machine integers are natural numbers reduced modulo `2^32` where the
source uses `u_int32_t` / `unsigned int`; bytes are natural numbers.  System calls
(`send`, `recv`, the clocks) are inputs of the operations that perform them.
-/

namespace ServerX

/-! ## Constants of `serverx.h` -/

/-- Send cadence in milliseconds (`#define T0 20`). -/
def T0 : Nat := 20

/-- ACK timeout in milliseconds (`#define T1 1000`). -/
def T1 : Nat := 1000

/-- Statistics interval in milliseconds (`#define TSTAT 5000`). -/
def TSTAT : Nat := 5000

/-- Number of slots of the pool of unacknowledged messages (`#define MRSZ 128`). -/
def MRSZ : Nat := 128

/-- Size of the message buffer (`#define BUF 3700`). -/
def BUF : Nat := 3700

/-- Size of an ACK packet, `sizeof(u_int32_t)+1`. -/
def ACKSZ : Nat := 5

/-- Size of the cookie field, `sizeof(u_int32_t)`. -/
def COOKIESZ : Nat := 4

/-- The ACK marker byte (`#define ACK 0x6`). -/
def ACK : Nat := 6

/-- Number of values of a `u_int32_t`. -/
def U32 : Nat := 4294967296

/-- The value `static_cast<u_int32_t>(-1)` that marks a free slot in `pkt.len`. -/
def FREE : Nat := 4294967295

/-- The `errno` value `EINTR`. -/
def EINTR : Nat := 4

/-- The `errno` value `EMSGSIZE`. -/
def EMSGSIZE : Nat := 90

/-- The enumeration `result` of `serverx.h`. -/
inductive result where
  | Break
  | Continue
  | Error
  | True
  | False
  | None
  deriving DecidableEq, Repr

/-! ## Byte order -/

/-- Byte order of the host: how a `u_int32_t` is laid out in memory. -/
inductive Endian where
  | little
  | big
  deriving DecidableEq, Repr

/-- The four bytes of a 32-bit value, most significant first (network order). -/
def beBytes (v : Nat) : List Nat :=
  [v / 16777216 % 256, v / 65536 % 256, v / 256 % 256, v % 256]

/-- The four bytes of a 32-bit value, least significant first. -/
def leBytes (v : Nat) : List Nat :=
  [v % 256, v / 256 % 256, v / 65536 % 256, v / 16777216 % 256]

/-- The value of four bytes read most significant first. -/
def beVal : List Nat → Nat
  | [a, b, c, d] => a * 16777216 + b * 65536 + c * 256 + d
  | _ => 0

/-- The value of four bytes read least significant first. -/
def leVal : List Nat → Nat
  | [a, b, c, d] => a + b * 256 + c * 65536 + d * 16777216
  | _ => 0

/-- The object representation of a `u_int32_t` on the host: what `send` or `memmove`
sees when handed the address of the variable. -/
def store32 (e : Endian) (v : Nat) : List Nat :=
  match e with
  | .little => leBytes v
  | .big => beBytes v

/-- The `u_int32_t` whose object representation is the given four bytes: what
`memcpy(&x, p, 4)` or `recv` into `(char*)&x` leaves in `x`. -/
def load32 (e : Endian) (bs : List Nat) : Nat :=
  match e with
  | .little => leVal bs
  | .big => beVal bs

/-- The libc function `htonl` (and `ntohl`, the same function): the value whose object
representation is the network-order encoding of `v`. -/
def htonl (e : Endian) (v : Nat) : Nat :=
  load32 e (beBytes v)

/-! ## Outcomes of calls -/

/-- Undefined behaviour that a call can run into. -/
inductive Fault where
  | nullDeref
  | outOfBounds
  | divByZero
  | danglingRef
  deriving DecidableEq, Repr

/-- How a call ends: it returns a value in a new state, it leaves by a thrown
`std::runtime_error` (with the state at the throw), or it has undefined behaviour. -/
inductive Outcome (ρ σ : Type) where
  | returns (r : ρ) (s : σ)
  | throws (s : σ)
  | undefined (f : Fault)

/-! ## The pool of message records (`serverx.h`) -/

/-- The C `struct timeval`. -/
structure timeval where
  tv_sec : Int
  tv_usec : Int
  deriving DecidableEq, Repr

/-- The packet `packet_t`: length field, cookie, message buffer. -/
structure packet_t where
  len : Nat
  cookie : Nat
  buf : List Nat
  deriving DecidableEq, Repr

/-- The record `msgrec_t` of a sent message: packet, timer id, send time. -/
structure msgrec_t where
  pkt : packet_t
  id : Nat
  start : timeval
  deriving DecidableEq, Repr

/-- A slot is live when its length field is not the free marker. -/
def msgrec_t.live (d : msgrec_t) : Bool :=
  d.pkt.len != FREE

/-- The scan of `XOUT::getfreerec` from slot `i` on: the index of the first slot whose
`pkt.len` is the free marker. -/
def getfreerecFrom : List msgrec_t → Nat → Option Nat
  | [], _ => none
  | d :: ds, i => if d.pkt.len = FREE then some i else getfreerecFrom ds (i + 1)

/-- The function `XOUT::getfreerec`: a pointer to the first free slot, or `nullptr`
(here `none`) when the pool is exhausted. -/
def getfreerec (mr : List msgrec_t) : Option Nat :=
  getfreerecFrom mr 0

/-- The scan of `XOUT::findmsgrec` from slot `i` on. -/
def findmsgrecFrom : List msgrec_t → Nat → Nat → Option Nat
  | [], _, _ => none
  | d :: ds, i, mid =>
    if d.pkt.len ≠ FREE ∧ d.pkt.cookie = mid then some i else findmsgrecFrom ds (i + 1) mid

/-- The function `XOUT::findmsgrec`: a pointer to the first live slot whose cookie is
`mid`, or `nullptr` (here `none`). -/
def findmsgrec (mr : List msgrec_t) (mid : Nat) : Option Nat :=
  findmsgrecFrom mr 0 mid

/-- The function `XOUT::freemsgrec` on one record: `data->pkt.len = -1`. -/
def freemsgrec (d : msgrec_t) : msgrec_t :=
  { d with pkt := { d.pkt with len := FREE } }

/-- The function `XOUT::drop` applied to the slot at index `i` of the pool: the slot is
released; an index outside the pool leaves the pool as it is. -/
def drop (mr : List msgrec_t) (i : Nat) : List msgrec_t :=
  match mr[i]? with
  | none => mr
  | some d => mr.set i (freemsgrec d)

/-- The C function `strncpy(dest, src, n)`: the characters of `src` up to its first NUL
(at most `n` of them), padded with NULs to `n` bytes, over the first `n` bytes of
`dest`.  Here `src` stands for the first `n` bytes of the source array. -/
def strncpy (dest src : List Nat) (n : Nat) : List Nat :=
  let s := (src.take n).takeWhile (fun c => c != 0)
  s ++ List.replicate (n - s.length) 0 ++ dest.drop n

/-- The two statements `strncpy(data_out->pkt.buf, msg, size)` and
`data_out->pkt.buf[size-1] = 0` of `SendMsg` on the buffer of the slot.  For `size = 0`
the second store lands in the cookie field and leaves the buffer as it is. -/
def storeMsg (dest msg : List Nat) (size : Nat) : List Nat :=
  let buf1 := strncpy dest msg size
  if size = 0 then buf1 else buf1.set (size - 1) 0

/-- Conversion of a `u_int32_t` to `int`, as in `int byte = readvrec(...)`. -/
def toInt32 (n : Nat) : Int :=
  if n < 2147483648 then (n : Int) else (n : Int) - 4294967296

/-! ## The timer manager (`timemanager.h`, `timemanager.cpp`) -/

/-- The event `TimerManager::TimerEvent`: deadline (steady-clock nanoseconds),
callback, identifier. -/
structure TimerEvent (F : Type) where
  time : Int
  func : F
  id : Nat
  deriving DecidableEq, Repr

/-- The comparator `TimerManager::TimerEventCompare`: `te1.time > te2.time`. -/
def TimerEventCompare {F : Type} (te1 te2 : TimerEvent F) : Bool :=
  decide (te1.time > te2.time)

/-- The container `std::priority_queue<T, std::vector<T>, Compare>` as the C++ standard
specifies it, a parameter of the development: `top` is an element that the comparator
puts before no other element, `pop` removes it, `push` adds one element.  Which of
several equivalent elements is on top is left to the implementation. -/
structure PriorityQueue (α : Type) (comp : α → α → Bool) where
  Q : Type
  empty : Q
  push : Q → α → Q
  top : Q → Option α
  pop : Q → Q
  elems : Q → List α
  elems_empty : elems empty = []
  elems_push : ∀ q x, (elems (push q x)).Perm (x :: elems q)
  top_none : ∀ q, top q = none ↔ elems q = []
  top_mem : ∀ q x, top q = some x → x ∈ elems q
  top_max : ∀ q x, top q = some x → ∀ y ∈ elems q, comp x y = false
  elems_pop : ∀ q x, top q = some x → (x :: elems (pop q)).Perm (elems q)

/-- The priority queue of timer events used by `TimerManager`. -/
abbrev TimerQueue (F : Type) : Type 1 :=
  PriorityQueue (TimerEvent F) TimerEventCompare

/-- Lookup in the `std::unordered_map` of timers (`timers.find(id)`). -/
def mapFind {V : Type} (m : List (Nat × V)) (k : Nat) : Option V :=
  match m with
  | [] => none
  | (k1, v) :: rest => if k1 = k then some v else mapFind rest k

/-- Removal of a key from the `std::unordered_map` of timers (`timers.erase`). -/
def mapErase {V : Type} (m : List (Nat × V)) (k : Nat) : List (Nat × V) :=
  m.filter (fun p => p.1 != k)

/-- Assignment `timers[k] = v` in the `std::unordered_map` of timers. -/
def mapAssign {V : Type} (m : List (Nat × V)) (k : Nat) (v : V) : List (Nat × V) :=
  (k, v) :: mapErase m k

/-- The class `TimerManager`: the heap `active`, the map `timers`, the counter
`next_id` (an `unsigned int`). -/
structure TimerManager {F : Type} (P : TimerQueue F) where
  active : P.Q
  timers : List (Nat × TimerEvent F)
  next_id : Nat

/-- The constructor `TimerManager() : next_id(1)`. -/
def TimerManager.init {F : Type} (P : TimerQueue F) : TimerManager P :=
  { active := P.empty, timers := [], next_id := 1 }

/-- The function `TimerManager::timeout(func, ms)`; `now` is the reading of
`std::chrono::steady_clock::now()` in nanoseconds.  Returns the id of the timer. -/
def timeout {F : Type} {P : TimerQueue F} (tm : TimerManager P) (func : F) (ms : Int)
    (now : Int) : Nat × TimerManager P :=
  let te : TimerEvent F := { time := now + ms * 1000000, func := func, id := tm.next_id }
  (te.id,
    { active := P.push tm.active te
      timers := mapAssign tm.timers te.id te
      next_id := (tm.next_id + 1) % U32 })

/-- The loop of `TimerManager::unitimeout` that empties `active` into `temp`, leaving
out the events whose id is `id`; the first argument bounds the number of rounds. -/
def unitimeoutLoop {F : Type} (P : TimerQueue F) (id : Nat) : Nat → P.Q → P.Q → P.Q
  | 0, _, temp => temp
  | n + 1, active, temp =>
    match P.top active with
    | none => temp
    | some te =>
      unitimeoutLoop P id n (P.pop active) (if te.id ≠ id then P.push temp te else temp)

/-- The function `TimerManager::unitimeout(id)`: throws when `id` is not a key of
`timers`, otherwise rebuilds `active` without the events of that id and erases the
key. -/
def unitimeout {F : Type} {P : TimerQueue F} (tm : TimerManager P) (id : Nat) :
    Outcome Unit (TimerManager P) :=
  match mapFind tm.timers id with
  | none => .throws tm
  | some _ =>
    .returns ()
      { active := unitimeoutLoop P id (P.elems tm.active).length tm.active P.empty
        timers := mapErase tm.timers id
        next_id := tm.next_id }

/-! ## Sockets -/

/-- One thing a `recv` call on a stream socket can deliver: bytes that have arrived
together, or a failure with its `errno`. -/
inductive RecvItem where
  | data (bs : List Nat)
  | err (errno : Nat)
  deriving DecidableEq, Repr

/-- The receiving side of a stream socket: what the coming `recv` calls will find.
The empty script is a connection that the peer has closed. -/
abbrev Sock : Type := List RecvItem

/-- The result of `recv(fd, buf, n, 0)`: the return value, the bytes stored at `buf`,
the `errno` it sets on failure, and the socket afterwards. -/
structure RecvResult where
  ret : Int
  bytes : List Nat
  errno : Option Nat
  sock : Sock

/-- The system call `recv(fd, buf, n, 0)`: at most `n` of the bytes that have arrived,
`0` on a closed connection, `-1` on failure. -/
def recv (s : Sock) (n : Nat) : RecvResult :=
  match s with
  | [] => { ret := 0, bytes := [], errno := none, sock := [] }
  | .err en :: rest => { ret := -1, bytes := [], errno := some en, sock := rest }
  | .data bs :: rest =>
    if bs.length ≤ n then { ret := bs.length, bytes := bs, errno := none, sock := rest }
    else { ret := n, bytes := bs.take n, errno := none, sock := .data (bs.drop n) :: rest }

/-- A store of the bytes `bs` at offset `off` of a buffer; `none` when the store touches
memory outside the buffer.  Storing nothing touches nothing. -/
def writeAt (buf : List Nat) (off : Int) (bs : List Nat) : Option (List Nat) :=
  if bs = [] then some buf
  else if 0 ≤ off ∧ off.toNat + bs.length ≤ buf.length then
    some (buf.take off.toNat ++ bs ++ buf.drop (off.toNat + bs.length))
  else none

/-- Conversion of an `int` to `size_t` (64 bits). -/
def toSizeT (n : Int) : Nat :=
  (n % 18446744073709551616).toNat

/-! ## The outbound tracker `XOUT` (`serverx.h`, `serverx.cpp`) -/

/-- The callbacks that the server registers with its timer manager.  `drop slot` is
the lambda `[&](){drop(data_out);}` that the call of `SendMsg` which filled `slot`
registers: the slot is the one that `data_out` pointed to at the registration.  The
lambda holds a reference to the local variable `data_out` of that call, not the
pointer; what invoking it does is said in `serverHost`.  `sendrev` is the lambda
`sendrev` of `ClientHandler`. -/
inductive Callback where
  | drop (slot : Nat)
  | sendrev
  deriving DecidableEq, Repr

/-- The data members of the class `XOUT` (the socket handle apart: its traffic is an
argument and a result of the operations). -/
structure XOUT (P : TimerQueue Callback) where
  mr : List msgrec_t
  cn_ack_out : Nat
  mid : Nat
  end_tv : timeval
  cnt : Int
  msgid : Nat
  ack : List Nat
  sr_time : Int
  time_out : Int
  time_out_max : Int
  TimeXout : TimerManager P

/-- The member function `XOUT::SendMsg(msg, size)`.  Inputs from the environment:
`sendRet`, the return value of `send`; `now`, the steady-clock reading inside
`timeout`; `tv`, the reading of `gettimeofday`.  The value returned comes with the
bytes handed to `send`.  The pointer from `getfreerec` is used unchecked.  For
`size = 0` the store `buf[size-1]` lands in the cookie field, which the next statement
overwrites. -/
def SendMsg {P : TimerQueue Callback} (e : Endian) (x : XOUT P) (msg : List Nat)
    (size : Nat) (sendRet : Int) (now : Int) (tv : timeval) :
    Outcome (result × List Nat) (XOUT P) :=
  match getfreerec x.mr with
  | none => .undefined .nullDeref
  | some i =>
    match x.mr[i]? with
    | none => .undefined .outOfBounds
    | some d =>
      if BUF < size then .undefined .outOfBounds
      else
        let buf2 := storeMsg d.pkt.buf msg size
        let cookie := x.msgid
        let len := htonl e ((4 + size) % U32)
        let wire := store32 e len ++ store32 e cookie ++ buf2.take size
        let d1 : msgrec_t := { d with pkt := { len := len, cookie := cookie, buf := buf2 } }
        let x1 : XOUT P := { x with msgid := (x.msgid + 1) % U32 }
        if sendRet < 0 then
          .returns (result.Error, wire) { x1 with mr := x.mr.set i (freemsgrec d1) }
        else
          let r := timeout x.TimeXout (Callback.drop i) T1 now
          .returns (result.True, wire)
            { x1 with
              mr := x.mr.set i { d1 with id := r.1, start := tv }
              TimeXout := r.2 }

/-- The member function `XOUT::RecvAck()`.  Inputs from the environment: the socket
`s`, and `tv`, the reading of `gettimeofday`.  The value returned comes with the
socket afterwards.  A failed `recv` is logged and falls through to `cnt += byte`. -/
def RecvAck {P : TimerQueue Callback} (e : Endian) (x : XOUT P) (s : Sock) (tv : timeval) :
    Outcome (result × Sock) (XOUT P) :=
  let rr := recv s (toSizeT ((ACKSZ : Int) - x.cnt))
  match writeAt x.ack x.cnt rr.bytes with
  | none => .undefined .outOfBounds
  | some ack1 =>
    let x0 : XOUT P := { x with ack := ack1 }
    if rr.ret = 0 then .returns (result.Break, rr.sock) x0
    else
      let cnt1 := x.cnt + rr.ret
      if cnt1 < (ACKSZ : Int) then .returns (result.Continue, rr.sock) { x0 with cnt := cnt1 }
      else
        let x1 : XOUT P := { x0 with cnt := 0 }
        if ack1.head? ≠ some ACK then .returns (result.Continue, rr.sock) x1
        else
          let mid := load32 e ((ack1.drop 1).take 4)
          let x2 : XOUT P := { x1 with cn_ack_out := (x.cn_ack_out + 1) % U32, mid := mid }
          match findmsgrec x.mr mid with
          | none => .returns (result.Error, rr.sock) x2
          | some i =>
            match x.mr[i]? with
            | none => .undefined .outOfBounds
            | some d =>
              let seconds := tv.tv_sec - d.start.tv_sec
              let micros := (seconds * 1000000 + tv.tv_usec) - d.start.tv_usec
              let x3 : XOUT P :=
                { x2 with
                  end_tv := tv
                  time_out := x.time_out + micros
                  time_out_max := max micros x.time_out_max }
              match unitimeout x.TimeXout d.id with
              | .throws _ => .throws x3
              | .undefined f => .undefined f
              | .returns _ tm =>
                .returns (result.True, rr.sock)
                  { x3 with mr := x.mr.set i (freemsgrec d), TimeXout := tm }

/-- The member function `ServerXOI::init_cnt()` on the members of `XOUT`. -/
def init_cnt {P : TimerQueue Callback} (x : XOUT P) : XOUT P :=
  { x with msgid := 0, cnt := 0, cn_ack_out := 0, time_out := 0, time_out_max := 0, sr_time := 0 }

/-- The live cookies of a pool are pairwise distinct. -/
def CookiesDistinct (mr : List msgrec_t) : Prop :=
  ∀ (i j : Nat) (di dj : msgrec_t), mr[i]? = some di → mr[j]? = some dj →
    di.pkt.len ≠ FREE → dj.pkt.len ≠ FREE → di.pkt.cookie = dj.pkt.cookie → i = j

/-! ## A reference priority queue -/

/-- The element of a list of timer events that `TimerEventCompare` puts before no
other: the first event with the least deadline. -/
def listTop {F : Type} : List (TimerEvent F) → Option (TimerEvent F)
  | [] => none
  | x :: xs =>
    match listTop xs with
    | none => some x
    | some y => if x.time > y.time then some y else some x

/-- The list without the element that `listTop` selects. -/
def listPop {F : Type} : List (TimerEvent F) → List (TimerEvent F)
  | [] => []
  | x :: xs =>
    match listTop xs with
    | none => []
    | some y => if x.time > y.time then x :: listPop xs else xs

/-- A reference implementation of the priority queue of timer events: an unsorted list
searched for its least deadline. -/
def listQueue (F : Type) : TimerQueue F where
  Q := List (TimerEvent F)
  empty := []
  push := fun q x => q ++ [x]
  top := listTop
  pop := listPop
  elems := fun q => q
  elems_empty := rfl
  elems_push := by
    intro q x
    exact List.perm_append_singleton x q
  top_none := by
    intro q
    cases q with
    | nil => simp [listTop]
    | cons x xs =>
      simp only [listTop]
      cases listTop xs with
      | none => simp
      | some y => by_cases h : x.time > y.time <;> simp [h]
  top_mem := by
    intro q
    induction q with
    | nil => intro x h; simp [listTop] at h
    | cons a as ih =>
      intro x h
      simp only [listTop] at h
      cases hs : listTop as with
      | none =>
        rw [hs] at h
        simp only [Option.some.injEq] at h
        simp [h]
      | some y =>
        rw [hs] at h
        by_cases hc : a.time > y.time
        · simp only [hc, if_true, Option.some.injEq] at h
          subst h
          exact List.mem_cons_of_mem _ (ih _ hs)
        · simp only [hc, if_false, Option.some.injEq] at h
          simp [h]
  top_max := by
    intro q
    induction q with
    | nil => intro x h; simp [listTop] at h
    | cons a as ih =>
      intro x h y hy
      simp only [listTop] at h
      cases hs : listTop as with
      | none =>
        rw [hs] at h
        simp only [Option.some.injEq] at h
        subst h
        have hnil : as = [] := by
          cases as with
          | nil => rfl
          | cons b bs =>
            simp only [listTop] at hs
            cases hb : listTop bs with
            | none => rw [hb] at hs; simp at hs
            | some z => rw [hb] at hs; by_cases hz : b.time > z.time <;> simp [hz] at hs
        subst hnil
        simp only [List.mem_singleton] at hy
        subst hy
        simp [TimerEventCompare]
      | some t =>
        rw [hs] at h
        have iht := ih t hs
        by_cases hc : a.time > t.time
        · simp only [hc, if_true, Option.some.injEq] at h
          subst h
          rcases List.mem_cons.mp hy with hya | hya
          · subst hya
            simp only [TimerEventCompare, decide_eq_false_iff_not, not_lt]
            omega
          · exact iht y hya
        · simp only [hc, if_false, Option.some.injEq] at h
          subst h
          rcases List.mem_cons.mp hy with hya | hya
          · subst hya
            simp [TimerEventCompare]
          · have := iht y hya
            simp only [TimerEventCompare, decide_eq_false_iff_not, not_lt] at this ⊢
            omega
  elems_pop := by
    intro q
    induction q with
    | nil => intro x h; simp [listTop] at h
    | cons a as ih =>
      intro x h
      simp only [listTop] at h
      simp only [listPop]
      cases hs : listTop as with
      | none =>
        rw [hs] at h
        simp only [Option.some.injEq] at h
        subst h
        have hnil : as = [] := by
          cases as with
          | nil => rfl
          | cons b bs =>
            simp only [listTop] at hs
            cases hb : listTop bs with
            | none => rw [hb] at hs; simp at hs
            | some z => rw [hb] at hs; by_cases hz : b.time > z.time <;> simp [hz] at hs
        subst hnil
        exact List.Perm.refl _
      | some t =>
        rw [hs] at h
        by_cases hc : a.time > t.time
        · simp only [hc, if_true, Option.some.injEq] at h
          subst h
          simp only [hc, if_true]
          exact (List.Perm.swap a t (listPop as)).trans (List.Perm.cons a (ih t hs))
        · simp only [hc, if_false, Option.some.injEq] at h
          subst h
          simp only [hc, if_false]
          exact List.Perm.refl _

/-- A tracker around a given pool, with zero counters and a fresh timer manager. -/
def trackerOf (P : TimerQueue Callback) (mr : List msgrec_t) : XOUT P :=
  { mr := mr
    cn_ack_out := 0
    mid := 0
    end_tv := { tv_sec := 0, tv_usec := 0 }
    cnt := 0
    msgid := 0
    ack := [0, 0, 0, 0, 0]
    sr_time := 0
    time_out := 0
    time_out_max := 0
    TimeXout := TimerManager.init P }

/-- The call of `RecvAck` on tracker `x` and socket `s` completes the five bytes
`frame`: fewer than five bytes are accumulated in `ack`, and the socket delivers the
missing ones (and possibly more, which stay on the socket). -/
def CompletesAck {P : TimerQueue Callback} (x : XOUT P) (s : Sock) (frame : List Nat) : Prop :=
  ∃ (k : Nat) (bs : List Nat) (rest : Sock),
    x.cnt = (k : Int) ∧ k < 5 ∧ x.ack.length = 5 ∧ s = RecvItem.data bs :: rest ∧
    5 - k ≤ bs.length ∧ x.ack.take k ++ bs.take (5 - k) = frame

/-- A free slot with a zeroed buffer. -/
def freeSlot : msgrec_t :=
  { pkt := { len := FREE, cookie := 0, buf := List.replicate BUF 0 }
    id := 0
    start := { tv_sec := 0, tv_usec := 0 } }

/-- A pool whose `MRSZ` slots are all free, as the constructor of `XOUT` leaves it. -/
def freePool : List msgrec_t :=
  List.replicate MRSZ freeSlot

/-- A slot that holds a sent one-byte message with cookie 7 and timer id 1. -/
def sentSlot : msgrec_t :=
  { pkt := { len := htonl Endian.little 5, cookie := 7, buf := 0 :: List.replicate (BUF - 1) 0 }
    id := 1
    start := { tv_sec := 0, tv_usec := 0 } }

/-- A pool with `sentSlot` in slot 0 and all other slots free. -/
def oneLivePool : List msgrec_t :=
  sentSlot :: List.replicate (MRSZ - 1) freeSlot

/-- A tracker with `sentSlot` in slot 0, its drop timer registered under id 1. -/
def oneLiveTracker : XOUT (listQueue Callback) :=
  { trackerOf (listQueue Callback) oneLivePool with
    msgid := 8
    TimeXout := (timeout (TimerManager.init (listQueue Callback)) (Callback.drop 0) T1 0).2 }

/-- A socket on which the five bytes of the ACK for cookie 7 have arrived. -/
def ackSock : Sock :=
  [RecvItem.data [6, 7, 0, 0, 0]]

/-! ## The firing loop of `tselect` -/

/-- The program around a timer manager as `tselect` sees it: a state that holds the
manager, and the effect of invoking a callback (`te.func()`), which may return, throw
or be undefined. -/
structure Host {F : Type} (P : TimerQueue F) (σ : Type) where
  tm : σ → TimerManager P
  setTm : σ → TimerManager P → σ
  call : F → σ → Outcome Unit σ
  tm_setTm : ∀ s t, tm (setTm s t) = t

/-- The loop `while (!active.empty() && active.top().time <= now_time)` of
`TimerManager::tselect`: the top event is copied and popped, its callback invoked,
then its id erased from `timers`.  The result lists the events whose callbacks were
invoked, in order, and how the loop ended; `none` when the given number of rounds did
not suffice to leave the loop. -/
def tselect_fire {F σ : Type} {P : TimerQueue F} (H : Host P σ) (now_time : Int) :
    Nat → σ → Option (List (TimerEvent F) × Outcome Unit σ)
  | 0, _ => none
  | n + 1, s =>
    match P.top (H.tm s).active with
    | none => some ([], Outcome.returns () s)
    | some te =>
      if te.time ≤ now_time then
        match H.call te.func (H.setTm s { H.tm s with active := P.pop (H.tm s).active }) with
        | .returns _ s2 =>
          match tselect_fire H now_time n
              (H.setTm s2 { H.tm s2 with timers := mapErase (H.tm s2).timers te.id }) with
          | none => none
          | some (tr, o) => some (te :: tr, o)
        | .throws s2 => some ([te], Outcome.throws s2)
        | .undefined f => some ([te], Outcome.undefined f)
      else some ([], Outcome.returns () s)

/-- A host that is the timer manager alone, with callbacks that return without
touching it. -/
def plainHost {F : Type} (P : TimerQueue F) : Host P (TimerManager P) where
  tm := fun s => s
  setTm := fun _ t => t
  call := fun _ s => Outcome.returns () s
  tm_setTm := fun _ _ => rfl

/-- A callback of the host returns and adds to the heap only events due after `now`. -/
def CallbacksRegisterLater {F σ : Type} {P : TimerQueue F} (H : Host P σ) (now : Int) : Prop :=
  ∀ (f : F) (s : σ), ∃ (s2 : σ) (added : List (TimerEvent F)),
    H.call f s = Outcome.returns () s2 ∧
    (P.elems (H.tm s2).active).Perm (P.elems (H.tm s).active ++ added) ∧
    ∀ ev ∈ added, now < ev.time

/-- No event in the heap of the manager has the id `id`. -/
def NoEventWithId {F : Type} {P : TimerQueue F} (tm : TimerManager P) (id : Nat) : Prop :=
  ∀ ev ∈ P.elems tm.active, ev.id ≠ id

/-- A callback of the host that returns puts no event of id `id` into the heap. -/
def CallbacksAvoidId {F σ : Type} {P : TimerQueue F} (H : Host P σ) (id : Nat) : Prop :=
  ∀ (f : F) (s s2 : σ), H.call f s = Outcome.returns () s2 →
    NoEventWithId (H.tm s) id → NoEventWithId (H.tm s2) id

/-- A manager with two timers: the first registered is due after 20 ms (id 1), the
second after 10 ms (id 2). -/
def twoTimers : TimerManager (listQueue Callback) :=
  (timeout (timeout (TimerManager.init (listQueue Callback)) (Callback.drop 0) 20 0).2
    (Callback.drop 1) 10 0).2

/-! ## The record readers of `libtcp.cpp` -/

/-- Conversion of a return value of `recv` to `u_int32_t`. -/
def toU32 (n : Int) : Nat :=
  (n % 4294967296).toNat

/-- The loop of `readn`; `mem` is the memory at the original `buffer` pointer, `off` the
distance that `buffer` has advanced, `cnt` the count of bytes still to read.  The
variable `rc` is a `u_int32_t`, so the test `rc < 0` compares a natural number.  The
first argument bounds the number of rounds; `none` when it did not suffice. -/
def readnLoop (len : Nat) : Nat → Sock → List Nat → Nat → Nat →
    Option (Outcome (Nat × List Nat) Sock)
  | 0, _, _, _, _ => none
  | fuel + 1, s, mem, off, cnt =>
    if 0 < cnt then
      let rr := recv s cnt
      let rc := toU32 rr.ret
      match writeAt mem off rr.bytes with
      | none => some (Outcome.undefined Fault.outOfBounds)
      | some mem1 =>
        if rc < 0 then
          if rr.errno = some EINTR then readnLoop len fuel rr.sock mem1 off cnt
          else some (Outcome.returns (U32 - 1, mem1) rr.sock)
        else if rc = 0 then some (Outcome.returns ((len + U32 - cnt) % U32, mem1) rr.sock)
        else readnLoop len fuel rr.sock mem1 (off + rc) ((cnt + U32 - rc) % U32)
    else some (Outcome.returns (len, mem) s)

/-- The function `readn(fd, buffer, len)`: the value returned and the memory at
`buffer` afterwards.  Every round but the last takes one item off the socket script,
so `s.length + 2` rounds always suffice. -/
def readn (s : Sock) (buffer : List Nat) (len : Nat) : Option (Outcome (Nat × List Nat) Sock) :=
  readnLoop len (s.length + 2) s buffer 0 len

/-- What `readvrec` hands back: the value returned (a `u_int32_t`), the memory at `bp`,
and the `errno` that `readvrec` itself sets, if any. -/
structure ReadvrecResult where
  ret : Nat
  bp : List Nat
  errno : Option Nat
  deriving DecidableEq, Repr

/-- The function `readvrec(fd, bp, len)`; `bp` is the memory of the target buffer (all
of it), `len` the capacity passed.  The local `reclen` starts out as zero bytes; its
value is used only after all four bytes have been read.  The variable `byte` is a
`u_int32_t`, so the tests `byte < 0` compare a natural number. -/
def readvrec (e : Endian) (s : Sock) (bp : List Nat) (len : Nat) :
    Option (Outcome ReadvrecResult Sock) :=
  match readn s [0, 0, 0, 0] 4 with
  | none => none
  | some (.undefined f) => some (Outcome.undefined f)
  | some (.throws s1) => some (Outcome.throws s1)
  | some (.returns (byte, reclenMem) s1) =>
    if byte ≠ 4 then
      some (Outcome.returns { ret := if byte < 0 then U32 - 1 else 0, bp := bp, errno := none } s1)
    else
      let reclen := htonl e (load32 e reclenMem)
      if reclen > len then
        match readn s1 (List.replicate reclen 0) reclen with
        | none => none
        | some (.undefined f) => some (Outcome.undefined f)
        | some (.throws s2) => some (Outcome.throws s2)
        | some (.returns (byte2, buffer) s2) =>
          if byte2 ≠ reclen then
            some (Outcome.returns
              { ret := if byte2 < 0 then U32 - 1 else 0, bp := bp, errno := none } s2)
          else
            match writeAt bp 0 (buffer.take (min reclen len)) with
            | none => some (Outcome.undefined Fault.outOfBounds)
            | some bp1 =>
              if reclen > len then
                some (Outcome.returns { ret := U32 - 1, bp := bp1, errno := some EMSGSIZE } s2)
              else some (Outcome.returns { ret := byte2, bp := bp1, errno := none } s2)
      else
        match readn s1 bp reclen with
        | none => none
        | some (.undefined f) => some (Outcome.undefined f)
        | some (.throws s2) => some (Outcome.throws s2)
        | some (.returns (byte2, bp1) s2) =>
          if byte2 ≠ reclen then
            some (Outcome.returns
              { ret := if byte2 < 0 then U32 - 1 else 0, bp := bp1, errno := none } s2)
          else some (Outcome.returns { ret := byte2, bp := bp1, errno := none } s2)

/-- The bytes that a socket delivers before its first failure, closure or empty
delivery. -/
def streamBytes : Sock → List Nat
  | [] => []
  | .err _ :: _ => []
  | .data [] :: _ => []
  | .data (b :: bs) :: rest => (b :: bs) ++ streamBytes rest

/-- The socket after `n` of its bytes have been received. -/
def consume : Sock → Nat → Sock
  | [], _ => []
  | .err en :: rest, _ => .err en :: rest
  | .data bs :: rest, n =>
    if n = 0 then .data bs :: rest
    else if bs.length ≤ n then consume rest (n - bs.length)
    else .data (bs.drop n) :: rest

/-- The bytes that `SendMsg` leaves in `buf[0..size)`: the message up to its first NUL,
padded with NULs, with the last byte set to NUL. -/
def sentPayload (msg : List Nat) (size : Nat) : List Nat :=
  let s := (msg.take size).takeWhile (fun c => c != 0)
  let b := s ++ List.replicate (size - s.length) 0
  if size = 0 then b else b.set (size - 1) 0

/-! ## The server around the tracker (`ServerXOI`) -/

/-- What one run of the lambda `sendrev` takes from the environment: the values of
`rand()`, the return value of `send`, the steady-clock reading in the `timeout` of
`SendMsg`, the reading of `gettimeofday`, and the steady-clock reading in the
`timeout` that re-arms `sendrev`. -/
structure SendEnv where
  rands : Nat → Nat
  sendRet : Int
  now : Int
  tv : timeval
  now2 : Int

/-- The state that the timer callbacks of the server work on: the tracker, the inputs
of the coming runs of `sendrev`, and the number of runs so far. -/
structure Server (P : TimerQueue Callback) where
  xout : XOUT P
  env : Nat → SendEnv
  calls : Nat

/-- The character that `sendrev` derives from one value of `rand()`. -/
def letter (r : Nat) : Nat :=
  if r % 52 < 26 then r % 52 + 65 else r % 52 + 71

/-- The lambda `sendrev` of `ClientHandler`: a message of `BUF - 1` random letters and
a NUL is sent, and unless `SendMsg` returns `Error` the lambda is registered again
after `T0`. -/
def sendrev {P : TimerQueue Callback} (e : Endian) (sv : Server P) : Outcome Unit (Server P) :=
  let ev := sv.env sv.calls
  let buf := (List.range (BUF - 1)).map (fun i => letter (ev.rands i)) ++ [0]
  match SendMsg e sv.xout buf BUF ev.sendRet ev.now ev.tv with
  | .undefined f => Outcome.undefined f
  | .throws x1 => Outcome.throws { sv with xout := x1, calls := sv.calls + 1 }
  | .returns r x1 =>
    if r.1 ≠ result.Error then
      Outcome.returns ()
        { xout := { x1 with TimeXout := (timeout x1.TimeXout Callback.sendrev T0 ev.now2).2 }
          env := sv.env
          calls := sv.calls + 1 }
    else Outcome.returns () { xout := x1, env := sv.env, calls := sv.calls + 1 }

/-- The server as host of its timer manager `TimeXout`.  The `sendrev` callback runs
`sendrev`.  A `drop` callback is the lambda `[&](){drop(data_out);}` of `SendMsg`,
which captures the local pointer `data_out` by reference: `tselect` invokes it after
that call of `SendMsg` has returned, so it reads a variable whose lifetime has ended,
which is undefined behaviour; `XOUT::drop` is not reached with the slot. -/
def serverHost {P : TimerQueue Callback} (e : Endian) : Host P (Server P) where
  tm := fun sv => sv.xout.TimeXout
  setTm := fun sv t => { sv with xout := { sv.xout with TimeXout := t } }
  call := fun f sv =>
    match f with
    | .drop _ => Outcome.undefined Fault.danglingRef
    | .sendrev => sendrev e sv
  tm_setTm := fun _ _ => rfl

/-- The tracker as the constructors leave it: `MRSZ` slots, all free, and an empty
timer manager.  The other members are not initialised by the constructors. -/
def InitialTracker {P : TimerQueue Callback} (x : XOUT P) : Prop :=
  x.mr.length = MRSZ ∧ (∀ d ∈ x.mr, d.pkt.len = FREE) ∧ x.TimeXout = TimerManager.init P

/-- The kinds of operation on the tracker: `SendMsg`, `RecvAck`, the firing of due
timers by `tselect`, and the emission of statistics. -/
inductive OpKind where
  | send
  | ack
  | fire
  | stat
  deriving DecidableEq, Repr

/-- The trackers reachable from an initial tracker by operations that return, each
allowed by `guard` in the state it starts from: `SendMsg`, `RecvAck`, a firing loop
of `tselect`, and `statistic` (whose effect on the tracker is that of `init_cnt`). -/
inductive Reach {P : TimerQueue Callback} (e : Endian) (guard : XOUT P → OpKind → Prop) :
    XOUT P → Prop where
  | init (x : XOUT P) : InitialTracker x → Reach e guard x
  | send (x x1 : XOUT P) (msg : List Nat) (size : Nat) (sendRet now : Int) (tv : timeval)
      (r : result × List Nat) :
      Reach e guard x → guard x OpKind.send →
      SendMsg e x msg size sendRet now tv = Outcome.returns r x1 → Reach e guard x1
  | ack (x x1 : XOUT P) (s : Sock) (tv : timeval) (r : result × Sock) :
      Reach e guard x → guard x OpKind.ack →
      RecvAck e x s tv = Outcome.returns r x1 → Reach e guard x1
  | fire (x : XOUT P) (env : Nat → SendEnv) (calls fuel : Nat) (now_time : Int)
      (tr : List (TimerEvent Callback)) (sv1 : Server P) :
      Reach e guard x → guard x OpKind.fire →
      tselect_fire (serverHost e) now_time fuel { xout := x, env := env, calls := calls } =
        some (tr, Outcome.returns () sv1) →
      Reach e guard sv1.xout
  | stat (x : XOUT P) : Reach e guard x → guard x OpKind.stat → Reach e guard (init_cnt x)

/-- The run loop emits statistics only when `msgid == TSTAT/T0`. -/
def statGate {P : TimerQueue Callback} (x : XOUT P) (k : OpKind) : Prop :=
  k = OpKind.stat → x.msgid = TSTAT / T0

/-- The operations `SendMsg`, `RecvAck` and timer firing, without statistics. -/
def noStat {P : TimerQueue Callback} (_ : XOUT P) (k : OpKind) : Prop :=
  k ≠ OpKind.stat

/-- The live cookies of a pool are pairwise distinct and below the counter `m`. -/
def PoolInv (mr : List msgrec_t) (m : Nat) : Prop :=
  CookiesDistinct mr ∧
  ∀ (i : Nat) (d : msgrec_t), mr[i]? = some d → d.pkt.len ≠ FREE → d.pkt.cookie < m

/-- A tracker in which slot 0 is live with cookie 0 and timer id 1, no other slot is
live, the only timer is the one with id 1, no ACK is partly read, and the counters
`msgid` and `next_id` have the values `m` and `n`. -/
def OneLive {P : TimerQueue Callback} (x : XOUT P) (m n : Nat) : Prop :=
  x.mr.length = MRSZ ∧
  (∃ d0, x.mr[0]? = some d0 ∧ d0.pkt.len ≠ FREE ∧ d0.pkt.cookie = 0 ∧ d0.id = 1) ∧
  (∀ (j : Nat) (d : msgrec_t), 0 < j → x.mr[j]? = some d → d.pkt.len = FREE) ∧
  (∃ ev, P.elems x.TimeXout.active = [ev] ∧ ev.id = 1) ∧
  (∀ k, (mapFind x.TimeXout.timers k).isSome = true ↔ k = 1) ∧
  x.msgid = m ∧ x.TimeXout.next_id = n ∧ x.cnt = 0 ∧ x.ack.length = 5

/-- The timer bookkeeping between a pool `mr`, the events `L` of the heap and the map
`M`: the timer id stored in each live slot is pending (a key of the map and the id of
an event in the heap, which is the drop timer registered for that slot), distinct live
slots store distinct timer ids, every drop timer in the heap is registered for a slot
that is live and stores its id, no two events share an id, and every key of the map is
the id of an event in the heap.  The heap may hold `sendrev` timers as well. -/
def TimerRel (mr : List msgrec_t) (L : List (TimerEvent Callback))
    (M : List (Nat × TimerEvent Callback)) : Prop :=
  (∀ (i : Nat) (d : msgrec_t), mr[i]? = some d → d.pkt.len ≠ FREE →
    (mapFind M d.id).isSome = true ∧ ∃ ev ∈ L, ev.id = d.id ∧ ev.func = Callback.drop i) ∧
  (∀ (i j : Nat) (di dj : msgrec_t), mr[i]? = some di → mr[j]? = some dj →
    di.pkt.len ≠ FREE → dj.pkt.len ≠ FREE → di.id = dj.id → i = j) ∧
  (∀ ev ∈ L, ∀ (i : Nat), ev.func = Callback.drop i →
    ∃ d : msgrec_t, mr[i]? = some d ∧ d.pkt.len ≠ FREE ∧ d.id = ev.id) ∧
  (L.map (fun ev => ev.id)).Nodup ∧
  (∀ k, (mapFind M k).isSome = true → ∃ ev ∈ L, ev.id = k)

/-- The timer bookkeeping of the tracker: `TimerRel` between its pool, the heap and
the map of its timer manager. -/
def TimerInv {P : TimerQueue Callback} (x : XOUT P) : Prop :=
  TimerRel x.mr (P.elems x.TimeXout.active) x.TimeXout.timers

/-- The first `k` slots of the pool are live and the others are free. -/
def Filled {P : TimerQueue Callback} (x : XOUT P) (k : Nat) : Prop :=
  x.mr.length = MRSZ ∧
  ∀ (j : Nat) (d : msgrec_t), x.mr[j]? = some d →
    (j < k → d.pkt.len ≠ FREE) ∧ (k ≤ j → d.pkt.len = FREE)

/-! ## The inbound side `XIN` (`serverx.h`, `serverx.cpp`) -/

/-- The data members of the class `XIN` (the socket handle apart): three `u_int32_t`
counters, the capacity `size_in` (an `int`) and the array `msgin`. -/
structure XIN where
  cn_in : Nat
  cn_ack_in : Nat
  Lost : Nat
  size_in : Int
  msgin : List Nat
  deriving DecidableEq, Repr

/-- The member function `XIN::Eсho()`.  Inputs from the environment: the socket `s`
and `sendRet`, the return value of `send` (a negative value is logged and changes
nothing else).  The value returned comes with the bytes handed to `send`, if `send` is
reached, and with the socket afterwards.  The `u_int32_t` that `readvrec` returns is
converted to the `int byte`; `memmove(msg+1, msgin, COOKIESZ)` reads four bytes of
`msgin`. -/
def Echo (e : Endian) (xin : XIN) (s : Sock) (sendRet : Int) :
    Option (Outcome (result × Option (List Nat) × Sock) XIN) :=
  match readvrec e s xin.msgin (toU32 xin.size_in) with
  | none => none
  | some (.undefined f) => some (Outcome.undefined f)
  | some (.throws _) => some (Outcome.throws xin)
  | some (.returns rv s1) =>
    let x1 : XIN := { xin with msgin := rv.bp }
    let byte := toInt32 rv.ret
    if byte = 0 then some (Outcome.returns (result.Break, none, s1) x1)
    else if byte < 0 then some (Outcome.returns (result.Break, none, s1) x1)
    else if x1.msgin.length < COOKIESZ then some (Outcome.undefined Fault.outOfBounds)
    else
      let msg := ACK :: x1.msgin.take COOKIESZ
      let _logged := decide (sendRet < 0)
      some (Outcome.returns (result.True, some msg, s1)
        { x1 with cn_in := (xin.cn_in + 1) % U32, cn_ack_in := (xin.cn_ack_in + 1) % U32 })

/-- The branch of the run loop of `ServerXOI::ClientHandler` for a readable IN socket:
`size_in = sizeof(buf)` with `char buf[(sizeof(u_int32_t)*2)+BUF]`, the call of
`Eсho()`, and the reaction to its result.  The Boolean tells whether the loop is left
(`break`).  After `True` the statement `memmove(buf, msgin, size_in)` reads `size_in`
bytes of `msgin`. -/
def ClientHandlerIn (e : Endian) (xin : XIN) (s : Sock) (sendRet : Int) :
    Option (Outcome (Bool × Option (List Nat) × Sock) XIN) :=
  match Echo e { xin with size_in := ((4 * 2 + BUF : Nat) : Int) } s sendRet with
  | none => none
  | some (.undefined f) => some (Outcome.undefined f)
  | some (.throws x1) => some (Outcome.throws x1)
  | some (.returns (res, sent, s1) x1) =>
    if res = result.Break then some (Outcome.returns (true, sent, s1) x1)
    else if res = result.Continue then some (Outcome.returns (false, sent, s1) x1)
    else if res = result.True then
      if x1.msgin.length < x1.size_in.toNat then some (Outcome.undefined Fault.outOfBounds)
      else some (Outcome.returns (false, sent, s1) x1)
    else some (Outcome.returns (false, sent, s1) x1)

/-- The object `XIN` as its constructor and a zeroing of the counters leave it:
capacity `BUF`, and an array `msgin` of `BUF` bytes (taken as zeros). -/
def xinFresh : XIN :=
  { cn_in := 0, cn_ack_in := 0, Lost := 0, size_in := (BUF : Int), msgin := List.replicate BUF 0 }

/-- A socket on which one framed record of `BUF + 1` bytes (each `65`) has arrived. -/
def oversizeSock : Sock :=
  [RecvItem.data (0 :: 0 :: 14 :: 117 :: List.replicate (BUF + 1) 65)]

/-- The outcome of `RecvAck` without the socket: the value returned and the tracker. -/
def forgetSock {σ : Type} : Outcome (result × Sock) σ → Outcome result σ
  | .returns r s => Outcome.returns r.1 s
  | .throws s => Outcome.throws s
  | .undefined f => Outcome.undefined f

/-- Successive calls of `RecvAck` on one socket, at most `n` of them: each call starts
from the tracker and the socket that the call before has left; the calls end with the
first one that does not return.  The list holds the outcomes of the calls in order;
`tv` is the reading of `gettimeofday` (only a call that finds its slot reads it). -/
def RecvAckRepeat {P : TimerQueue Callback} (e : Endian) (tv : timeval) :
    Nat → XOUT P → Sock → List (Outcome (result × Sock) (XOUT P))
  | 0, _, _ => []
  | n + 1, x, s =>
    match RecvAck e x s tv with
    | .returns r x1 => Outcome.returns r x1 :: RecvAckRepeat e tv n x1 r.2
    | .throws x1 => [Outcome.throws x1]
    | .undefined f => [Outcome.undefined f]

/-- Two trackers agree in every member but the accumulator of `RecvAck` (the array
`ack` and the count `cnt`). -/
def SameButAccumulator {P : TimerQueue Callback} (x x1 : XOUT P) : Prop :=
  x1.mr = x.mr ∧ x1.cn_ack_out = x.cn_ack_out ∧ x1.mid = x.mid ∧ x1.end_tv = x.end_tv ∧
  x1.msgid = x.msgid ∧ x1.sr_time = x.sr_time ∧ x1.time_out = x.time_out ∧
  x1.time_out_max = x.time_out_max ∧ x1.TimeXout = x.TimeXout

/-! ## Statistics (`ServerXOI::statistic`, `ServerXOI::init_cnt`) -/

/-- The member function `ServerXOI::init_cnt()` on the members of `XIN`. -/
def init_cnt_in (xin : XIN) : XIN :=
  { xin with Lost := 0, cn_in := 0, cn_ack_in := 0 }

/-- The value column of `tableData` in `statistic`, from the row of `TSTAT / 1000` and
the rows numbered 1 to 9: each field is the number that `std::to_string` turns into
the text of its row. -/
structure StatTable where
  seconds : Nat
  row1_sent_out : Nat
  row2_received_in : Nat
  row3_ack_out : Nat
  row4_ack_in : Nat
  row5_lost_ack_out : Nat
  row6_unconfirmed_in : Nat
  row7_rtt_total : Int
  row8_rtt_mean : Int
  row9_rtt_max : Int
  deriving DecidableEq, Repr

/-- The arguments of the `loger(INFO, ...)` lines of `statistic`, in their order. -/
structure StatLog where
  seconds : Nat
  sent_out : Nat
  received_in : Nat
  ack_out : Nat
  ack_in : Nat
  lost_ack_out : Nat
  rtt_total : Int
  rtt_mean : Int
  rtt_max : Int
  deriving DecidableEq, Repr

/-- The member function `ServerXOI::statistic()`: the table handed to `createTable`,
the arguments logged, and the counters after `init_cnt()`.  The statement
`sr_time = time_out/msgid` divides a `long` by an `unsigned int` (truncating); the
difference `msgid - cn_ack_out` is taken in `unsigned int`. -/
def statistic {P : TimerQueue Callback} (x : XOUT P) (xin : XIN) :
    Outcome (StatTable × StatLog) (XOUT P × XIN) :=
  if x.msgid = 0 then Outcome.undefined Fault.divByZero
  else
    let x1 : XOUT P := { x with sr_time := Int.tdiv x.time_out (x.msgid : Int) }
    let table : StatTable :=
      { seconds := TSTAT / 1000
        row1_sent_out := x1.msgid
        row2_received_in := xin.cn_in
        row3_ack_out := x1.cn_ack_out
        row4_ack_in := xin.cn_ack_in
        row5_lost_ack_out := (x1.msgid + U32 - x1.cn_ack_out) % U32
        row6_unconfirmed_in := xin.Lost
        row7_rtt_total := (x1.msgid : Int)
        row8_rtt_mean := (x1.msgid : Int)
        row9_rtt_max := (x1.msgid : Int) }
    let log : StatLog :=
      { seconds := TSTAT / 1000
        sent_out := x1.msgid
        received_in := xin.cn_in
        ack_out := x1.cn_ack_out
        ack_in := xin.cn_ack_in
        lost_ack_out := (x1.msgid + U32 - x1.cn_ack_out) % U32
        rtt_total := x1.time_out
        rtt_mean := x1.sr_time
        rtt_max := x1.time_out_max }
    Outcome.returns (table, log) (init_cnt x1, init_cnt_in xin)

/-- A tracker at the end of a statistics window: 250 messages sent, 240 ACKs received,
a total round-trip time of 1000 µs and a maximum of 10 µs. -/
def windowTracker : XOUT (listQueue Callback) :=
  { trackerOf (listQueue Callback) freePool with
    msgid := 250, cn_ack_out := 240, time_out := 1000, time_out_max := 10 }

/-! ## Between two calls of `SendMsg` -/

/-- Bytes 4 to 7 of a frame handed to `send`: the cookie field of the packet. -/
def cookieBytes (wire : List Nat) : List Nat :=
  (wire.drop 4).take 4

/-- What the session does to the tracker between two calls of `SendMsg` when no
statistics are emitted: calls of `RecvAck` that return, and the work of the timers
(slots dropped by callbacks, events pushed, popped and erased), which touches the pool
and the timer manager only. -/
inductive Quiet {P : TimerQueue Callback} (e : Endian) : XOUT P → XOUT P → Prop where
  | refl (x : XOUT P) : Quiet e x x
  | ack (x x1 x2 : XOUT P) (s : Sock) (tv : timeval) (r : result × Sock) :
      Quiet e x x1 → RecvAck e x1 s tv = Outcome.returns r x2 → Quiet e x x2
  | timers (x x1 : XOUT P) (mr : List msgrec_t) (tm : TimerManager P) :
      Quiet e x x1 → Quiet e x { x1 with mr := mr, TimeXout := tm }

/-! ## Sequences of calls on a timer manager -/

/-- The id `id` belongs to a pending timer of the manager: an event in the heap has
it, or it is a key of the map. -/
def PendingId {F : Type} {P : TimerQueue F} (tm : TimerManager P) (id : Nat) : Prop :=
  (∃ ev ∈ P.elems tm.active, ev.id = id) ∨ (mapFind tm.timers id).isSome = true

/-- The managers reachable from a fresh one by calls of `timeout` (allowed by `guard`
in the state they start from), calls of `unitimeout` that return, and the two things
that the firing loop of `tselect` does to the manager: `active.pop()` of the top event
and `timers.erase(id)`; the callbacks invoked in between act on the manager through
`timeout` and `unitimeout`. -/
inductive TmReach {F : Type} (P : TimerQueue F) (guard : TimerManager P → Prop) :
    TimerManager P → Prop where
  | init : TmReach P guard (TimerManager.init P)
  | timeout (tm : TimerManager P) (func : F) (ms now : Int) :
      TmReach P guard tm → guard tm → TmReach P guard (timeout tm func ms now).2
  | unitimeout (tm tm1 : TimerManager P) (id : Nat) :
      TmReach P guard tm → unitimeout tm id = Outcome.returns () tm1 → TmReach P guard tm1
  | pop (tm : TimerManager P) (te : TimerEvent F) :
      TmReach P guard tm → P.top tm.active = some te →
      TmReach P guard { tm with active := P.pop tm.active }
  | erase (tm : TimerManager P) (id : Nat) :
      TmReach P guard tm → TmReach P guard { tm with timers := mapErase tm.timers id }

/-- The counter `next_id` is not yet at its last value `2^32 - 1`: the call of
`timeout` that starts here does not wrap it. -/
def beforeWrap {F : Type} {P : TimerQueue F} (tm : TimerManager P) : Prop :=
  tm.next_id + 1 < U32

/-- No restriction on the calls of `timeout`. -/
def anyCall {F : Type} {P : TimerQueue F} (_ : TimerManager P) : Prop :=
  True

/-- The manager holds exactly one timer, with id 1, and its counter is `n`. -/
def OneTimer {F : Type} {P : TimerQueue F} (tm : TimerManager P) (n : Nat) : Prop :=
  (∃ ev, P.elems tm.active = [ev] ∧ ev.id = 1) ∧
  (∀ k, (mapFind tm.timers k).isSome = true ↔ k = 1) ∧
  tm.next_id = n

/-! ## The binary heap of libstdc++ (`bits/stl_heap.h`, `bits/stl_queue.h`) -/

/-- The deadline of the event at index `i` of an array of events (0 outside it). -/
def keyAt {F : Type} (first : List (TimerEvent F)) (i : Nat) : Int :=
  match first[i]? with
  | some a => a.time
  | none => 0

/-- The test `std::is_heap(first, last, comp)` with `TimerEventCompare` as `comp`: no
element is put after its parent, the element at index `(i - 1) / 2`. -/
def is_heap {F : Type} (c : List (TimerEvent F)) : Bool :=
  (List.range c.length).all (fun i => decide (keyAt c ((i - 1) / 2) ≤ keyAt c i))

/-- The function `std::__push_heap(first, holeIndex, topIndex, value, comp)` of
libstdc++ with `topIndex = 0`, as both of its callers pass it: while the hole is not
at the top and `comp(parent, value)` holds, the parent moves into the hole and the
hole moves up; then `value` is stored in the hole.  The first argument bounds the
number of rounds; the hole index suffices. -/
def pushHeap {F : Type} (value : TimerEvent F) :
    Nat → List (TimerEvent F) → Nat → List (TimerEvent F)
  | 0, first, holeIndex => first.set holeIndex value
  | fuel + 1, first, holeIndex =>
    match first[(holeIndex - 1) / 2]? with
    | none => first.set holeIndex value
    | some p =>
      if holeIndex > 0 ∧ TimerEventCompare p value = true then
        pushHeap value fuel (first.set holeIndex p) ((holeIndex - 1) / 2)
      else first.set holeIndex value

/-- The first loop of `std::__adjust_heap(first, holeIndex, len, value, comp)` of
libstdc++ for `holeIndex = 0`: while the hole (at index `secondChild`) has two
children, the child that `comp` does not put after the other — the right one when
they are equivalent — moves into the hole and the hole moves down.  The result is
the array and the index of the hole.  The first argument bounds the number of
rounds; `len` suffices. -/
def adjustHeapSink {F : Type} (len : Nat) :
    Nat → List (TimerEvent F) → Nat → List (TimerEvent F) × Nat
  | 0, first, secondChild => (first, secondChild)
  | fuel + 1, first, secondChild =>
    if secondChild < (len - 1) / 2 then
      match first[2 * (secondChild + 1)]?, first[2 * (secondChild + 1) - 1]? with
      | some r, some l =>
        if TimerEventCompare r l = true then
          adjustHeapSink len fuel (first.set secondChild l) (2 * (secondChild + 1) - 1)
        else adjustHeapSink len fuel (first.set secondChild r) (2 * (secondChild + 1))
      | _, _ => (first, secondChild)
    else (first, secondChild)

/-- The function `std::__adjust_heap(first, 0, len, value, comp)` of libstdc++: the
hole sinks from the top to the bottom, a last single child moves up when `len` is
even and the hole is at `(len - 2) / 2` (a signed quotient, never a hole index for
`len < 2`), and `std::__push_heap` stores `value` from the hole upwards. -/
def adjustHeap {F : Type} (first : List (TimerEvent F)) (len : Nat) (value : TimerEvent F) :
    List (TimerEvent F) :=
  let r := adjustHeapSink len len first 0
  let r2 : List (TimerEvent F) × Nat :=
    if len % 2 = 0 ∧ 2 ≤ len ∧ r.2 = (len - 2) / 2 then
      match r.1[2 * (r.2 + 1) - 1]? with
      | some c => (r.1.set r.2 c, 2 * (r.2 + 1) - 1)
      | none => r
    else r
  pushHeap value r2.2 r2.1 r2.2

/-- The member `std::priority_queue::push(x)` of libstdc++ on the vector `c`:
`c.push_back(x); std::push_heap(c.begin(), c.end(), comp)`. -/
def heapPush {F : Type} (c : List (TimerEvent F)) (x : TimerEvent F) : List (TimerEvent F) :=
  pushHeap x c.length (c ++ [x]) c.length

/-- The member `std::priority_queue::pop()` of libstdc++ on the vector `c`:
`std::pop_heap(c.begin(), c.end(), comp); c.pop_back()`.  For more than one element
`pop_heap` takes the last element as `value`, moves the top to the last place and
runs `__adjust_heap` on the places before it; the last place, which `pop_back`
removes, is left out here from the start. -/
def heapPop {F : Type} (c : List (TimerEvent F)) : List (TimerEvent F) :=
  match c.getLast? with
  | none => []
  | some value =>
    if c.length > 1 then adjustHeap c.dropLast (c.length - 1) value else c.dropLast

/-- The array is a heap but for the hole at index `hole`: every element outside the
hole whose parent is not the hole is not put before its parent, and the children of
the hole are not put before the parent of the hole. -/
def HoleInv {F : Type} (first : List (TimerEvent F)) (hole : Nat) : Prop :=
  (∀ i, i < first.length → i ≠ hole → (i - 1) / 2 ≠ hole →
    keyAt first ((i - 1) / 2) ≤ keyAt first i) ∧
  (0 < hole → ∀ c, c < first.length → 0 < c → (c - 1) / 2 = hole →
    keyAt first ((hole - 1) / 2) ≤ keyAt first c)

/-- The children of the hole are not put before `value`. -/
def ValBelow {F : Type} (first : List (TimerEvent F)) (hole : Nat) (value : TimerEvent F) :
    Prop :=
  ∀ c, c < first.length → 0 < c → (c - 1) / 2 = hole → value.time ≤ keyAt first c

/-- What makes the vector under `heapPush`, `heapPop` and `front()` a priority queue in
the sense of the C++ standard: the two operations keep the vector a heap and change
its elements by the one pushed or popped, and the front of a heap is put after no
element. -/
structure HeapLaws (F : Type) : Prop where
  push_heap : ∀ (c : List (TimerEvent F)) (x : TimerEvent F),
    is_heap c = true → is_heap (heapPush c x) = true
  pop_heap : ∀ c : List (TimerEvent F), is_heap c = true → is_heap (heapPop c) = true
  push_perm : ∀ (c : List (TimerEvent F)) (x : TimerEvent F), (heapPush c x).Perm (x :: c)
  pop_perm : ∀ (c : List (TimerEvent F)) (x : TimerEvent F),
    c.head? = some x → (x :: heapPop c).Perm c
  top_max : ∀ (c : List (TimerEvent F)) (x : TimerEvent F),
    is_heap c = true → c.head? = some x → ∀ y ∈ c, TimerEventCompare x y = false

/-- The container `std::priority_queue<TimerEvent, std::vector<TimerEvent>,
TimerEventCompare>` of libstdc++: a vector that is a heap, with `push`, `pop` and
`top` (the front of the vector) as libstdc++ implements them. -/
def heapQueue (F : Type) (h : HeapLaws F) : TimerQueue F where
  Q := { c : List (TimerEvent F) // is_heap c = true }
  empty := ⟨[], rfl⟩
  push := fun q x => ⟨heapPush q.1 x, h.push_heap q.1 x q.2⟩
  top := fun q => q.1.head?
  pop := fun q => ⟨heapPop q.1, h.pop_heap q.1 q.2⟩
  elems := fun q => q.1
  elems_empty := rfl
  elems_push := fun q x => h.push_perm q.1 x
  top_none := fun _ => List.head?_eq_none_iff
  top_mem := fun _ _ hx => List.mem_of_mem_head? hx
  top_max := fun q x hx => h.top_max q.1 x q.2 hx
  elems_pop := fun q x hx => h.pop_perm q.1 x hx

/-- Four timers registered one after the other, one millisecond apart, for 1000, 999,
998 and 997 ms: they have the ids 1, 2, 3, 4 and share the deadline of one second. -/
def fourTimers (h : HeapLaws Callback) : TimerManager (heapQueue Callback h) :=
  (timeout (timeout (timeout (timeout (TimerManager.init (heapQueue Callback h))
    (Callback.drop 0) 1000 0).2 (Callback.drop 1) 999 1000000).2
    (Callback.drop 2) 998 2000000).2 (Callback.drop 3) 997 3000000).2

/-- A tracker at the end of a statistics window in which two bytes of an ACK have
been received and three are still to come. -/
def partialAckTracker : XOUT (listQueue Callback) :=
  { windowTracker with cnt := 2, ack := [6, 7, 0, 0, 0] }

/-- A host that is the timer manager alone, with callbacks that cancel a timer: the
callback `k` is `unitimeout(k)`. -/
def cancelHost (P : TimerQueue Nat) : Host P (TimerManager P) where
  tm := fun s => s
  setTm := fun _ t => t
  call := fun k s => unitimeout s k
  tm_setTm := fun _ _ => rfl

/-- A manager with one timer, due at once, whose callback cancels the timer's own
id 1. -/
def selfCancelTimer : TimerManager (listQueue Nat) :=
  (timeout (TimerManager.init (listQueue Nat)) 1 0 0).2

/-! ## The call `tselect` (`timemanager.cpp`) -/

/-- An `fd_set`: the descriptors in the set. -/
abbrev FdSet : Type := List Nat

/-- What one round of the loop `for (;;)` of `tselect` takes from the environment: the
reading of the steady clock at the start of the round and, for the case that the round
calls `select`, the value that `select` returns and the three sets as it leaves
them. -/
structure RoundEnv where
  now_time : Int
  n : Int
  re : FdSet
  we : FdSet
  ee : FdSet
  deriving DecidableEq, Repr

/-- What `tselect` hands back: the value returned, the three sets behind its pointer
arguments (`none` for a null pointer), and the numbers of rounds started and of calls
of `select`. -/
structure TselectResult where
  ret : Int
  re : Option FdSet
  we : Option FdSet
  ee : Option FdSet
  rounds : Nat
  selects : Nat
  deriving DecidableEq, Repr

/-- The loop `for (;;)` of `TimerManager::tselect`; `rmask`, `wmask`, `emask` are the
copies saved on entry, `rounds` the number of rounds done.  The firing loop runs with
the clock reading of the round; with an empty heap and three null pointers the
function returns 0; otherwise `select` is called (with the time to the next deadline,
or without a timeout), a negative value gives `-1`, a positive value is returned, and
on 0 the sets are restored and the loop goes on.  The list holds the inputs of the
rounds; `none` when it, or `fireFuel` in a firing loop, did not suffice. -/
def tselectLoop {F σ : Type} {P : TimerQueue F} (H : Host P σ) (fireFuel : Nat)
    (rmask wmask emask : Option FdSet) :
    List RoundEnv → Option FdSet → Option FdSet → Option FdSet → Nat → σ →
    Option (Outcome TselectResult σ)
  | [], _, _, _, _, _ => none
  | env :: rest, re, we, ee, rounds, s =>
    match tselect_fire H env.now_time fireFuel s with
    | none => none
    | some (_, .throws s1) => some (Outcome.throws s1)
    | some (_, .undefined f) => some (Outcome.undefined f)
    | some (_, .returns _ s1) =>
      if (P.top (H.tm s1).active).isNone = true ∧ re = none ∧ we = none ∧ ee = none then
        some (Outcome.returns
          { ret := 0, re := re, we := we, ee := ee, rounds := rounds + 1, selects := rounds } s1)
      else if env.n < 0 then
        some (Outcome.returns
          { ret := -1
            re := re.map (fun _ => env.re)
            we := we.map (fun _ => env.we)
            ee := ee.map (fun _ => env.ee)
            rounds := rounds + 1
            selects := rounds + 1 } s1)
      else if env.n > 0 then
        some (Outcome.returns
          { ret := env.n
            re := re.map (fun _ => env.re)
            we := we.map (fun _ => env.we)
            ee := ee.map (fun _ => env.ee)
            rounds := rounds + 1
            selects := rounds + 1 } s1)
      else tselectLoop H fireFuel rmask wmask emask rest rmask wmask emask (rounds + 1) s1

/-- The function `TimerManager::tselect(maxpl, re, we, ee)`: the sets are saved, then
the loop runs. -/
def tselect {F σ : Type} {P : TimerQueue F} (H : Host P σ) (fireFuel : Nat)
    (envs : List RoundEnv) (re we ee : Option FdSet) (s : σ) :
    Option (Outcome TselectResult σ) :=
  tselectLoop H fireFuel re we ee envs re we ee 0 s

/-! ## Runs of a timer manager -/

/-- The states of a timer manager in runs of `timeout`, `unitimeout` and rounds of the
firing loop of `tselect`, from the fresh manager.  The second component is `some id`
while the callback of the fired timer `id` runs: a round pops the top event, the
callback acts on the manager through `timeout` and `unitimeout`, and the round ends
with `timers.erase(id)`; it is `none` between rounds.  Calls of `timeout` start while
`next_id` has not wrapped to 0, that is, at most `2^32 - 1` timers get registered. -/
inductive TmRun {F : Type} (P : TimerQueue F) : TimerManager P → Option Nat → Prop where
  | init : TmRun P (TimerManager.init P) none
  | timeout (tm : TimerManager P) (m : Option Nat) (func : F) (ms now : Int) :
      TmRun P tm m → tm.next_id ≠ 0 → TmRun P (timeout tm func ms now).2 m
  | unitimeout (tm tm1 : TimerManager P) (m : Option Nat) (id : Nat) :
      TmRun P tm m → unitimeout tm id = Outcome.returns () tm1 → TmRun P tm1 m
  | pop (tm : TimerManager P) (te : TimerEvent F) :
      TmRun P tm none → P.top tm.active = some te →
      TmRun P { tm with active := P.pop tm.active } (some te.id)
  | erase (tm : TimerManager P) (id : Nat) :
      TmRun P tm (some id) → TmRun P { tm with timers := mapErase tm.timers id } none

/-- The bookkeeping of a timer manager: the ids of the events in the heap are pairwise
distinct, they are exactly the keys of the map, and the entry of the map under a key
has the deadline of the event in the heap with that id. -/
def TmBook {F : Type} {P : TimerQueue F} (tm : TimerManager P) : Prop :=
  ((P.elems tm.active).map (fun ev => ev.id)).Nodup ∧
  (∀ k, (mapFind tm.timers k).isSome = true ↔ ∃ ev ∈ P.elems tm.active, ev.id = k) ∧
  (∀ k v, mapFind tm.timers k = some v →
    ∃ ev ∈ P.elems tm.active, ev.id = k ∧ ev.time = v.time)

/-- The bookkeeping of a timer manager while the callback of the fired timer `m` may
be running: as `TmBook`, but the id `m` may still be a key of the map without an event
in the heap; all ids are below `next_id` unless that has wrapped to 0. -/
def TmInv {F : Type} {P : TimerQueue F} (tm : TimerManager P) (m : Option Nat) : Prop :=
  ((P.elems tm.active).map (fun ev => ev.id)).Nodup ∧
  (∀ k v, mapFind tm.timers k = some v → some k ≠ m → v ∈ P.elems tm.active ∧ v.id = k) ∧
  (∀ ev ∈ P.elems tm.active, mapFind tm.timers ev.id = some ev) ∧
  (∀ ev ∈ P.elems tm.active, some ev.id ≠ m) ∧
  (tm.next_id ≠ 0 →
    (∀ ev ∈ P.elems tm.active, ev.id < tm.next_id) ∧
    (∀ k, (mapFind tm.timers k).isSome = true → k < tm.next_id) ∧
    (∀ id, m = some id → id < tm.next_id)) ∧
  tm.next_id < U32

/-- The manager `twoTimers` after one round of the firing loop in which the callback of
the fired timer (id 2) registers a third timer: the top event is popped, the callback
calls `timeout`, and the id 2 is erased from the map. -/
def twoTimersFired : TimerManager (listQueue Callback) :=
  let tm1 : TimerManager (listQueue Callback) :=
    { twoTimers with active := (listQueue Callback).pop twoTimers.active }
  let tm2 := (timeout tm1 (Callback.drop 2) 5 0).2
  { tm2 with timers := mapErase tm2.timers 2 }

/-! ## Windows of acknowledged messages -/

/-- A tracker in which every slot is free, no timer is pending, no ACK is partly read,
and the counters `msgid`, `next_id` and `cn_ack_out` have the values `m`, `n` and
`a`. -/
def AllFree {P : TimerQueue Callback} (x : XOUT P) (m n a : Nat) : Prop :=
  x.mr.length = MRSZ ∧ (∀ d ∈ x.mr, d.pkt.len = FREE) ∧
  P.elems x.TimeXout.active = [] ∧ (∀ k, mapFind x.TimeXout.timers k = none) ∧
  x.msgid = m ∧ x.TimeXout.next_id = n ∧ x.cn_ack_out = a ∧ x.cnt = 0 ∧ x.ack.length = 5

/-- The tracker after `k` rounds of the session in which a one-byte message is sent by
`SendMsg` and the peer's ACK for its cookie arrives whole and is read by `RecvAck`,
which returns `True`; `none` when a call ends otherwise. -/
def ackedSends {P : TimerQueue Callback} (e : Endian) : Nat → XOUT P → Option (XOUT P)
  | 0, x => some x
  | k + 1, x =>
    match SendMsg e x [0] 1 1 0 { tv_sec := 0, tv_usec := 0 } with
    | .returns _ x1 =>
      match RecvAck e x1 [RecvItem.data (ACK :: store32 e x.msgid)]
          { tv_sec := 0, tv_usec := 0 } with
      | .returns (result.True, _) x2 => ackedSends e k x2
      | _ => none
    | _ => none

/-! ## The run loop of `ClientHandler` (`serverx.cpp`) -/

/-- The head of one round of the loop `while(1)` of `ServerXOI::ClientHandler`: the
test `if(msgid == TSTAT/T0) statistic();`, then `readmask = allreads` and the call
`TimeXout.tselect(maxfd1, &readmask, NULL, NULL)`.  The value holds what `statistic`
has emitted when it was called, and what `tselect` hands back. -/
def ClientHandlerHead {P : TimerQueue Callback} (e : Endian) (fireFuel : Nat)
    (envs : List RoundEnv) (allreads : FdSet) (sv : Server P) (xin : XIN) :
    Option (Outcome (Option (StatTable × StatLog) × TselectResult) (Server P × XIN)) :=
  let afterStat : Outcome (Option (StatTable × StatLog)) (XOUT P × XIN) :=
    if sv.xout.msgid = TSTAT / T0 then
      match statistic sv.xout xin with
      | .returns tl st => Outcome.returns (some tl) st
      | .throws st => Outcome.throws st
      | .undefined f => Outcome.undefined f
    else Outcome.returns none (sv.xout, xin)
  match afterStat with
  | .undefined f => some (Outcome.undefined f)
  | .throws st => some (Outcome.throws ({ sv with xout := st.1 }, st.2))
  | .returns emitted st =>
    match tselect (serverHost e) fireFuel envs (some allreads) none none
        { sv with xout := st.1 } with
    | none => none
    | some (.returns r sv1) => some (Outcome.returns (emitted, r) (sv1, st.2))
    | some (.throws sv1) => some (Outcome.throws (sv1, st.2))
    | some (.undefined f) => some (Outcome.undefined f)

/-- A server at the head of a round of the run loop, 249 messages into a window: the
pool is free (every message has been acknowledged), `msgid = cn_ack_out = 249`, and
the timer of `sendrev`, registered at time 0, is due at 20 ms.  The coming runs of
`sendrev` find `send` successful; run `k` takes place at `20 (k + 1)` ms. -/
def silentPeerServer : Server (listQueue Callback) :=
  { xout :=
      { trackerOf (listQueue Callback) freePool with
        msgid := 249
        cn_ack_out := 249
        TimeXout :=
          (timeout (TimerManager.init (listQueue Callback)) Callback.sendrev T0 0).2 }
    env := fun k =>
      { rands := fun _ => 0
        sendRet := 3708
        now := 20000000 * ((k : Int) + 1)
        tv := { tv_sec := 0, tv_usec := 20000 * ((k : Int) + 1) }
        now2 := 20000000 * ((k : Int) + 1) }
    calls := 0 }

/-- What `tselect` finds while the peer is silent for one period `T0`: in the round at
20 ms no descriptor gets ready before the next timer is due, and `select` returns 0;
in the round at 40 ms `select` finds the descriptor 5 ready for reading. -/
def silentPeerRounds : List RoundEnv :=
  [{ now_time := 20000000, n := 0, re := [], we := [], ee := [] },
   { now_time := 40000000, n := 1, re := [5], we := [], ee := [] }]

/-- A server at the first head of the run loop, with zeroed counters, a free pool and
the timer of `sendrev` registered at time 0; the runs of `sendrev` are those of
`silentPeerServer`. -/
def silentPeerStart : Server (listQueue Callback) :=
  { silentPeerServer with
    xout :=
      { trackerOf (listQueue Callback) freePool with
        TimeXout :=
          (timeout (TimerManager.init (listQueue Callback)) Callback.sendrev T0 0).2 } }

/-- What `tselect` finds while the peer is silent for `k` periods `T0`: the round at
`20 (i + 1)` ms ends with `select` returning 0, for `i + 1 < k`, and in the round at
`20 k` ms `select` finds the descriptor 5 ready for reading. -/
def silentRounds (k : Nat) : List RoundEnv :=
  (List.range k).map (fun i =>
    { now_time := 20000000 * ((i : Int) + 1)
      n := if i + 1 = k then 1 else 0
      re := [5]
      we := []
      ee := [] })

/-! ## Sessions with the timer of `sendrev` -/

/-- The kinds of step of a session on the tracker: a call of `SendMsg`, a call of
`RecvAck`, the registration `TimeXout.timeout(sendrev, T0)`, a round of the firing
loop of `tselect`, and the emission of statistics. -/
inductive RunOp where
  | send
  | ack
  | arm
  | round
  | stat
  deriving DecidableEq, Repr

/-- The trackers that a session reaches from an initial tracker by steps that return,
each allowed by `guard` in the state it starts from: a call of `SendMsg`, a call of
`RecvAck`, the registration `TimeXout.timeout(sendrev, T0)` of `ClientHandler`, a round
of the firing loop of `tselect` (the top event is popped, its callback runs as
`serverHost` says, its id is erased from the map), and `statistic` (whose effect on
the tracker is that of `init_cnt`).  A round whose callback is a drop timer has
undefined behaviour, so it reaches no state. -/
inductive Run {P : TimerQueue Callback} (e : Endian) (guard : XOUT P → RunOp → Prop) :
    XOUT P → Prop where
  | init (x : XOUT P) : InitialTracker x → Run e guard x
  | send (x x1 : XOUT P) (msg : List Nat) (size : Nat) (sendRet now : Int) (tv : timeval)
      (r : result × List Nat) :
      Run e guard x → guard x RunOp.send →
      SendMsg e x msg size sendRet now tv = Outcome.returns r x1 → Run e guard x1
  | ack (x x1 : XOUT P) (s : Sock) (tv : timeval) (r : result × Sock) :
      Run e guard x → guard x RunOp.ack →
      RecvAck e x s tv = Outcome.returns r x1 → Run e guard x1
  | arm (x : XOUT P) (now : Int) :
      Run e guard x → guard x RunOp.arm →
      Run e guard { x with TimeXout := (timeout x.TimeXout Callback.sendrev T0 now).2 }
  | round (x : XOUT P) (env : Nat → SendEnv) (calls : Nat) (te : TimerEvent Callback)
      (sv2 : Server P) :
      Run e guard x → guard x RunOp.round →
      P.top x.TimeXout.active = some te →
      (serverHost e).call te.func
        ((serverHost e).setTm { xout := x, env := env, calls := calls }
          { x.TimeXout with active := P.pop x.TimeXout.active }) = Outcome.returns () sv2 →
      Run e guard
        { sv2.xout with
          TimeXout :=
            { sv2.xout.TimeXout with timers := mapErase sv2.xout.TimeXout.timers te.id } }
  | stat (x : XOUT P) : Run e guard x → guard x RunOp.stat → Run e guard (init_cnt x)

/-- The steps of the run loop: statistics are emitted only when `msgid == TSTAT/T0`. -/
def runGate {P : TimerQueue Callback} (x : XOUT P) (k : RunOp) : Prop :=
  k = RunOp.stat → x.msgid = TSTAT / T0

/-- The steps of a session without statistics. -/
def runNoStat {P : TimerQueue Callback} (_ : XOUT P) (k : RunOp) : Prop :=
  k ≠ RunOp.stat

/-- The steps under which the live cookies stay distinct: statistics are emitted at
`msgid == TSTAT/T0` and only while no slot is live, and `SendMsg` runs (called
directly or by `sendrev` in a round of the firing loop) only while the 32-bit counter
`msgid` does not wrap. -/
def cookieGuard {P : TimerQueue Callback} (x : XOUT P) (k : RunOp) : Prop :=
  (k = RunOp.stat → x.msgid = TSTAT / T0 ∧ ∀ d ∈ x.mr, d.pkt.len = FREE) ∧
  (k = RunOp.send ∨ k = RunOp.round → x.msgid + 1 < U32)

/-- The steps under which the timer ids stay distinct: timers are registered only
while the 32-bit counter `next_id` does not wrap (`SendMsg` and the registration of
`sendrev` take one id each, a round that runs `sendrev` takes two). -/
def timerGuard {P : TimerQueue Callback} (x : XOUT P) (k : RunOp) : Prop :=
  (k = RunOp.send ∨ k = RunOp.arm → x.TimeXout.next_id + 1 < U32) ∧
  (k = RunOp.round → x.TimeXout.next_id + 2 < U32)

/-- The map of timers without the key of the timer whose callback is running, if
any. -/
def mapEraseOpt {V : Type} (m : List (Nat × V)) : Option Nat → List (Nat × V)
  | none => m
  | some t => mapErase m t

/-- The timer bookkeeping of the tracker between the steps of a session (`t = none`)
and while the callback of the fired timer `t` runs (`t = some _`, the key of that timer
is still in the map): `TimerRel` between the pool, the heap and the map without that
key, and all pending ids are below `next_id`. -/
def TimerInvAt {P : TimerQueue Callback} (x : XOUT P) (t : Option Nat) : Prop :=
  TimerRel x.mr (P.elems x.TimeXout.active) (mapEraseOpt x.TimeXout.timers t) ∧
  (∀ ev ∈ P.elems x.TimeXout.active, ev.id < x.TimeXout.next_id) ∧
  (∀ k, t = some k → k < x.TimeXout.next_id)

/-! ## Theorems -/

theorem getfreerecFrom_none (mr : List msgrec_t) (i : Nat)
    (h : ∀ d ∈ mr, d.pkt.len ≠ FREE) : getfreerecFrom mr i = none := by
  induction mr generalizing i with
  | nil => rfl
  | cons d ds ih =>
    have hd : d.pkt.len ≠ FREE := h d (List.mem_cons_self d ds)
    simp only [getfreerecFrom, hd, if_false]
    exact ih (i + 1) (fun d1 h1 => h d1 (List.mem_cons_of_mem d h1))

/-- C1, what the code does: when every slot of the pool is live, `getfreerec` returns
the null pointer and `SendMsg` uses it unchecked, so the call has undefined behaviour
(a null dereference) and does not return `Error`. -/
theorem SendMsg_exhausted_nullDeref {P : TimerQueue Callback} (e : Endian) (x : XOUT P)
    (msg : List Nat) (size : Nat) (sendRet now : Int) (tv : timeval)
    (h : ∀ d ∈ x.mr, d.pkt.len ≠ FREE) :
    SendMsg e x msg size sendRet now tv = Outcome.undefined Fault.nullDeref := by
  unfold SendMsg getfreerec
  rw [getfreerecFrom_none x.mr 0 h]

/-! ### Bytes and the timer map -/

theorem load32_store32 (e : Endian) (c : Nat) (h : c < U32) : load32 e (store32 e c) = c := by
  unfold U32 at h
  cases e
  · simp only [load32, store32, leBytes, leVal]
    omega
  · simp only [load32, store32, beBytes, beVal]
    omega

theorem store32_length (e : Endian) (c : Nat) : (store32 e c).length = 4 := by
  cases e <;> rfl

theorem mapFind_mapErase_self {V : Type} (m : List (Nat × V)) (k : Nat) :
    mapFind (mapErase m k) k = none := by
  induction m with
  | nil => rfl
  | cons p ps ih =>
    obtain ⟨k1, v⟩ := p
    by_cases h : k1 = k
    · simpa [mapErase, h] using ih
    · have hne : (k1 != k) = true := by simpa using h
      simp only [mapErase, List.filter_cons, hne, if_true, mapFind, h, if_false]
      exact ih

theorem mapFind_mapErase_ne {V : Type} (m : List (Nat × V)) (k k2 : Nat) (hk : k2 ≠ k) :
    mapFind (mapErase m k) k2 = mapFind m k2 := by
  induction m with
  | nil => rfl
  | cons p ps ih =>
    obtain ⟨k1, v⟩ := p
    by_cases h : k1 = k
    · have hne : k1 ≠ k2 := by rw [h]; exact fun h2 => hk h2.symm
      simpa [mapErase, h, mapFind, hne, hk.symm] using ih
    · have hne : (k1 != k) = true := by simpa using h
      simp only [mapErase, List.filter_cons, hne, if_true, mapFind]
      by_cases h2 : k1 = k2
      · simp [h2]
      · simp only [h2, if_false]
        exact ih

/-! ### Cancelling a timer -/

theorem unitimeoutLoop_elems {F : Type} (P : TimerQueue F) (id : Nat) :
    ∀ (n : Nat) (active temp : P.Q), (P.elems active).length ≤ n →
      (P.elems (unitimeoutLoop P id n active temp)).Perm
        (P.elems temp ++ (P.elems active).filter (fun te => te.id != id)) := by
  intro n
  induction n with
  | zero =>
    intro active temp h
    have hnil : P.elems active = [] := List.eq_nil_of_length_eq_zero (Nat.le_zero.mp h)
    simp [unitimeoutLoop, hnil]
  | succ n ih =>
    intro active temp h
    cases htop : P.top active with
    | none =>
      have hnil : P.elems active = [] := (P.top_none active).mp htop
      simp [unitimeoutLoop, htop, hnil]
    | some te =>
      have hp := P.elems_pop active te htop
      have hlen : (P.elems (P.pop active)).length ≤ n := by
        have := hp.length_eq
        simp only [List.length_cons] at this
        omega
      have hf := hp.filter (fun te => te.id != id)
      simp only [unitimeoutLoop, htop]
      by_cases hid : te.id = id
      · have hb : (te.id != id) = false := by simp [hid]
        simp only [hid, ne_eq, not_true_eq_false, if_false]
        refine (ih (P.pop active) temp hlen).trans ?_
        simp only [List.filter_cons, hb] at hf
        exact List.Perm.append_left _ hf
      · have hb : (te.id != id) = true := by simp [hid]
        simp only [ne_eq, hid, not_false_eq_true, if_true]
        refine (ih (P.pop active) (P.push temp te) hlen).trans ?_
        simp only [List.filter_cons, hb, if_true] at hf
        have h1 : (P.elems (P.push temp te) ++
            (P.elems (P.pop active)).filter (fun te => te.id != id)).Perm
            ((te :: P.elems temp) ++
              (P.elems (P.pop active)).filter (fun te => te.id != id)) :=
          List.Perm.append_right _ (P.elems_push temp te)
        refine h1.trans ?_
        refine (List.Perm.trans ?_ (List.Perm.append_left _ hf))
        exact (List.perm_middle).symm

theorem unitimeout_found {F : Type} {P : TimerQueue F} (tm : TimerManager P) (id : Nat)
    (v : TimerEvent F) (h : mapFind tm.timers id = some v) :
    ∃ tm1 : TimerManager P, unitimeout tm id = Outcome.returns () tm1 ∧
      (P.elems tm1.active).Perm ((P.elems tm.active).filter (fun te => te.id != id)) ∧
      tm1.timers = mapErase tm.timers id ∧ tm1.next_id = tm.next_id := by
  refine ⟨{ active := unitimeoutLoop P id (P.elems tm.active).length tm.active P.empty
            timers := mapErase tm.timers id
            next_id := tm.next_id }, ?_, ?_, rfl, rfl⟩
  · simp only [unitimeout, h]
  · have := unitimeoutLoop_elems P id (P.elems tm.active).length tm.active P.empty (le_refl _)
    simpa [P.elems_empty] using this

/-! ### Searching the pool -/

theorem findmsgrecFrom_none (mr : List msgrec_t) (b mid : Nat) :
    findmsgrecFrom mr b mid = none ↔
      ∀ d ∈ mr, ¬ (d.pkt.len ≠ FREE ∧ d.pkt.cookie = mid) := by
  induction mr generalizing b with
  | nil => simp [findmsgrecFrom]
  | cons d ds ih =>
    by_cases h : d.pkt.len ≠ FREE ∧ d.pkt.cookie = mid
    · rw [findmsgrecFrom, if_pos h]
      constructor
      · intro h1; cases h1
      · intro h1; exact absurd h (h1 d (List.mem_cons_self d ds))
    · rw [findmsgrecFrom, if_neg h, ih (b + 1)]
      constructor
      · intro h1 d1 hd1
        rcases List.mem_cons.mp hd1 with h2 | h2
        · rw [h2]; exact h
        · exact h1 d1 h2
      · intro h1 d1 hd1
        exact h1 d1 (List.mem_cons_of_mem d hd1)

theorem findmsgrecFrom_some (mr : List msgrec_t) (b mid j : Nat)
    (h : findmsgrecFrom mr b mid = some j) :
    ∃ k d, j = b + k ∧ mr[k]? = some d ∧ d.pkt.len ≠ FREE ∧ d.pkt.cookie = mid := by
  induction mr generalizing b with
  | nil => simp [findmsgrecFrom] at h
  | cons d ds ih =>
    by_cases hd : d.pkt.len ≠ FREE ∧ d.pkt.cookie = mid
    · rw [findmsgrecFrom, if_pos hd] at h
      have hj : b = j := Option.some.inj h
      exact ⟨0, d, hj.symm, by simp, hd.1, hd.2⟩
    · rw [findmsgrecFrom, if_neg hd] at h
      obtain ⟨k, d1, hj, hk, hl, hc⟩ := ih (b + 1) h
      exact ⟨k + 1, d1, by omega, by simpa using hk, hl, hc⟩

theorem findmsgrec_of_distinct (mr : List msgrec_t) (i : Nat) (d : msgrec_t)
    (hd : CookiesDistinct mr) (hi : mr[i]? = some d) (hlive : d.pkt.len ≠ FREE) :
    findmsgrec mr d.pkt.cookie = some i := by
  cases hf : findmsgrec mr d.pkt.cookie with
  | none =>
    have := (findmsgrecFrom_none mr 0 d.pkt.cookie).mp hf d (List.getElem?_mem hi)
    exact absurd ⟨hlive, rfl⟩ this
  | some j =>
    obtain ⟨k, dk, hj, hk, hl, hc⟩ := findmsgrecFrom_some mr 0 d.pkt.cookie j hf
    have hjk : j = k := by omega
    subst hjk
    rw [hd j i dk d hk hi hl hlive hc]

/-! ### Completing an ACK -/

theorem toSizeT_ack (k : Nat) (hk : k < 5) : toSizeT ((ACKSZ : Int) - (k : Int)) = 5 - k := by
  unfold toSizeT ACKSZ
  omega

theorem recv_data_ge (bs : List Nat) (rest : Sock) (n : Nat) (h : n ≤ bs.length) :
    (recv (RecvItem.data bs :: rest) n).ret = (n : Int) ∧
    (recv (RecvItem.data bs :: rest) n).bytes = bs.take n := by
  unfold recv
  by_cases hl : bs.length ≤ n
  · have hn : bs.length = n := le_antisymm hl h
    subst hn
    simp
  · simp [hl]

theorem completesAck_facts {P : TimerQueue Callback} (x : XOUT P) (s : Sock)
    (frame : List Nat) (h : CompletesAck x s frame) :
    x.cnt + (recv s (toSizeT ((ACKSZ : Int) - x.cnt))).ret = 5 ∧
    (recv s (toSizeT ((ACKSZ : Int) - x.cnt))).ret ≠ 0 ∧
    writeAt x.ack x.cnt (recv s (toSizeT ((ACKSZ : Int) - x.cnt))).bytes = some frame := by
  obtain ⟨k, bs, rest, hk, hk5, hack, hs, hlen, hframe⟩ := h
  subst hs
  rw [hk, toSizeT_ack k hk5]
  obtain ⟨hret, hbytes⟩ := recv_data_ge bs rest (5 - k) hlen
  rw [hret, hbytes]
  refine ⟨by omega, by omega, ?_⟩
  have hl : (bs.take (5 - k)).length = 5 - k := by
    rw [List.length_take]; omega
  have hne : bs.take (5 - k) ≠ [] := by
    intro h0
    rw [h0] at hl
    simp at hl
    omega
  unfold writeAt
  rw [if_neg hne, if_pos ⟨by omega, by simp only [Int.toNat_ofNat]; omega⟩]
  simp only [Int.toNat_ofNat, hl]
  have hd : List.drop (k + (5 - k)) x.ack = [] := by
    apply List.drop_eq_nil_of_le
    omega
  rw [hd, List.append_nil, hframe]

theorem completesAck_body_length {P : TimerQueue Callback} (x : XOUT P) (s : Sock)
    (b0 : Nat) (body : List Nat) (h : CompletesAck x s (b0 :: body)) : body.length = 4 := by
  obtain ⟨k, bs, rest, hk, hk5, hack, hs, hlen, hframe⟩ := h
  have := congrArg List.length hframe
  simp only [List.length_append, List.length_take, List.length_cons] at this
  omega

theorem RecvAck_unmatched {P : TimerQueue Callback} (e : Endian) (x : XOUT P) (s : Sock)
    (tv : timeval) (body : List Nat)
    (hfr : CompletesAck x s (ACK :: body))
    (hno : ∀ d ∈ x.mr, d.pkt.len ≠ FREE → d.pkt.cookie ≠ load32 e body) :
    RecvAck e x s tv =
      Outcome.returns (result.Error, (recv s (toSizeT ((ACKSZ : Int) - x.cnt))).sock)
        { x with
          ack := ACK :: body
          cnt := 0
          cn_ack_out := (x.cn_ack_out + 1) % U32
          mid := load32 e body } := by
  obtain ⟨hcnt, hret0, hwrite⟩ := completesAck_facts x s _ hfr
  have hb := completesAck_body_length x s ACK body hfr
  have hfind : findmsgrec x.mr (load32 e body) = none := by
    apply (findmsgrecFrom_none x.mr 0 (load32 e body)).mpr
    intro d hd hh
    exact hno d hd hh.1 hh.2
  have hlt : ¬ (x.cnt + (recv s (toSizeT ((ACKSZ : Int) - x.cnt))).ret < (ACKSZ : Int)) := by
    rw [hcnt]; decide
  have htake : (List.drop 1 (ACK :: body)).take 4 = body := by
    simp only [List.drop_succ_cons, List.drop_zero]
    rw [← hb, List.take_length]
  unfold RecvAck
  simp only [hwrite, hret0, if_false, hlt, List.head?_cons, ne_eq, not_true_eq_false, htake,
    hfind]

theorem RecvAck_matched {P : TimerQueue Callback} (e : Endian) (x : XOUT P) (s : Sock)
    (tv : timeval) (body : List Nat) (i : Nat) (d : msgrec_t) (v : TimerEvent Callback)
    (hdist : CookiesDistinct x.mr) (hi : x.mr[i]? = some d) (hlive : d.pkt.len ≠ FREE)
    (hfr : CompletesAck x s (ACK :: body)) (hbody : load32 e body = d.pkt.cookie)
    (hpend : mapFind x.TimeXout.timers d.id = some v) :
    RecvAck e x s tv =
      Outcome.returns (result.True, (recv s (toSizeT ((ACKSZ : Int) - x.cnt))).sock)
        { x with
          ack := ACK :: body
          cnt := 0
          cn_ack_out := (x.cn_ack_out + 1) % U32
          mid := d.pkt.cookie
          end_tv := tv
          time_out := x.time_out +
            (((tv.tv_sec - d.start.tv_sec) * 1000000 + tv.tv_usec) - d.start.tv_usec)
          time_out_max :=
            max (((tv.tv_sec - d.start.tv_sec) * 1000000 + tv.tv_usec) - d.start.tv_usec)
              x.time_out_max
          mr := x.mr.set i (freemsgrec d)
          TimeXout :=
            { active :=
                unitimeoutLoop P d.id (P.elems x.TimeXout.active).length x.TimeXout.active
                  P.empty
              timers := mapErase x.TimeXout.timers d.id
              next_id := x.TimeXout.next_id } } := by
  obtain ⟨hcnt, hret0, hwrite⟩ := completesAck_facts x s _ hfr
  have hb := completesAck_body_length x s ACK body hfr
  have hfind : findmsgrec x.mr d.pkt.cookie = some i :=
    findmsgrec_of_distinct x.mr i d hdist hi hlive
  have hlt : ¬ (x.cnt + (recv s (toSizeT ((ACKSZ : Int) - x.cnt))).ret < (ACKSZ : Int)) := by
    rw [hcnt]; decide
  have htake : (List.drop 1 (ACK :: body)).take 4 = body := by
    simp only [List.drop_succ_cons, List.drop_zero]
    rw [← hb, List.take_length]
  unfold RecvAck
  simp only [hwrite, hret0, if_false, hlt, List.head?_cons, ne_eq, not_true_eq_false, htake,
    hfind, hi, unitimeout, hpend, hbody]

theorem set_free_no_cookie (mr : List msgrec_t) (i : Nat) (d : msgrec_t)
    (hdist : CookiesDistinct mr) (hi : mr[i]? = some d) (hlive : d.pkt.len ≠ FREE) :
    ∀ (j : Nat) (dj : msgrec_t), (mr.set i (freemsgrec d))[j]? = some dj →
      dj.pkt.len ≠ FREE → dj.pkt.cookie ≠ d.pkt.cookie := by
  intro j dj hj hl hc
  by_cases hij : i = j
  · subst hij
    have hlt : i < mr.length := (List.getElem?_eq_some.mp hi).1
    rw [List.getElem?_set_self hlt] at hj
    have : dj = freemsgrec d := (Option.some.inj hj).symm
    rw [this] at hl
    exact hl rfl
  · rw [List.getElem?_set_ne hij] at hj
    exact hij (hdist i j d dj hi hj hlive hl hc.symm)

/-- C2: in a tracker whose live cookies are pairwise distinct, with slot `i` live and
its drop timer registered, a `RecvAck` call that completes the five bytes `0x06` and the
four bytes of that slot's cookie returns `True`; it frees slot `i` and changes no
other slot, the slot's timer id is gone from the map and from the heap, the heap keeps
exactly the events of other ids, the map keeps every other key, and afterwards no
live slot carries the cookie. -/
theorem RecvAck_matched_frees_and_cancels {P : TimerQueue Callback} (e : Endian) (x : XOUT P)
    (s : Sock) (tv : timeval) (body : List Nat) (i : Nat) (d : msgrec_t)
    (hdist : CookiesDistinct x.mr) (hi : x.mr[i]? = some d) (hlive : d.pkt.len ≠ FREE)
    (hfr : CompletesAck x s (ACK :: body)) (hbody : load32 e body = d.pkt.cookie)
    (hpend : (mapFind x.TimeXout.timers d.id).isSome = true) :
    ∃ (x1 : XOUT P) (s1 : Sock),
      RecvAck e x s tv = Outcome.returns (result.True, s1) x1 ∧
      x1.mr = x.mr.set i (freemsgrec d) ∧
      mapFind x1.TimeXout.timers d.id = none ∧
      (∀ ev ∈ P.elems x1.TimeXout.active, ev.id ≠ d.id) ∧
      (P.elems x1.TimeXout.active).Perm
        ((P.elems x.TimeXout.active).filter (fun te => te.id != d.id)) ∧
      (∀ k, k ≠ d.id → mapFind x1.TimeXout.timers k = mapFind x.TimeXout.timers k) ∧
      (∀ (j : Nat) (dj : msgrec_t), x1.mr[j]? = some dj → dj.pkt.len ≠ FREE →
        dj.pkt.cookie ≠ d.pkt.cookie) := by
  obtain ⟨v, hv⟩ := Option.isSome_iff_exists.mp hpend
  have hperm := unitimeoutLoop_elems P d.id (P.elems x.TimeXout.active).length x.TimeXout.active
    P.empty (le_refl _)
  simp only [P.elems_empty, List.nil_append] at hperm
  refine ⟨_, _, RecvAck_matched e x s tv body i d v hdist hi hlive hfr hbody hv, rfl, ?_, ?_,
    hperm, ?_, ?_⟩
  · exact mapFind_mapErase_self _ _
  · intro ev hev
    have := (hperm.mem_iff).mp hev
    simpa using (List.mem_filter.mp this).2
  · intro k hk
    exact mapFind_mapErase_ne _ _ _ hk
  · exact set_free_no_cookie x.mr i d hdist hi hlive

theorem cookiesDistinct_oneLivePool : CookiesDistinct oneLivePool := by
  have hfree : ∀ (k : Nat) (dk : msgrec_t), oneLivePool[k]? = some dk → dk.pkt.len ≠ FREE →
      k = 0 := by
    intro k dk hk hl
    cases k with
    | zero => rfl
    | succ k =>
      have hk1 : (List.replicate (MRSZ - 1) freeSlot)[k]? = some dk := by
        simpa [oneLivePool] using hk
      have := List.eq_of_mem_replicate (List.getElem?_mem hk1)
      rw [this] at hl
      exact absurd rfl hl
  intro i j di dj hi hj hli hlj _
  rw [hfree i di hi hli, hfree j dj hj hlj]

theorem completesAck_ackSock {P : TimerQueue Callback} (x : XOUT P) (h0 : x.cnt = 0)
    (h5 : x.ack.length = 5) : CompletesAck x ackSock (ACK :: [7, 0, 0, 0]) :=
  ⟨0, [6, 7, 0, 0, 0], [], h0, by decide, h5, rfl, by decide, rfl⟩

/-- C2 at the tracker with one live slot (cookie 7, timer id 1) and the ACK bytes
`06 07 00 00 00` on the socket: the call returns `True` and frees slot 0. -/
theorem RecvAck_matched_frees_and_cancels_witness :
    CookiesDistinct oneLiveTracker.mr ∧
    oneLiveTracker.mr[0]? = some sentSlot ∧
    (mapFind oneLiveTracker.TimeXout.timers sentSlot.id).isSome = true ∧
    ∃ (x1 : XOUT (listQueue Callback)) (s1 : Sock),
      RecvAck Endian.little oneLiveTracker ackSock { tv_sec := 0, tv_usec := 0 } =
        Outcome.returns (result.True, s1) x1 ∧
      x1.mr = oneLiveTracker.mr.set 0 (freemsgrec sentSlot) ∧
      mapFind x1.TimeXout.timers sentSlot.id = none := by
  refine ⟨cookiesDistinct_oneLivePool, List.getElem?_cons_zero, rfl, ?_⟩
  obtain ⟨x1, s1, h1, h2, h3, _⟩ :=
    RecvAck_matched_frees_and_cancels Endian.little oneLiveTracker ackSock
      { tv_sec := 0, tv_usec := 0 } [7, 0, 0, 0] 0 sentSlot cookiesDistinct_oneLivePool
      List.getElem?_cons_zero
      (by decide) (completesAck_ackSock oneLiveTracker rfl rfl) rfl rfl
  exact ⟨x1, s1, h1, h2, h3⟩

/-- C10, as amended: when a `RecvAck` call completes five bytes that start with `0x06`
and whose cookie (bytes 1..4) is carried by no live slot, the call returns `Error`;
the slot pool and the timer manager (heap, map, counter) are unchanged. -/
theorem RecvAck_absent_cookie_Error {P : TimerQueue Callback} (e : Endian) (x : XOUT P)
    (s : Sock) (tv : timeval) (body : List Nat)
    (hfr : CompletesAck x s (ACK :: body))
    (hno : ∀ d ∈ x.mr, d.pkt.len ≠ FREE → d.pkt.cookie ≠ load32 e body) :
    ∃ (x1 : XOUT P) (s1 : Sock),
      RecvAck e x s tv = Outcome.returns (result.Error, s1) x1 ∧
      x1.mr = x.mr ∧ x1.TimeXout = x.TimeXout :=
  ⟨_, _, RecvAck_unmatched e x s tv body hfr hno, rfl, rfl⟩

theorem freePool_no_live : ∀ d ∈ freePool, d.pkt.len ≠ FREE → d.pkt.cookie ≠ 7 := by
  intro d hd hl
  rw [List.eq_of_mem_replicate hd] at hl
  exact absurd rfl hl

/-- C10 at the all-free tracker and the ACK bytes `06 07 00 00 00`: the call returns
`Error`. -/
theorem RecvAck_absent_cookie_Error_witness :
    ∃ (x1 : XOUT (listQueue Callback)) (s1 : Sock),
      RecvAck Endian.little (trackerOf (listQueue Callback) freePool) ackSock
        { tv_sec := 0, tv_usec := 0 } = Outcome.returns (result.Error, s1) x1 ∧
      x1.mr = freePool ∧ x1.TimeXout = TimerManager.init (listQueue Callback) :=
  RecvAck_absent_cookie_Error Endian.little (trackerOf (listQueue Callback) freePool) ackSock
    { tv_sec := 0, tv_usec := 0 } [7, 0, 0, 0]
    (completesAck_ackSock (trackerOf (listQueue Callback) freePool) rfl rfl) freePool_no_live

/-- C10 as stated fails: at the all-free tracker, the well-formed ACK `06 07 00 00 00`
(cookie 7, carried by no live slot) makes `RecvAck` return `Error`, not `True`. -/
theorem RecvAck_absent_cookie_not_True :
    CompletesAck (trackerOf (listQueue Callback) freePool) ackSock (ACK :: store32 Endian.little 7) ∧
    (∀ d ∈ (trackerOf (listQueue Callback) freePool).mr, d.pkt.len ≠ FREE → d.pkt.cookie ≠ 7) ∧
    ¬ ∃ (x1 : XOUT (listQueue Callback)) (s1 : Sock),
      RecvAck Endian.little (trackerOf (listQueue Callback) freePool) ackSock
        { tv_sec := 0, tv_usec := 0 } = Outcome.returns (result.True, s1) x1 := by
  refine ⟨completesAck_ackSock _ rfl rfl, freePool_no_live, ?_⟩
  rintro ⟨x1, s1, h⟩
  rw [RecvAck_unmatched Endian.little (trackerOf (listQueue Callback) freePool) ackSock
    { tv_sec := 0, tv_usec := 0 } [7, 0, 0, 0] (completesAck_ackSock _ rfl rfl)
    freePool_no_live] at h
  injection h with h1 _
  injection h1 with h2 _
  cases h2

/-! ### The firing loop -/

theorem top_time_le {F : Type} (P : TimerQueue F) (q : P.Q) (te y : TimerEvent F)
    (ht : P.top q = some te) (hy : y ∈ P.elems q) : te.time ≤ y.time := by
  have := P.top_max q te ht y hy
  simp only [TimerEventCompare, decide_eq_false_iff_not, not_lt] at this
  exact this

theorem tselect_fire_spec {F σ : Type} {P : TimerQueue F} (H : Host P σ) (now : Int)
    (hcb : CallbacksRegisterLater H now) :
    ∀ (fuel : Nat) (s : σ) (old new : List (TimerEvent F)),
      (P.elems (H.tm s).active).Perm (old ++ new) → (∀ ev ∈ new, now < ev.time) →
      old.length < fuel →
      ∃ (tr : List (TimerEvent F)) (s1 : σ),
        tselect_fire H now fuel s = some (tr, Outcome.returns () s1) ∧
        tr.Perm (old.filter (fun ev => decide (ev.time ≤ now))) ∧
        tr.Pairwise (fun a b => a.time ≤ b.time) := by
  intro fuel
  induction fuel with
  | zero => intro s old new _ _ h; omega
  | succ n ih =>
    intro s old new hperm hnew hlen
    cases htop : P.top (H.tm s).active with
    | none =>
      have hnil : P.elems (H.tm s).active = [] := (P.top_none _).mp htop
      rw [hnil] at hperm
      have hon : old ++ new = [] := List.Perm.eq_nil hperm.symm
      have ho : old = [] := (List.append_eq_nil.mp hon).1
      refine ⟨[], s, ?_, ?_, List.Pairwise.nil⟩
      · simp only [tselect_fire, htop]
      · rw [ho]; exact List.Perm.refl _
    | some te =>
      have hmem : te ∈ P.elems (H.tm s).active := P.top_mem _ _ htop
      by_cases hdue : te.time ≤ now
      · have hte : te ∈ old := by
          rcases List.mem_append.mp (hperm.mem_iff.mp hmem) with h | h
          · exact h
          · have := hnew te h
            omega
        obtain ⟨l, r, hlr⟩ := List.append_of_mem hte
        have hold : old.Perm (te :: (l ++ r)) := by
          rw [hlr]; exact List.perm_middle
        have hpop : (P.elems (P.pop (H.tm s).active)).Perm ((l ++ r) ++ new) := by
          have h1 := (P.elems_pop _ _ htop).trans hperm
          have h2 : (old ++ new).Perm (te :: ((l ++ r) ++ new)) :=
            List.Perm.append_right new hold
          exact List.Perm.cons_inv (h1.trans h2)
        obtain ⟨s2, added, hcall, hadd, hlate⟩ :=
          hcb te.func (H.setTm s { H.tm s with active := P.pop (H.tm s).active })
        rw [H.tm_setTm] at hadd
        have hperm3 : (P.elems (H.tm (H.setTm s2
            { H.tm s2 with timers := mapErase (H.tm s2).timers te.id })).active).Perm
            ((l ++ r) ++ (new ++ added)) := by
          rw [H.tm_setTm]
          refine hadd.trans ?_
          rw [← List.append_assoc]
          exact List.Perm.append_right added hpop
        have hnew3 : ∀ ev ∈ new ++ added, now < ev.time := by
          intro ev hev
          rcases List.mem_append.mp hev with h | h
          · exact hnew ev h
          · exact hlate ev h
        have hlen3 : (l ++ r).length < n := by
          have := hold.length_eq
          simp only [List.length_cons] at this
          omega
        obtain ⟨tr, s4, hrun, htr, hsorted⟩ := ih _ (l ++ r) (new ++ added) hperm3 hnew3 hlen3
        refine ⟨te :: tr, s4, ?_, ?_, ?_⟩
        · simp only [tselect_fire, htop, hdue, if_true, hcall, hrun]
        · have hf := hold.filter (fun ev => decide (ev.time ≤ now))
          have hd : decide (te.time ≤ now) = true := by simpa using hdue
          simp only [List.filter_cons, hd, if_true] at hf
          exact (List.Perm.cons te htr).trans hf.symm
        · refine List.Pairwise.cons ?_ hsorted
          intro y hy
          have hy1 : y ∈ l ++ r := (List.mem_filter.mp (htr.mem_iff.mp hy)).1
          have hy2 : y ∈ old := hold.mem_iff.mpr (List.mem_cons_of_mem te hy1)
          have hy3 : y ∈ P.elems (H.tm s).active :=
            hperm.mem_iff.mpr (List.mem_append_left new hy2)
          exact top_time_le P _ te y htop hy3
      · refine ⟨[], s, ?_, ?_, List.Pairwise.nil⟩
        · simp only [tselect_fire, htop, hdue, if_false]
        · have hempty : old.filter (fun ev => decide (ev.time ≤ now)) = [] := by
            apply List.filter_eq_nil_iff.mpr
            intro y hy
            have hy3 : y ∈ P.elems (H.tm s).active :=
              hperm.mem_iff.mpr (List.mem_append_left new hy)
            have := top_time_le P _ te y htop hy3
            simp only [decide_eq_true_eq, not_le]
            omega
          rw [hempty]

theorem sorted_split {F : Type} (tr : List (TimerEvent F)) (A B : TimerEvent F)
    (hs : tr.Pairwise (fun a b => a.time ≤ b.time)) (hA : A ∈ tr) (hB : B ∈ tr)
    (hlt : A.time < B.time) :
    ∃ l1 l2, tr = l1 ++ A :: l2 ∧ B ∈ l2 ∧ B ∉ l1 := by
  obtain ⟨l1, l2, h⟩ := List.append_of_mem hA
  subst h
  have hb1 : B ∉ l1 := by
    intro hb
    have := (List.pairwise_append.mp hs).2.2 B hb A (List.mem_cons_self A l2)
    omega
  refine ⟨l1, l2, rfl, ?_, hb1⟩
  rcases List.mem_append.mp hB with h | h
  · exact absurd h hb1
  · rcases List.mem_cons.mp h with h2 | h2
    · rw [h2] at hlt; omega
    · exact h2

/-- C7: for two events `A` and `B` in the heap of the manager with
`A.time < B.time`, both due at `now_time` — however the heap was reached — the firing
loop of `tselect` (given more rounds than the heap has events, with callbacks that
return and register only later timers) invokes the callback of `A` before it
invokes that of `B` for the first time, and it does invoke both. -/
theorem tselect_fires_earlier_deadline_first {F σ : Type} {P : TimerQueue F} (H : Host P σ)
    (now_time : Int) (s : σ) (A B : TimerEvent F) (fuel : Nat)
    (hcb : CallbacksRegisterLater H now_time)
    (hA : A ∈ P.elems (H.tm s).active) (hB : B ∈ P.elems (H.tm s).active)
    (hlt : A.time < B.time) (hdue : B.time ≤ now_time)
    (hfuel : (P.elems (H.tm s).active).length < fuel) :
    ∃ (l1 l2 : List (TimerEvent F)) (s1 : σ),
      tselect_fire H now_time fuel s = some (l1 ++ A :: l2, Outcome.returns () s1) ∧
      B ∈ l2 ∧ B ∉ l1 := by
  obtain ⟨tr, s1, hrun, hperm, hsorted⟩ :=
    tselect_fire_spec H now_time hcb fuel s (P.elems (H.tm s).active) []
      (by simp) (by simp) hfuel
  have hAtr : A ∈ tr :=
    hperm.mem_iff.mpr (List.mem_filter.mpr ⟨hA, by simp only [decide_eq_true_eq]; omega⟩)
  have hBtr : B ∈ tr :=
    hperm.mem_iff.mpr (List.mem_filter.mpr ⟨hB, by simpa using hdue⟩)
  obtain ⟨l1, l2, htr, h2, h1⟩ := sorted_split tr A B hsorted hAtr hBtr hlt
  exact ⟨l1, l2, s1, by rw [hrun, htr], h2, h1⟩

theorem plainHost_registerLater {F : Type} (P : TimerQueue F) (now : Int) :
    CallbacksRegisterLater (plainHost P) now := by
  intro f s
  exact ⟨s, [], rfl, by simp, by simp⟩

/-- C7 at a manager where the timer due after 20 ms was registered before the timer
due after 10 ms: at 30 ms the loop invokes the 10 ms timer first. -/
theorem tselect_fires_earlier_deadline_first_witness :
    ∃ (l1 l2 : List (TimerEvent Callback)) (s1 : TimerManager (listQueue Callback)),
      tselect_fire (plainHost (listQueue Callback)) 30000000 3 twoTimers =
        some (l1 ++ { time := 10000000, func := Callback.drop 1, id := 2 } :: l2,
          Outcome.returns () s1) ∧
      { time := 20000000, func := Callback.drop 0, id := 1 } ∈ l2 ∧
      { time := 20000000, func := Callback.drop 0, id := 1 } ∉ l1 :=
  tselect_fires_earlier_deadline_first (plainHost (listQueue Callback)) 30000000 twoTimers
    { time := 10000000, func := Callback.drop 1, id := 2 }
    { time := 20000000, func := Callback.drop 0, id := 1 } 3
    (plainHost_registerLater (listQueue Callback) 30000000)
    (by decide) (by decide) (by decide) (by decide) (by decide)

/-- C8: for every state of the timer manager and every id that is not a key of the map
`timers` (never issued, or erased by `unitimeout`, or erased by `tselect` after the
timer fired), `unitimeout(id)` throws, and the state at the throw is the state before
the call: the heap `active` and the map are unchanged. -/
theorem unitimeout_unknown_id_throws {F : Type} {P : TimerQueue F} (tm : TimerManager P)
    (id : Nat) (h : mapFind tm.timers id = none) : unitimeout tm id = Outcome.throws tm := by
  simp only [unitimeout, h]

/-- C8 at the manager with two timers (ids 1 and 2): cancelling id 5 throws. -/
theorem unitimeout_unknown_id_throws_witness :
    mapFind twoTimers.timers 5 = none ∧ unitimeout twoTimers 5 = Outcome.throws twoTimers :=
  ⟨by decide, unitimeout_unknown_id_throws twoTimers 5 (by decide)⟩

theorem tselect_fire_no_id {F σ : Type} {P : TimerQueue F} (H : Host P σ) (now : Int)
    (id : Nat) (hcb : CallbacksAvoidId H id) :
    ∀ (fuel : Nat) (s : σ) (tr : List (TimerEvent F)) (o : Outcome Unit σ),
      NoEventWithId (H.tm s) id → tselect_fire H now fuel s = some (tr, o) →
      (∀ ev ∈ tr, ev.id ≠ id) ∧ ∀ s1, o = Outcome.returns () s1 → NoEventWithId (H.tm s1) id := by
  intro fuel
  induction fuel with
  | zero => intro s tr o _ h; simp [tselect_fire] at h
  | succ n ih =>
    intro s tr o hno hrun
    cases htop : P.top (H.tm s).active with
    | none =>
      simp only [tselect_fire, htop, Option.some.injEq, Prod.mk.injEq] at hrun
      obtain ⟨h1, h2⟩ := hrun
      subst h1
      subst h2
      refine ⟨by simp, ?_⟩
      intro s1 hs1
      injection hs1 with _ h3
      rw [← h3]; exact hno
    | some te =>
      have hte : te.id ≠ id := hno te (P.top_mem _ _ htop)
      by_cases hdue : te.time ≤ now
      · simp only [tselect_fire, htop, hdue, if_true] at hrun
        have hno1 : NoEventWithId
            (H.tm (H.setTm s { H.tm s with active := P.pop (H.tm s).active })) id := by
          rw [H.tm_setTm]
          intro ev hev
          exact hno ev ((P.elems_pop _ _ htop).mem_iff.mp (List.mem_cons_of_mem te hev))
        cases hcall : H.call te.func
            (H.setTm s { H.tm s with active := P.pop (H.tm s).active }) with
        | returns r s2 =>
          simp only [hcall] at hrun
          have hno2 : NoEventWithId (H.tm s2) id := hcb te.func _ s2 hcall hno1
          have hno3 : NoEventWithId (H.tm (H.setTm s2
              { H.tm s2 with timers := mapErase (H.tm s2).timers te.id })) id := by
            rw [H.tm_setTm]; exact hno2
          cases hrec : tselect_fire H now n
              (H.setTm s2 { H.tm s2 with timers := mapErase (H.tm s2).timers te.id }) with
          | none => simp [hrec] at hrun
          | some res =>
            obtain ⟨tr1, o1⟩ := res
            simp only [hrec, Option.some.injEq, Prod.mk.injEq] at hrun
            obtain ⟨h1, h2⟩ := hrun
            subst h1
            subst h2
            obtain ⟨ha, hb⟩ := ih _ tr1 o1 hno3 hrec
            refine ⟨?_, hb⟩
            intro ev hev
            rcases List.mem_cons.mp hev with h | h
            · rw [h]; exact hte
            · exact ha ev h
        | throws s2 =>
          simp only [hcall, Option.some.injEq, Prod.mk.injEq] at hrun
          obtain ⟨h1, h2⟩ := hrun
          subst h1
          subst h2
          refine ⟨?_, ?_⟩
          · intro ev hev
            rw [List.mem_singleton.mp hev]; exact hte
          · intro s1 hs1; cases hs1
        | undefined f =>
          simp only [hcall, Option.some.injEq, Prod.mk.injEq] at hrun
          obtain ⟨h1, h2⟩ := hrun
          subst h1
          subst h2
          refine ⟨?_, ?_⟩
          · intro ev hev
            rw [List.mem_singleton.mp hev]; exact hte
          · intro s1 hs1; cases hs1
      · simp only [tselect_fire, htop, hdue, if_false, Option.some.injEq, Prod.mk.injEq] at hrun
        obtain ⟨h1, h2⟩ := hrun
        subst h1
        subst h2
        refine ⟨by simp, ?_⟩
        intro s1 hs1
        injection hs1 with _ h3
        rw [← h3]; exact hno

/-- C9: for an id that is a key of the map `timers`, `unitimeout(id)` returns; the
heap afterwards holds exactly the events of the heap before whose id differs (the same
ids, deadlines and callbacks), the map has lost that key and kept every other entry,
and no event of that id is in the heap; and every firing loop of `tselect` started in
a state without an event of that id invokes no callback of an event of that id and
ends without such an event (as long as no callback registers that id anew). -/
theorem unitimeout_removes_exactly_that_timer {F : Type} {P : TimerQueue F}
    (tm : TimerManager P) (id : Nat) (h : (mapFind tm.timers id).isSome = true) :
    ∃ tm1 : TimerManager P,
      unitimeout tm id = Outcome.returns () tm1 ∧
      (P.elems tm1.active).Perm ((P.elems tm.active).filter (fun te => te.id != id)) ∧
      mapFind tm1.timers id = none ∧
      (∀ k, k ≠ id → mapFind tm1.timers k = mapFind tm.timers k) ∧
      NoEventWithId tm1 id ∧
      ∀ (σ : Type) (H : Host P σ) (now_time : Int) (fuel : Nat) (s : σ)
        (tr : List (TimerEvent F)) (o : Outcome Unit σ),
        CallbacksAvoidId H id → NoEventWithId (H.tm s) id →
        tselect_fire H now_time fuel s = some (tr, o) →
        (∀ ev ∈ tr, ev.id ≠ id) ∧
        ∀ s1, o = Outcome.returns () s1 → NoEventWithId (H.tm s1) id := by
  obtain ⟨v, hv⟩ := Option.isSome_iff_exists.mp h
  obtain ⟨tm1, hret, hperm, htimers, _⟩ := unitimeout_found tm id v hv
  refine ⟨tm1, hret, hperm, ?_, ?_, ?_, ?_⟩
  · rw [htimers]; exact mapFind_mapErase_self _ _
  · intro k hk
    rw [htimers]; exact mapFind_mapErase_ne _ _ _ hk
  · intro ev hev
    have := (List.mem_filter.mp (hperm.mem_iff.mp hev)).2
    simpa using this
  · intro σ H now_time fuel s tr o hcb hno hrun
    exact tselect_fire_no_id H now_time id hcb fuel s tr o hno hrun

theorem plainHost_avoidId {F : Type} (P : TimerQueue F) (id : Nat) :
    CallbacksAvoidId (plainHost P) id := by
  intro f s s2 hcall hno
  have : s = s2 := by
    simp only [plainHost] at hcall
    injection hcall
  rw [← this]; exact hno

/-- C9 at the manager with two timers: after cancelling id 2, the firing loop at 30 ms
invokes no callback of an event with id 2. -/
theorem unitimeout_removes_exactly_that_timer_witness :
    (mapFind twoTimers.timers 2).isSome = true ∧
    ∃ tm1 : TimerManager (listQueue Callback),
      unitimeout twoTimers 2 = Outcome.returns () tm1 ∧
      mapFind tm1.timers 2 = none ∧
      ∀ (tr : List (TimerEvent Callback)) (o : Outcome Unit (TimerManager (listQueue Callback))),
        tselect_fire (plainHost (listQueue Callback)) 30000000 3 tm1 = some (tr, o) →
        ∀ ev ∈ tr, ev.id ≠ 2 := by
  refine ⟨by decide, ?_⟩
  obtain ⟨tm1, h1, _, h3, _, h5, h6⟩ :=
    unitimeout_removes_exactly_that_timer twoTimers 2 (by decide)
  refine ⟨tm1, h1, h3, ?_⟩
  intro tr o hrun
  exact (h6 _ (plainHost (listQueue Callback)) 30000000 3 tm1 tr o
    (plainHost_avoidId _ 2) h5 hrun).1

/-! ### Reading from a stream -/

theorem toU32_natCast (n : Nat) (h : n < U32) : toU32 (n : Int) = n := by
  unfold toU32
  unfold U32 at h
  omega

theorem writeAt_append (done tail bs : List Nat) (hne : bs ≠ [])
    (h : bs.length ≤ tail.length) :
    writeAt (done ++ tail) (done.length : Int) bs = some (done ++ bs ++ tail.drop bs.length) := by
  unfold writeAt
  rw [if_neg hne, if_pos ⟨by omega, by simp only [Int.toNat_ofNat, List.length_append]; omega⟩]
  simp only [Int.toNat_ofNat, List.take_left', List.drop_append]

theorem readnLoop_zero (len fuel : Nat) (s : Sock) (mem : List Nat) (off : Nat) :
    readnLoop len (fuel + 1) s mem off 0 = some (Outcome.returns (len, mem) s) := by
  simp [readnLoop]

theorem consume_zero (s : Sock) : consume s 0 = s := by
  cases s with
  | nil => rfl
  | cons item rest =>
    cases item with
    | data bs => simp [consume]
    | err en => rfl

theorem readnLoop_available (len : Nat) :
    ∀ (s : Sock) (fuel : Nat) (done tail : List Nat) (cnt : Nat),
      s.length + 1 ≤ fuel → cnt ≤ (streamBytes s).length → cnt ≤ tail.length → cnt < U32 →
      readnLoop len fuel s (done ++ tail) done.length cnt =
        some (Outcome.returns (len, done ++ (streamBytes s).take cnt ++ tail.drop cnt)
          (consume s cnt)) := by
  intro s
  induction s with
  | nil =>
    intro fuel done tail cnt hf hc _ _
    have hc0 : cnt = 0 := by simpa [streamBytes] using hc
    subst hc0
    obtain ⟨f, rfl⟩ : ∃ f, fuel = f + 1 := ⟨fuel - 1, by omega⟩
    rw [readnLoop_zero]
    simp [consume]
  | cons item rest ih =>
    intro fuel done tail cnt hf hc ht hu
    obtain ⟨f, rfl⟩ : ∃ f, fuel = f + 1 := ⟨fuel - 1, by omega⟩
    have hf1 : rest.length + 1 ≤ f := by
      simp only [List.length_cons] at hf
      omega
    by_cases hc0 : cnt = 0
    · subst hc0
      rw [readnLoop_zero, consume_zero]
      simp
    · have hpos : 0 < cnt := Nat.pos_of_ne_zero hc0
      cases item with
      | err en => simp [streamBytes] at hc; omega
      | data B =>
        cases B with
        | nil => simp [streamBytes] at hc; omega
        | cons b bs =>
          have hsb : streamBytes (RecvItem.data (b :: bs) :: rest) =
              (b :: bs) ++ streamBytes rest := rfl
          rw [hsb] at hc ⊢
          by_cases hle : (b :: bs).length ≤ cnt
          · have hrecv : recv (RecvItem.data (b :: bs) :: rest) cnt =
                { ret := ((b :: bs).length : Int), bytes := b :: bs, errno := none,
                  sock := rest } := by
              simp only [recv, hle, if_true]
            have hrc : toU32 (((b :: bs).length : Nat) : Int) = (b :: bs).length :=
              toU32_natCast _ (by omega)
            have hw := writeAt_append done tail (b :: bs) (by simp) (by omega)
            have hcnt1 : (cnt + U32 - (b :: bs).length) % U32 = cnt - (b :: bs).length := by
              unfold U32 at hu ⊢
              omega
            have hrec := ih f (done ++ (b :: bs)) (tail.drop (b :: bs).length)
              (cnt - (b :: bs).length) hf1
              (by simp only [List.length_append] at hc; omega)
              (by simp only [List.length_drop]; omega) (by omega)
            have hcons : consume (RecvItem.data (b :: bs) :: rest) cnt =
                consume rest (cnt - (b :: bs).length) := by
              simp only [consume, hc0, if_false, hle, if_true]
            have hne0 : ¬ ((b :: bs).length = 0) := by simp
            rw [readnLoop]
            simp only [hpos, if_true, hrecv, hrc, hw, Nat.not_lt_zero, if_false, hne0, hcnt1]
            rw [hcons]
            have hoff : done.length + (b :: bs).length = (done ++ (b :: bs)).length := by
              simp
            rw [hoff, hrec]
            have htake : List.take cnt ((b :: bs) ++ streamBytes rest) =
                (b :: bs) ++ List.take (cnt - (b :: bs).length) (streamBytes rest) := by
              rw [List.take_append_eq_append_take, List.take_of_length_le hle]
            have hdrop : List.drop (cnt - (b :: bs).length) (List.drop (b :: bs).length tail) =
                List.drop cnt tail := by
              rw [List.drop_drop]
              congr 1
              omega
            rw [htake, hdrop]
            simp only [List.append_assoc]
          · have hlt : cnt < (b :: bs).length := Nat.lt_of_not_le hle
            have hrecv : recv (RecvItem.data (b :: bs) :: rest) cnt =
                { ret := (cnt : Int), bytes := (b :: bs).take cnt, errno := none,
                  sock := RecvItem.data ((b :: bs).drop cnt) :: rest } := by
              simp only [recv, hle, if_false]
            have hrc : toU32 ((cnt : Nat) : Int) = cnt := toU32_natCast _ hu
            have hlen : ((b :: bs).take cnt).length = cnt := by
              rw [List.length_take]; omega
            have hne : (b :: bs).take cnt ≠ [] := by
              intro h0
              rw [h0] at hlen
              simp at hlen
              omega
            have hw := writeAt_append done tail ((b :: bs).take cnt) hne (by omega)
            rw [hlen] at hw
            have hcnt1 : (cnt + U32 - cnt) % U32 = 0 := by
              unfold U32
              omega
            have hcons : consume (RecvItem.data (b :: bs) :: rest) cnt =
                RecvItem.data ((b :: bs).drop cnt) :: rest := by
              simp only [consume, hc0, if_false, hle]
            obtain ⟨g, rfl⟩ : ∃ g, f = g + 1 := ⟨f - 1, by omega⟩
            rw [readnLoop]
            simp only [hpos, if_true, hrecv, hrc, hw, Nat.not_lt_zero, if_false, hc0, hcnt1]
            rw [readnLoop_zero, hcons]
            have htake : List.take cnt ((b :: bs) ++ streamBytes rest) =
                List.take cnt (b :: bs) := by
              rw [List.take_append_of_le_length (le_of_lt hlt)]
            rw [htake]

theorem streamBytes_consume :
    ∀ (s : Sock) (n : Nat), n ≤ (streamBytes s).length →
      streamBytes (consume s n) = (streamBytes s).drop n := by
  intro s
  induction s with
  | nil => intro n _; simp [consume, streamBytes]
  | cons item rest ih =>
    intro n hn
    by_cases hn0 : n = 0
    · subst hn0
      rw [consume_zero]
      simp
    · cases item with
      | err en => simp [streamBytes] at hn; omega
      | data B =>
        cases B with
        | nil => simp [streamBytes] at hn; omega
        | cons b bs =>
          have hsb : streamBytes (RecvItem.data (b :: bs) :: rest) =
              (b :: bs) ++ streamBytes rest := rfl
          rw [hsb] at hn ⊢
          by_cases hle : (b :: bs).length ≤ n
          · have hcons : consume (RecvItem.data (b :: bs) :: rest) n =
                consume rest (n - (b :: bs).length) := by
              simp only [consume, hn0, if_false, hle, if_true]
            rw [hcons, ih (n - (b :: bs).length)
              (by simp only [List.length_append] at hn; omega)]
            rw [List.drop_append_eq_append_drop, List.drop_of_length_le hle, List.nil_append]
          · have hlt : n < (b :: bs).length := Nat.lt_of_not_le hle
            have hcons : consume (RecvItem.data (b :: bs) :: rest) n =
                RecvItem.data ((b :: bs).drop n) :: rest := by
              simp only [consume, hn0, if_false, hle]
            rw [hcons, List.drop_append_of_le_length (le_of_lt hlt)]
            have hd : ∃ c cs, (b :: bs).drop n = c :: cs := by
              cases hcs : (b :: bs).drop n with
              | nil =>
                have := congrArg List.length hcs
                simp only [List.length_drop, List.length_nil] at this
                omega
              | cons c cs => exact ⟨c, cs, rfl⟩
            obtain ⟨c, cs, hcs⟩ := hd
            rw [hcs]
            rfl

theorem readn_available (s : Sock) (buffer : List Nat) (len : Nat)
    (hs : len ≤ (streamBytes s).length) (hb : len ≤ buffer.length) (hu : len < U32) :
    readn s buffer len =
      some (Outcome.returns (len, (streamBytes s).take len ++ buffer.drop len)
        (consume s len)) := by
  have := readnLoop_available len s (s.length + 2) [] buffer len (by omega) hs hb hu
  simpa [readn] using this

theorem beBytes_length (v : Nat) : (beBytes v).length = 4 := rfl

theorem beBytes_leVal (a b c d : Nat) (ha : a < 256) (hb : b < 256) (hc : c < 256)
    (hd : d < 256) : beBytes (leVal [a, b, c, d]) = [d, c, b, a] := by
  simp only [beBytes, leVal, List.cons.injEq, and_true]
  omega

theorem leBytes_leVal (a b c d : Nat) (ha : a < 256) (hb : b < 256) (hc : c < 256)
    (hd : d < 256) : leBytes (leVal [a, b, c, d]) = [a, b, c, d] := by
  simp only [leBytes, leVal, List.cons.injEq, and_true]
  omega

theorem beBytes_beVal (a b c d : Nat) (ha : a < 256) (hb : b < 256) (hc : c < 256)
    (hd : d < 256) : beBytes (beVal [a, b, c, d]) = [a, b, c, d] := by
  simp only [beBytes, beVal, List.cons.injEq, and_true]
  omega

theorem beVal_beBytes (v : Nat) (h : v < U32) : beVal (beBytes v) = v := by
  unfold U32 at h
  simp only [beBytes, beVal]
  omega

theorem beBytes_bytes (v : Nat) :
    ∃ a b c d, beBytes v = [a, b, c, d] ∧ a < 256 ∧ b < 256 ∧ c < 256 ∧ d < 256 :=
  ⟨_, _, _, _, rfl, Nat.mod_lt _ (by decide), Nat.mod_lt _ (by decide),
    Nat.mod_lt _ (by decide), Nat.mod_lt _ (by decide)⟩

theorem ntohl_wire (e : Endian) (v : Nat) (h : v < U32) :
    htonl e (load32 e (beBytes v)) = v := by
  have hv := beVal_beBytes v h
  obtain ⟨a, b, c, d, hbytes, ha, hb, hc, hd⟩ := beBytes_bytes v
  rw [hbytes] at hv
  cases e
  · simp only [htonl, load32, hbytes, beBytes_leVal a b c d ha hb hc hd]
    rw [← hv]
    simp only [leVal, beVal]
    omega
  · simp only [htonl, load32, hbytes, beBytes_beVal a b c d ha hb hc hd]
    exact hv

theorem store32_htonl (e : Endian) (v : Nat) : store32 e (htonl e v) = beBytes v := by
  obtain ⟨a, b, c, d, hbytes, ha, hb, hc, hd⟩ := beBytes_bytes v
  cases e
  · simp only [htonl, load32, store32, hbytes, leBytes_leVal a b c d ha hb hc hd]
  · simp only [htonl, load32, store32, hbytes, beBytes_beVal a b c d ha hb hc hd]

/-- The reading of a framed record that fits the capacity. -/
theorem readvrec_fits (e : Endian) (s : Sock) (bp : List Nat) (len L : Nat)
    (body more : List Nat)
    (hs : streamBytes s = beBytes L ++ body ++ more) (hbody : body.length = L)
    (hL : L < U32) (hfit : L ≤ len) (hbp : L ≤ bp.length) :
    readvrec e s bp len =
      some (Outcome.returns { ret := L, bp := body ++ bp.drop L, errno := none }
        (consume (consume s 4) L)) := by
  have h4 : 4 ≤ (streamBytes s).length := by
    rw [hs]; simp only [List.length_append, beBytes_length]; omega
  have hr1 := readn_available s [0, 0, 0, 0] 4 h4 (by simp) (by unfold U32; omega)
  have ht4 : (streamBytes s).take 4 = beBytes L := by
    rw [hs, List.append_assoc, List.take_append_of_le_length (by simp [beBytes_length])]
    exact List.take_of_length_le (by simp [beBytes_length])
  have hs1 : streamBytes (consume s 4) = body ++ more := by
    rw [streamBytes_consume s 4 h4, hs, List.append_assoc,
      List.drop_append_of_le_length (by simp [beBytes_length])]
    have : List.drop 4 (beBytes L) = [] := rfl
    rw [this, List.nil_append]
  have hr2 := readn_available (consume s 4) bp L
    (by rw [hs1]; simp only [List.length_append]; omega) hbp hL
  have htb : (streamBytes (consume s 4)).take L = body := by
    rw [hs1, List.take_append_of_le_length (by omega)]
    exact List.take_of_length_le (by omega)
  rw [htb] at hr2
  have hnot : ¬ (L > len) := by omega
  unfold readvrec
  simp only [hr1, ht4, List.drop_succ_cons, List.drop_nil, List.append_nil, ne_eq,
    not_true_eq_false, if_false, ntohl_wire e L hL, hnot, hr2]

/-- The reading of a framed record longer than the capacity. -/
theorem readvrec_oversize (e : Endian) (s : Sock) (bp : List Nat) (len L : Nat)
    (body more : List Nat)
    (hs : streamBytes s = beBytes L ++ body ++ more) (hbody : body.length = L)
    (hL : L < U32) (hbig : len < L) (hbp : len ≤ bp.length) :
    readvrec e s bp len =
      some (Outcome.returns
        { ret := U32 - 1, bp := body.take len ++ bp.drop len, errno := some EMSGSIZE }
        (consume (consume s 4) L)) := by
  have h4 : 4 ≤ (streamBytes s).length := by
    rw [hs]; simp only [List.length_append, beBytes_length]; omega
  have hr1 := readn_available s [0, 0, 0, 0] 4 h4 (by simp) (by unfold U32; omega)
  have ht4 : (streamBytes s).take 4 = beBytes L := by
    rw [hs, List.append_assoc, List.take_append_of_le_length (by simp [beBytes_length])]
    exact List.take_of_length_le (by simp [beBytes_length])
  have hs1 : streamBytes (consume s 4) = body ++ more := by
    rw [streamBytes_consume s 4 h4, hs, List.append_assoc,
      List.drop_append_of_le_length (by simp [beBytes_length])]
    have : List.drop 4 (beBytes L) = [] := rfl
    rw [this, List.nil_append]
  have hr2 := readn_available (consume s 4) (List.replicate L 0) L
    (by rw [hs1]; simp only [List.length_append]; omega) (by simp) hL
  have htb : (streamBytes (consume s 4)).take L = body := by
    rw [hs1, List.take_append_of_le_length (by omega)]
    exact List.take_of_length_le (by omega)
  have hdr : List.drop L (List.replicate L (0 : Nat)) = [] := by
    apply List.drop_eq_nil_of_le
    simp
  rw [htb, hdr, List.append_nil] at hr2
  have hgt : L > len := hbig
  have hmin : min L len = len := by omega
  have hw : writeAt bp 0 (body.take len) = some (body.take len ++ bp.drop len) := by
    by_cases hl0 : len = 0
    · subst hl0
      simp [writeAt]
    · have hlen : (body.take len).length = len := by
        rw [List.length_take]; omega
      have hne : body.take len ≠ [] := by
        intro h0
        rw [h0] at hlen
        simp at hlen
        omega
      have := writeAt_append [] bp (body.take len) hne (by omega)
      simpa [hlen] using this
  unfold readvrec
  simp only [hr1, ht4, List.drop_succ_cons, List.drop_nil, List.append_nil, ne_eq,
    not_true_eq_false, if_false, ntohl_wire e L hL, hgt, if_true, hr2, hmin, hw]

/-! ### Sending -/

theorem getfreerecFrom_some (mr : List msgrec_t) (b j : Nat)
    (h : getfreerecFrom mr b = some j) :
    ∃ k d, j = b + k ∧ mr[k]? = some d ∧ d.pkt.len = FREE ∧
      ∀ k2 d2, k2 < k → mr[k2]? = some d2 → d2.pkt.len ≠ FREE := by
  induction mr generalizing b with
  | nil => simp [getfreerecFrom] at h
  | cons d ds ih =>
    by_cases hd : d.pkt.len = FREE
    · rw [getfreerecFrom, if_pos hd] at h
      have hj : b = j := Option.some.inj h
      exact ⟨0, d, hj.symm, by simp, hd, by intro k2 d2 hk; omega⟩
    · rw [getfreerecFrom, if_neg hd] at h
      obtain ⟨k, d1, hj, hk, hl, hfirst⟩ := ih (b + 1) h
      refine ⟨k + 1, d1, by omega, by simpa using hk, hl, ?_⟩
      intro k2 d2 hk2 hd2
      cases k2 with
      | zero =>
        have : d2 = d := by simpa using hd2.symm
        rw [this]; exact hd
      | succ k3 => exact hfirst k3 d2 (by omega) (by simpa using hd2)

theorem getfreerec_of_free (mr : List msgrec_t) (h : ∃ d ∈ mr, d.pkt.len = FREE) :
    ∃ i d, getfreerec mr = some i ∧ mr[i]? = some d ∧ d.pkt.len = FREE := by
  cases hf : getfreerec mr with
  | none =>
    obtain ⟨d, hd, hl⟩ := h
    have hall : ∀ d ∈ mr, d.pkt.len ≠ FREE := by
      intro d1 hd1 hl1
      have hex : ∃ j, getfreerecFrom mr 0 = some j := by
        clear hf hd hl
        generalize 0 = b
        induction mr generalizing b with
        | nil => cases hd1
        | cons a as ih =>
          by_cases ha : a.pkt.len = FREE
          · exact ⟨b, by rw [getfreerecFrom, if_pos ha]⟩
          · rw [getfreerecFrom, if_neg ha]
            rcases List.mem_cons.mp hd1 with h1 | h1
            · rw [h1] at hl1; exact absurd hl1 ha
            · exact ih h1 (b + 1)
      obtain ⟨j, hj⟩ := hex
      unfold getfreerec at hf
      rw [hf] at hj
      cases hj
    exact absurd hl (hall d hd)
  | some i =>
    obtain ⟨k, d, hi, hk, hl, _⟩ := getfreerecFrom_some mr 0 i hf
    have : i = k := by omega
    subst this
    exact ⟨i, d, rfl, hk, hl⟩

theorem SendMsg_sent {P : TimerQueue Callback} (e : Endian) (x : XOUT P) (msg : List Nat)
    (size : Nat) (sendRet now : Int) (tv : timeval) (i : Nat) (d : msgrec_t)
    (hfree : getfreerec x.mr = some i) (hi : x.mr[i]? = some d) (hsize : size ≤ BUF)
    (hsend : 0 ≤ sendRet) :
    SendMsg e x msg size sendRet now tv =
      Outcome.returns
        (result.True,
          beBytes ((4 + size) % U32) ++ store32 e x.msgid ++
            (storeMsg d.pkt.buf msg size).take size)
        { x with
          msgid := (x.msgid + 1) % U32
          mr := x.mr.set i
            { pkt :=
                { len := htonl e ((4 + size) % U32)
                  cookie := x.msgid
                  buf := storeMsg d.pkt.buf msg size }
              id := x.TimeXout.next_id
              start := tv }
          TimeXout := (timeout x.TimeXout (Callback.drop i) T1 now).2 } := by
  have h1 : ¬ (BUF < size) := by omega
  have h2 : ¬ (sendRet < 0) := by omega
  unfold SendMsg
  simp only [hfree, hi, h1, if_false, h2, store32_htonl]
  rfl

theorem storeMsg_take (dest msg : List Nat) (size : Nat) :
    (storeMsg dest msg size).take size = sentPayload msg size := by
  have hlen : ((msg.take size).takeWhile (fun c => c != 0)).length ≤ size := by
    have h1 := (List.takeWhile_sublist (l := msg.take size) (fun c => c != 0)).length_le
    have h2 := List.length_take_le size msg
    omega
  have hb : (List.takeWhile (fun c => c != 0) (List.take size msg) ++
      List.replicate (size - (List.takeWhile (fun c => c != 0) (List.take size msg)).length)
        0).length = size := by
    simp only [List.length_append, List.length_replicate]
    omega
  unfold storeMsg sentPayload strncpy
  by_cases h0 : size = 0
  · simp only [h0, if_true]
    simp
  · simp only [h0, if_false]
    rw [List.set_append]
    have hlt : size - 1 < (List.takeWhile (fun c => c != 0) (List.take size msg) ++
        List.replicate
          (size - (List.takeWhile (fun c => c != 0) (List.take size msg)).length) 0).length := by
      rw [hb]; omega
    rw [if_pos hlt]
    apply List.take_left'
    rw [List.length_set, hb]

theorem sentPayload_cstring (body : List Nat) (h : ∀ c ∈ body, c ≠ 0) :
    sentPayload (body ++ [0]) (body.length + 1) = body ++ [0] := by
  have htake : List.take (body.length + 1) (body ++ [0]) = body ++ [0] := by
    apply List.take_of_length_le
    simp
  have htw : List.takeWhile (fun c => c != 0) (body ++ [0]) = body := by
    clear htake
    induction body with
    | nil => simp
    | cons b bs ih =>
      have hb : b ≠ 0 := h b (List.mem_cons_self b bs)
      have hbs : ∀ c ∈ bs, c ≠ 0 := fun c hc => h c (List.mem_cons_of_mem b hc)
      simp only [List.cons_append, List.takeWhile_cons]
      have : (b != 0) = true := by simpa using hb
      rw [this, if_pos rfl, ih hbs]
  unfold sentPayload
  simp only [htake, htw, Nat.add_sub_cancel_left, List.replicate_one, Nat.add_one_ne_zero,
    if_false, Nat.add_sub_cancel]
  rw [List.set_append, if_neg (by omega)]
  simp

/-! ### Frames -/

theorem frame_roundtrip_core {P : TimerQueue Callback} (e : Endian) (x : XOUT P)
    (msg : List Nat) (size : Nat) (sendRet now : Int) (tv : timeval)
    (hfree : ∃ d ∈ x.mr, d.pkt.len = FREE) (hsize : size ≤ BUF) (hsend : 0 ≤ sendRet) :
    ∃ x1 : XOUT P,
      SendMsg e x msg size sendRet now tv =
        Outcome.returns
          (result.True, beBytes (4 + size) ++ (store32 e x.msgid ++ sentPayload msg size)) x1 ∧
      ∀ (s : Sock) (bp : List Nat) (len : Nat) (more : List Nat),
        streamBytes s =
          beBytes (4 + size) ++ (store32 e x.msgid ++ sentPayload msg size) ++ more →
        4 + size ≤ len → 4 + size ≤ bp.length →
        ∃ (r : ReadvrecResult) (s1 : Sock),
          readvrec e s bp len = some (Outcome.returns r s1) ∧ r.ret = 4 + size ∧
          (r.bp.drop 4).take size = sentPayload msg size := by
  obtain ⟨i, d, hget, hi, _⟩ := getfreerec_of_free x.mr hfree
  have hmod : (4 + size) % U32 = 4 + size := by
    apply Nat.mod_eq_of_lt
    unfold BUF at hsize
    unfold U32
    omega
  have hsp : (sentPayload msg size).length = size := by
    rw [← storeMsg_take (List.replicate size 0) msg size, List.length_take]
    have : size ≤ (storeMsg (List.replicate size 0) msg size).length := by
      unfold storeMsg strncpy
      by_cases h0 : size = 0
      · simp [h0]
      · simp only [h0, if_false, List.length_set, List.length_append, List.length_replicate,
          List.length_drop]
        have h1 := (List.takeWhile_sublist (l := msg.take size) (fun c => c != 0)).length_le
        have h2 := List.length_take_le size msg
        omega
    omega
  have hsent := SendMsg_sent e x msg size sendRet now tv i d hget hi hsize hsend
  rw [hmod, storeMsg_take, List.append_assoc] at hsent
  refine ⟨_, hsent, ?_⟩
  · intro s bp len more hs hlen hbp
    have hbody : (store32 e x.msgid ++ sentPayload msg size).length = 4 + size := by
      rw [List.length_append, store32_length, hsp]
    have hL : 4 + size < U32 := by
      unfold BUF at hsize
      unfold U32
      omega
    refine ⟨_, _, readvrec_fits e s bp len (4 + size) _ more hs hbody hL hlen hbp, rfl, ?_⟩
    have h4 : (store32 e x.msgid).length = 4 := store32_length e x.msgid
    simp only [List.append_assoc]
    rw [List.drop_append_of_le_length (by omega), ← h4, List.drop_length, List.nil_append,
      List.take_append_of_le_length (by omega)]
    exact List.take_of_length_le (by omega)

/-- C5, as amended: for every message of `n ≤ BUF` bytes sent with a free slot
available, `readvrec` with capacity at least `4 + n` on the bytes that `SendMsg`
transmits returns `4 + n`, and the `n` bytes after the cookie are the message as
`SendMsg` stored it: cut at its first NUL, padded with NULs, last byte NUL.  They are
the original message when `n = 0` and when the message is a NUL-terminated string
that fills the `n` bytes. -/
theorem frame_roundtrip_as_stored {P : TimerQueue Callback} (e : Endian) (x : XOUT P)
    (msg : List Nat) (size : Nat) (sendRet now : Int) (tv : timeval)
    (hfree : ∃ d ∈ x.mr, d.pkt.len = FREE) (hmsg : msg.length = size) (hsize : size ≤ BUF)
    (hsend : 0 ≤ sendRet) :
    ∃ (wire : List Nat) (x1 : XOUT P),
      SendMsg e x msg size sendRet now tv = Outcome.returns (result.True, wire) x1 ∧
      (∀ (s : Sock) (bp : List Nat) (len : Nat) (more : List Nat),
        streamBytes s = wire ++ more → 4 + size ≤ len → 4 + size ≤ bp.length →
        ∃ (r : ReadvrecResult) (s1 : Sock),
          readvrec e s bp len = some (Outcome.returns r s1) ∧ r.ret = 4 + size ∧
          (r.bp.drop 4).take size = sentPayload msg size) ∧
      (size = 0 → sentPayload msg size = msg) ∧
      (∀ body : List Nat, msg = body ++ [0] → (∀ c ∈ body, c ≠ 0) →
        sentPayload msg size = msg) := by
  obtain ⟨x1, hsend1, hread⟩ := frame_roundtrip_core e x msg size sendRet now tv hfree hsize hsend
  refine ⟨_, x1, hsend1, hread, ?_, ?_⟩
  · intro h0
    subst h0
    have : msg = [] := List.eq_nil_of_length_eq_zero hmsg
    subst this
    rfl
  · intro body hb hnz
    subst hb
    have : size = body.length + 1 := by simpa using hmsg.symm
    subst this
    exact sentPayload_cstring body hnz

theorem freePool_has_free : ∃ d ∈ freePool, d.pkt.len = FREE :=
  ⟨freeSlot, List.mem_replicate.mpr ⟨by decide, rfl⟩, rfl⟩

/-- C5 at the all-free tracker and the two-byte message `"A"` with its terminator: the
record read back carries the two bytes unchanged. -/
theorem frame_roundtrip_as_stored_witness :
    ∃ (wire : List Nat) (x1 : XOUT (listQueue Callback)),
      SendMsg Endian.little (trackerOf (listQueue Callback) freePool) [65, 0] 2 10 0
        { tv_sec := 0, tv_usec := 0 } = Outcome.returns (result.True, wire) x1 ∧
      (∃ (r : ReadvrecResult) (s1 : Sock),
        readvrec Endian.little [RecvItem.data (wire.take 3), RecvItem.data (wire.drop 3)]
          (List.replicate BUF 0) BUF = some (Outcome.returns r s1) ∧
        r.ret = 6 ∧ (r.bp.drop 4).take 2 = sentPayload [65, 0] 2) ∧
      sentPayload [65, 0] 2 = [65, 0] := by
  obtain ⟨wire, x1, h1, h2, _, h4⟩ :=
    frame_roundtrip_as_stored Endian.little (trackerOf (listQueue Callback) freePool) [65, 0] 2
      10 0 { tv_sec := 0, tv_usec := 0 } freePool_has_free rfl (by decide) (by decide)
  refine ⟨wire, x1, h1, ?_, h4 [65] rfl (by decide)⟩
  obtain ⟨x2, h5, _⟩ :=
    frame_roundtrip_core Endian.little (trackerOf (listQueue Callback) freePool) [65, 0] 2
      10 0 { tv_sec := 0, tv_usec := 0 } freePool_has_free (by decide) (by decide)
  rw [h5] at h1
  injection h1 with h6 _
  injection h6 with _ h7
  subst h7
  exact h2 _ (List.replicate BUF 0) BUF [] (by rfl) (by decide)
    (by rw [List.length_replicate]; decide)

/-- C5 as stated fails: the one-byte message `"A"` goes out as a NUL byte, so the
record decoded from the transmitted bytes carries `[0]` after the cookie, not
`[65]`. -/
theorem frame_roundtrip_counterexample :
    ∃ (wire : List Nat) (x1 : XOUT (listQueue Callback)) (r : ReadvrecResult) (s1 : Sock),
      SendMsg Endian.little (trackerOf (listQueue Callback) freePool) [65] 1 9 0
        { tv_sec := 0, tv_usec := 0 } = Outcome.returns (result.True, wire) x1 ∧
      readvrec Endian.little [RecvItem.data wire] (List.replicate BUF 0) BUF =
        some (Outcome.returns r s1) ∧
      (r.bp.drop 4).take 1 = [0] ∧ (r.bp.drop 4).take 1 ≠ [65] := by
  obtain ⟨x1, h1, h2⟩ :=
    frame_roundtrip_core Endian.little (trackerOf (listQueue Callback) freePool) [65] 1
      9 0 { tv_sec := 0, tv_usec := 0 } freePool_has_free (by decide) (by decide)
  obtain ⟨r, s1, h3, _, h5⟩ :=
    h2 [RecvItem.data (beBytes (4 + 1) ++
        (store32 Endian.little (trackerOf (listQueue Callback) freePool).msgid ++
          sentPayload [65] 1))]
      (List.replicate BUF 0) BUF [] (by rfl) (by decide)
      (by rw [List.length_replicate]; decide)
  have h6 : sentPayload [65] 1 = [0] := by decide
  refine ⟨_, x1, r, s1, h1, h3, by rw [h5, h6], ?_⟩
  rw [h5, h6]
  decide

/-- C6: for every framed record whose length field `L` exceeds the capacity `len`
passed to `readvrec`, with the four length bytes and the `L` bytes of the body on the
stream (in deliveries of any sizes) and a target buffer of at least `len` bytes,
`readvrec` returns `(u_int32_t)-1` — the value `-1` in the caller's `int` — with
`errno` set to `EMSGSIZE`, and the first `len` bytes of the target buffer are the
first `len` bytes of the body. -/
theorem readvrec_oversize_truncates (e : Endian) (s : Sock) (bp : List Nat) (len L : Nat)
    (body more : List Nat)
    (hs : streamBytes s = beBytes L ++ body ++ more) (hbody : body.length = L)
    (hL : L < U32) (hbig : len < L) (hbp : len ≤ bp.length) :
    ∃ (r : ReadvrecResult) (s1 : Sock),
      readvrec e s bp len = some (Outcome.returns r s1) ∧
      r.ret = U32 - 1 ∧ toInt32 r.ret = -1 ∧ r.errno = some EMSGSIZE ∧
      r.bp.take len = body.take len := by
  have hm1 : toInt32 (U32 - 1) = -1 := by decide
  refine ⟨_, _, readvrec_oversize e s bp len L body more hs hbody hL hbig hbp, rfl, hm1,
    rfl, ?_⟩
  have hlen : (body.take len).length = len := by
    rw [List.length_take]; omega
  simp only []
  rw [List.take_append_of_le_length (by omega)]
  exact List.take_of_length_le (by omega)

/-- C6 at a record of three bytes read with capacity two, delivered in two pieces. -/
theorem readvrec_oversize_truncates_witness :
    ∃ (r : ReadvrecResult) (s1 : Sock),
      readvrec Endian.little [RecvItem.data [0, 0, 0], RecvItem.data [3, 1, 2, 3]] [9, 9] 2 =
        some (Outcome.returns r s1) ∧
      r.ret = U32 - 1 ∧ toInt32 r.ret = -1 ∧ r.errno = some EMSGSIZE ∧
      r.bp.take 2 = [1, 2] :=
  readvrec_oversize_truncates Endian.little
    [RecvItem.data [0, 0, 0], RecvItem.data [3, 1, 2, 3]] [9, 9] 2 3 [1, 2, 3] []
    (by decide) (by decide) (by decide) (by decide) (by decide)

/-! ### Effects of the operations on pool and timers -/

theorem htonl_ne_FREE (e : Endian) (v : Nat) (h : v < FREE) : htonl e v ≠ FREE := by
  intro hf
  have h1 := store32_htonl e v
  rw [hf] at h1
  have h2 : store32 e FREE = [255, 255, 255, 255] := by cases e <;> rfl
  rw [h2] at h1
  have h3 := beVal_beBytes v (by unfold FREE at h; unfold U32; omega)
  rw [← h1] at h3
  unfold FREE at h
  simp only [beVal] at h3
  omega

theorem SendMsg_effect {P : TimerQueue Callback} (e : Endian) (x x1 : XOUT P) (msg : List Nat)
    (size : Nat) (sendRet now : Int) (tv : timeval) (r : result × List Nat)
    (h : SendMsg e x msg size sendRet now tv = Outcome.returns r x1) :
    ∃ (i : Nat) (d dnew : msgrec_t),
      getfreerec x.mr = some i ∧ x.mr[i]? = some d ∧ d.pkt.len = FREE ∧
      x1.mr = x.mr.set i dnew ∧ x1.msgid = (x.msgid + 1) % U32 ∧
      ((dnew.pkt.len = FREE ∧ x1.TimeXout = x.TimeXout ∧ r.1 = result.Error) ∨
       (dnew.pkt.len ≠ FREE ∧ dnew.pkt.cookie = x.msgid ∧ dnew.id = x.TimeXout.next_id ∧
        x1.TimeXout = (timeout x.TimeXout (Callback.drop i) T1 now).2 ∧
        r.1 = result.True)) := by
  unfold SendMsg at h
  cases hget : getfreerec x.mr with
  | none => simp [hget] at h
  | some i =>
    obtain ⟨k, d, hik, hk, hfree, _⟩ := getfreerecFrom_some x.mr 0 i hget
    have : i = k := by omega
    subst this
    simp only [hget, hk] at h
    by_cases hsz : BUF < size
    · simp [hsz] at h
    · simp only [hsz, if_false] at h
      by_cases hs : sendRet < 0
      · simp only [hs, if_true] at h
        injection h with hr hx
        subst hx
        exact ⟨i, d, _, rfl, hk, hfree, rfl, rfl, Or.inl ⟨rfl, rfl, by rw [← hr]⟩⟩
      · simp only [hs, if_false] at h
        injection h with hr hx
        subst hx
        refine ⟨i, d, _, rfl, hk, hfree, rfl, rfl, Or.inr ⟨?_, rfl, rfl, rfl, by rw [← hr]⟩⟩
        have hmod : (4 + size) % U32 = 4 + size := by
          apply Nat.mod_eq_of_lt
          unfold BUF at hsz
          unfold U32
          omega
        simp only [hmod]
        apply htonl_ne_FREE
        unfold BUF at hsz
        unfold FREE
        omega

theorem RecvAck_effect {P : TimerQueue Callback} (e : Endian) (x x1 : XOUT P) (s : Sock)
    (tv : timeval) (r : result × Sock)
    (h : RecvAck e x s tv = Outcome.returns r x1) :
    x1.msgid = x.msgid ∧
    ((x1.mr = x.mr ∧ x1.TimeXout = x.TimeXout) ∨
     ∃ (i : Nat) (d : msgrec_t) (tm : TimerManager P),
       x.mr[i]? = some d ∧ d.pkt.len ≠ FREE ∧
       unitimeout x.TimeXout d.id = Outcome.returns () tm ∧
       x1.mr = x.mr.set i (freemsgrec d) ∧ x1.TimeXout = tm) := by
  unfold RecvAck at h
  simp only [] at h
  split at h
  · cases h
  · split at h
    · injection h with _ hx
      subst hx
      exact ⟨rfl, Or.inl ⟨rfl, rfl⟩⟩
    · split at h
      · injection h with _ hx
        subst hx
        exact ⟨rfl, Or.inl ⟨rfl, rfl⟩⟩
      · split at h
        · injection h with _ hx
          subst hx
          exact ⟨rfl, Or.inl ⟨rfl, rfl⟩⟩
        · split at h
          · injection h with _ hx
            subst hx
            exact ⟨rfl, Or.inl ⟨rfl, rfl⟩⟩
          · rename_i i hfind
            split at h
            · cases h
            · rename_i d hd
              obtain ⟨k, dk, hik, hk, hlive, _⟩ := findmsgrecFrom_some x.mr 0 _ i hfind
              have hki : i = k := by omega
              subst hki
              have hdk : dk = d := by
                rw [hd] at hk
                exact (Option.some.inj hk).symm
              subst hdk
              split at h
              · cases h
              · cases h
              · rename_i u tm hu
                injection h with _ hx
                subst hx
                exact ⟨rfl, Or.inr ⟨i, dk, tm, hd, hlive, hu, rfl, rfl⟩⟩

theorem tselect_fire_invariant {F σ : Type} {P : TimerQueue F} (H : Host P σ) (now : Int)
    (Inv : σ → Prop)
    (hround : ∀ (s s2 : σ) (te : TimerEvent F), Inv s → P.top (H.tm s).active = some te →
      te.time ≤ now →
      H.call te.func (H.setTm s
        { active := P.pop (H.tm s).active, timers := (H.tm s).timers,
          next_id := (H.tm s).next_id }) = Outcome.returns () s2 →
      Inv (H.setTm s2
        { active := (H.tm s2).active, timers := mapErase (H.tm s2).timers te.id,
          next_id := (H.tm s2).next_id })) :
    ∀ (fuel : Nat) (s s1 : σ) (tr : List (TimerEvent F)),
      Inv s → tselect_fire H now fuel s = some (tr, Outcome.returns () s1) → Inv s1 := by
  intro fuel
  induction fuel with
  | zero => intro s s1 tr _ h; simp [tselect_fire] at h
  | succ n ih =>
    intro s s1 tr hinv hrun
    cases htop : P.top (H.tm s).active with
    | none =>
      simp only [tselect_fire, htop, Option.some.injEq, Prod.mk.injEq] at hrun
      obtain ⟨_, h2⟩ := hrun
      injection h2 with _ h3
      rw [← h3]; exact hinv
    | some te =>
      by_cases hdue : te.time ≤ now
      · simp only [tselect_fire, htop, hdue, if_true] at hrun
        split at hrun
        · rename_i r s2 hcall
          have hinv3 := hround s s2 te hinv htop hdue hcall
          split at hrun
          · cases hrun
          · rename_i tr1 o1 hrec
            simp only [Option.some.injEq, Prod.mk.injEq] at hrun
            obtain ⟨_, h2⟩ := hrun
            subst h2
            exact ih _ s1 tr1 hinv3 hrec
        · simp only [Option.some.injEq, Prod.mk.injEq] at hrun
          obtain ⟨_, h2⟩ := hrun
          cases h2
        · simp only [Option.some.injEq, Prod.mk.injEq] at hrun
          obtain ⟨_, h2⟩ := hrun
          cases h2
      · simp only [tselect_fire, htop, hdue, if_false, Option.some.injEq, Prod.mk.injEq] at hrun
        obtain ⟨_, h2⟩ := hrun
        injection h2 with _ h3
        rw [← h3]; exact hinv

/-! ### Cookie uniqueness -/

theorem set_getElem?_cases (mr : List msgrec_t) (i j : Nat) (a dj : msgrec_t)
    (h : (mr.set i a)[j]? = some dj) : (j = i ∧ dj = a) ∨ (j ≠ i ∧ mr[j]? = some dj) := by
  rw [List.getElem?_set] at h
  by_cases hij : i = j
  · rw [if_pos hij] at h
    by_cases hl : i < mr.length
    · rw [if_pos hl] at h
      exact Or.inl ⟨hij.symm, (Option.some.inj h).symm⟩
    · rw [if_neg hl] at h
      cases h
  · rw [if_neg hij] at h
    exact Or.inr ⟨fun h2 => hij h2.symm, h⟩

theorem poolInv_free (mr : List msgrec_t) (m m1 i : Nat) (a : msgrec_t)
    (h : PoolInv mr m) (ha : a.pkt.len = FREE) (hm : m ≤ m1) : PoolInv (mr.set i a) m1 := by
  obtain ⟨hd, hb⟩ := h
  have key : ∀ (j : Nat) (dj : msgrec_t), (mr.set i a)[j]? = some dj → dj.pkt.len ≠ FREE →
      mr[j]? = some dj := by
    intro j dj hj hl
    rcases set_getElem?_cases mr i j a dj hj with ⟨_, h2⟩ | ⟨_, h2⟩
    · rw [h2] at hl; exact absurd ha hl
    · exact h2
  constructor
  · intro j k dj dk hj hk hlj hlk hc
    exact hd j k dj dk (key j dj hj hlj) (key k dk hk hlk) hlj hlk hc
  · intro j dj hj hl
    have := hb j dj (key j dj hj hl) hl
    omega

theorem poolInv_new (mr : List msgrec_t) (m m1 i : Nat) (a : msgrec_t)
    (h : PoolInv mr m) (ha : a.pkt.cookie = m) (hm : m < m1) : PoolInv (mr.set i a) m1 := by
  obtain ⟨hd, hb⟩ := h
  constructor
  · intro j k dj dk hj hk hlj hlk hc
    rcases set_getElem?_cases mr i j a dj hj with ⟨hji, hja⟩ | ⟨hji, hja⟩
    · rcases set_getElem?_cases mr i k a dk hk with ⟨hki, _⟩ | ⟨_, hka⟩
      · rw [hji, hki]
      · have := hb k dk hka hlk
        rw [hja, ha] at hc
        omega
    · rcases set_getElem?_cases mr i k a dk hk with ⟨_, hka⟩ | ⟨_, hka⟩
      · have := hb j dj hja hlj
        rw [hka, ha] at hc
        omega
      · exact hd j k dj dk hja hka hlj hlk hc
  · intro j dj hj hl
    rcases set_getElem?_cases mr i j a dj hj with ⟨_, hja⟩ | ⟨_, hja⟩
    · rw [hja, ha]; exact hm
    · have := hb j dj hja hl
      omega

theorem unitimeout_returns {F : Type} {P : TimerQueue F} (tm tm1 : TimerManager P) (id : Nat)
    (h : unitimeout tm id = Outcome.returns () tm1) :
    ∃ v, mapFind tm.timers id = some v ∧
      (P.elems tm1.active).Perm ((P.elems tm.active).filter (fun te => te.id != id)) ∧
      tm1.timers = mapErase tm.timers id ∧ tm1.next_id = tm.next_id := by
  cases hf : mapFind tm.timers id with
  | none =>
    simp only [unitimeout, hf] at h
    cases h
  | some v =>
    obtain ⟨tm2, h2, hp, ht, hn⟩ := unitimeout_found tm id v hf
    rw [h] at h2
    injection h2 with _ h3
    subst h3
    exact ⟨v, rfl, hp, ht, hn⟩

theorem sendrev_effect {P : TimerQueue Callback} (e : Endian) (sv sv2 : Server P)
    (h : sendrev e sv = Outcome.returns () sv2) :
    ∃ (r : result × List Nat) (x1 : XOUT P),
      SendMsg e sv.xout
        ((List.range (BUF - 1)).map (fun i => letter ((sv.env sv.calls).rands i)) ++ [0]) BUF
        (sv.env sv.calls).sendRet (sv.env sv.calls).now (sv.env sv.calls).tv =
        Outcome.returns r x1 ∧
      ((r.1 ≠ result.Error ∧
          sv2.xout =
            { x1 with
              TimeXout :=
                (timeout x1.TimeXout Callback.sendrev T0 (sv.env sv.calls).now2).2 }) ∨
        (r.1 = result.Error ∧ sv2.xout = x1)) := by
  unfold sendrev at h
  simp only [] at h
  split at h
  · cases h
  · cases h
  · rename_i r x1 hs
    refine ⟨r, x1, hs, ?_⟩
    by_cases hr : r.1 = result.Error
    · right
      have hnn : ¬ (r.1 ≠ result.Error) := fun h2 => h2 hr
      rw [if_neg hnn] at h
      injection h with _ h2
      exact ⟨hr, by rw [← h2]⟩
    · left
      have hnn : r.1 ≠ result.Error := hr
      rw [if_pos hnn] at h
      injection h with _ h2
      exact ⟨hr, by rw [← h2]⟩

/-- A round of the firing loop whose callback is a drop timer has undefined behaviour:
the lambda reads the local pointer of a call of `SendMsg` that has returned. -/
theorem tselect_fire_drop_undefined {P : TimerQueue Callback} (e : Endian) (sv : Server P)
    (now_time : Int) (fuel i : Nat) (te : TimerEvent Callback)
    (htop : P.top sv.xout.TimeXout.active = some te) (hdue : te.time ≤ now_time)
    (hf : te.func = Callback.drop i) :
    tselect_fire (serverHost e) now_time (fuel + 1) sv =
      some ([te], Outcome.undefined Fault.danglingRef) := by
  have htop2 : P.top ((serverHost e).tm sv).active = some te := htop
  rw [tselect_fire]
  simp only [htop2, hdue, if_true]
  have hcall : ∀ s : Server P, (serverHost e).call te.func s =
      Outcome.undefined Fault.danglingRef := by
    intro s
    rw [hf]
    rfl
  rw [hcall]

/-- C3, as amended: in every state that a session reaches from the all-free pool
through `SendMsg` (run, directly or by `sendrev`, while the 32-bit counter `msgid`
does not wrap), `RecvAck`, the registration and the expiry of `sendrev` timers, and
statistics emission at `msgid == TSTAT/T0` while no slot is live, any two distinct live
slots carry different cookies.  The expiry of a drop timer is not among the steps: it
has undefined behaviour (`tselect_fire_drop_undefined`). -/
theorem cookies_distinct_between_resets {P : TimerQueue Callback} (e : Endian) (x : XOUT P)
    (h : Run e cookieGuard x) : CookiesDistinct x.mr := by
  have key : PoolInv x.mr x.msgid := by
    induction h with
    | init x hx =>
      obtain ⟨_, hfree, _⟩ := hx
      refine ⟨?_, ?_⟩
      · intro i j di dj hi _ hli _ _
        exact absurd (hfree di (List.getElem?_mem hi)) hli
      · intro i d hi hl
        exact absurd (hfree d (List.getElem?_mem hi)) hl
    | send x x1 msg size sendRet now tv r _ hg hs ih =>
      have hnowrap : x.msgid + 1 < U32 := hg.2 (Or.inl rfl)
      obtain ⟨i, d, dnew, _, _, _, hmr, hmsgid, hcase⟩ :=
        SendMsg_effect e x x1 msg size sendRet now tv r hs
      have hm : x1.msgid = x.msgid + 1 := by
        rw [hmsgid]; exact Nat.mod_eq_of_lt hnowrap
      rcases hcase with ⟨hfree, _, _⟩ | ⟨_, hcookie, _, _, _⟩
      · rw [hmr, hm]
        exact poolInv_free x.mr x.msgid _ i dnew ih hfree (by omega)
      · rw [hmr, hm]
        exact poolInv_new x.mr x.msgid _ i dnew ih hcookie (by omega)
    | ack x x1 s tv r _ _ hs ih =>
      obtain ⟨hmsgid, hcase⟩ := RecvAck_effect e x x1 s tv r hs
      rcases hcase with ⟨hmr, _⟩ | ⟨i, d, tm, _, _, _, hmr, _⟩
      · rw [hmr, hmsgid]; exact ih
      · rw [hmr, hmsgid]
        exact poolInv_free x.mr x.msgid _ i (freemsgrec d) ih rfl (le_refl _)
    | arm x now _ _ ih => exact ih
    | round x env calls te sv2 _ hg htop hcall ih =>
      have hnowrap : x.msgid + 1 < U32 := hg.2 (Or.inr rfl)
      cases hf : te.func with
      | drop i =>
        rw [hf] at hcall
        cases hcall
      | sendrev =>
        rw [hf] at hcall
        have hcall2 : sendrev e
            ((serverHost e).setTm { xout := x, env := env, calls := calls }
              { x.TimeXout with active := P.pop x.TimeXout.active }) =
            Outcome.returns () sv2 := hcall
        obtain ⟨r, x1, hs, hcase⟩ := sendrev_effect e _ sv2 hcall2
        obtain ⟨i, d, dnew, _, _, _, hmr, hmsgid, hcase2⟩ :=
          SendMsg_effect e _ x1 _ _ _ _ _ r hs
        have hmr2 : x1.mr = x.mr.set i dnew := hmr
        have hm : x1.msgid = x.msgid + 1 := by
          rw [hmsgid]; exact Nat.mod_eq_of_lt hnowrap
        have hx1 : PoolInv x1.mr x1.msgid := by
          rcases hcase2 with ⟨hfree, _, _⟩ | ⟨_, hcookie, _, _, _⟩
          · rw [hmr2, hm]
            exact poolInv_free x.mr x.msgid _ i dnew ih hfree (by omega)
          · rw [hmr2, hm]
            exact poolInv_new x.mr x.msgid _ i dnew ih hcookie (by omega)
        rcases hcase with ⟨_, hsv2⟩ | ⟨_, hsv2⟩
        · rw [hsv2]
          exact hx1
        · rw [hsv2]
          exact hx1
    | stat x _ hg _ =>
      obtain ⟨_, hfree⟩ := hg.1 rfl
      refine ⟨?_, ?_⟩
      · intro i j di dj hi _ hli _ _
        exact absurd (hfree di (List.getElem?_mem hi)) hli
      · intro i d hi hl
        exact absurd (hfree d (List.getElem?_mem hi)) hl
  exact key.1

/-! ### Reuse of cookies and timer ids -/

theorem mapFind_mapAssign {V : Type} (m : List (Nat × V)) (k k2 : Nat) (v : V) :
    mapFind (mapAssign m k v) k2 = if k = k2 then some v else mapFind (mapErase m k) k2 := by
  simp only [mapAssign, mapFind]

theorem oneLive_send {P : TimerQueue Callback} (e : Endian) (x : XOUT P) (m n : Nat)
    (h : OneLive x m n) :
    ∃ (x1 : XOUT P) (r : result × List Nat) (i : Nat) (d0 dnew : msgrec_t) (ev1 : TimerEvent Callback),
      SendMsg e x [0] 1 1 0 { tv_sec := 0, tv_usec := 0 } = Outcome.returns r x1 ∧
      0 < i ∧ x1.mr.length = MRSZ ∧
      x1.mr[0]? = some d0 ∧ d0.pkt.len ≠ FREE ∧ d0.pkt.cookie = 0 ∧ d0.id = 1 ∧
      x1.mr[i]? = some dnew ∧ dnew.pkt.len ≠ FREE ∧ dnew.pkt.cookie = m ∧ dnew.id = n ∧
      (∀ (j : Nat) (d : msgrec_t), 0 < j → j ≠ i → x1.mr[j]? = some d → d.pkt.len = FREE) ∧
      ev1.id = 1 ∧
      (P.elems x1.TimeXout.active).Perm
        [{ time := 0 + (T1 : Int) * 1000000, func := Callback.drop i, id := n }, ev1] ∧
      x1.TimeXout.timers = mapAssign x.TimeXout.timers n
        { time := 0 + (T1 : Int) * 1000000, func := Callback.drop i, id := n } ∧
      (∀ k, (mapFind x.TimeXout.timers k).isSome = true ↔ k = 1) ∧
      x1.msgid = (m + 1) % U32 ∧ x1.TimeXout.next_id = (n + 1) % U32 ∧ x1.cnt = 0 ∧
      x1.ack.length = 5 := by
  obtain ⟨hlen, ⟨d0, h0, hl0, hc0, hid0⟩, hothers, ⟨ev1, helems, hev1⟩, hmap, hm, hn, hcnt,
    hack⟩ := h
  have h1lt : 1 < x.mr.length := by rw [hlen]; decide
  have hfree : ∃ d ∈ x.mr, d.pkt.len = FREE :=
    ⟨x.mr[1], List.getElem_mem h1lt,
      hothers 1 x.mr[1] (by decide) (List.getElem?_eq_getElem h1lt)⟩
  obtain ⟨i, d, hget, hi, hdfree⟩ := getfreerec_of_free x.mr hfree
  have hipos : 0 < i := by
    rcases Nat.eq_zero_or_pos i with hz | hz
    · subst hz
      rw [h0] at hi
      have : d0 = d := Option.some.inj hi
      rw [this] at hl0
      exact absurd hdfree hl0
    · exact hz
  have hilt : i < x.mr.length := (List.getElem?_eq_some.mp hi).1
  have hsent := SendMsg_sent e x [0] 1 1 0 { tv_sec := 0, tv_usec := 0 } i d hget hi
    (by decide) (by decide)
  refine ⟨_, _, i, d0,
    { pkt :=
        { len := htonl e ((4 + 1) % U32), cookie := x.msgid, buf := storeMsg d.pkt.buf [0] 1 }
      id := x.TimeXout.next_id
      start := { tv_sec := 0, tv_usec := 0 } },
    ev1, hsent, hipos, ?_, ?_, hl0, hc0, hid0, ?_, ?_, hm, hn, ?_, hev1,
    ?_, ?_, hmap, ?_, ?_, hcnt, hack⟩
  · simp only [List.length_set]; exact hlen
  · show (x.mr.set i _)[0]? = some d0
    rw [List.getElem?_set_ne (by omega)]; exact h0
  · show (x.mr.set i _)[i]? = some _
    exact List.getElem?_set_self hilt
  · show htonl e ((4 + 1) % U32) ≠ FREE
    exact htonl_ne_FREE e _ (by decide)
  · intro j dj hj hji hdj
    have hdj2 : (x.mr.set i _)[j]? = some dj := hdj
    rw [List.getElem?_set_ne (fun h2 => hji h2.symm)] at hdj2
    exact hothers j dj hj hdj2
  · show (P.elems (P.push x.TimeXout.active _)).Perm _
    have hp := P.elems_push x.TimeXout.active
      { time := 0 + (T1 : Int) * 1000000, func := Callback.drop i, id := x.TimeXout.next_id }
    rw [helems] at hp
    rw [← hn]
    exact hp
  · show mapAssign x.TimeXout.timers x.TimeXout.next_id _ = _
    rw [hn]
  · show (x.msgid + 1) % U32 = _
    rw [hm]
  · show (x.TimeXout.next_id + 1) % U32 = _
    rw [hn]

theorem oneLive_cycle {P : TimerQueue Callback} (e : Endian) (g : XOUT P → OpKind → Prop)
    (hg : ∀ x, g x OpKind.send ∧ g x OpKind.ack) (x : XOUT P) (m n : Nat)
    (hreach : Reach e g x) (h : OneLive x m n) (hm0 : m ≠ 0) (hmu : m < U32) (hn1 : n ≠ 1) :
    ∃ x2 : XOUT P, Reach e g x2 ∧ OneLive x2 ((m + 1) % U32) ((n + 1) % U32) := by
  obtain ⟨x1, r, i, d0, dnew, ev1, hsend, hipos, hlen1, h0, hl0, hc0, hid0, hi, hli, hci,
    hidi, hothers, hev1, hperm, htimers, hmap, hmsgid, hnext, hcnt, hack⟩ :=
    oneLive_send e x m n h
  have hreach1 : Reach e g x1 := Reach.send x x1 _ _ _ _ _ r hreach (hg x).1 hsend
  have hdist : CookiesDistinct x1.mr := by
    have key : ∀ (j : Nat) (dj : msgrec_t), x1.mr[j]? = some dj → dj.pkt.len ≠ FREE →
        (j = 0 ∧ dj = d0) ∨ (j = i ∧ dj = dnew) := by
      intro j dj hj hlj
      by_cases hj0 : j = 0
      · subst hj0
        rw [h0] at hj
        exact Or.inl ⟨rfl, (Option.some.inj hj).symm⟩
      · by_cases hji : j = i
        · subst hji
          rw [hi] at hj
          exact Or.inr ⟨rfl, (Option.some.inj hj).symm⟩
        · exact absurd (hothers j dj (Nat.pos_of_ne_zero hj0) hji hj) hlj
    intro j k dj dk hj hk hlj hlk hc
    rcases key j dj hj hlj with ⟨hj1, hj2⟩ | ⟨hj1, hj2⟩ <;>
      rcases key k dk hk hlk with ⟨hk1, hk2⟩ | ⟨hk1, hk2⟩
    · rw [hj1, hk1]
    · rw [hj2, hk2, hc0, hci] at hc
      exact absurd hc.symm hm0
    · rw [hj2, hk2, hc0, hci] at hc
      exact absurd hc hm0
    · rw [hj1, hk1]
  have hfr : CompletesAck x1 [RecvItem.data (ACK :: store32 e m)] (ACK :: store32 e m) := by
    refine ⟨0, ACK :: store32 e m, [], by simpa using hcnt, by decide, hack, rfl, ?_, ?_⟩
    · simp [store32_length]
    · have : (ACK :: store32 e m).length = 5 := by simp [store32_length]
      simp only [List.take_zero, List.nil_append, Nat.sub_zero]
      exact List.take_of_length_le (by omega)
  have hbody : load32 e (store32 e m) = dnew.pkt.cookie := by
    rw [load32_store32 e m hmu, hci]
  have hpend : mapFind x1.TimeXout.timers dnew.id =
      some { time := 0 + (T1 : Int) * 1000000, func := Callback.drop i, id := n } := by
    rw [htimers, hidi, mapFind_mapAssign, if_pos rfl]
  have hrecv := RecvAck_matched e x1 [RecvItem.data (ACK :: store32 e m)]
    { tv_sec := 0, tv_usec := 0 } (store32 e m) i dnew _ hdist hi hli hfr hbody hpend
  refine ⟨_, Reach.ack x1 _ _ _ _ hreach1 (hg x1).2 hrecv, ?_⟩
  have hilt : i < x1.mr.length := (List.getElem?_eq_some.mp hi).1
  refine ⟨?_, ⟨d0, ?_, hl0, hc0, hid0⟩, ?_, ⟨ev1, ?_, hev1⟩, ?_, hmsgid, hnext, rfl, ?_⟩
  · simp only [List.length_set]; exact hlen1
  · show (x1.mr.set i (freemsgrec dnew))[0]? = some d0
    rw [List.getElem?_set_ne (by omega)]; exact h0
  · intro j dj hj hdj
    have hdj2 : (x1.mr.set i (freemsgrec dnew))[j]? = some dj := hdj
    rcases set_getElem?_cases x1.mr i j (freemsgrec dnew) dj hdj2 with ⟨_, h2⟩ | ⟨h1, h2⟩
    · rw [h2]; rfl
    · exact hothers j dj hj h1 h2
  · have hp := unitimeoutLoop_elems P dnew.id (P.elems x1.TimeXout.active).length
      x1.TimeXout.active P.empty (le_refl _)
    simp only [P.elems_empty, List.nil_append] at hp
    have hf := hperm.filter (fun te => te.id != dnew.id)
    have hb1 : ((n : Nat) != dnew.id) = false := by simp [hidi]
    have hb2 : (ev1.id != dnew.id) = true := by
      rw [hev1, hidi]
      simpa using fun h2 : (1 : Nat) = n => hn1 h2.symm
    simp only [List.filter_cons, hb1, hb2, if_true, List.filter_nil] at hf
    exact List.perm_singleton.mp (hp.trans hf)
  · intro k
    show (mapFind (mapErase x1.TimeXout.timers dnew.id) k).isSome = true ↔ k = 1
    rw [htimers, hidi]
    by_cases hk : k = n
    · subst hk
      rw [mapFind_mapErase_self]
      simp only [Option.isSome_none, Bool.false_eq_true, false_iff]
      exact hn1
    · rw [mapFind_mapErase_ne _ _ _ hk, mapFind_mapAssign, if_neg (fun h2 => hk h2.symm),
        mapFind_mapErase_ne _ _ _ hk]
      exact hmap k
  · show (ACK :: store32 e m).length = 5
    simp [store32_length]

theorem freePool_getElem?_zero : freePool[0]? = some freeSlot := by
  unfold freePool
  rw [List.getElem?_replicate]
  simp [MRSZ]

theorem freePool_getfreerec : getfreerec freePool = some 0 := by
  obtain ⟨i, d, hget, _, _⟩ := getfreerec_of_free freePool freePool_has_free
  obtain ⟨k, dk, hik, _, _, hfirst⟩ := getfreerecFrom_some freePool 0 i hget
  have hk0 : k = 0 := by
    rcases Nat.eq_zero_or_pos k with hz | hz
    · exact hz
    · exact absurd rfl (hfirst 0 freeSlot hz freePool_getElem?_zero)
  rw [hget, hik, hk0]

theorem initialTracker_trackerOf (P : TimerQueue Callback) :
    InitialTracker (trackerOf P freePool) := by
  refine ⟨?_, ?_, rfl⟩
  · show freePool.length = MRSZ
    simp [freePool]
  · intro d hd
    rw [List.eq_of_mem_replicate hd]
    rfl

theorem oneLive_first {P : TimerQueue Callback} (e : Endian) (g : XOUT P → OpKind → Prop)
    (hg : ∀ x, g x OpKind.send ∧ g x OpKind.ack) :
    ∃ x1 : XOUT P, Reach e g x1 ∧ OneLive x1 1 2 := by
  have hsent := SendMsg_sent e (trackerOf P freePool) [0] 1 1 0 { tv_sec := 0, tv_usec := 0 }
    0 freeSlot freePool_getfreerec freePool_getElem?_zero (by decide) (by decide)
  have hlen : freePool.length = MRSZ := by simp [freePool]
  have h0lt : 0 < freePool.length := by rw [hlen]; decide
  refine ⟨_, Reach.send _ _ _ _ _ _ _ _
    (Reach.init _ (initialTracker_trackerOf P)) (hg _).1 hsent, ?_⟩
  refine ⟨?_,
    ⟨{ pkt :=
        { len := htonl e ((4 + 1) % U32), cookie := 0,
          buf := storeMsg freeSlot.pkt.buf [0] 1 }
       id := 1
       start := { tv_sec := 0, tv_usec := 0 } }, ?_, ?_, rfl, rfl⟩, ?_,
    ⟨{ time := 0 + (T1 : Int) * 1000000, func := Callback.drop 0, id := 1 }, ?_, rfl⟩, ?_,
    rfl, rfl, rfl, rfl⟩
  · show (freePool.set 0 _).length = MRSZ
    rw [List.length_set]; exact hlen
  · show (freePool.set 0 _)[0]? = some _
    exact List.getElem?_set_self h0lt
  · show htonl e ((4 + 1) % U32) ≠ FREE
    exact htonl_ne_FREE e _ (by decide)
  · intro j d hj hd
    have hd2 : (freePool.set 0 _)[j]? = some d := hd
    rw [List.getElem?_set_ne (by omega)] at hd2
    rw [List.eq_of_mem_replicate (List.getElem?_mem hd2)]
    rfl
  · show P.elems (P.push P.empty _) = [_]
    have hp := P.elems_push P.empty
      { time := 0 + (T1 : Int) * 1000000, func := Callback.drop 0, id := 1 }
    rw [P.elems_empty] at hp
    exact List.perm_singleton.mp hp
  · intro k
    show (mapFind (mapAssign [] 1 _) k).isSome = true ↔ k = 1
    rw [mapFind_mapAssign]
    by_cases hk : 1 = k
    · simp [hk]
    · rw [if_neg hk]
      simp only [mapErase, List.filter_nil, mapFind, Option.isSome_none, Bool.false_eq_true,
        false_iff]
      exact fun h2 => hk h2.symm

theorem oneLive_iterate {P : TimerQueue Callback} (e : Endian) (g : XOUT P → OpKind → Prop)
    (hg : ∀ x, g x OpKind.send ∧ g x OpKind.ack) :
    ∀ j : Nat, j ≤ U32 - 1 →
      ∃ x : XOUT P, Reach e g x ∧ OneLive x ((1 + j) % U32) ((2 + j) % U32) := by
  intro j
  induction j with
  | zero =>
    intro _
    exact oneLive_first e g hg
  | succ j ih =>
    intro hj
    obtain ⟨x, hreach, hone⟩ := ih (by omega)
    have hm : (1 + j) % U32 = 1 + j := Nat.mod_eq_of_lt (by omega)
    have hn1 : (2 + j) % U32 ≠ 1 := by
      unfold U32 at hj ⊢
      omega
    obtain ⟨x2, hreach2, hone2⟩ := oneLive_cycle e g hg x _ _ hreach hone
      (by rw [hm]; omega) (Nat.mod_lt _ (by decide)) hn1
    refine ⟨x2, hreach2, ?_⟩
    have e1 : ((1 + j) % U32 + 1) % U32 = (1 + (j + 1)) % U32 := by
      unfold U32; omega
    have e2 : ((2 + j) % U32 + 1) % U32 = (2 + (j + 1)) % U32 := by
      unfold U32; omega
    rw [e1, e2] at hone2
    exact hone2

theorem oneLive_collision {P : TimerQueue Callback} (e : Endian) (g : XOUT P → OpKind → Prop)
    (hg : ∀ x, g x OpKind.send ∧ g x OpKind.ack) (x : XOUT P) (m n : Nat)
    (hreach : Reach e g x) (h : OneLive x m n) :
    ∃ (x1 : XOUT P) (i : Nat) (d0 di : msgrec_t),
      Reach e g x1 ∧ 0 ≠ i ∧ x1.mr[0]? = some d0 ∧ x1.mr[i]? = some di ∧
      d0.pkt.len ≠ FREE ∧ di.pkt.len ≠ FREE ∧
      d0.pkt.cookie = 0 ∧ di.pkt.cookie = m ∧ d0.id = 1 ∧ di.id = n := by
  obtain ⟨x1, r, i, d0, dnew, ev1, hsend, hipos, _, h0, hl0, hc0, hid0, hi, hli, hci,
    hidi, _⟩ := oneLive_send e x m n h
  exact ⟨x1, i, d0, dnew, Reach.send x x1 _ _ _ _ _ r hreach (hg x).1 hsend, by omega, h0, hi,
    hl0, hli, hc0, hci, hid0, hidi⟩

theorem statGate_allows {P : TimerQueue Callback} (x : XOUT P) :
    statGate x OpKind.send ∧ statGate x OpKind.ack :=
  ⟨fun h => (by cases h), fun h => (by cases h)⟩

theorem noStat_allows {P : TimerQueue Callback} (x : XOUT P) :
    noStat x OpKind.send ∧ noStat x OpKind.ack :=
  ⟨fun h => (by cases h), fun h => (by cases h)⟩

/-- A firing loop of `tselect` that returns keeps the tracker within the sessions
`Run`, when the guard admits rounds in every state: the loop is a sequence of rounds. -/
theorem tselect_fire_run {P : TimerQueue Callback} (e : Endian)
    (guard : XOUT P → RunOp → Prop) (hg : ∀ y, guard y RunOp.round) (now_time : Int)
    (fuel : Nat) (sv sv1 : Server P) (tr : List (TimerEvent Callback))
    (h : Run e guard sv.xout)
    (hrun : tselect_fire (serverHost e) now_time fuel sv = some (tr, Outcome.returns () sv1)) :
    Run e guard sv1.xout := by
  refine tselect_fire_invariant (serverHost e) now_time (fun s => Run e guard s.xout) ?_
    fuel sv sv1 tr h hrun
  intro s s2 te hinv htop _ hcall
  exact Run.round s.xout s.env s.calls te s2 hinv (hg _) htop hcall

/-- The sessions `Run` contain the states of `Reach`: they have the registration of
`sendrev` in addition, and take the firing loop round by round. -/
theorem run_of_reach {P : TimerQueue Callback} (e : Endian) (g : XOUT P → OpKind → Prop)
    (g2 : XOUT P → RunOp → Prop)
    (hsend : ∀ y, g y OpKind.send → g2 y RunOp.send)
    (hack : ∀ y, g y OpKind.ack → g2 y RunOp.ack)
    (hstat : ∀ y, g y OpKind.stat → g2 y RunOp.stat)
    (hround : ∀ y, g2 y RunOp.round) (x : XOUT P) (h : Reach e g x) : Run e g2 x := by
  induction h with
  | init x hx => exact Run.init x hx
  | send x x1 msg size sendRet now tv r _ hg hs ih =>
    exact Run.send x x1 msg size sendRet now tv r ih (hsend x hg) hs
  | ack x x1 s tv r _ hg hs ih => exact Run.ack x x1 s tv r ih (hack x hg) hs
  | fire x env calls fuel now_time tr sv1 _ _ hrun ih =>
    exact tselect_fire_run e g2 hround now_time fuel { xout := x, env := env, calls := calls }
      sv1 tr ih hrun
  | stat x _ hg ih => exact Run.stat x ih (hstat x hg)

/-- C3 as stated fails: after the first message (cookie 0, never acknowledged, its drop
timer not yet expired) and 249 further messages that are sent and acknowledged, `msgid`
is `TSTAT/T0 = 250`; statistics emission resets `msgid` to 0, and the next `SendMsg`
puts cookie 0 into a second live slot. -/
theorem cookie_reused_after_statistics :
    ∃ (x : XOUT (listQueue Callback)) (i j : Nat) (di dj : msgrec_t),
      Run Endian.little runGate x ∧ i ≠ j ∧ x.mr[i]? = some di ∧ x.mr[j]? = some dj ∧
      di.pkt.len ≠ FREE ∧ dj.pkt.len ≠ FREE ∧ di.pkt.cookie = dj.pkt.cookie := by
  obtain ⟨x, hreach, hone⟩ :=
    oneLive_iterate (P := listQueue Callback) Endian.little statGate statGate_allows 249
      (by decide)
  have hm : x.msgid = TSTAT / T0 := by
    rw [hone.2.2.2.2.2.1]; decide
  have hreach2 : Reach Endian.little statGate (init_cnt x) :=
    Reach.stat x hreach (fun _ => hm)
  have hone2 : OneLive (init_cnt x) 0 ((2 + 249) % U32) := by
    obtain ⟨h1, h2, h3, h4, h5, _, h7, _, h9⟩ := hone
    exact ⟨h1, h2, h3, h4, h5, rfl, h7, rfl, h9⟩
  obtain ⟨x1, i, d0, di, hr, hne, h0, hi, hl0, hli, hc0, hci, _, _⟩ :=
    oneLive_collision Endian.little statGate statGate_allows (init_cnt x) _ _ hreach2 hone2
  have hrun : Run Endian.little runGate x1 :=
    run_of_reach Endian.little statGate runGate (fun _ _ h => by cases h)
      (fun _ _ h => by cases h) (fun _ h _ => h rfl) (fun _ h => by cases h) x1 hr
  exact ⟨x1, 0, i, d0, di, hrun, hne, h0, hi, hl0, hli, by rw [hc0, hci]⟩

/-- C4 as stated fails: with the first message never acknowledged and its drop timer
not yet expired, after `2^32 - 1` further messages that are sent and acknowledged the
counter `next_id` has wrapped to 1, and the next `SendMsg` stores timer id 1 in a
second live slot. -/
theorem timer_id_reused_after_wrap :
    ∃ (x : XOUT (listQueue Callback)) (i j : Nat) (di dj : msgrec_t),
      Run Endian.little runNoStat x ∧ i ≠ j ∧ x.mr[i]? = some di ∧ x.mr[j]? = some dj ∧
      di.pkt.len ≠ FREE ∧ dj.pkt.len ≠ FREE ∧ di.id = dj.id := by
  obtain ⟨x, hreach, hone⟩ :=
    oneLive_iterate (P := listQueue Callback) Endian.little noStat noStat_allows (U32 - 1)
      (le_refl _)
  have hn : (2 + (U32 - 1)) % U32 = 1 := by decide
  rw [hn] at hone
  obtain ⟨x1, i, d0, di, hr, hne, h0, hi, hl0, hli, _, _, hid0, hidi⟩ :=
    oneLive_collision Endian.little noStat noStat_allows x _ _ hreach hone
  have hrun : Run Endian.little runNoStat x1 :=
    run_of_reach Endian.little noStat runNoStat (fun _ _ h => by cases h)
      (fun _ _ h => by cases h) (fun _ h h2 => by cases h2; exact h rfl)
      (fun _ h => by cases h) x1 hr
  exact ⟨x1, 0, i, d0, di, hrun, hne, h0, hi, hl0, hli, by rw [hid0, hidi]⟩

/-! ### The timer bookkeeping -/

theorem mapFind_mapAssign_eq {V : Type} (m : List (Nat × V)) (a k : Nat) (v : V) :
    mapFind (mapAssign m a v) k = if a = k then some v else mapFind m k := by
  rw [mapFind_mapAssign]
  by_cases h : a = k
  · rw [if_pos h, if_pos h]
  · rw [if_neg h, if_neg h, mapFind_mapErase_ne _ _ _ (fun h2 => h h2.symm)]

theorem mapFind_mapEraseOpt_assign {V : Type} (m : List (Nat × V)) (t : Option Nat)
    (n k : Nat) (v : V) (ht : ∀ k2, t = some k2 → k2 < n) :
    mapFind (mapEraseOpt (mapAssign m n v) t) k =
      mapFind (mapAssign (mapEraseOpt m t) n v) k := by
  cases t with
  | none => rfl
  | some k2 =>
    have hlt := ht k2 rfl
    show mapFind (mapErase (mapAssign m n v) k2) k = mapFind (mapAssign (mapErase m k2) n v) k
    rw [mapFind_mapAssign_eq]
    by_cases hk : k = k2
    · rw [hk, mapFind_mapErase_self, if_neg (by omega), mapFind_mapErase_self]
    · rw [mapFind_mapErase_ne _ _ _ hk, mapFind_mapAssign_eq, mapFind_mapErase_ne _ _ _ hk]

theorem timerRel_congr (mr : List msgrec_t) (L L1 : List (TimerEvent Callback))
    (M M1 : List (Nat × TimerEvent Callback)) (hL : L1.Perm L)
    (hM : ∀ k, mapFind M1 k = mapFind M k) (h : TimerRel mr L M) : TimerRel mr L1 M1 := by
  obtain ⟨h1, h2, h3, h4, h5⟩ := h
  refine ⟨?_, h2, ?_, ?_, ?_⟩
  · intro i d hi hl
    obtain ⟨hm, e1, he1, hid1, hf1⟩ := h1 i d hi hl
    exact ⟨by rw [hM]; exact hm, e1, hL.mem_iff.mpr he1, hid1, hf1⟩
  · intro e1 he1 i hf
    exact h3 e1 (hL.mem_iff.mp he1) i hf
  · rw [(hL.map _).nodup_iff]
    exact h4
  · intro k hk
    rw [hM] at hk
    obtain ⟨e1, he1, hid1⟩ := h5 k hk
    exact ⟨e1, hL.mem_iff.mpr he1, hid1⟩

theorem timerRel_add (mr : List msgrec_t) (L L1 : List (TimerEvent Callback))
    (M : List (Nat × TimerEvent Callback)) (i n : Nat) (d dnew : msgrec_t)
    (ev : TimerEvent Callback)
    (h : TimerRel mr L M) (hbelow : ∀ e1 ∈ L, e1.id < n) (hi : mr[i]? = some d)
    (hd : d.pkt.len = FREE) (hlive : dnew.pkt.len ≠ FREE) (hid : dnew.id = n)
    (hevid : ev.id = n) (hevf : ev.func = Callback.drop i) (hL : L1.Perm (ev :: L)) :
    TimerRel (mr.set i dnew) L1 (mapAssign M n ev) := by
  obtain ⟨h1, h2, h3, h4, h5⟩ := h
  have hilt : i < mr.length := (List.getElem?_eq_some.mp hi).1
  have hsub : ∀ e1, e1 ∈ L → e1 ∈ L1 := fun e1 he => hL.mem_iff.mpr (List.mem_cons_of_mem ev he)
  have hevmem : ev ∈ L1 := hL.mem_iff.mpr (List.mem_cons_self ev L)
  have hidlt : ∀ (j : Nat) (dj : msgrec_t), mr[j]? = some dj → dj.pkt.len ≠ FREE →
      dj.id < n := by
    intro j dj hj hl
    obtain ⟨_, e1, he1, hid1, _⟩ := h1 j dj hj hl
    rw [← hid1]; exact hbelow e1 he1
  refine ⟨?_, ?_, ?_, ?_, ?_⟩
  · intro j dj hj hl
    rcases set_getElem?_cases mr i j dnew dj hj with ⟨hji, hja⟩ | ⟨_, hja⟩
    · subst hji
      subst hja
      refine ⟨?_, ev, hevmem, by rw [hevid, hid], hevf⟩
      rw [hid, mapFind_mapAssign, if_pos rfl]; rfl
    · obtain ⟨hm, e1, he1, hid1, hf1⟩ := h1 j dj hja hl
      refine ⟨?_, e1, hsub e1 he1, hid1, hf1⟩
      have hne : dj.id ≠ n := by
        have := hidlt j dj hja hl
        omega
      rw [mapFind_mapAssign, if_neg (fun h6 => hne h6.symm), mapFind_mapErase_ne _ _ _ hne]
      exact hm
  · intro j k dj dk hj hk hlj hlk hjk
    rcases set_getElem?_cases mr i j dnew dj hj with ⟨hji, hja⟩ | ⟨_, hja⟩
    · rcases set_getElem?_cases mr i k dnew dk hk with ⟨hki, _⟩ | ⟨_, hka⟩
      · rw [hji, hki]
      · have := hidlt k dk hka hlk
        rw [hja, hid] at hjk
        omega
    · rcases set_getElem?_cases mr i k dnew dk hk with ⟨_, hka⟩ | ⟨_, hka⟩
      · have := hidlt j dj hja hlj
        rw [hka, hid] at hjk
        omega
      · exact h2 j k dj dk hja hka hlj hlk hjk
  · intro e1 he1 i1 hf1
    rcases List.mem_cons.mp (hL.mem_iff.mp he1) with h6 | h6
    · subst h6
      rw [hevf] at hf1
      injection hf1 with hii
      subst hii
      exact ⟨dnew, List.getElem?_set_self hilt, hlive, by rw [hid, hevid]⟩
    · obtain ⟨d1, hi1, hl1, hid1⟩ := h3 e1 h6 i1 hf1
      have hne : i ≠ i1 := by
        intro h7
        subst h7
        rw [hi] at hi1
        have : d = d1 := Option.some.inj hi1
        rw [← this] at hl1
        exact hl1 hd
      exact ⟨d1, by rw [List.getElem?_set_ne hne]; exact hi1, hl1, hid1⟩
  · have hp : (L1.map (fun e1 => e1.id)).Perm ((ev :: L).map (fun e1 => e1.id)) := hL.map _
    rw [hp.nodup_iff, List.map_cons, List.nodup_cons]
    refine ⟨?_, h4⟩
    intro hmem
    obtain ⟨e1, he1, hid1⟩ := List.mem_map.mp hmem
    have := hbelow e1 he1
    rw [hevid] at hid1
    omega
  · intro k hk
    by_cases hkn : n = k
    · exact ⟨ev, hevmem, by rw [hevid, hkn]⟩
    · rw [mapFind_mapAssign, if_neg hkn, mapFind_mapErase_ne _ _ _ (fun h6 => hkn h6.symm)] at hk
      obtain ⟨e1, he1, hid1⟩ := h5 k hk
      exact ⟨e1, hsub e1 he1, hid1⟩

theorem timerRel_arm (mr : List msgrec_t) (L L1 : List (TimerEvent Callback))
    (M : List (Nat × TimerEvent Callback)) (n : Nat) (ev : TimerEvent Callback)
    (h : TimerRel mr L M) (hbelow : ∀ e1 ∈ L, e1.id < n)
    (hevid : ev.id = n) (hevf : ev.func = Callback.sendrev) (hL : L1.Perm (ev :: L)) :
    TimerRel mr L1 (mapAssign M n ev) := by
  obtain ⟨h1, h2, h3, h4, h5⟩ := h
  have hsub : ∀ e1, e1 ∈ L → e1 ∈ L1 := fun e1 he => hL.mem_iff.mpr (List.mem_cons_of_mem ev he)
  have hevmem : ev ∈ L1 := hL.mem_iff.mpr (List.mem_cons_self ev L)
  refine ⟨?_, h2, ?_, ?_, ?_⟩
  · intro j dj hj hl
    obtain ⟨hm, e1, he1, hid1, hf1⟩ := h1 j dj hj hl
    refine ⟨?_, e1, hsub e1 he1, hid1, hf1⟩
    have hne : n ≠ dj.id := by
      have := hbelow e1 he1
      omega
    rw [mapFind_mapAssign_eq, if_neg hne]
    exact hm
  · intro e1 he1 i1 hf1
    rcases List.mem_cons.mp (hL.mem_iff.mp he1) with h6 | h6
    · subst h6
      rw [hevf] at hf1
      cases hf1
    · exact h3 e1 h6 i1 hf1
  · have hp : (L1.map (fun e1 => e1.id)).Perm ((ev :: L).map (fun e1 => e1.id)) := hL.map _
    rw [hp.nodup_iff, List.map_cons, List.nodup_cons]
    refine ⟨?_, h4⟩
    intro hmem
    obtain ⟨e1, he1, hid1⟩ := List.mem_map.mp hmem
    have := hbelow e1 he1
    rw [hevid] at hid1
    omega
  · intro k hk
    by_cases hkn : n = k
    · exact ⟨ev, hevmem, by rw [hevid, hkn]⟩
    · rw [mapFind_mapAssign_eq, if_neg hkn] at hk
      obtain ⟨e1, he1, hid1⟩ := h5 k hk
      exact ⟨e1, hsub e1 he1, hid1⟩

theorem timerRel_expire (mr : List msgrec_t) (L L1 : List (TimerEvent Callback))
    (M : List (Nat × TimerEvent Callback)) (te : TimerEvent Callback)
    (h : TimerRel mr L M) (hL : (te :: L1).Perm L) (hf : te.func = Callback.sendrev) :
    TimerRel mr L1 (mapErase M te.id) := by
  obtain ⟨h1, h2, h3, h4, h5⟩ := h
  have hnd : ((te :: L1).map (fun ev => ev.id)).Nodup := by
    rw [(hL.map _).nodup_iff]
    exact h4
  rw [List.map_cons, List.nodup_cons] at hnd
  have hsub : ∀ e1, e1 ∈ L1 → e1 ∈ L := fun e1 he => hL.mem_iff.mp (List.mem_cons_of_mem te he)
  have hfresh : ∀ e1, e1 ∈ L1 → e1.id ≠ te.id := by
    intro e1 he1 hc
    exact hnd.1 (List.mem_map.mpr ⟨e1, he1, hc⟩)
  have hback : ∀ e1, e1 ∈ L → e1.id ≠ te.id → e1 ∈ L1 := by
    intro e1 he1 hne
    rcases List.mem_cons.mp (hL.mem_iff.mpr he1) with h6 | h6
    · rw [h6] at hne
      exact absurd rfl hne
    · exact h6
  refine ⟨?_, h2, ?_, hnd.2, ?_⟩
  · intro j dj hj hl
    obtain ⟨hm, e1, he1, hid1, hf1⟩ := h1 j dj hj hl
    have hne1 : e1 ≠ te := by
      intro hc
      rw [hc, hf] at hf1
      cases hf1
    have he2 : e1 ∈ L1 := by
      rcases List.mem_cons.mp (hL.mem_iff.mpr he1) with h6 | h6
      · exact absurd h6 hne1
      · exact h6
    have hne : dj.id ≠ te.id := by
      rw [← hid1]
      exact hfresh e1 he2
    refine ⟨?_, e1, he2, hid1, hf1⟩
    rw [mapFind_mapErase_ne _ _ _ hne]
    exact hm
  · intro e1 he1 i1 hf1
    exact h3 e1 (hsub e1 he1) i1 hf1
  · intro k hk
    have hkd : k ≠ te.id := by
      intro h6
      rw [h6, mapFind_mapErase_self] at hk
      cases hk
    rw [mapFind_mapErase_ne _ _ _ hkd] at hk
    obtain ⟨e1, he1, hid1⟩ := h5 k hk
    exact ⟨e1, hback e1 he1 (by rw [hid1]; exact hkd), hid1⟩

theorem timerRel_freeSlot (mr : List msgrec_t) (L : List (TimerEvent Callback))
    (M : List (Nat × TimerEvent Callback)) (i : Nat) (d a : msgrec_t)
    (h : TimerRel mr L M) (hi : mr[i]? = some d) (hd : d.pkt.len = FREE)
    (ha : a.pkt.len = FREE) : TimerRel (mr.set i a) L M := by
  obtain ⟨h1, h2, h3, h4, h5⟩ := h
  have key : ∀ (j : Nat) (dj : msgrec_t), (mr.set i a)[j]? = some dj → dj.pkt.len ≠ FREE →
      mr[j]? = some dj := by
    intro j dj hj hl
    rcases set_getElem?_cases mr i j a dj hj with ⟨_, h6⟩ | ⟨_, h6⟩
    · rw [h6] at hl; exact absurd ha hl
    · exact h6
  refine ⟨?_, ?_, ?_, h4, h5⟩
  · intro j dj hj hl
    exact h1 j dj (key j dj hj hl) hl
  · intro j k dj dk hj hk hlj hlk hjk
    exact h2 j k dj dk (key j dj hj hlj) (key k dk hk hlk) hlj hlk hjk
  · intro e1 he1 i1 hf1
    obtain ⟨d1, hi1, hl1, hid1⟩ := h3 e1 he1 i1 hf1
    have hne : i ≠ i1 := by
      intro h7
      subst h7
      rw [hi] at hi1
      have : d = d1 := Option.some.inj hi1
      rw [← this] at hl1
      exact hl1 hd
    exact ⟨d1, by rw [List.getElem?_set_ne hne]; exact hi1, hl1, hid1⟩

theorem timerRel_remove (mr : List msgrec_t) (L L1 : List (TimerEvent Callback))
    (M : List (Nat × TimerEvent Callback)) (i : Nat) (d : msgrec_t)
    (h : TimerRel mr L M) (hi : mr[i]? = some d) (hd : d.pkt.len ≠ FREE)
    (hL : ∀ e1, e1 ∈ L1 ↔ e1 ∈ L ∧ e1.id ≠ d.id) (hnd : (L1.map (fun ev => ev.id)).Nodup) :
    TimerRel (mr.set i (freemsgrec d)) L1 (mapErase M d.id) := by
  obtain ⟨h1, h2, h3, h4, h5⟩ := h
  have key : ∀ (j : Nat) (dj : msgrec_t), (mr.set i (freemsgrec d))[j]? = some dj →
      dj.pkt.len ≠ FREE → j ≠ i ∧ mr[j]? = some dj := by
    intro j dj hj hl
    rcases set_getElem?_cases mr i j (freemsgrec d) dj hj with ⟨_, h6⟩ | ⟨h7, h6⟩
    · rw [h6] at hl; exact absurd rfl hl
    · exact ⟨h7, h6⟩
  refine ⟨?_, ?_, ?_, hnd, ?_⟩
  · intro j dj hj hl
    obtain ⟨hji, hja⟩ := key j dj hj hl
    have hne : dj.id ≠ d.id := fun h6 => hji (h2 j i dj d hja hi hl hd h6)
    obtain ⟨hm, e1, he1, hid1, hf1⟩ := h1 j dj hja hl
    refine ⟨?_, e1, (hL e1).mpr ⟨he1, by rw [hid1]; exact hne⟩, hid1, hf1⟩
    rw [mapFind_mapErase_ne _ _ _ hne]; exact hm
  · intro j k dj dk hj hk hlj hlk hjk
    exact h2 j k dj dk (key j dj hj hlj).2 (key k dk hk hlk).2 hlj hlk hjk
  · intro e1 he1 i1 hf1
    obtain ⟨he2, hne⟩ := (hL e1).mp he1
    obtain ⟨d1, hi1, hl1, hid1⟩ := h3 e1 he2 i1 hf1
    have hii : i ≠ i1 := by
      intro h7
      subst h7
      rw [hi] at hi1
      have : d = d1 := Option.some.inj hi1
      rw [← this] at hid1
      exact hne hid1.symm
    exact ⟨d1, by rw [List.getElem?_set_ne hii]; exact hi1, hl1, hid1⟩
  · intro k hk
    have hkd : k ≠ d.id := by
      intro h6
      rw [h6, mapFind_mapErase_self] at hk
      cases hk
    rw [mapFind_mapErase_ne _ _ _ hkd] at hk
    obtain ⟨e1, he1, hid1⟩ := h5 k hk
    exact ⟨e1, (hL e1).mpr ⟨he1, by rw [hid1]; exact hkd⟩, hid1⟩

theorem timerInvAt_send {P : TimerQueue Callback} (e : Endian) (x x1 : XOUT P)
    (t : Option Nat) (msg : List Nat) (size : Nat) (sendRet now : Int) (tv : timeval)
    (r : result × List Nat) (h : TimerInvAt x t) (hn : x.TimeXout.next_id + 1 < U32)
    (hs : SendMsg e x msg size sendRet now tv = Outcome.returns r x1) :
    TimerInvAt x1 t ∧ x1.TimeXout.next_id ≤ x.TimeXout.next_id + 1 := by
  obtain ⟨hrel, hbelow, ht⟩ := h
  obtain ⟨i, d, dnew, _, hi, hd, hmr, _, hcase⟩ :=
    SendMsg_effect e x x1 msg size sendRet now tv r hs
  rcases hcase with ⟨hfree, htm, _⟩ | ⟨hlive, _, hid, htm, _⟩
  · unfold TimerInvAt
    rw [hmr, htm]
    exact ⟨⟨timerRel_freeSlot x.mr _ _ i d dnew hrel hi hd hfree, hbelow, ht⟩,
      Nat.le_succ _⟩
  · have hp := P.elems_push x.TimeXout.active
      { time := now + (T1 : Int) * 1000000, func := Callback.drop i,
        id := x.TimeXout.next_id }
    have hnx : (timeout x.TimeXout (Callback.drop i) (T1 : Int) now).2.next_id =
        x.TimeXout.next_id + 1 := Nat.mod_eq_of_lt hn
    have hadd := timerRel_add x.mr _ _ _ i x.TimeXout.next_id d dnew _ hrel hbelow hi hd hlive
      hid rfl rfl hp
    unfold TimerInvAt
    rw [hmr, htm, hnx]
    refine ⟨⟨?_, ?_, ?_⟩, le_refl _⟩
    · exact timerRel_congr _ _ _ _ _ (List.Perm.refl _)
        (fun k => mapFind_mapEraseOpt_assign x.TimeXout.timers t x.TimeXout.next_id k _ ht)
        hadd
    · intro ev hev
      rcases List.mem_cons.mp (hp.mem_iff.mp hev) with h6 | h6
      · rw [h6]
        exact Nat.lt_succ_self _
      · exact Nat.lt_succ_of_lt (hbelow ev h6)
    · intro k hk
      exact Nat.lt_succ_of_lt (ht k hk)

theorem timerInvAt_arm {P : TimerQueue Callback} (x : XOUT P) (t : Option Nat) (now : Int)
    (h : TimerInvAt x t) (hn : x.TimeXout.next_id + 1 < U32) :
    TimerInvAt { x with TimeXout := (timeout x.TimeXout Callback.sendrev T0 now).2 } t := by
  obtain ⟨hrel, hbelow, ht⟩ := h
  have hp := P.elems_push x.TimeXout.active
    { time := now + (T0 : Int) * 1000000, func := Callback.sendrev,
      id := x.TimeXout.next_id }
  have hnx : (timeout x.TimeXout Callback.sendrev (T0 : Int) now).2.next_id =
      x.TimeXout.next_id + 1 := Nat.mod_eq_of_lt hn
  have harm := timerRel_arm x.mr _ _ _ x.TimeXout.next_id _ hrel hbelow rfl rfl hp
  refine ⟨?_, ?_, ?_⟩
  · exact timerRel_congr _ _ _ _ _ (List.Perm.refl _)
      (fun k => mapFind_mapEraseOpt_assign x.TimeXout.timers t x.TimeXout.next_id k _ ht)
      harm
  · intro ev hev
    show ev.id < (timeout x.TimeXout Callback.sendrev (T0 : Int) now).2.next_id
    rw [hnx]
    rcases List.mem_cons.mp (hp.mem_iff.mp hev) with h6 | h6
    · rw [h6]
      exact Nat.lt_succ_self _
    · exact Nat.lt_succ_of_lt (hbelow ev h6)
  · intro k hk
    show k < (timeout x.TimeXout Callback.sendrev (T0 : Int) now).2.next_id
    rw [hnx]
    exact Nat.lt_succ_of_lt (ht k hk)

theorem timerInvAt_ack {P : TimerQueue Callback} (e : Endian) (x x1 : XOUT P) (s : Sock)
    (tv : timeval) (r : result × Sock) (h : TimerInvAt x none)
    (hs : RecvAck e x s tv = Outcome.returns r x1) : TimerInvAt x1 none := by
  obtain ⟨hrel, hbelow, _⟩ := h
  have hrel2 : TimerRel x.mr (P.elems x.TimeXout.active) x.TimeXout.timers := hrel
  obtain ⟨_, hcase⟩ := RecvAck_effect e x x1 s tv r hs
  rcases hcase with ⟨hmr, htm⟩ | ⟨i, d, tm, hi, hlive, hu, hmr, htm⟩
  · unfold TimerInvAt
    rw [hmr, htm]
    exact ⟨hrel, hbelow, fun k hk => by cases hk⟩
  · obtain ⟨_, _, hp, htimers, hnext⟩ := unitimeout_returns x.TimeXout tm d.id hu
    have hmem : ∀ e1, e1 ∈ P.elems tm.active ↔
        e1 ∈ P.elems x.TimeXout.active ∧ e1.id ≠ d.id := by
      intro e1
      rw [hp.mem_iff, List.mem_filter]
      simp
    have hnd : ((P.elems tm.active).map (fun ev => ev.id)).Nodup := by
      rw [(hp.map _).nodup_iff]
      exact hrel2.2.2.2.1.sublist (List.Sublist.map _ (List.filter_sublist _))
    unfold TimerInvAt
    rw [hmr, htm, htimers, hnext]
    refine ⟨timerRel_remove x.mr _ _ _ i d hrel2 hi hlive hmem hnd, ?_, fun k hk => by cases hk⟩
    intro ev hev
    exact hbelow ev ((hmem ev).mp hev).1

theorem timerInvAt_pop {P : TimerQueue Callback} (x : XOUT P) (te : TimerEvent Callback)
    (h : TimerInvAt x none) (htop : P.top x.TimeXout.active = some te)
    (hf : te.func = Callback.sendrev) :
    TimerInvAt { x with TimeXout := { x.TimeXout with active := P.pop x.TimeXout.active } }
      (some te.id) := by
  obtain ⟨hrel, hbelow, _⟩ := h
  have hrel2 : TimerRel x.mr (P.elems x.TimeXout.active) x.TimeXout.timers := hrel
  have hpop := P.elems_pop x.TimeXout.active te htop
  refine ⟨timerRel_expire x.mr _ _ _ te hrel2 hpop hf, ?_, ?_⟩
  · intro ev hev
    exact hbelow ev (hpop.mem_iff.mp (List.mem_cons_of_mem te hev))
  · intro k hk
    injection hk with hk
    rw [← hk]
    exact hbelow te (P.top_mem _ _ htop)

theorem timerInvAt_erase {P : TimerQueue Callback} (x : XOUT P) (k : Nat)
    (h : TimerInvAt x (some k)) :
    TimerInvAt
      { x with TimeXout := { x.TimeXout with timers := mapErase x.TimeXout.timers k } }
      none :=
  ⟨h.1, h.2.1, fun _ hk => by cases hk⟩

theorem timerInvAt_initial {P : TimerQueue Callback} (x : XOUT P) (hx : InitialTracker x) :
    TimerInvAt x none := by
  obtain ⟨_, hfree, htm⟩ := hx
  have hel : P.elems x.TimeXout.active = [] := by
    rw [htm]; exact P.elems_empty
  have htimers : x.TimeXout.timers = [] := by rw [htm]; rfl
  refine ⟨⟨?_, ?_, ?_, ?_, ?_⟩, ?_, fun k hk => by cases hk⟩
  · intro i d hi hl
    exact absurd (hfree d (List.getElem?_mem hi)) hl
  · intro i j di dj hi _ hli _ _
    exact absurd (hfree di (List.getElem?_mem hi)) hli
  · intro ev hev
    rw [hel] at hev
    cases hev
  · rw [hel]; exact List.nodup_nil
  · intro k hk
    have hk2 : (mapFind x.TimeXout.timers k).isSome = true := hk
    rw [htimers] at hk2
    cases hk2
  · intro ev hev
    rw [hel] at hev
    cases hev

theorem run_timerInvAt {P : TimerQueue Callback} (e : Endian) (x : XOUT P)
    (h : Run e timerGuard x) : TimerInvAt x none := by
  induction h with
  | init x hx => exact timerInvAt_initial x hx
  | send x x1 msg size sendRet now tv r _ hg hs ih =>
    exact (timerInvAt_send e x x1 none msg size sendRet now tv r ih (hg.1 (Or.inl rfl)) hs).1
  | ack x x1 s tv r _ _ hs ih => exact timerInvAt_ack e x x1 s tv r ih hs
  | arm x now _ hg ih => exact timerInvAt_arm x none now ih (hg.1 (Or.inr rfl))
  | round x env calls te sv2 _ hg htop hcall ih =>
    have hn2 : x.TimeXout.next_id + 2 < U32 := hg.2 rfl
    cases hf : te.func with
    | drop i =>
      rw [hf] at hcall
      cases hcall
    | sendrev =>
      rw [hf] at hcall
      have hcall2 : sendrev e
          ((serverHost e).setTm { xout := x, env := env, calls := calls }
            { x.TimeXout with active := P.pop x.TimeXout.active }) =
          Outcome.returns () sv2 := hcall
      have hpop := timerInvAt_pop x te ih htop hf
      obtain ⟨r, x1, hs, hcase⟩ := sendrev_effect e _ sv2 hcall2
      obtain ⟨hx1, hnx1⟩ := timerInvAt_send e _ x1 (some te.id) _ _ _ _ _ r hpop
        (by show x.TimeXout.next_id + 1 < U32; omega) hs
      have hnx2 : x1.TimeXout.next_id ≤ x.TimeXout.next_id + 1 := hnx1
      rcases hcase with ⟨_, hsv2⟩ | ⟨_, hsv2⟩
      · rw [hsv2]
        exact timerInvAt_erase _ te.id (timerInvAt_arm x1 (some te.id) _ hx1 (by omega))
      · rw [hsv2]
        exact timerInvAt_erase _ te.id hx1
  | stat x _ _ ih => exact ih

/-- C4, as amended: in every state that a session reaches from the all-free pool and
the empty timer manager through `SendMsg`, `RecvAck`, the registration and the expiry
of `sendrev` timers and statistics emission, with timers registered only while the
32-bit counter `next_id` does not wrap: the timer id stored in each live slot is
pending (a key of the map and the id of an event in the heap, which is the drop timer
registered for this slot), distinct live slots store distinct timer ids, and every
pending drop timer is registered for one slot, which is live and stores its id.  The
expiry of a drop timer is not among the steps: it has undefined behaviour
(`tselect_fire_drop_undefined`). -/
theorem timer_bookkeeping_without_wrap {P : TimerQueue Callback} (e : Endian) (x : XOUT P)
    (h : Run e timerGuard x) :
    (∀ (i : Nat) (d : msgrec_t), x.mr[i]? = some d → d.pkt.len ≠ FREE →
      (mapFind x.TimeXout.timers d.id).isSome = true ∧
      ∃ ev ∈ P.elems x.TimeXout.active, ev.id = d.id ∧ ev.func = Callback.drop i) ∧
    (∀ (i j : Nat) (di dj : msgrec_t), x.mr[i]? = some di → x.mr[j]? = some dj →
      di.pkt.len ≠ FREE → dj.pkt.len ≠ FREE → di.id = dj.id → i = j) ∧
    (∀ ev ∈ P.elems x.TimeXout.active, ∀ (i : Nat), ev.func = Callback.drop i →
      ∃ d : msgrec_t, x.mr[i]? = some d ∧ d.pkt.len ≠ FREE ∧ d.id = ev.id) ∧
    TimerInv x := by
  have hrel : TimerInv x := (run_timerInvAt e x h).1
  exact ⟨hrel.1, hrel.2.1, hrel.2.2.1, hrel⟩

set_option maxRecDepth 100000

/-- C3 (amended) at the tracker of a session that registers `sendrev` and lets its
timer expire twice: the slots 0 and 1 are live with the cookies 0 and 1, the timer of
`sendrev` is pending, and the live cookies are distinct. -/
theorem cookies_distinct_between_resets_witness :
    ∃ (x : XOUT (listQueue Callback)) (d0 d1 : msgrec_t),
      Run Endian.little cookieGuard x ∧
      x.mr[0]? = some d0 ∧ x.mr[1]? = some d1 ∧
      d0.pkt.len ≠ FREE ∧ d1.pkt.len ≠ FREE ∧ d0.pkt.cookie = 0 ∧ d1.pkt.cookie = 1 ∧
      ((listQueue Callback).elems x.TimeXout.active).map (fun ev => (ev.id, ev.func)) =
        [(2, Callback.drop 0), (4, Callback.drop 1), (5, Callback.sendrev)] ∧
      CookiesDistinct x.mr := by
  have h0 : Run Endian.little cookieGuard (trackerOf (listQueue Callback) freePool) :=
    Run.init _ (initialTracker_trackerOf _)
  have h1 := Run.arm _ 0 h0
    ⟨fun h => (by cases h), fun h => (by rcases h with h | h <;> cases h)⟩
  have h2 := Run.round _ silentPeerServer.env 0
    { time := 20000000, func := Callback.sendrev, id := 1 } _ h1
    ⟨fun h => (by cases h), fun _ => (by decide)⟩ rfl rfl
  have h3 := Run.round _ silentPeerServer.env 1
    { time := 40000000, func := Callback.sendrev, id := 3 } _ h2
    ⟨fun h => (by cases h), fun _ => (by decide)⟩ rfl rfl
  exact ⟨_, _, _, h3, rfl, rfl, by decide, by decide, rfl, rfl, rfl,
    cookies_distinct_between_resets Endian.little _ h3⟩

/-- C4 (amended) at the tracker of a session that registers `sendrev` and lets its
timer expire twice: the slots 0 and 1 are live and store the timer ids 2 and 4, the
heap holds their drop timers and the timer of `sendrev`, and the bookkeeping holds. -/
theorem timer_bookkeeping_without_wrap_witness :
    ∃ (x : XOUT (listQueue Callback)) (d0 d1 : msgrec_t),
      Run Endian.little timerGuard x ∧
      x.mr[0]? = some d0 ∧ x.mr[1]? = some d1 ∧
      d0.pkt.len ≠ FREE ∧ d1.pkt.len ≠ FREE ∧ d0.id = 2 ∧ d1.id = 4 ∧
      ((listQueue Callback).elems x.TimeXout.active).map (fun ev => (ev.id, ev.func)) =
        [(2, Callback.drop 0), (4, Callback.drop 1), (5, Callback.sendrev)] ∧
      x.TimeXout.timers.map (fun p => p.1) = [5, 4, 2] ∧
      TimerInv x := by
  have h0 : Run Endian.little timerGuard (trackerOf (listQueue Callback) freePool) :=
    Run.init _ (initialTracker_trackerOf _)
  have h1 := Run.arm _ 0 h0 ⟨fun _ => (by decide), fun h => (by cases h)⟩
  have h2 := Run.round _ silentPeerServer.env 0
    { time := 20000000, func := Callback.sendrev, id := 1 } _ h1
    ⟨fun h => (by rcases h with h | h <;> cases h), fun _ => (by decide)⟩ rfl rfl
  have h3 := Run.round _ silentPeerServer.env 1
    { time := 40000000, func := Callback.sendrev, id := 3 } _ h2
    ⟨fun h => (by rcases h with h | h <;> cases h), fun _ => (by decide)⟩ rfl rfl
  exact ⟨_, _, _, h3, rfl, rfl, by decide, by decide, rfl, rfl, rfl, rfl,
    (timer_bookkeeping_without_wrap Endian.little _ h3).2.2.2⟩

/-! ### Exhausting the pool -/

theorem filled_step {P : TimerQueue Callback} (e : Endian) (g : XOUT P → OpKind → Prop)
    (hg : ∀ x, g x OpKind.send ∧ g x OpKind.ack) (x : XOUT P) (k : Nat)
    (hreach : Reach e g x) (h : Filled x k) (hk : k < MRSZ) :
    ∃ x1 : XOUT P, Reach e g x1 ∧ Filled x1 (k + 1) := by
  obtain ⟨hlen, hslots⟩ := h
  have hklt : k < x.mr.length := by rw [hlen]; exact hk
  have hkfree : x.mr[k].pkt.len = FREE :=
    (hslots k x.mr[k] (List.getElem?_eq_getElem hklt)).2 (le_refl k)
  obtain ⟨i, d, hget, hi, hdfree⟩ :=
    getfreerec_of_free x.mr ⟨x.mr[k], List.getElem_mem hklt, hkfree⟩
  obtain ⟨k1, d1, hik, hk1, _, hfirst⟩ := getfreerecFrom_some x.mr 0 i hget
  have hik1 : i = k1 := by omega
  subst hik1
  have hile : i ≤ k := by
    by_contra hgt
    exact hfirst k x.mr[k] (by omega) (List.getElem?_eq_getElem hklt) hkfree
  have hige : k ≤ i := by
    by_contra hlt
    exact (hslots i d hi).1 (by omega) hdfree
  have hieq : i = k := by omega
  subst hieq
  have hsent := SendMsg_sent e x [0] 1 1 0 { tv_sec := 0, tv_usec := 0 } i d hget hi
    (by decide) (by decide)
  refine ⟨_, Reach.send x _ _ _ _ _ _ _ hreach (hg x).1 hsent, ?_, ?_⟩
  · show (x.mr.set i _).length = MRSZ
    rw [List.length_set]; exact hlen
  · intro j dj hj
    have hj2 : (x.mr.set i
        { pkt :=
            { len := htonl e ((4 + 1) % U32), cookie := x.msgid,
              buf := storeMsg d.pkt.buf [0] 1 }
          id := x.TimeXout.next_id
          start := { tv_sec := 0, tv_usec := 0 } })[j]? = some dj := hj
    rcases set_getElem?_cases x.mr i j _ dj hj2 with ⟨hji, hja⟩ | ⟨hji, hja⟩
    · subst hja
      refine ⟨fun _ => htonl_ne_FREE e _ (by decide), fun h2 => ?_⟩
      omega
    · obtain ⟨ha, hb⟩ := hslots j dj hja
      exact ⟨fun h2 => ha (by omega), fun h2 => hb (by omega)⟩

theorem filled_reach {P : TimerQueue Callback} (e : Endian) (g : XOUT P → OpKind → Prop)
    (hg : ∀ x, g x OpKind.send ∧ g x OpKind.ack) :
    ∀ k : Nat, k ≤ MRSZ → ∃ x : XOUT P, Reach e g x ∧ Filled x k := by
  intro k
  induction k with
  | zero =>
    intro _
    refine ⟨trackerOf P freePool, Reach.init _ (initialTracker_trackerOf P),
      (initialTracker_trackerOf P).1, ?_⟩
    intro j d hj
    refine ⟨fun h2 => by omega, fun _ => ?_⟩
    exact (initialTracker_trackerOf P).2.1 d (List.getElem?_mem hj)
  | succ k ih =>
    intro hk
    obtain ⟨x, hreach, hfilled⟩ := ih (by omega)
    exact filled_step e g hg x k hreach hfilled (by omega)

/-- C1 at a tracker reached from the all-free pool by 128 calls of `SendMsg` without
an ACK or a drop in between: every slot is live, and the next call is a null
dereference. -/
theorem SendMsg_exhausted_nullDeref_witness :
    ∃ x : XOUT (listQueue Callback),
      Reach Endian.little noStat x ∧ (∀ d ∈ x.mr, d.pkt.len ≠ FREE) ∧
      SendMsg Endian.little x [65] 1 1 0 { tv_sec := 0, tv_usec := 0 } =
        Outcome.undefined Fault.nullDeref := by
  obtain ⟨x, hreach, hlen, hslots⟩ :=
    filled_reach (P := listQueue Callback) Endian.little noStat noStat_allows MRSZ (le_refl _)
  have hall : ∀ d ∈ x.mr, d.pkt.len ≠ FREE := by
    intro d hd
    obtain ⟨j, hj⟩ := List.mem_iff_getElem?.mp hd
    have hjlt : j < x.mr.length := (List.getElem?_eq_some.mp hj).1
    exact (hslots j d hj).1 (by rw [← hlen]; exact hjlt)
  exact ⟨x, hreach, hall,
    SendMsg_exhausted_nullDeref Endian.little x [65] 1 1 0 { tv_sec := 0, tv_usec := 0 } hall⟩

/-! ### The inbound side -/

theorem toU32_cap (c : Int) (h0 : 0 ≤ c) (h1 : c < 2147483648) : toU32 c = c.toNat := by
  unfold toU32
  omega

theorem toInt32_small (n : Nat) (h : n < 2147483648) : toInt32 n = (n : Int) := by
  unfold toInt32
  rw [if_pos h]

/-- The call of `Eсho` on a framed record that fits capacity and array. -/
theorem Echo_fits (e : Endian) (xin : XIN) (s : Sock) (sendRet : Int) (L : Nat)
    (body more : List Nat)
    (hs : streamBytes s = beBytes L ++ body ++ more) (hbody : body.length = L)
    (hpos : 0 < L) (hcap : xin.size_in < 2147483648) (hfit : (L : Int) ≤ xin.size_in)
    (hbp : L ≤ xin.msgin.length) (h4 : 4 ≤ xin.msgin.length) :
    Echo e xin s sendRet =
      some (Outcome.returns
        (result.True, some (ACK :: (body ++ xin.msgin.drop L).take 4), consume (consume s 4) L)
        { cn_in := (xin.cn_in + 1) % U32
          cn_ack_in := (xin.cn_ack_in + 1) % U32
          Lost := xin.Lost
          size_in := xin.size_in
          msgin := body ++ xin.msgin.drop L }) := by
  have hLs : L < 2147483648 := by omega
  have hr := readvrec_fits e s xin.msgin (toU32 xin.size_in) L body more hs hbody
    (by unfold U32; omega) (by rw [toU32_cap _ (by omega) hcap]; omega) hbp
  have hlen : (body ++ xin.msgin.drop L).length = xin.msgin.length := by
    rw [List.length_append, List.length_drop]; omega
  have hb0 : ¬ ((L : Int) = 0) := by omega
  have hb1 : ¬ ((L : Int) < 0) := by omega
  have hb2 : ¬ ((body ++ xin.msgin.drop L).length < 4) := by
    rw [hlen]; omega
  unfold Echo
  simp only [hr, toInt32_small L hLs, hb0, hb1, if_false, COOKIESZ]
  rw [if_neg hb2]

/-- C11 (`XIN::Eсho`): for every framed record of `L ≥ 4` bytes that `readvrec` reads
successfully — the four length bytes and the body are on the stream, in deliveries of
any sizes, and `L` is within the capacity `size_in` and the array `msgin` — `Eсho`
hands to `send` exactly five bytes, `0x06` followed by the first four bytes of the
record in their order, and returns `True`, whatever `send` returns; the counters of
received records and of sent ACKs go up by one. -/
theorem Echo_acknowledges_record (e : Endian) (xin : XIN) (s : Sock) (sendRet : Int) (L : Nat)
    (body more : List Nat)
    (hs : streamBytes s = beBytes L ++ body ++ more) (hbody : body.length = L)
    (h4 : 4 ≤ L) (hcap : xin.size_in < 2147483648) (hfit : (L : Int) ≤ xin.size_in)
    (hbp : L ≤ xin.msgin.length) :
    ∃ (sent : List Nat) (s1 : Sock) (x1 : XIN),
      Echo e xin s sendRet = some (Outcome.returns (result.True, some sent, s1) x1) ∧
      sent.length = 5 ∧ sent = 6 :: body.take 4 ∧
      x1.cn_in = (xin.cn_in + 1) % U32 ∧ x1.cn_ack_in = (xin.cn_ack_in + 1) % U32 ∧
      x1.msgin.take L = body := by
  have ht : (body ++ xin.msgin.drop L).take 4 = body.take 4 :=
    List.take_append_of_le_length (by omega)
  refine ⟨_, _, _, Echo_fits e xin s sendRet L body more hs hbody (by omega) hcap hfit hbp
    (by omega), ?_, ?_, rfl, rfl, ?_⟩
  · rw [ht, List.length_cons, List.length_take]; omega
  · rw [ht]; rfl
  · simp only []
    rw [List.take_append_of_le_length (by omega)]
    exact List.take_of_length_le (by omega)

/-- C11 at the record `DE AD BE EF` delivered in two pieces to a fresh `XIN`, with a
failing `send`. -/
theorem Echo_acknowledges_record_witness :
    ∃ (sent : List Nat) (s1 : Sock) (x1 : XIN),
      Echo Endian.little xinFresh
          [RecvItem.data [0, 0, 0, 4, 222], RecvItem.data [173, 190, 239]] (-1) =
        some (Outcome.returns (result.True, some sent, s1) x1) ∧
      sent.length = 5 ∧ sent = 6 :: [222, 173, 190, 239].take 4 ∧
      x1.cn_in = (xinFresh.cn_in + 1) % U32 ∧ x1.cn_ack_in = (xinFresh.cn_ack_in + 1) % U32 ∧
      x1.msgin.take 4 = [222, 173, 190, 239] :=
  Echo_acknowledges_record Endian.little xinFresh
    [RecvItem.data [0, 0, 0, 4, 222], RecvItem.data [173, 190, 239]] (-1) 4
    [222, 173, 190, 239] [] (by decide) (by decide) (by decide) (by decide) (by decide)
    (by rw [xinFresh, List.length_replicate]; decide)

/-! ### The frame that `SendMsg` emits -/

theorem sentPayload_length (msg : List Nat) (size : Nat) : (sentPayload msg size).length = size := by
  have hlen : ((msg.take size).takeWhile (fun c => c != 0)).length ≤ size := by
    have h1 := (List.takeWhile_sublist (l := msg.take size) (fun c => c != 0)).length_le
    have h2 := List.length_take_le size msg
    omega
  unfold sentPayload
  simp only []
  split
  · simp only [List.length_append, List.length_replicate]; omega
  · simp only [List.length_set, List.length_append, List.length_replicate]; omega

/-- The bytes that `SendMsg` hands to `send`, whatever `send` returns. -/
theorem SendMsg_wire {P : TimerQueue Callback} (e : Endian) (x : XOUT P) (msg : List Nat)
    (size : Nat) (sendRet now : Int) (tv : timeval) (i : Nat) (d : msgrec_t)
    (hfree : getfreerec x.mr = some i) (hi : x.mr[i]? = some d) (hsize : size ≤ BUF) :
    ∃ (r : result) (x1 : XOUT P),
      SendMsg e x msg size sendRet now tv =
        Outcome.returns (r, beBytes ((4 + size) % U32) ++ store32 e x.msgid ++ sentPayload msg size)
          x1 ∧
      x1.msgid = (x.msgid + 1) % U32 ∧
      (sendRet < 0 → r = result.Error) ∧
      (0 ≤ sendRet → r = result.True ∧
        ∃ dn, x1.mr[i]? = some dn ∧ dn.pkt.cookie = x.msgid ∧
          dn.pkt.len = htonl e ((4 + size) % U32)) := by
  have hlt : i < x.mr.length := by
    rcases Nat.lt_or_ge i x.mr.length with h | h
    · exact h
    · rw [List.getElem?_eq_none h] at hi; cases hi
  by_cases hs : sendRet < 0
  · have h1 : ¬ (BUF < size) := by omega
    have key : ∃ x1 : XOUT P,
        SendMsg e x msg size sendRet now tv =
          Outcome.returns
            (result.Error,
              beBytes ((4 + size) % U32) ++ store32 e x.msgid ++ sentPayload msg size) x1 ∧
        x1.msgid = (x.msgid + 1) % U32 := by
      unfold SendMsg
      simp only [hfree, hi, h1, if_false, hs, if_true, store32_htonl, storeMsg_take]
      exact ⟨_, rfl, rfl⟩
    obtain ⟨x1, hrun, hm⟩ := key
    exact ⟨result.Error, x1, hrun, hm, fun _ => rfl, fun h => absurd hs (by omega)⟩
  · have h0 : 0 ≤ sendRet := by omega
    have hsent := SendMsg_sent e x msg size sendRet now tv i d hfree hi hsize h0
    rw [storeMsg_take] at hsent
    refine ⟨result.True, _, hsent, rfl, fun h => absurd h hs, fun _ => ⟨rfl,
      { pkt :=
          { len := htonl e ((4 + size) % U32)
            cookie := x.msgid
            buf := storeMsg d.pkt.buf msg size }
        id := x.TimeXout.next_id
        start := tv }, ?_, rfl, rfl⟩⟩
    simp only []
    rw [List.getElem?_set_self hlt]

/-- C12 (`XOUT::SendMsg`): for every payload size with `1 ≤ size ≤ BUF` and a pool with
a free slot, `SendMsg` hands to `send` exactly `8 + size` bytes whatever `send` returns;
bytes 0..3 are the big-endian encoding of `4 + size`, bytes 4..7 are the object
representation of the cookie, which is the value of `msgid` before the call, and when
`send` succeeds that cookie is the one stored in the slot taken. -/
theorem SendMsg_emits_frame {P : TimerQueue Callback} (e : Endian) (x : XOUT P)
    (msg : List Nat) (size : Nat) (sendRet now : Int) (tv : timeval)
    (h1 : 1 ≤ size) (hsize : size ≤ BUF) (hfree : ∃ d ∈ x.mr, d.pkt.len = FREE) :
    ∃ (r : result) (wire : List Nat) (x1 : XOUT P) (i : Nat),
      SendMsg e x msg size sendRet now tv = Outcome.returns (r, wire) x1 ∧
      wire.length = 8 + size ∧
      wire.take 4 = beBytes (4 + size) ∧
      beVal (wire.take 4) = 4 + size ∧
      (wire.drop 4).take 4 = store32 e x.msgid ∧
      (0 ≤ sendRet → r = result.True ∧
        ∃ dn, x1.mr[i]? = some dn ∧ dn.pkt.cookie = x.msgid ∧ dn.pkt.len ≠ FREE) := by
  obtain ⟨i, d, hget, hi, _⟩ := getfreerec_of_free x.mr hfree
  obtain ⟨r, x1, hrun, _, _, hok⟩ := SendMsg_wire e x msg size sendRet now tv i d hget hi hsize
  have hmod : (4 + size) % U32 = 4 + size := by
    apply Nat.mod_eq_of_lt
    unfold U32
    unfold BUF at hsize
    omega
  rw [hmod] at hrun
  have hlt : 4 + size < U32 := by
    unfold U32
    unfold BUF at hsize
    omega
  have htake : (beBytes (4 + size) ++ store32 e x.msgid ++ sentPayload msg size).take 4 =
      beBytes (4 + size) := by
    rw [List.append_assoc, List.take_append_of_le_length (by simp [beBytes_length])]
    exact List.take_of_length_le (by simp [beBytes_length])
  refine ⟨r, _, x1, i, hrun, ?_, htake, ?_, ?_, ?_⟩
  · simp only [List.length_append, beBytes_length, store32_length, sentPayload_length]
  · rw [htake]; exact beVal_beBytes _ hlt
  · rw [List.append_assoc, List.drop_append_of_le_length (by simp [beBytes_length])]
    have hd : List.drop 4 (beBytes (4 + size)) = [] := rfl
    rw [hd, List.nil_append, List.take_append_of_le_length (by simp [store32_length])]
    exact List.take_of_length_le (by simp [store32_length])
  · intro h0
    obtain ⟨hr, dn, hdn, hc, hl⟩ := hok h0
    refine ⟨hr, dn, hdn, hc, ?_⟩
    rw [hl, hmod]
    exact htonl_ne_FREE e _ (by unfold FREE; unfold U32 at hlt; unfold BUF at hsize; omega)

/-- C12 at a message of three bytes sent from a tracker with a free pool. -/
theorem SendMsg_emits_frame_witness :
    ∃ (r : result) (wire : List Nat) (x1 : XOUT (listQueue Callback)) (i : Nat),
      SendMsg Endian.little (trackerOf (listQueue Callback) freePool) [65, 66, 67] 3 3 0
        { tv_sec := 0, tv_usec := 0 } = Outcome.returns (r, wire) x1 ∧
      wire.length = 8 + 3 ∧
      wire.take 4 = beBytes (4 + 3) ∧
      beVal (wire.take 4) = 4 + 3 ∧
      (wire.drop 4).take 4 =
        store32 Endian.little (trackerOf (listQueue Callback) freePool).msgid ∧
      ((0 : Int) ≤ 3 → r = result.True ∧
        ∃ dn, x1.mr[i]? = some dn ∧
          dn.pkt.cookie = (trackerOf (listQueue Callback) freePool).msgid ∧
          dn.pkt.len ≠ FREE) :=
  SendMsg_emits_frame Endian.little (trackerOf (listQueue Callback) freePool) [65, 66, 67] 3 3 0
    { tv_sec := 0, tv_usec := 0 } (by decide) (by decide) freePool_has_free

/-! ### Oversize records on the IN socket -/

/-- The reading of a framed record longer than the capacity, when the capacity is
larger than the target buffer: the truncated copy overruns the buffer. -/
theorem readvrec_oversize_overrun (e : Endian) (s : Sock) (bp : List Nat) (len L : Nat)
    (body more : List Nat)
    (hs : streamBytes s = beBytes L ++ body ++ more) (hbody : body.length = L)
    (hL : L < U32) (hbig : len < L) (hbp : bp.length < len) :
    readvrec e s bp len = some (Outcome.undefined Fault.outOfBounds) := by
  have h4 : 4 ≤ (streamBytes s).length := by
    rw [hs]; simp only [List.length_append, beBytes_length]; omega
  have hr1 := readn_available s [0, 0, 0, 0] 4 h4 (by simp) (by unfold U32; omega)
  have ht4 : (streamBytes s).take 4 = beBytes L := by
    rw [hs, List.append_assoc, List.take_append_of_le_length (by simp [beBytes_length])]
    exact List.take_of_length_le (by simp [beBytes_length])
  have hs1 : streamBytes (consume s 4) = body ++ more := by
    rw [streamBytes_consume s 4 h4, hs, List.append_assoc,
      List.drop_append_of_le_length (by simp [beBytes_length])]
    have : List.drop 4 (beBytes L) = [] := rfl
    rw [this, List.nil_append]
  have hr2 := readn_available (consume s 4) (List.replicate L 0) L
    (by rw [hs1]; simp only [List.length_append]; omega) (by simp) hL
  have htb : (streamBytes (consume s 4)).take L = body := by
    rw [hs1, List.take_append_of_le_length (by omega)]
    exact List.take_of_length_le (by omega)
  have hdr : List.drop L (List.replicate L (0 : Nat)) = [] := by
    apply List.drop_eq_nil_of_le
    simp
  rw [htb, hdr, List.append_nil] at hr2
  have hgt : L > len := hbig
  have hmin : min L len = len := by omega
  have hlen : (body.take len).length = len := by
    rw [List.length_take]; omega
  have hne : body.take len ≠ [] := by
    intro h0
    rw [h0] at hlen
    simp at hlen
    omega
  have hw : writeAt bp 0 (body.take len) = none := by
    unfold writeAt
    rw [if_neg hne, if_neg]
    rw [hlen]
    simp only [Int.toNat_zero]
    omega
  unfold readvrec
  simp only [hr1, ht4, List.drop_succ_cons, List.drop_nil, List.append_nil, ne_eq,
    not_true_eq_false, if_false, ntohl_wire e L hL, hgt, if_true, hr2, hmin, hw]

theorem toInt32_minus_one : toInt32 (U32 - 1) = -1 := by decide

/-- The call of `Eсho` on a framed record longer than a capacity that is within the
array `msgin`. -/
theorem Echo_oversize (e : Endian) (xin : XIN) (s : Sock) (sendRet : Int) (L : Nat)
    (body more : List Nat)
    (hs : streamBytes s = beBytes L ++ body ++ more) (hbody : body.length = L)
    (hL : L < U32) (hcap0 : 0 ≤ xin.size_in) (hcap : xin.size_in < 2147483648)
    (hbig : xin.size_in < (L : Int)) (hbp : xin.size_in.toNat ≤ xin.msgin.length) :
    Echo e xin s sendRet =
      some (Outcome.returns (result.Break, none, consume (consume s 4) L)
        { cn_in := xin.cn_in
          cn_ack_in := xin.cn_ack_in
          Lost := xin.Lost
          size_in := xin.size_in
          msgin := body.take xin.size_in.toNat ++ xin.msgin.drop xin.size_in.toNat }) := by
  have hc := toU32_cap xin.size_in hcap0 hcap
  have hr := readvrec_oversize e s xin.msgin (toU32 xin.size_in) L body more hs hbody hL
    (by rw [hc]; omega) (by rw [hc]; exact hbp)
  rw [hc] at hr
  have hb0 : ¬ ((-1 : Int) = 0) := by decide
  have hb1 : (-1 : Int) < 0 := by decide
  unfold Echo
  simp only [hc, hr, toInt32_minus_one, hb0, hb1, if_false, if_true]

/-- The run loop leaves on a `Break` from `Eсho`. -/
theorem ClientHandlerIn_Break (e : Endian) (xin : XIN) (s : Sock) (sendRet : Int)
    (sent : Option (List Nat)) (s1 : Sock) (x1 : XIN)
    (h : Echo e { xin with size_in := ((4 * 2 + BUF : Nat) : Int) } s sendRet =
      some (Outcome.returns (result.Break, sent, s1) x1)) :
    ClientHandlerIn e xin s sendRet = some (Outcome.returns (true, sent, s1) x1) := by
  unfold ClientHandlerIn
  rw [h]
  simp only [if_true]

/-- Under the capacity `8 + BUF` that the run loop sets, a framed record longer than
that capacity makes `readvrec` copy `8 + BUF` bytes into the `BUF` bytes of `msgin`. -/
theorem ClientHandlerIn_oversize_overrun (e : Endian) (xin : XIN) (s : Sock) (sendRet : Int)
    (L : Nat) (body more : List Nat)
    (hs : streamBytes s = beBytes L ++ body ++ more) (hbody : body.length = L)
    (hL : L < U32) (hbig : 8 + BUF < L) (hbp : xin.msgin.length = BUF) :
    ClientHandlerIn e xin s sendRet = some (Outcome.undefined Fault.outOfBounds) := by
  have hc : toU32 ((4 * 2 + BUF : Nat) : Int) = 8 + BUF := by decide
  have hr := readvrec_oversize_overrun e s xin.msgin (8 + BUF) L body more hs hbody hL hbig
    (by rw [hbp]; omega)
  unfold ClientHandlerIn Echo
  simp only [hc, hr]

/-- What is left on the stream after a framed record has been read. -/
theorem streamBytes_after_record (s : Sock) (L : Nat) (body more : List Nat)
    (hs : streamBytes s = beBytes L ++ body ++ more) (hbody : body.length = L) :
    streamBytes (consume (consume s 4) L) = more := by
  have h4 : 4 ≤ (streamBytes s).length := by
    rw [hs]; simp only [List.length_append, beBytes_length]; omega
  have hs1 : streamBytes (consume s 4) = body ++ more := by
    rw [streamBytes_consume s 4 h4, hs, List.append_assoc,
      List.drop_append_of_le_length (by simp [beBytes_length])]
    have : List.drop 4 (beBytes L) = [] := rfl
    rw [this, List.nil_append]
  rw [streamBytes_consume (consume s 4) L (by rw [hs1, List.length_append]; omega), hs1,
    List.drop_append_of_le_length (by omega)]
  have : List.drop L body = [] := List.drop_eq_nil_of_le (by omega)
  rw [this, List.nil_append]

/-- C13 (`XIN::Eсho`, `ServerXOI::ClientHandler`), amended: when the IN peer sends a
framed record of `L` bytes, longer than the capacity `size_in`, and the capacity is
within the array `msgin`, `Eсho` returns `Break` for the `-1` of `readvrec`: no ACK is
handed to `send`, the counters of received records and of sent ACKs stay as they
were, and the bytes of the record are gone from the stream, which continues with the
next record.  The run loop leaves on every `Break` that `Eсho` returns. -/
theorem Echo_oversize_returns_Break (e : Endian) (xin : XIN) (s : Sock) (sendRet : Int)
    (L : Nat) (body more : List Nat)
    (hs : streamBytes s = beBytes L ++ body ++ more) (hbody : body.length = L)
    (hL : L < U32) (hcap0 : 0 ≤ xin.size_in) (hcap : xin.size_in < 2147483648)
    (hbig : xin.size_in < (L : Int)) (hbp : xin.size_in.toNat ≤ xin.msgin.length) :
    (∃ (s1 : Sock) (x1 : XIN),
      Echo e xin s sendRet = some (Outcome.returns (result.Break, none, s1) x1) ∧
      streamBytes s1 = more ∧
      x1.cn_in = xin.cn_in ∧ x1.cn_ack_in = xin.cn_ack_in ∧
      x1.msgin.take xin.size_in.toNat = body.take xin.size_in.toNat) ∧
    (∀ (xin2 : XIN) (s2 s3 : Sock) (sent : Option (List Nat)) (x3 : XIN),
      Echo e { xin2 with size_in := ((4 * 2 + BUF : Nat) : Int) } s2 sendRet =
        some (Outcome.returns (result.Break, sent, s3) x3) →
      ClientHandlerIn e xin2 s2 sendRet = some (Outcome.returns (true, sent, s3) x3)) := by
  refine ⟨⟨_, _, Echo_oversize e xin s sendRet L body more hs hbody hL hcap0 hcap hbig hbp,
    streamBytes_after_record s L body more hs hbody, rfl, rfl, ?_⟩, ?_⟩
  · have hlen : (body.take xin.size_in.toNat).length = xin.size_in.toNat := by
      rw [List.length_take]; omega
    simp only []
    rw [List.take_append_of_le_length (by omega)]
    exact List.take_of_length_le (by omega)
  · intro xin2 s2 s3 sent x3 h
    exact ClientHandlerIn_Break e xin2 s2 sendRet sent s3 x3 h

theorem streamBytes_oversizeSock :
    streamBytes oversizeSock = beBytes (BUF + 1) ++ List.replicate (BUF + 1) 65 ++ [] := by
  have hb : beBytes (BUF + 1) = [0, 0, 14, 117] := by decide
  rw [hb]
  simp [oversizeSock, streamBytes]

/-- C13 at a record of `BUF + 1` bytes sent to a fresh `XIN` of capacity `BUF`. -/
theorem Echo_oversize_returns_Break_witness :
    (∃ (s1 : Sock) (x1 : XIN),
      Echo Endian.little xinFresh oversizeSock 0 =
        some (Outcome.returns (result.Break, none, s1) x1) ∧
      streamBytes s1 = [] ∧
      x1.cn_in = xinFresh.cn_in ∧ x1.cn_ack_in = xinFresh.cn_ack_in ∧
      x1.msgin.take xinFresh.size_in.toNat =
        (List.replicate (BUF + 1) 65).take xinFresh.size_in.toNat) ∧
    (∀ (xin2 : XIN) (s2 s3 : Sock) (sent : Option (List Nat)) (x3 : XIN),
      Echo Endian.little { xin2 with size_in := ((4 * 2 + BUF : Nat) : Int) } s2 0 =
        some (Outcome.returns (result.Break, sent, s3) x3) →
      ClientHandlerIn Endian.little xin2 s2 0 = some (Outcome.returns (true, sent, s3) x3)) :=
  Echo_oversize_returns_Break Endian.little xinFresh oversizeSock 0 (BUF + 1)
    (List.replicate (BUF + 1) 65) [] streamBytes_oversizeSock (List.length_replicate _ _)
    (by decide) (by decide) (by decide) (by decide)
    (by rw [xinFresh, List.length_replicate]; decide)

/-- C13 fails as stated: on a framed record of `BUF + 1` bytes, one more than the
capacity of a fresh `XIN`, `Eсho` returns `Break` and hands nothing to `send`. -/
theorem Echo_oversize_is_Break :
    ∃ (s1 : Sock) (x1 : XIN),
      Echo Endian.little xinFresh oversizeSock 0 =
        some (Outcome.returns (result.Break, none, s1) x1) :=
  ⟨_, _, Echo_oversize Endian.little xinFresh oversizeSock 0 (BUF + 1)
    (List.replicate (BUF + 1) 65) [] streamBytes_oversizeSock (List.length_replicate _ _)
    (by decide) (by decide) (by decide) (by decide)
    (by rw [xinFresh, List.length_replicate]; decide)⟩

/-! ### Malformed and split ACKs -/

/-- C19 (`XOUT::RecvAck`): when a call of `RecvAck` completes five accumulated bytes
whose byte 0 is not `0x06`, it returns `Continue` and resets `cnt` to 0, so that the
next call asks `recv` for five bytes again; the slot pool, the timer manager, the
counter of received ACKs, the RTT counters and `msgid` are left as they were. -/
theorem RecvAck_malformed_marker {P : TimerQueue Callback} (e : Endian) (x : XOUT P)
    (s : Sock) (tv : timeval) (b0 : Nat) (body : List Nat)
    (hfr : CompletesAck x s (b0 :: body)) (hb0 : b0 ≠ ACK) :
    ∃ (s1 : Sock) (x1 : XOUT P),
      RecvAck e x s tv = Outcome.returns (result.Continue, s1) x1 ∧
      x1.cnt = 0 ∧ toSizeT ((ACKSZ : Int) - x1.cnt) = 5 ∧
      x1.mr = x.mr ∧ x1.TimeXout = x.TimeXout ∧ x1.cn_ack_out = x.cn_ack_out ∧
      x1.time_out = x.time_out ∧ x1.time_out_max = x.time_out_max ∧
      x1.sr_time = x.sr_time ∧ x1.msgid = x.msgid := by
  obtain ⟨hcnt, hret0, hwrite⟩ := completesAck_facts x s _ hfr
  have hlt : ¬ (x.cnt + (recv s (toSizeT ((ACKSZ : Int) - x.cnt))).ret < (ACKSZ : Int)) := by
    rw [hcnt]; decide
  have hhead : ¬ (b0 = ACK) := hb0
  have hrun : RecvAck e x s tv =
      Outcome.returns (result.Continue, (recv s (toSizeT ((ACKSZ : Int) - x.cnt))).sock)
        { x with ack := b0 :: body, cnt := 0 } := by
    unfold RecvAck
    simp only [hwrite, hret0, if_false, hlt, List.head?_cons, ne_eq, Option.some.injEq, hhead,
      not_false_eq_true, if_true]
  have h5 : toSizeT ((ACKSZ : Int) - 0) = 5 := by decide
  exact ⟨_, _, hrun, rfl, h5, rfl, rfl, rfl, rfl, rfl, rfl, rfl⟩

/-- C19 at the five bytes `07 07 00 00 00` arriving for a tracker with one live slot. -/
theorem RecvAck_malformed_marker_witness :
    ∃ (s1 : Sock) (x1 : XOUT (listQueue Callback)),
      RecvAck Endian.little oneLiveTracker [RecvItem.data [7, 7, 0, 0, 0]]
        { tv_sec := 0, tv_usec := 0 } = Outcome.returns (result.Continue, s1) x1 ∧
      x1.cnt = 0 ∧ toSizeT ((ACKSZ : Int) - x1.cnt) = 5 ∧
      x1.mr = oneLiveTracker.mr ∧ x1.TimeXout = oneLiveTracker.TimeXout ∧
      x1.cn_ack_out = oneLiveTracker.cn_ack_out ∧
      x1.time_out = oneLiveTracker.time_out ∧ x1.time_out_max = oneLiveTracker.time_out_max ∧
      x1.sr_time = oneLiveTracker.sr_time ∧ x1.msgid = oneLiveTracker.msgid :=
  RecvAck_malformed_marker Endian.little oneLiveTracker [RecvItem.data [7, 7, 0, 0, 0]]
    { tv_sec := 0, tv_usec := 0 } 7 [7, 0, 0, 0]
    ⟨0, [7, 7, 0, 0, 0], [], rfl, by decide, rfl, rfl, by decide, rfl⟩ (by decide)

theorem completesAck_length {P : TimerQueue Callback} (x : XOUT P) (s : Sock)
    (frame : List Nat) (h : CompletesAck x s frame) : frame.length = 5 := by
  obtain ⟨k, bs, rest, hk, hk5, hack, hs, hlen, hframe⟩ := h
  have := congrArg List.length hframe
  simp only [List.length_append, List.length_take] at this
  omega

/-- A call that completes the five bytes `frame` ends as a call that receives all of
`frame` at once into an empty accumulator. -/
theorem RecvAck_complete_normal {P : TimerQueue Callback} (e : Endian) (x : XOUT P)
    (s : Sock) (tv : timeval) (frame : List Nat) (hfr : CompletesAck x s frame) :
    forgetSock (RecvAck e x s tv) =
      forgetSock (RecvAck e { x with ack := frame, cnt := 0 } [RecvItem.data frame] tv) := by
  have h5 := completesAck_length x s frame hfr
  have hfr2 : CompletesAck ({ x with ack := frame, cnt := 0 } : XOUT P) [RecvItem.data frame]
      frame :=
    ⟨0, frame, [], rfl, by decide, h5, rfl, by omega, by
      simp only [List.take_zero, List.nil_append]
      exact List.take_of_length_le (by omega)⟩
  obtain ⟨hcnt, hret0, hwrite⟩ := completesAck_facts x s _ hfr
  obtain ⟨hcnt2, hret2, hwrite2⟩ := completesAck_facts _ _ _ hfr2
  have hlt : ¬ (x.cnt + (recv s (toSizeT ((ACKSZ : Int) - x.cnt))).ret < (ACKSZ : Int)) := by
    rw [hcnt]; decide
  simp only [] at hcnt2 hret2 hwrite2
  have hlt2 : ¬ ((0 : Int) + (recv [RecvItem.data frame] (toSizeT ((ACKSZ : Int) - 0))).ret <
      (ACKSZ : Int)) := by
    rw [hcnt2]; decide
  unfold RecvAck
  simp only [hwrite, hret0, if_false, hlt, hwrite2, hret2, hlt2]
  by_cases hh : frame.head? ≠ some ACK
  · rw [if_pos hh, if_pos hh]
    rfl
  · rw [if_neg hh, if_neg hh]
    cases hf : findmsgrec x.mr (load32 e (List.take 4 (List.drop 1 frame))) with
    | none => rfl
    | some i =>
      simp only []
      cases hi : x.mr[i]? with
      | none => rfl
      | some d =>
        simp only []
        cases hu : unitimeout x.TimeXout d.id <;> rfl

theorem sameButAccumulator_reset {P : TimerQueue Callback} (x x1 : XOUT P) (frame : List Nat)
    (h : SameButAccumulator x x1) :
    ({ x1 with ack := frame, cnt := 0 } : XOUT P) = { x with ack := frame, cnt := 0 } := by
  obtain ⟨h1, h2, h3, h4, h5, h6, h7, h8, h9⟩ := h
  cases x
  cases x1
  simp only [] at h1 h2 h3 h4 h5 h6 h7 h8 h9
  subst h1 h2 h3 h4 h5 h6 h7 h8 h9
  rfl

/-- A call of `RecvAck` that receives a non-empty delivery too short to complete the
five bytes: the bytes go into the accumulator and the call returns `Continue`. -/
theorem RecvAck_short_delivery {P : TimerQueue Callback} (e : Endian) (x : XOUT P) (tv : timeval)
    (k : Nat) (c : List Nat) (rest : Sock)
    (hk : x.cnt = (k : Int)) (hack : x.ack.length = 5) (hc : c ≠ []) (hlt : k + c.length < 5) :
    RecvAck e x (RecvItem.data c :: rest) tv =
      Outcome.returns (result.Continue, rest)
        { x with
          ack := x.ack.take k ++ c ++ x.ack.drop (k + c.length)
          cnt := ((k + c.length : Nat) : Int) } := by
  have hcl : 0 < c.length := List.length_pos.mpr hc
  have hrecv : recv (RecvItem.data c :: rest) (5 - k) =
      { ret := c.length, bytes := c, errno := none, sock := rest } := by
    have hle : c.length ≤ 5 - k := by omega
    simp only [recv, hle, if_true]
  have hw : writeAt x.ack (k : Int) c = some (x.ack.take k ++ c ++ x.ack.drop (k + c.length)) := by
    unfold writeAt
    rw [if_neg hc, if_pos ⟨by omega, by simp only [Int.toNat_ofNat]; omega⟩]
    simp only [Int.toNat_ofNat]
  have hr0 : ¬ ((c.length : Int) = 0) := by omega
  have hl5 : (k : Int) + (c.length : Int) < (ACKSZ : Int) := by
    unfold ACKSZ; omega
  unfold RecvAck
  simp only [hk, toSizeT_ack k (by omega), hrecv, hw, hr0, if_false, hl5, if_true,
    Nat.cast_add]

theorem RecvAckRepeat_one {P : TimerQueue Callback} (e : Endian) (tv : timeval) (x : XOUT P)
    (s : Sock) : RecvAckRepeat e tv 1 x s = [RecvAck e x s tv] := by
  unfold RecvAckRepeat
  cases RecvAck e x s tv <;> rfl

/-- The calls of `RecvAck` on the deliveries `chunks`, which complete the five bytes
`frame` from an accumulator that holds its first `k` bytes. -/
theorem RecvAckRepeat_chunks {P : TimerQueue Callback} (e : Endian) (tv : timeval)
    (x0 : XOUT P) (frame : List Nat) (h5 : frame.length = 5) :
    ∀ (chunks : List (List Nat)) (x : XOUT P) (k : Nat),
      x.cnt = (k : Int) → x.ack.length = 5 → (∀ c ∈ chunks, c ≠ []) → chunks ≠ [] →
      x.ack.take k ++ chunks.flatten = frame → k ≤ 5 → SameButAccumulator x0 x →
      (RecvAckRepeat e tv chunks.length x (chunks.map RecvItem.data)).length = chunks.length ∧
      (∀ o ∈ (RecvAckRepeat e tv chunks.length x (chunks.map RecvItem.data)).dropLast,
        ∃ (s1 : Sock) (x1 : XOUT P),
          o = Outcome.returns (result.Continue, s1) x1 ∧ SameButAccumulator x0 x1) ∧
      (RecvAckRepeat e tv chunks.length x (chunks.map RecvItem.data)).getLast?.map forgetSock =
        some (forgetSock
          (RecvAck e { x0 with ack := frame, cnt := 0 } [RecvItem.data frame] tv)) := by
  intro chunks
  induction chunks with
  | nil => intro x k _ _ _ hne; exact absurd rfl hne
  | cons c cs ih =>
    intro x k hk hack hne _ hjoin hk5 hsame
    have hc : c ≠ [] := hne c (List.mem_cons_self _ _)
    have hcl : 0 < c.length := List.length_pos.mpr hc
    have htk : (x.ack.take k).length = k := by
      rw [List.length_take]; omega
    have hlenj : k + (c.length + cs.flatten.length) = 5 := by
      have := congrArg List.length hjoin
      simp only [List.length_append, List.flatten_cons, htk, h5] at this
      exact this
    cases cs with
    | nil =>
      have hkc : k + c.length = 5 := by
        simp only [List.flatten_nil, List.length_nil] at hlenj; omega
      have hcomp : CompletesAck x [RecvItem.data c] frame := by
        refine ⟨k, c, [], hk, by omega, hack, rfl, by omega, ?_⟩
        simp only [List.flatten_cons, List.flatten_nil, List.append_nil] at hjoin
        have htc : c.take (5 - k) = c := List.take_of_length_le (by omega)
        rw [htc]
        exact hjoin
      have hN := RecvAck_complete_normal e x [RecvItem.data c] tv frame hcomp
      rw [sameButAccumulator_reset x0 x frame hsame] at hN
      simp only [List.length_singleton, List.map_cons, List.map_nil, RecvAckRepeat_one,
        List.dropLast_single, List.not_mem_nil, false_implies, implies_true, true_and,
        List.getLast?_singleton, Option.map_some', hN]
    | cons c2 cs2 =>
      have hc2 : c2 ≠ [] := hne c2 (List.mem_cons_of_mem _ (List.mem_cons_self _ _))
      have hcl2 : 0 < c2.length := List.length_pos.mpr hc2
      have hlt : k + c.length < 5 := by
        simp only [List.flatten_cons, List.length_append] at hlenj; omega
      have hstep := RecvAck_short_delivery e x tv k c ((c2 :: cs2).map RecvItem.data) hk hack hc hlt
      have hsame1 : SameButAccumulator x0
          ({ x with
            ack := x.ack.take k ++ c ++ x.ack.drop (k + c.length)
            cnt := ((k + c.length : Nat) : Int) } : XOUT P) := hsame
      have hack1 : (x.ack.take k ++ c ++ x.ack.drop (k + c.length)).length = 5 := by
        simp only [List.length_append, htk, List.length_drop]; omega
      have htake1 : (x.ack.take k ++ c ++ x.ack.drop (k + c.length)).take (k + c.length) =
          x.ack.take k ++ c := by
        rw [List.take_append_of_le_length (by simp only [List.length_append, htk]; omega)]
        exact List.take_of_length_le (by simp only [List.length_append, htk]; omega)
      have hjoin1 : (x.ack.take k ++ c ++ x.ack.drop (k + c.length)).take (k + c.length) ++
          (c2 :: cs2).flatten = frame := by
        rw [htake1, ← hjoin]
        simp only [List.flatten_cons, List.append_assoc]
      obtain ⟨ihlen, ihmid, ihlast⟩ := ih _ (k + c.length) rfl hack1
        (fun c3 h3 => hne c3 (List.mem_cons_of_mem _ h3)) (by simp) hjoin1 (by omega) hsame1
      have hunf : RecvAckRepeat e tv (c :: c2 :: cs2).length x
          ((c :: c2 :: cs2).map RecvItem.data) =
          Outcome.returns (result.Continue, (c2 :: cs2).map RecvItem.data)
            ({ x with
              ack := x.ack.take k ++ c ++ x.ack.drop (k + c.length)
              cnt := ((k + c.length : Nat) : Int) } : XOUT P) ::
          RecvAckRepeat e tv (c2 :: cs2).length
            ({ x with
              ack := x.ack.take k ++ c ++ x.ack.drop (k + c.length)
              cnt := ((k + c.length : Nat) : Int) } : XOUT P)
            ((c2 :: cs2).map RecvItem.data) := by
        rw [List.length_cons, List.map_cons, RecvAckRepeat, hstep]
      rw [hunf]
      generalize hR : RecvAckRepeat e tv (c2 :: cs2).length
        ({ x with
          ack := x.ack.take k ++ c ++ x.ack.drop (k + c.length)
          cnt := ((k + c.length : Nat) : Int) } : XOUT P)
        ((c2 :: cs2).map RecvItem.data) = outs at ihlen ihmid ihlast
      cases outs with
      | nil => simp at ihlen
      | cons o2 os =>
        refine ⟨by simp only [List.length_cons] at ihlen ⊢; omega, ?_, ?_⟩
        · intro o ho
          rw [List.dropLast_cons_of_ne_nil (by simp)] at ho
          rcases List.mem_cons.mp ho with h1 | h1
          · exact ⟨_, _, h1, hsame1⟩
          · exact ihmid o h1
        · rw [List.getLast?_cons_cons]
          exact ihlast

theorem sameButAccumulator_refl {P : TimerQueue Callback} (x : XOUT P) :
    SameButAccumulator x x :=
  ⟨rfl, rfl, rfl, rfl, rfl, rfl, rfl, rfl, rfl⟩

/-- C18 (`XOUT::RecvAck`): for every five-byte ACK `frame` and every way of splitting
it into consecutive non-empty deliveries `chunks`, received by successive calls of
`RecvAck` that start from an empty accumulator (`cnt = 0`): there is one call per
delivery; each call before the last returns `Continue` and leaves every member of
the tracker but the accumulator (`ack`, `cnt`) as it was — pool, timer manager and
counters; and the last call ends with the same value returned (or the same exception)
and the same tracker as a single call of `RecvAck` that receives all five bytes at
once. -/
theorem RecvAck_split_equals_single {P : TimerQueue Callback} (e : Endian) (x : XOUT P)
    (tv : timeval) (frame : List Nat) (chunks : List (List Nat))
    (h0 : x.cnt = 0) (hack : x.ack.length = 5) (h5 : frame.length = 5)
    (hne : ∀ c ∈ chunks, c ≠ []) (hjoin : chunks.flatten = frame) :
    (RecvAckRepeat e tv chunks.length x (chunks.map RecvItem.data)).length = chunks.length ∧
    (∀ o ∈ (RecvAckRepeat e tv chunks.length x (chunks.map RecvItem.data)).dropLast,
      ∃ (s1 : Sock) (x1 : XOUT P),
        o = Outcome.returns (result.Continue, s1) x1 ∧ SameButAccumulator x x1) ∧
    (RecvAckRepeat e tv chunks.length x (chunks.map RecvItem.data)).getLast?.map forgetSock =
      some (forgetSock (RecvAck e x [RecvItem.data frame] tv)) := by
  have hnil : chunks ≠ [] := by
    intro h
    rw [h] at hjoin
    rw [← hjoin] at h5
    simp at h5
  have hcomp : CompletesAck x [RecvItem.data frame] frame :=
    ⟨0, frame, [], h0, by decide, hack, rfl, by omega, by
      simp only [List.take_zero, List.nil_append]
      exact List.take_of_length_le (by omega)⟩
  have hN := RecvAck_complete_normal e x [RecvItem.data frame] tv frame hcomp
  rw [hN]
  exact RecvAckRepeat_chunks e tv x frame h5 chunks x 0 h0 hack hne hnil
    (by simp only [List.take_zero, List.nil_append]; exact hjoin) (by omega)
    (sameButAccumulator_refl x)

/-- C18 at the ACK for cookie 7 arriving in the pieces `06`, `07 00`, `00 00` for a
tracker whose slot 0 holds cookie 7. -/
theorem RecvAck_split_equals_single_witness :
    (RecvAckRepeat Endian.little { tv_sec := 0, tv_usec := 0 } [[6], [7, 0], [0, 0]].length
      oneLiveTracker ([[6], [7, 0], [0, 0]].map RecvItem.data)).length =
      [[6], [7, 0], [0, 0]].length ∧
    (∀ o ∈ (RecvAckRepeat Endian.little { tv_sec := 0, tv_usec := 0 }
        [[6], [7, 0], [0, 0]].length oneLiveTracker
        ([[6], [7, 0], [0, 0]].map RecvItem.data)).dropLast,
      ∃ (s1 : Sock) (x1 : XOUT (listQueue Callback)),
        o = Outcome.returns (result.Continue, s1) x1 ∧ SameButAccumulator oneLiveTracker x1) ∧
    (RecvAckRepeat Endian.little { tv_sec := 0, tv_usec := 0 } [[6], [7, 0], [0, 0]].length
      oneLiveTracker ([[6], [7, 0], [0, 0]].map RecvItem.data)).getLast?.map forgetSock =
      some (forgetSock (RecvAck Endian.little oneLiveTracker [RecvItem.data [6, 7, 0, 0, 0]]
        { tv_sec := 0, tv_usec := 0 })) :=
  RecvAck_split_equals_single Endian.little oneLiveTracker { tv_sec := 0, tv_usec := 0 }
    [6, 7, 0, 0, 0] [[6], [7, 0], [0, 0]] rfl rfl rfl (by decide) rfl

/-! ### Failures of `recv` inside `readn` -/

/-- C17 (`readn`), a defect of the code: the variable `rc` is a `u_int32_t`, so the
test `rc < 0` is never true and the branch that returns `-1`, or retries on `EINTR`, is
never taken.  After a `recv` that fails with `ECONNRESET` (104), `readn(fd, buffer, 4)`
goes on with `buffer` advanced by 4294967295 and the count raised to 5, and issues a
further `recv`, whose byte it stores outside the buffer; after a `recv` interrupted
with `EINTR` it does the same instead of reading the four bytes that follow at the
same position. -/
theorem readn_ignores_recv_failure :
    readn [RecvItem.err 104, RecvItem.data [7]] [0, 0, 0, 0] 4 =
      some (Outcome.undefined Fault.outOfBounds) ∧
    readn [RecvItem.err EINTR, RecvItem.data [1, 2, 3, 4]] [0, 0, 0, 0] 4 =
      some (Outcome.undefined Fault.outOfBounds) ∧
    readnLoop 4 3 [RecvItem.err 104, RecvItem.data [7]] [0, 0, 0, 0] 0 4 =
      readnLoop 4 2 [RecvItem.data [7]] [0, 0, 0, 0] 4294967295 5 := by
  refine ⟨rfl, rfl, rfl⟩

/-! ### The statistics table -/

/-- C16 (`ServerXOI::statistic`), a defect of the code: for every counter state with
`msgid ≠ 0` the call returns, and the rows 7, 8 and 9 of the table — total, mean and
maximum round-trip time — all show `msgid`, not `time_out`, `time_out/msgid` and
`time_out_max`, which are the values that the log lines of the same function report;
the lost-ACK row 5 shows `msgid - cn_ack_out` (in `unsigned int`). -/
theorem statistic_rtt_rows_show_msgid {P : TimerQueue Callback} (x : XOUT P) (xin : XIN)
    (h : x.msgid ≠ 0) :
    ∃ (t : StatTable) (l : StatLog) (st : XOUT P × XIN),
      statistic x xin = Outcome.returns (t, l) st ∧
      t.row7_rtt_total = (x.msgid : Int) ∧ t.row8_rtt_mean = (x.msgid : Int) ∧
      t.row9_rtt_max = (x.msgid : Int) ∧
      t.row5_lost_ack_out = (x.msgid + U32 - x.cn_ack_out) % U32 ∧
      l.rtt_total = x.time_out ∧ l.rtt_mean = Int.tdiv x.time_out (x.msgid : Int) ∧
      l.rtt_max = x.time_out_max ∧
      st = (init_cnt x, init_cnt_in xin) := by
  unfold statistic
  rw [if_neg h]
  exact ⟨_, _, _, rfl, rfl, rfl, rfl, rfl, rfl, rfl, rfl, rfl⟩

/-- C16 at the end of a window with `msgid = 250`, `time_out = 1000` and
`time_out_max = 10`: the three RTT rows show 250, 250, 250, where the counters are
1000, 4 and 10. -/
theorem statistic_rtt_rows_show_msgid_witness :
    ∃ (t : StatTable) (l : StatLog) (st : XOUT (listQueue Callback) × XIN),
      statistic windowTracker xinFresh = Outcome.returns (t, l) st ∧
      t.row7_rtt_total = 250 ∧ t.row8_rtt_mean = 250 ∧ t.row9_rtt_max = 250 ∧
      t.row5_lost_ack_out = 10 ∧
      l.rtt_total = 1000 ∧ l.rtt_mean = 4 ∧ l.rtt_max = 10 ∧
      st = (init_cnt windowTracker, init_cnt_in xinFresh) :=
  statistic_rtt_rows_show_msgid windowTracker xinFresh (by decide)

/-! ### The order of cookies within a session -/

/-- A call of `SendMsg` that returns has put the value of `msgid` into the cookie
field of the frame and has advanced `msgid` by one. -/
theorem SendMsg_returns_cookie {P : TimerQueue Callback} (e : Endian) (x x1 : XOUT P)
    (msg : List Nat) (size : Nat) (sendRet now : Int) (tv : timeval) (r : result)
    (wire : List Nat)
    (h : SendMsg e x msg size sendRet now tv = Outcome.returns (r, wire) x1) :
    cookieBytes wire = store32 e x.msgid ∧ x1.msgid = (x.msgid + 1) % U32 := by
  obtain ⟨i, d, _, hget, hi, _, _, hm, _⟩ := SendMsg_effect e x x1 msg size sendRet now tv _ h
  by_cases hsz : BUF < size
  · unfold SendMsg at h
    simp only [hget, hi, hsz, if_true] at h
    cases h
  · obtain ⟨r2, x2, hrun, _⟩ :=
      SendMsg_wire e x msg size sendRet now tv i d hget hi (by omega)
    rw [h] at hrun
    injection hrun with hrw _
    injection hrw with _ hw
    refine ⟨?_, hm⟩
    rw [hw]
    unfold cookieBytes
    rw [List.append_assoc, List.drop_append_of_le_length (by simp [beBytes_length])]
    have hd : List.drop 4 (beBytes ((4 + size) % U32)) = [] := rfl
    rw [hd, List.nil_append, List.take_append_of_le_length (by simp [store32_length])]
    exact List.take_of_length_le (by simp [store32_length])

theorem quiet_msgid {P : TimerQueue Callback} (e : Endian) (x x1 : XOUT P)
    (h : Quiet e x x1) : x1.msgid = x.msgid := by
  induction h with
  | refl => rfl
  | ack x1 x2 s tv r _ hr ih => rw [(RecvAck_effect e x1 x2 s tv r hr).1, ih]
  | timers x1 mr tm _ ih => exact ih

/-- From a tracker with one live slot, `SendMsg` returns, and the pool it leaves
still has a free slot. -/
theorem oneLive_send_leaves_free {P : TimerQueue Callback} (e : Endian) (x : XOUT P)
    (m n : Nat) (h : OneLive x m n) :
    ∃ (x1 : XOUT P) (r : result) (w : List Nat),
      SendMsg e x [0] 1 1 0 { tv_sec := 0, tv_usec := 0 } = Outcome.returns (r, w) x1 ∧
      x.msgid = m ∧ ∃ d ∈ x1.mr, d.pkt.len = FREE := by
  obtain ⟨x1, ⟨r, w⟩, i, d0, dnew, ev1, hsend, hipos, hlen, _, _, _, _, _, _, _, _, hothers,
    _⟩ := oneLive_send e x m n h
  refine ⟨x1, r, w, hsend, h.2.2.2.2.2.1, ?_⟩
  by_cases hi1 : i = 1
  · have h2lt : 2 < x1.mr.length := by rw [hlen]; decide
    exact ⟨x1.mr[2], List.getElem_mem h2lt,
      hothers 2 x1.mr[2] (by decide) (by omega) (List.getElem?_eq_getElem h2lt)⟩
  · have h1lt : 1 < x1.mr.length := by rw [hlen]; decide
    exact ⟨x1.mr[1], List.getElem_mem h1lt,
      hothers 1 x1.mr[1] (by decide) (by omega) (List.getElem?_eq_getElem h1lt)⟩

/-- With a free slot in the pool, `SendMsg` of a one-byte message returns. -/
theorem SendMsg_returns_of_free {P : TimerQueue Callback} (e : Endian) (x : XOUT P)
    (hfree : ∃ d ∈ x.mr, d.pkt.len = FREE) :
    ∃ (x1 : XOUT P) (r : result) (w : List Nat),
      SendMsg e x [0] 1 1 0 { tv_sec := 0, tv_usec := 0 } = Outcome.returns (r, w) x1 := by
  obtain ⟨i, d, hget, hi, _⟩ := getfreerec_of_free x.mr hfree
  obtain ⟨r, x1, hrun, _⟩ :=
    SendMsg_wire e x [0] 1 1 0 { tv_sec := 0, tv_usec := 0 } i d hget hi (by decide)
  exact ⟨x1, r, _, hrun⟩

/-- C15 (`XOUT::SendMsg`, `ServerXOI::init_cnt`), amended: when no statistics are
emitted between two successive calls of `SendMsg` in a session — only calls of
`RecvAck` and the work of timers lie between them — the cookie of the second call is
the cookie of the first plus one modulo `2^32`: strictly greater unless the counter
wraps from `2^32 - 1` to 0.  When statistics are emitted in between (`init_cnt` sets
`msgid` to 0), the cookie of the second call is 0. -/
theorem cookie_follows_preceding {P : TimerQueue Callback} (e : Endian)
    (x x1 x2 x3 : XOUT P) (msg msg2 : List Nat) (size size2 : Nat)
    (sendRet sendRet2 now now2 : Int) (tv tv2 : timeval) (r r2 : result) (w w2 : List Nat)
    (h1 : SendMsg e x msg size sendRet now tv = Outcome.returns (r, w) x1)
    (hq : Quiet e x1 x2)
    (h2 : SendMsg e x2 msg2 size2 sendRet2 now2 tv2 = Outcome.returns (r2, w2) x3) :
    cookieBytes w = store32 e x.msgid ∧
    cookieBytes w2 = store32 e ((x.msgid + 1) % U32) ∧
    (x.msgid + 1 < U32 → x.msgid < (x.msgid + 1) % U32) ∧
    (x.msgid + 1 = U32 → (x.msgid + 1) % U32 = 0) ∧
    (∀ (x4 x5 x6 : XOUT P) (msg3 : List Nat) (size3 : Nat) (sendRet3 now3 : Int)
      (tv3 : timeval) (r3 : result) (w3 : List Nat),
      Quiet e x1 x4 → Quiet e (init_cnt x4) x5 →
      SendMsg e x5 msg3 size3 sendRet3 now3 tv3 = Outcome.returns (r3, w3) x6 →
      cookieBytes w3 = store32 e 0) := by
  obtain ⟨hc1, hm1⟩ := SendMsg_returns_cookie e x x1 msg size sendRet now tv r w h1
  obtain ⟨hc2, _⟩ := SendMsg_returns_cookie e x2 x3 msg2 size2 sendRet2 now2 tv2 r2 w2 h2
  have hq2 := quiet_msgid e x1 x2 hq
  refine ⟨hc1, ?_, ?_, ?_, ?_⟩
  · rw [hc2, hq2, hm1]
  · intro hlt
    rw [Nat.mod_eq_of_lt hlt]
    omega
  · intro heq
    rw [heq]
    exact Nat.mod_self U32
  · intro x4 x5 x6 msg3 size3 sendRet3 now3 tv3 r3 w3 _ hq5 h3
    obtain ⟨hc3, _⟩ := SendMsg_returns_cookie e x5 x6 msg3 size3 sendRet3 now3 tv3 r3 w3 h3
    rw [hc3, quiet_msgid e (init_cnt x4) x5 hq5]
    rfl

/-- C15 at two successive calls of `SendMsg` from a reachable tracker with one live
slot. -/
theorem cookie_follows_preceding_witness :
    ∃ (x x1 x3 : XOUT (listQueue Callback)) (r r2 : result) (w w2 : List Nat),
      SendMsg Endian.little x [0] 1 1 0 { tv_sec := 0, tv_usec := 0 } =
        Outcome.returns (r, w) x1 ∧
      Quiet Endian.little x1 x1 ∧
      SendMsg Endian.little x1 [0] 1 1 0 { tv_sec := 0, tv_usec := 0 } =
        Outcome.returns (r2, w2) x3 ∧
      cookieBytes w = store32 Endian.little x.msgid ∧
      cookieBytes w2 = store32 Endian.little ((x.msgid + 1) % U32) ∧
      (x.msgid + 1 < U32 → x.msgid < (x.msgid + 1) % U32) ∧
      (x.msgid + 1 = U32 → (x.msgid + 1) % U32 = 0) ∧
      (∀ (x4 x5 x6 : XOUT (listQueue Callback)) (msg3 : List Nat) (size3 : Nat)
        (sendRet3 now3 : Int) (tv3 : timeval) (r3 : result) (w3 : List Nat),
        Quiet Endian.little x1 x4 → Quiet Endian.little (init_cnt x4) x5 →
        SendMsg Endian.little x5 msg3 size3 sendRet3 now3 tv3 = Outcome.returns (r3, w3) x6 →
        cookieBytes w3 = store32 Endian.little 0) := by
  obtain ⟨x, _, hone⟩ :=
    oneLive_first (P := listQueue Callback) Endian.little noStat noStat_allows
  obtain ⟨x1, r, w, h1, _, hfree⟩ := oneLive_send_leaves_free Endian.little x _ _ hone
  obtain ⟨x3, r2, w2, h2⟩ := SendMsg_returns_of_free Endian.little x1 hfree
  exact ⟨x, x1, x3, r, r2, w, w2, h1, Quiet.refl x1, h2,
    cookie_follows_preceding Endian.little x x1 x1 x3 _ _ _ _ _ _ _ _ _ _ r r2 w w2 h1
      (Quiet.refl x1) h2⟩

/-- C15 fails as stated: in a session whose first message (cookie 0) stays
unacknowledged while 248 further messages are sent and acknowledged, a call of
`SendMsg` is assigned cookie 249 and leaves `msgid = TSTAT/T0 = 250`; the run loop then
emits statistics, and the next call of `SendMsg` is assigned cookie 0, which is neither
greater than 249 nor a wrap of the 32-bit counter. -/
theorem cookie_restarts_after_statistics :
    ∃ (x x1 x3 : XOUT (listQueue Callback)) (r r2 : result) (w w2 : List Nat),
      Reach Endian.little statGate x ∧
      SendMsg Endian.little x [0] 1 1 0 { tv_sec := 0, tv_usec := 0 } =
        Outcome.returns (r, w) x1 ∧
      cookieBytes w = store32 Endian.little 249 ∧
      x1.msgid = TSTAT / T0 ∧
      SendMsg Endian.little (init_cnt x1) [0] 1 1 0 { tv_sec := 0, tv_usec := 0 } =
        Outcome.returns (r2, w2) x3 ∧
      cookieBytes w2 = store32 Endian.little 0 := by
  obtain ⟨x, hreach, hone⟩ :=
    oneLive_iterate (P := listQueue Callback) Endian.little statGate statGate_allows 248
      (by decide)
  obtain ⟨x1, r, w, h1, hm, hfree⟩ := oneLive_send_leaves_free Endian.little x _ _ hone
  have hm249 : x.msgid = 249 := by rw [hm]; decide
  obtain ⟨hc1, hm1⟩ := SendMsg_returns_cookie Endian.little x x1 _ _ _ _ _ r w h1
  obtain ⟨x3, r2, w2, h2⟩ := SendMsg_returns_of_free Endian.little (init_cnt x1) hfree
  obtain ⟨hc2, _⟩ := SendMsg_returns_cookie Endian.little (init_cnt x1) x3 _ _ _ _ _ r2 w2 h2
  refine ⟨x, x1, x3, r, r2, w, w2, hreach, h1, ?_, ?_, h2, hc2⟩
  · rw [hc1, hm249]
  · rw [hm1, hm249]; decide

/-! ### Timer ids over sequences of calls -/

theorem mapFind_mapErase_isSome {V : Type} (m : List (Nat × V)) (k k2 : Nat)
    (h : (mapFind (mapErase m k) k2).isSome = true) : (mapFind m k2).isSome = true := by
  by_cases hk : k2 = k
  · subst hk
    rw [mapFind_mapErase_self] at h
    cases h
  · rw [mapFind_mapErase_ne _ _ _ hk] at h
    exact h

/-- While `next_id` has not wrapped, the ids of all pending timers are below it. -/
theorem tmReach_pending_lt {F : Type} (P : TimerQueue F) (tm : TimerManager P)
    (h : TmReach P beforeWrap tm) : ∀ id, PendingId tm id → id < tm.next_id := by
  induction h with
  | init =>
    intro id hp
    rcases hp with ⟨ev, hev, _⟩ | hp
    · simp only [TimerManager.init, P.elems_empty] at hev
      cases hev
    · simp [TimerManager.init, mapFind] at hp
  | timeout tm func ms now _ hg ih =>
    intro id hp
    have hnext : (timeout tm func ms now).2.next_id = tm.next_id + 1 := by
      show (tm.next_id + 1) % U32 = tm.next_id + 1
      exact Nat.mod_eq_of_lt (Nat.lt_of_lt_of_le hg (le_refl _))
    rw [hnext]
    rcases hp with ⟨ev, hev, hid⟩ | hp
    · have hmem := (P.elems_push tm.active
        { time := now + ms * 1000000, func := func, id := tm.next_id }).mem_iff.mp hev
      rcases List.mem_cons.mp hmem with h1 | h1
      · rw [← hid, h1]
        exact Nat.lt_succ_self _
      · exact Nat.lt_succ_of_lt (ih id (Or.inl ⟨ev, h1, hid⟩))
    · have hp2 : (mapFind (mapAssign tm.timers tm.next_id
          { time := now + ms * 1000000, func := func, id := tm.next_id }) id).isSome = true := hp
      rw [mapFind_mapAssign] at hp2
      by_cases hk : tm.next_id = id
      · rw [← hk]
        exact Nat.lt_succ_self _
      · rw [if_neg hk] at hp2
        exact Nat.lt_succ_of_lt (ih id (Or.inr (mapFind_mapErase_isSome _ _ _ hp2)))
  | unitimeout tm tm1 id0 _ hu ih =>
    intro id hp
    obtain ⟨v, _, hperm, htimers, hnext⟩ := unitimeout_returns tm tm1 id0 hu
    rw [hnext]
    rcases hp with ⟨ev, hev, hid⟩ | hp
    · have hmem := hperm.mem_iff.mp hev
      exact ih id (Or.inl ⟨ev, (List.mem_filter.mp hmem).1, hid⟩)
    · rw [htimers] at hp
      exact ih id (Or.inr (mapFind_mapErase_isSome _ _ _ hp))
  | pop tm te _ ht ih =>
    intro id hp
    rcases hp with ⟨ev, hev, hid⟩ | hp
    · have hmem : ev ∈ P.elems tm.active :=
        (P.elems_pop tm.active te ht).mem_iff.mp (List.mem_cons_of_mem _ hev)
      exact ih id (Or.inl ⟨ev, hmem, hid⟩)
    · exact ih id (Or.inr hp)
  | erase tm id0 _ ih =>
    intro id hp
    rcases hp with ⟨ev, hev, hid⟩ | hp
    · exact ih id (Or.inl ⟨ev, hev, hid⟩)
    · exact ih id (Or.inr (mapFind_mapErase_isSome _ _ _ hp))

/-- C14 (`TimerManager::timeout`), amended: over every sequence of calls of `timeout`
and `unitimeout` and of firing by `tselect` in which `timeout` has been called while
`next_id` was below `2^32 - 1` only — so fewer than `2^32 - 1` timers have been
registered — the id that the next call of `timeout` returns differs from the id of
every pending timer (in the heap or in the map). -/
theorem timeout_id_fresh_before_wrap {F : Type} (P : TimerQueue F) (tm : TimerManager P)
    (func : F) (ms now : Int) (h : TmReach P beforeWrap tm) :
    ∀ id, PendingId tm id → (timeout tm func ms now).1 ≠ id := by
  intro id hp heq
  have hlt := tmReach_pending_lt P tm h id hp
  have : tm.next_id = id := heq
  omega

/-- C14 at a manager with one registered timer: the second call of `timeout` returns an
id other than the pending id 1. -/
theorem timeout_id_fresh_before_wrap_witness :
    PendingId
      (timeout (TimerManager.init (listQueue Callback)) (Callback.drop 0) 1000 0).2 1 ∧
    (timeout (timeout (TimerManager.init (listQueue Callback)) (Callback.drop 0) 1000 0).2
      (Callback.drop 1) 1000 0).1 ≠ 1 :=
  ⟨Or.inr rfl,
    timeout_id_fresh_before_wrap (listQueue Callback)
      (timeout (TimerManager.init (listQueue Callback)) (Callback.drop 0) 1000 0).2
      (Callback.drop 1) 1000 0
      (TmReach.timeout _ _ _ _ TmReach.init (by show 1 + 1 < U32; decide)) 1 (Or.inr rfl)⟩

theorem oneTimer_first {F : Type} (P : TimerQueue F) (g : TimerManager P → Prop)
    (hg : ∀ tm, g tm) (func : F) :
    ∃ tm : TimerManager P, TmReach P g tm ∧ OneTimer tm 2 := by
  refine ⟨(timeout (TimerManager.init P) func 0 0).2,
    TmReach.timeout _ _ _ _ TmReach.init (hg _),
    ⟨{ time := 0 + 0 * 1000000, func := func, id := 1 }, ?_, ?_⟩, ?_, ?_⟩
  · have hp := P.elems_push P.empty { time := 0 + 0 * 1000000, func := func, id := 1 }
    rw [P.elems_empty] at hp
    exact List.perm_singleton.mp hp
  · rfl
  · intro k
    show (mapFind (mapAssign [] 1 _) k).isSome = true ↔ k = 1
    rw [mapFind_mapAssign]
    by_cases hk : 1 = k
    · rw [if_pos hk]; simp [hk.symm]
    · rw [if_neg hk]
      simp only [mapErase, List.filter_nil, mapFind, Option.isSome_none, Bool.false_eq_true,
        false_iff]
      exact fun h => hk h.symm
  · show (1 + 1) % U32 = 2
    decide

/-- One more timer is registered and cancelled while the timer with id 1 stays. -/
theorem oneTimer_cycle {F : Type} (P : TimerQueue F) (g : TimerManager P → Prop)
    (hg : ∀ tm, g tm) (func : F) (tm : TimerManager P) (n : Nat)
    (hreach : TmReach P g tm) (h : OneTimer tm n) (hn1 : n ≠ 1) :
    ∃ tm2 : TimerManager P, TmReach P g tm2 ∧ OneTimer tm2 ((n + 1) % U32) := by
  obtain ⟨⟨ev1, helems, hev1⟩, hmap, hnext⟩ := h
  have hreach1 : TmReach P g (timeout tm func 0 0).2 :=
    TmReach.timeout tm func 0 0 hreach (hg tm)
  have hfind : mapFind (timeout tm func 0 0).2.timers n =
      some { time := 0 + 0 * 1000000, func := func, id := tm.next_id } := by
    show mapFind (mapAssign tm.timers tm.next_id _) n = _
    rw [mapFind_mapAssign, if_pos hnext]
  obtain ⟨tm2, hu, hperm, htimers, hnext2⟩ := unitimeout_found _ n _ hfind
  refine ⟨tm2, TmReach.unitimeout _ tm2 n hreach1 hu, ⟨ev1, ?_, hev1⟩, ?_, ?_⟩
  · have hp := P.elems_push tm.active
      { time := 0 + 0 * 1000000, func := func, id := tm.next_id }
    rw [helems] at hp
    have hf := hp.filter (fun te => te.id != n)
    have hb1 : (tm.next_id != n) = false := by simp [hnext]
    have hb2 : (ev1.id != n) = true := by
      rw [hev1]
      simpa using fun h2 : (1 : Nat) = n => hn1 h2.symm
    simp only [List.filter_cons, hb1, hb2, if_true, List.filter_nil] at hf
    exact List.perm_singleton.mp (hperm.trans hf)
  · intro k
    rw [htimers]
    show (mapFind (mapErase (mapAssign tm.timers tm.next_id _) n) k).isSome = true ↔ k = 1
    rw [hnext]
    by_cases hk : k = n
    · subst hk
      rw [mapFind_mapErase_self]
      simp only [Option.isSome_none, Bool.false_eq_true, false_iff]
      exact hn1
    · rw [mapFind_mapErase_ne _ _ _ hk, mapFind_mapAssign, if_neg (fun h2 => hk h2.symm),
        mapFind_mapErase_ne _ _ _ hk]
      exact hmap k
  · rw [hnext2]
    show (tm.next_id + 1) % U32 = (n + 1) % U32
    rw [hnext]

theorem oneTimer_iterate {F : Type} (P : TimerQueue F) (g : TimerManager P → Prop)
    (hg : ∀ tm, g tm) (func : F) :
    ∀ j : Nat, j ≤ U32 - 1 →
      ∃ tm : TimerManager P, TmReach P g tm ∧ OneTimer tm ((2 + j) % U32) := by
  intro j
  induction j with
  | zero =>
    intro _
    exact oneTimer_first P g hg func
  | succ j ih =>
    intro hj
    obtain ⟨tm, hreach, hone⟩ := ih (by omega)
    have hn1 : (2 + j) % U32 ≠ 1 := by
      unfold U32 at hj ⊢
      omega
    obtain ⟨tm2, hreach2, hone2⟩ := oneTimer_cycle P g hg func tm _ hreach hone hn1
    refine ⟨tm2, hreach2, ?_⟩
    have e2 : ((2 + j) % U32 + 1) % U32 = (2 + (j + 1)) % U32 := by
      unfold U32; omega
    rw [e2] at hone2
    exact hone2

/-- C14 fails as stated: a timer is registered (id 1) and stays pending while
`2^32 - 1` further timers are registered and cancelled one after the other; the
counter `next_id` has then wrapped to 1, and the next call of `timeout` returns the
id 1 of the pending timer. -/
theorem timeout_id_reused_while_pending :
    ∃ tm : TimerManager (listQueue Callback),
      TmReach (listQueue Callback) anyCall tm ∧ PendingId tm 1 ∧
      (timeout tm (Callback.drop 0) 1000 0).1 = 1 := by
  obtain ⟨tm, hreach, ⟨ev, helems, hev⟩, _, hnext⟩ :=
    oneTimer_iterate (listQueue Callback) anyCall (fun _ => trivial) (Callback.drop 0)
      (U32 - 1) (le_refl _)
  have hn : (2 + (U32 - 1)) % U32 = 1 := by decide
  rw [hn] at hnext
  exact ⟨tm, hreach, Or.inl ⟨ev, by rw [helems]; exact List.mem_singleton.mpr rfl, hev⟩, hnext⟩

/-! ### The binary heap of libstdc++ is a priority queue -/

/-- Moving the element at index `j` into place `i` and storing `v` at `j` rearranges
the array with `v` stored at `i`. -/
theorem set_set_perm {F : Type} [DecidableEq F] (l : List (TimerEvent F)) (i j : Nat)
    (p v : TimerEvent F) (hj : l[j]? = some p) (hij : i ≠ j) (hi : i < l.length) :
    ((l.set i p).set j v).Perm (l.set i v) := by
  obtain ⟨hjl, hjp⟩ := List.getElem?_eq_some.mp hj
  have hjl2 : j < (l.set i p).length := by rw [List.length_set]; exact hjl
  rw [List.perm_iff_count]
  intro b
  rw [List.count_set _ _ _ _ hjl2, List.count_set _ _ _ _ hi, List.count_set _ _ _ _ hi,
    List.getElem_set_ne hij, hjp]
  have hle : (if (l[i] == b) = true then 1 else 0) ≤ l.count b := by
    split
    · rename_i h
      have := List.getElem_mem hi
      rw [eq_of_beq h] at this
      exact List.count_pos_iff.mpr this
    · exact Nat.zero_le _
  omega

theorem pushHeap_perm {F : Type} [DecidableEq F] (v : TimerEvent F) :
    ∀ (fuel : Nat) (l : List (TimerEvent F)) (hole : Nat), hole < l.length →
      (pushHeap v fuel l hole).Perm (l.set hole v) := by
  intro fuel
  induction fuel with
  | zero => intro l hole _; exact List.Perm.refl _
  | succ n ih =>
    intro l hole hi
    unfold pushHeap
    cases hp : l[(hole - 1) / 2]? with
    | none => exact List.Perm.refl _
    | some p =>
      simp only []
      split
      · rename_i hc
        have hne : hole ≠ (hole - 1) / 2 := by omega
        have hpl : (hole - 1) / 2 < (l.set hole p).length := by
          rw [List.length_set]; omega
        exact (ih (l.set hole p) ((hole - 1) / 2) hpl).trans (set_set_perm l hole _ p v hp hne hi)
      · exact List.Perm.refl _

theorem sink_perm {F : Type} [DecidableEq F] (v : TimerEvent F) (len : Nat) :
    ∀ (fuel : Nat) (l : List (TimerEvent F)) (sc : Nat), sc < l.length →
      (adjustHeapSink len fuel l sc).2 < (adjustHeapSink len fuel l sc).1.length ∧
      ((adjustHeapSink len fuel l sc).1.set (adjustHeapSink len fuel l sc).2 v).Perm
        (l.set sc v) := by
  intro fuel
  induction fuel with
  | zero => intro l sc hi; exact ⟨hi, List.Perm.refl _⟩
  | succ n ih =>
    intro l sc hi
    unfold adjustHeapSink
    split
    · cases hr : l[2 * (sc + 1)]? with
      | none => exact ⟨hi, List.Perm.refl _⟩
      | some r =>
        cases hl : l[2 * (sc + 1) - 1]? with
        | none => exact ⟨hi, List.Perm.refl _⟩
        | some c =>
          simp only []
          split
          · have hcl : 2 * (sc + 1) - 1 < (l.set sc c).length := by
              rw [List.length_set]; exact (List.getElem?_eq_some.mp hl).1
            obtain ⟨h1, h2⟩ := ih (l.set sc c) (2 * (sc + 1) - 1) hcl
            exact ⟨h1, h2.trans (set_set_perm l sc _ c v hl (by omega) hi)⟩
          · have hcl : 2 * (sc + 1) < (l.set sc r).length := by
              rw [List.length_set]; exact (List.getElem?_eq_some.mp hr).1
            obtain ⟨h1, h2⟩ := ih (l.set sc r) (2 * (sc + 1)) hcl
            exact ⟨h1, h2.trans (set_set_perm l sc _ r v hr (by omega) hi)⟩
    · exact ⟨hi, List.Perm.refl _⟩

theorem adjustHeap_perm {F : Type} [DecidableEq F] (v : TimerEvent F) (len : Nat)
    (l : List (TimerEvent F)) (h0 : 0 < l.length) :
    (adjustHeap l len v).Perm (l.set 0 v) := by
  obtain ⟨h1, h2⟩ := sink_perm v len len l 0 h0
  unfold adjustHeap
  simp only []
  split
  · cases hc : (adjustHeapSink len len l 0).1[2 * ((adjustHeapSink len len l 0).2 + 1) - 1]? with
    | none => exact (pushHeap_perm v _ _ _ h1).trans h2
    | some c =>
      simp only []
      have hcl : 2 * ((adjustHeapSink len len l 0).2 + 1) - 1 <
          ((adjustHeapSink len len l 0).1.set (adjustHeapSink len len l 0).2 c).length := by
        rw [List.length_set]; exact (List.getElem?_eq_some.mp hc).1
      exact ((pushHeap_perm v _ _ _ hcl).trans (set_set_perm _ _ _ c v hc (by omega) h1)).trans h2
  · exact (pushHeap_perm v _ _ _ h1).trans h2

theorem heapPush_perm {F : Type} [DecidableEq F] (c : List (TimerEvent F)) (x : TimerEvent F) :
    (heapPush c x).Perm (x :: c) := by
  unfold heapPush
  have h := pushHeap_perm x c.length (c ++ [x]) c.length (by simp)
  have hs : (c ++ [x]).set c.length x = c ++ [x] := by
    rw [List.set_append_right _ _ (le_refl _)]
    simp
  rw [hs] at h
  exact h.trans (List.perm_append_singleton x c)

theorem heapPop_perm {F : Type} [DecidableEq F] (c : List (TimerEvent F)) (x : TimerEvent F)
    (hx : c.head? = some x) : (x :: heapPop c).Perm c := by
  unfold heapPop
  cases hl : c.getLast? with
  | none =>
    rw [List.getLast?_eq_none_iff] at hl
    rw [hl] at hx
    cases hx
  | some value =>
    simp only []
    have hc : c.dropLast ++ [value] = c :=
      List.dropLast_append_getLast? value (by rw [Option.mem_def]; exact hl)
    cases hd : c.dropLast with
    | nil =>
      rw [hd] at hc
      rw [← hc] at hx ⊢
      simp only [List.nil_append, List.head?_cons, Option.some.injEq] at hx
      rw [hx]
      simp
    | cons y t =>
      rw [hd] at hc
      have hlen : c.length > 1 := by
        rw [← hc]; simp
      rw [if_pos hlen]
      have hyx : y = x := by
        rw [← hc] at hx
        simpa using hx
      subst hyx
      generalize c.length - 1 = len
      have ha := adjustHeap_perm value len (y :: t) (by simp)
      rw [List.set_cons_zero] at ha
      rw [← hc]
      refine (List.Perm.cons y ha).trans ?_
      exact List.Perm.cons y (List.perm_append_singleton value t).symm

theorem keyAt_set {F : Type} (l : List (TimerEvent F)) (i j : Nat) (v : TimerEvent F)
    (hi : i < l.length) :
    keyAt (l.set i v) j = if j = i then v.time else keyAt l j := by
  unfold keyAt
  by_cases hji : j = i
  · subst hji
    rw [List.getElem?_set_self hi, if_pos rfl]
  · rw [List.getElem?_set_ne (fun h => hji h.symm), if_neg hji]

theorem keyAt_some {F : Type} (l : List (TimerEvent F)) (i : Nat) (a : TimerEvent F)
    (h : l[i]? = some a) : keyAt l i = a.time := by
  unfold keyAt
  rw [h]

theorem is_heap_iff {F : Type} (c : List (TimerEvent F)) :
    is_heap c = true ↔ ∀ i, i < c.length → keyAt c ((i - 1) / 2) ≤ keyAt c i := by
  unfold is_heap
  simp only [List.all_eq_true, List.mem_range, decide_eq_true_eq]

/-- The loop of `std::__push_heap` restores the heap. -/
theorem pushHeap_heap {F : Type} (v : TimerEvent F) :
    ∀ (fuel : Nat) (l : List (TimerEvent F)) (hole : Nat), hole < l.length → hole ≤ fuel →
      HoleInv l hole → ValBelow l hole v → is_heap (pushHeap v fuel l hole) = true := by
  intro fuel
  induction fuel with
  | zero =>
    intro l hole hi hf ⟨hA, _⟩ hV
    have h0 : hole = 0 := by omega
    subst h0
    rw [is_heap_iff]
    intro i hil
    rw [pushHeap, List.length_set] at hil
    rw [pushHeap, keyAt_set l 0 _ v hi, keyAt_set l 0 _ v hi]
    have a1 := hA i hil
    have v1 := hV i hil
    split_ifs <;> omega
  | succ n ih =>
    intro l hole hi hf ⟨hA, hB⟩ hV
    have hpar : (hole - 1) / 2 < l.length := by omega
    obtain ⟨p, hp⟩ : ∃ p, l[(hole - 1) / 2]? = some p :=
      ⟨l[(hole - 1) / 2], List.getElem?_eq_getElem hpar⟩
    have hkp := keyAt_some l _ p hp
    unfold pushHeap
    simp only [hp]
    split
    · rename_i hc
      obtain ⟨hpos, hcmp⟩ := hc
      simp only [TimerEventCompare, decide_eq_true_eq] at hcmp
      apply ih (l.set hole p) ((hole - 1) / 2) (by rw [List.length_set]; exact hpar) (by omega)
      · constructor
        · intro i hil hne1 hne2
          rw [List.length_set] at hil
          rw [keyAt_set l hole _ p hi, keyAt_set l hole _ p hi]
          have a1 := hA i hil
          have b1 := hB hpos i hil
          split_ifs <;> omega
        · intro hpp c hcl hc0 hcp
          rw [List.length_set] at hcl
          rw [keyAt_set l hole _ p hi, keyAt_set l hole _ p hi]
          have a1 := hA ((hole - 1) / 2) hpar
          have a2 := hA c hcl
          rw [hcp] at a2
          rw [hkp] at a1 a2
          split_ifs <;> omega
      · intro c hcl hc0 hcp
        rw [List.length_set] at hcl
        rw [keyAt_set l hole _ p hi]
        have a2 := hA c hcl
        rw [hcp, hkp] at a2
        split_ifs <;> omega
    · rename_i hc
      simp only [TimerEventCompare, decide_eq_true_eq, not_and, not_lt] at hc
      rw [is_heap_iff]
      intro i hil
      rw [List.length_set] at hil
      rw [keyAt_set l hole _ v hi, keyAt_set l hole _ v hi]
      by_cases hih : i = hole
      · subst hih
        rw [if_pos rfl]
        by_cases hp0 : (i - 1) / 2 = i
        · rw [if_pos hp0]
        · rw [if_neg hp0, hkp]
          exact hc (by omega)
      · rw [if_neg hih]
        by_cases hpi : (i - 1) / 2 = hole
        · rw [if_pos hpi]
          exact hV i hil (by omega) hpi
        · rw [if_neg hpi]
          exact hA i hil hih hpi

/-- One round of the first loop of `std::__adjust_heap`: the child `x` at index `ch`,
which is not put after its sibling, moves into the hole at `sc`. -/
theorem holeInv_sink {F : Type} (l : List (TimerEvent F)) (sc ch : Nat) (x : TimerEvent F)
    (hsc : sc < l.length) (hx : l[ch]? = some x) (hch : (ch - 1) / 2 = sc) (hch0 : sc < ch)
    (hsib : ∀ i, i < l.length → 0 < i → (i - 1) / 2 = sc → i ≠ ch → x.time ≤ keyAt l i)
    (h : HoleInv l sc) : HoleInv (l.set sc x) ch := by
  obtain ⟨hA, hB⟩ := h
  have hkx := keyAt_some l ch x hx
  have hchl : ch < l.length := (List.getElem?_eq_some.mp hx).1
  constructor
  · intro i hil hne1 hne2
    rw [List.length_set] at hil
    rw [keyAt_set l sc _ x hsc, keyAt_set l sc _ x hsc]
    by_cases his : i = sc
    · subst his
      rw [if_pos rfl]
      by_cases hp0 : (i - 1) / 2 = i
      · rw [if_pos hp0]
      · rw [if_neg hp0, ← hkx]
        exact hB (by omega) ch hchl (by omega) hch
    · rw [if_neg his]
      by_cases hpi : (i - 1) / 2 = sc
      · rw [if_pos hpi]
        exact hsib i hil (by omega) hpi hne1
      · rw [if_neg hpi]
        exact hA i hil his hpi
  · intro _ c hcl hc0 hcp
    rw [List.length_set] at hcl
    rw [keyAt_set l sc _ x hsc, keyAt_set l sc _ x hsc, if_pos hch, if_neg (by omega)]
    have := hA c hcl (by omega) (by omega)
    rw [hcp, hkx] at this
    exact this

/-- The first loop of `std::__adjust_heap` keeps the array a heap but for the hole,
and ends with the hole at an index without two children. -/
theorem sink_heap {F : Type} (len : Nat) :
    ∀ (fuel : Nat) (l : List (TimerEvent F)) (sc : Nat), l.length = len → sc < len →
      HoleInv l sc → len ≤ sc + fuel →
      (adjustHeapSink len fuel l sc).1.length = len ∧
      (adjustHeapSink len fuel l sc).2 < len ∧
      HoleInv (adjustHeapSink len fuel l sc).1 (adjustHeapSink len fuel l sc).2 ∧
      ¬ ((adjustHeapSink len fuel l sc).2 < (len - 1) / 2) := by
  intro fuel
  induction fuel with
  | zero => intro l sc _ h1 _ h2; omega
  | succ n ih =>
    intro l sc hlen hsc hinv hfuel
    unfold adjustHeapSink
    split
    · rename_i hlt
      have hrl : 2 * (sc + 1) < l.length := by omega
      have hll : 2 * (sc + 1) - 1 < l.length := by omega
      obtain ⟨r, hr⟩ : ∃ r, l[2 * (sc + 1)]? = some r :=
        ⟨l[2 * (sc + 1)], List.getElem?_eq_getElem hrl⟩
      obtain ⟨c, hc⟩ : ∃ c, l[2 * (sc + 1) - 1]? = some c :=
        ⟨l[2 * (sc + 1) - 1], List.getElem?_eq_getElem hll⟩
      have hkr := keyAt_some l _ r hr
      have hkc := keyAt_some l _ c hc
      simp only [hr, hc]
      split
      · rename_i hcmp
        simp only [TimerEventCompare, decide_eq_true_eq] at hcmp
        apply ih (l.set sc c) (2 * (sc + 1) - 1) (by rw [List.length_set]; exact hlen)
          (by omega) ?_ (by omega)
        apply holeInv_sink l sc _ c (by omega) hc (by omega) (by omega) ?_ hinv
        intro i hil hi0 hpi hne
        have hi2 : i = 2 * (sc + 1) := by omega
        rw [hi2, hkr]
        omega
      · rename_i hcmp
        simp only [TimerEventCompare, decide_eq_true_eq, not_lt] at hcmp
        apply ih (l.set sc r) (2 * (sc + 1)) (by rw [List.length_set]; exact hlen)
          (by omega) ?_ (by omega)
        apply holeInv_sink l sc _ r (by omega) hr (by omega) (by omega) ?_ hinv
        intro i hil hi0 hpi hne
        have hi2 : i = 2 * (sc + 1) - 1 := by omega
        rw [hi2, hkc]
        exact hcmp
    · rename_i hlt
      exact ⟨hlen, hsc, hinv, hlt⟩

/-- The function `std::__adjust_heap` makes a heap of an array that is a heap but for
the hole at the top. -/
theorem adjustHeap_heap {F : Type} (l : List (TimerEvent F)) (v : TimerEvent F)
    (h0 : 0 < l.length) (hinv : HoleInv l 0) :
    is_heap (adjustHeap l l.length v) = true := by
  obtain ⟨h1, h2, h3, h4⟩ := sink_heap l.length l.length l 0 rfl h0 hinv (by omega)
  unfold adjustHeap
  simp only []
  generalize adjustHeapSink l.length l.length l 0 = r at h1 h2 h3 h4
  split
  · rename_i hcond
    obtain ⟨he, h2le, hr2⟩ := hcond
    have hcl : 2 * (r.2 + 1) - 1 < r.1.length := by omega
    obtain ⟨c, hc⟩ : ∃ c, r.1[2 * (r.2 + 1) - 1]? = some c :=
      ⟨r.1[2 * (r.2 + 1) - 1], List.getElem?_eq_getElem hcl⟩
    simp only [hc]
    apply pushHeap_heap v _ _ _ (by rw [List.length_set]; exact hcl) (le_refl _)
    · apply holeInv_sink r.1 r.2 _ c (by omega) hc (by omega) (by omega) ?_ h3
      intro i hil hi0 hpi hne
      omega
    · intro c2 hcl2 hc0 hcp
      rw [List.length_set] at hcl2
      omega
  · rename_i hcond
    apply pushHeap_heap v _ _ _ (by omega) (le_refl _) h3
    intro c2 hcl2 hc0 hcp
    omega

theorem keyAt_append_left {F : Type} (c : List (TimerEvent F)) (x : TimerEvent F) (j : Nat)
    (hj : j < c.length) : keyAt (c ++ [x]) j = keyAt c j := by
  unfold keyAt
  rw [List.getElem?_append_left hj]

/-- The member `push` of the priority queue keeps the vector a heap. -/
theorem heapPush_heap {F : Type} (c : List (TimerEvent F)) (x : TimerEvent F)
    (h : is_heap c = true) : is_heap (heapPush c x) = true := by
  rw [is_heap_iff] at h
  unfold heapPush
  apply pushHeap_heap x _ _ _ (by simp) (le_refl _)
  · constructor
    · intro i hil hne1 hne2
      rw [List.length_append, List.length_singleton] at hil
      rw [keyAt_append_left c x _ (by omega), keyAt_append_left c x _ (by omega)]
      exact h i (by omega)
    · intro _ c2 hcl _ hcp
      rw [List.length_append, List.length_singleton] at hcl
      omega
  · intro c2 hcl _ hcp
    rw [List.length_append, List.length_singleton] at hcl
    omega

/-- The member `pop` of the priority queue keeps the vector a heap. -/
theorem heapPop_heap {F : Type} (c : List (TimerEvent F))
    (h : is_heap c = true) : is_heap (heapPop c) = true := by
  rw [is_heap_iff] at h
  unfold heapPop
  cases hl : c.getLast? with
  | none => rfl
  | some value =>
    simp only []
    have hc : c.dropLast ++ [value] = c :=
      List.dropLast_append_getLast? value (by rw [Option.mem_def]; exact hl)
    have hk : ∀ j, j < c.dropLast.length → keyAt c.dropLast j = keyAt c j := by
      intro j hj
      have := keyAt_append_left c.dropLast value j hj
      rw [hc] at this
      exact this.symm
    have hdl : c.dropLast.length = c.length - 1 := List.length_dropLast c
    split
    · rename_i hlen
      rw [← hdl]
      apply adjustHeap_heap c.dropLast value (by omega)
      constructor
      · intro i hil hne1 hne2
        rw [hk i hil, hk _ (by omega)]
        exact h i (by omega)
      · intro h00
        omega
    · rw [is_heap_iff]
      intro i hil
      have : i = 0 := by omega
      subst this
      exact le_refl _

theorem heap_top_max {F : Type} (c : List (TimerEvent F)) (x : TimerEvent F)
    (h : is_heap c = true) (hx : c.head? = some x) :
    ∀ y ∈ c, TimerEventCompare x y = false := by
  rw [is_heap_iff] at h
  have hroot : ∀ i, i < c.length → keyAt c 0 ≤ keyAt c i := by
    intro i
    induction i using Nat.strong_induction_on with
    | _ i ih =>
      intro hi
      by_cases h0 : i = 0
      · subst h0; exact le_refl _
      · exact le_trans (ih ((i - 1) / 2) (by omega) (by omega)) (h i hi)
  intro y hy
  obtain ⟨i, hi, hiy⟩ := List.getElem_of_mem hy
  have hk0 : keyAt c 0 = x.time := by
    apply keyAt_some
    rw [← hx, List.head?_eq_getElem?]
  have hki : keyAt c i = y.time :=
    keyAt_some c i y (by rw [List.getElem?_eq_getElem hi, hiy])
  have := hroot i hi
  rw [hk0, hki] at this
  simp only [TimerEventCompare, decide_eq_false_iff_not, not_lt]
  exact this

/-- The vector operations of libstdc++ form a priority queue. -/
theorem heapLaws (F : Type) [DecidableEq F] : HeapLaws F :=
  { push_heap := heapPush_heap
    pop_heap := heapPop_heap
    push_perm := heapPush_perm
    pop_perm := heapPop_perm
    top_max := heap_top_max }

/-! ### Timers that share a deadline -/

/-- A list of events in the order of their deadlines consists of the events before
`t`, the events at `t` and the events after `t`. -/
theorem sorted_three_parts {F : Type} (t : Int) :
    ∀ tr : List (TimerEvent F), tr.Pairwise (fun a b => a.time ≤ b.time) →
      tr = tr.filter (fun ev => decide (ev.time < t)) ++
        tr.filter (fun ev => decide (ev.time = t)) ++
        tr.filter (fun ev => decide (t < ev.time)) := by
  intro tr
  induction tr with
  | nil => intro _; rfl
  | cons a tr ih =>
    intro h
    obtain ⟨ha, htr⟩ := List.pairwise_cons.mp h
    have ih2 := ih htr
    rcases lt_trichotomy a.time t with hlt | heq | hgt
    · have h1 : decide (a.time < t) = true := by simpa using hlt
      have h2 : decide (a.time = t) = false := by simp; omega
      have h3 : decide (t < a.time) = false := by simp; omega
      simp only [List.filter_cons, h1, h2, h3, if_true, List.cons_append]
      exact congrArg (List.cons a) ih2
    · have hnone : tr.filter (fun ev => decide (ev.time < t)) = [] := by
        rw [List.filter_eq_nil_iff]
        intro b hb
        have := ha b hb
        simp only [decide_eq_true_eq, not_lt]
        omega
      have h1 : decide (a.time < t) = false := by simp; omega
      have h2 : decide (a.time = t) = true := by simpa using heq
      have h3 : decide (t < a.time) = false := by simp; omega
      rw [hnone, List.nil_append] at ih2
      simp only [List.filter_cons, h1, h2, h3, if_true, hnone, List.nil_append,
        List.cons_append]
      exact congrArg (List.cons a) ih2
    · have hnone : tr.filter (fun ev => decide (ev.time < t)) = [] := by
        rw [List.filter_eq_nil_iff]
        intro b hb
        have := ha b hb
        simp only [decide_eq_true_eq, not_lt]
        omega
      have hnone2 : tr.filter (fun ev => decide (ev.time = t)) = [] := by
        rw [List.filter_eq_nil_iff]
        intro b hb
        have := ha b hb
        simp only [decide_eq_true_eq]
        omega
      have h1 : decide (a.time < t) = false := by simp; omega
      have h2 : decide (a.time = t) = false := by simp; omega
      have h3 : decide (t < a.time) = true := by simpa using hgt
      rw [hnone, hnone2, List.nil_append, List.nil_append] at ih2
      simp only [List.filter_cons, h1, h2, h3, if_true, hnone, hnone2, List.nil_append]
      exact congrArg (List.cons a) ih2

/-- C20 (`TimerManager::tselect`, `TimerEventCompare`), amended: for every priority
queue that conforms to the C++ standard and every deadline `t` that is due, the firing
loop of `tselect` (given more rounds than the heap has events, with callbacks that
return and register only later timers) invokes the callbacks of the pending timers
with deadline `t` one after the other, each once, after all timers with an earlier
deadline and before all timers with a later one; the order among them is the one in
which the priority queue hands them out, which the comparator (deadlines only) does
not determine. -/
theorem tselect_fires_tied_timers_together {F σ : Type} {P : TimerQueue F} (H : Host P σ)
    (now_time : Int) (s : σ) (t : Int) (fuel : Nat)
    (hcb : CallbacksRegisterLater H now_time) (hdue : t ≤ now_time)
    (hfuel : (P.elems (H.tm s).active).length < fuel) :
    ∃ (l1 blk l2 : List (TimerEvent F)) (s1 : σ),
      tselect_fire H now_time fuel s = some (l1 ++ blk ++ l2, Outcome.returns () s1) ∧
      blk.Perm ((P.elems (H.tm s).active).filter (fun ev => decide (ev.time = t))) ∧
      (∀ ev ∈ l1, ev.time < t) ∧ (∀ ev ∈ l2, t < ev.time) := by
  obtain ⟨tr, s1, hrun, hperm, hsorted⟩ :=
    tselect_fire_spec H now_time hcb fuel s (P.elems (H.tm s).active) []
      (by simp) (by simp) hfuel
  refine ⟨tr.filter (fun ev => decide (ev.time < t)),
    tr.filter (fun ev => decide (ev.time = t)),
    tr.filter (fun ev => decide (t < ev.time)), s1, ?_, ?_, ?_, ?_⟩
  · rw [hrun, ← sorted_three_parts t tr hsorted]
  · have h1 := hperm.filter (fun ev => decide (ev.time = t))
    rw [List.filter_filter] at h1
    have h2 : (P.elems (H.tm s).active).filter
        (fun ev => decide (ev.time = t) && decide (ev.time ≤ now_time)) =
        (P.elems (H.tm s).active).filter (fun ev => decide (ev.time = t)) := by
      apply List.filter_congr
      intro ev _
      by_cases he : ev.time = t
      · have h3 : decide (ev.time ≤ now_time) = true := by
          simp only [decide_eq_true_eq]; omega
        rw [h3, Bool.and_true]
      · have h3 : decide (ev.time = t) = false := by
          simp only [decide_eq_false_iff_not]; exact he
        rw [h3, Bool.false_and]
    rw [h2] at h1
    exact h1
  · intro ev hev
    simpa using (List.mem_filter.mp hev).2
  · intro ev hev
    simpa using (List.mem_filter.mp hev).2

/-- C20 at four timers that share the deadline of one second, in the priority queue of
libstdc++. -/
theorem tselect_fires_tied_timers_together_witness :
    ∃ (l1 blk l2 : List (TimerEvent Callback))
      (s1 : TimerManager (heapQueue Callback (heapLaws Callback))),
      tselect_fire (plainHost (heapQueue Callback (heapLaws Callback))) 1000000000 5
        (fourTimers (heapLaws Callback)) = some (l1 ++ blk ++ l2, Outcome.returns () s1) ∧
      blk.Perm (((heapQueue Callback (heapLaws Callback)).elems
        ((plainHost (heapQueue Callback (heapLaws Callback))).tm
          (fourTimers (heapLaws Callback))).active).filter
        (fun ev => decide (ev.time = 1000000000))) ∧
      (∀ ev ∈ l1, ev.time < 1000000000) ∧ (∀ ev ∈ l2, 1000000000 < ev.time) :=
  tselect_fires_tied_timers_together (plainHost (heapQueue Callback (heapLaws Callback)))
    1000000000 (fourTimers (heapLaws Callback)) 1000000000 5
    (plainHost_registerLater (heapQueue Callback (heapLaws Callback)) 1000000000)
    (by decide) (by decide)

/-- C20 fails as stated: with the priority queue of libstdc++ (a binary heap whose
comparator sees deadlines only), four timers registered in the order of their ids
1, 2, 3, 4 with one common deadline are fired by `tselect` in the order 1, 3, 2, 4. -/
theorem tied_timers_fire_out_of_insertion_order :
    ∃ s1 : TimerManager (heapQueue Callback (heapLaws Callback)),
      tselect_fire (plainHost (heapQueue Callback (heapLaws Callback))) 1000000000 5
        (fourTimers (heapLaws Callback)) =
      some ([{ time := 1000000000, func := Callback.drop 0, id := 1 },
             { time := 1000000000, func := Callback.drop 2, id := 3 },
             { time := 1000000000, func := Callback.drop 1, id := 2 },
             { time := 1000000000, func := Callback.drop 3, id := 4 }],
        Outcome.returns () s1) :=
  ⟨_, rfl⟩

/-! ### What `readvrec` takes off the stream -/

/-- C28 (`readvrec`, `readn`): for every framed record with length field `L` whose
`4 + L` bytes are on the stream (in deliveries of any sizes), read into a buffer that
has the capacity `len` passed, `readvrec` returns and leaves on the stream exactly
the bytes after the record — both when `L ≤ len` (it returns `L`) and when `L > len`
(it returns `-1`) — so that a following call of `readvrec` reads the next record,
starting at its length field. -/
theorem readvrec_consumes_record (e : Endian) (s : Sock) (bp : List Nat) (len L : Nat)
    (body more : List Nat)
    (hs : streamBytes s = beBytes L ++ body ++ more) (hbody : body.length = L)
    (hL : L < U32) (hbp : len ≤ bp.length) :
    ∃ (r : ReadvrecResult) (s1 : Sock),
      readvrec e s bp len = some (Outcome.returns r s1) ∧
      streamBytes s1 = more ∧
      (streamBytes s).length = 4 + L + (streamBytes s1).length ∧
      r.ret = (if L ≤ len then L else U32 - 1) ∧
      (∀ (L2 : Nat) (body2 more2 : List Nat), more = beBytes L2 ++ body2 ++ more2 →
        body2.length = L2 → L2 < U32 → L2 ≤ len →
        ∃ s2, readvrec e s1 r.bp len =
          some (Outcome.returns
            { ret := L2, bp := body2 ++ r.bp.drop L2, errno := none } s2) ∧
          streamBytes s2 = more2) := by
  have hsm := streamBytes_after_record s L body more hs hbody
  have hlen : (streamBytes s).length = 4 + L + more.length := by
    rw [hs]
    simp only [List.length_append, beBytes_length, hbody]
  by_cases hfit : L ≤ len
  · have hrun := readvrec_fits e s bp len L body more hs hbody hL hfit (by omega)
    refine ⟨_, _, hrun, hsm, by rw [hsm]; exact hlen, by rw [if_pos hfit], ?_⟩
    intro L2 body2 more2 hm hb2 hL2 hfit2
    have hbl : L2 ≤ (body ++ bp.drop L).length := by
      rw [List.length_append, List.length_drop]; omega
    refine ⟨_, readvrec_fits e _ _ len L2 body2 more2 (by rw [hsm, hm]) hb2 hL2 hfit2 hbl, ?_⟩
    exact streamBytes_after_record _ L2 body2 more2 (by rw [hsm, hm]) hb2
  · have hbig : len < L := by omega
    have hrun := readvrec_oversize e s bp len L body more hs hbody hL hbig hbp
    refine ⟨_, _, hrun, hsm, by rw [hsm]; exact hlen, by rw [if_neg hfit], ?_⟩
    intro L2 body2 more2 hm hb2 hL2 hfit2
    have hbl : L2 ≤ (body.take len ++ bp.drop len).length := by
      rw [List.length_append, List.length_take, List.length_drop]; omega
    refine ⟨_, readvrec_fits e _ _ len L2 body2 more2 (by rw [hsm, hm]) hb2 hL2 hfit2 hbl, ?_⟩
    exact streamBytes_after_record _ L2 body2 more2 (by rw [hsm, hm]) hb2

/-- C28 at a record of three bytes read with capacity two, followed by a record of one
byte. -/
theorem readvrec_consumes_record_witness :
    ∃ (r : ReadvrecResult) (s1 : Sock),
      readvrec Endian.little
          [RecvItem.data [0, 0, 0], RecvItem.data [3, 1, 2, 3, 0, 0], RecvItem.data [0, 1, 9]]
          [7, 7] 2 = some (Outcome.returns r s1) ∧
      streamBytes s1 = [0, 0, 0, 1, 9] ∧
      (streamBytes
        [RecvItem.data [0, 0, 0], RecvItem.data [3, 1, 2, 3, 0, 0],
          RecvItem.data [0, 1, 9]]).length = 4 + 3 + (streamBytes s1).length ∧
      r.ret = (if 3 ≤ 2 then 3 else U32 - 1) ∧
      (∀ (L2 : Nat) (body2 more2 : List Nat), [0, 0, 0, 1, 9] = beBytes L2 ++ body2 ++ more2 →
        body2.length = L2 → L2 < U32 → L2 ≤ 2 →
        ∃ s2, readvrec Endian.little s1 r.bp 2 =
          some (Outcome.returns
            { ret := L2, bp := body2 ++ r.bp.drop L2, errno := none } s2) ∧
          streamBytes s2 = more2) :=
  readvrec_consumes_record Endian.little
    [RecvItem.data [0, 0, 0], RecvItem.data [3, 1, 2, 3, 0, 0], RecvItem.data [0, 1, 9]]
    [7, 7] 2 3 [1, 2, 3] [0, 0, 0, 1, 9] (by decide) (by decide) (by decide) (by decide)

/-! ### Records of length zero -/

/-- C29 (`readvrec`, `XIN::Eсho`): for a framed record whose length field is 0,
`readvrec` takes the four length bytes off the stream and returns 0, the value it
also returns on a stream that the peer has closed; `Eсho` then returns `Break`, hands
nothing to `send` and leaves the counters of received records and of sent ACKs and
the array `msgin` as they were. -/
theorem Echo_empty_record_is_Break (e : Endian) (xin : XIN) (s : Sock) (sendRet : Int)
    (more : List Nat) (hs : streamBytes s = beBytes 0 ++ more) :
    (∃ s1, readvrec e s xin.msgin (toU32 xin.size_in) =
        some (Outcome.returns { ret := 0, bp := xin.msgin, errno := none } s1) ∧
      streamBytes s1 = more) ∧
    readvrec e [] xin.msgin (toU32 xin.size_in) =
      some (Outcome.returns { ret := 0, bp := xin.msgin, errno := none } []) ∧
    (∃ s1, Echo e xin s sendRet = some (Outcome.returns (result.Break, none, s1) xin) ∧
      streamBytes s1 = more) := by
  have hs2 : streamBytes s = beBytes 0 ++ [] ++ more := by
    rw [hs, List.append_nil]
  have hrun := readvrec_fits e s xin.msgin (toU32 xin.size_in) 0 [] more hs2 rfl (by decide)
    (Nat.zero_le _) (Nat.zero_le _)
  simp only [List.nil_append, List.drop_zero] at hrun
  have hsm := streamBytes_after_record s 0 [] more hs2 rfl
  refine ⟨⟨_, hrun, hsm⟩, rfl, _, ?_, hsm⟩
  have h0 : toInt32 0 = 0 := by decide
  unfold Echo
  simp only [hrun, h0, if_true]

/-- C29 at a record of length zero followed by one further byte. -/
theorem Echo_empty_record_is_Break_witness :
    (∃ s1, readvrec Endian.little [RecvItem.data [0, 0, 0, 0, 9]] xinFresh.msgin
        (toU32 xinFresh.size_in) =
        some (Outcome.returns { ret := 0, bp := xinFresh.msgin, errno := none } s1) ∧
      streamBytes s1 = [9]) ∧
    readvrec Endian.little [] xinFresh.msgin (toU32 xinFresh.size_in) =
      some (Outcome.returns { ret := 0, bp := xinFresh.msgin, errno := none } []) ∧
    (∃ s1, Echo Endian.little xinFresh [RecvItem.data [0, 0, 0, 0, 9]] 5 =
        some (Outcome.returns (result.Break, none, s1) xinFresh) ∧
      streamBytes s1 = [9]) :=
  Echo_empty_record_is_Break Endian.little xinFresh [RecvItem.data [0, 0, 0, 0, 9]] 5 [9]
    (by decide)

/-! ### The accumulated byte count after a failed `recv` -/

/-- C24 (`XOUT::RecvAck`), a defect of the code: a `recv` that fails is logged, but the
function goes on to `cnt += byte` with `byte = -1`.  From `cnt = 0` the call returns
`Continue` with `cnt = -1`; the next call asks `recv` for `ACKSZ - cnt = 6` bytes at
`ack - 1`, and what arrives is stored outside the array `ack`. -/
theorem RecvAck_recv_failure_breaks_cnt {P : TimerQueue Callback} (e : Endian) (x : XOUT P)
    (tv : timeval) (en : Nat) (rest rest2 : Sock) (bs : List Nat)
    (h0 : x.cnt = 0) (hbs : bs ≠ []) :
    RecvAck e x (RecvItem.err en :: rest) tv =
      Outcome.returns (result.Continue, rest) { x with cnt := -1 } ∧
    toSizeT ((ACKSZ : Int) - (-1)) = 6 ∧
    RecvAck e { x with cnt := -1 } (RecvItem.data bs :: rest2) tv =
      Outcome.undefined Fault.outOfBounds := by
  refine ⟨?_, by decide, ?_⟩
  · have hw : writeAt x.ack 0 [] = some x.ack := by
      unfold writeAt
      rw [if_pos rfl]
    have h1 : ¬ ((-1 : Int) = 0) := by decide
    have h2 : (0 : Int) + -1 < (ACKSZ : Int) := by decide
    unfold RecvAck
    simp only [h0, recv, hw, h1, if_false, h2, if_true]
    rfl
  · have h6 : toSizeT ((ACKSZ : Int) - (-1)) = 6 := by decide
    have hne : (recv (RecvItem.data bs :: rest2) 6).bytes ≠ [] := by
      by_cases hl : bs.length ≤ 6
      · simp only [recv, hl, if_true]
        exact hbs
      · simp only [recv, hl, if_false]
        intro h
        have := congrArg List.length h
        simp only [List.length_take, List.length_nil] at this
        omega
    have hw : writeAt x.ack (-1) (recv (RecvItem.data bs :: rest2) 6).bytes = none := by
      unfold writeAt
      rw [if_neg hne, if_neg]
      intro h
      exact absurd h.1 (by decide)
    unfold RecvAck
    simp only [h6, hw]

/-- C24 at a `recv` that fails with `ECONNRESET` (104) and a following delivery of the
five bytes of an ACK. -/
theorem RecvAck_recv_failure_breaks_cnt_witness :
    RecvAck Endian.little oneLiveTracker [RecvItem.err 104, RecvItem.data [6, 7, 0, 0, 0]]
        { tv_sec := 0, tv_usec := 0 } =
      Outcome.returns (result.Continue, [RecvItem.data [6, 7, 0, 0, 0]])
        { oneLiveTracker with cnt := -1 } ∧
    toSizeT ((ACKSZ : Int) - (-1)) = 6 ∧
    RecvAck Endian.little { oneLiveTracker with cnt := -1 } (RecvItem.data [6, 7, 0, 0, 0] :: [])
        { tv_sec := 0, tv_usec := 0 } =
      Outcome.undefined Fault.outOfBounds :=
  RecvAck_recv_failure_breaks_cnt Endian.little oneLiveTracker { tv_sec := 0, tv_usec := 0 } 104
    [RecvItem.data [6, 7, 0, 0, 0]] [] [6, 7, 0, 0, 0] rfl (by decide)

/-- While `recv` does not fail, `RecvAck` keeps the accumulated byte count within
`0 ≤ cnt < ACKSZ`. -/
theorem RecvAck_cnt_in_range {P : TimerQueue Callback} (e : Endian) (x x1 : XOUT P)
    (s : Sock) (tv : timeval) (r : result × Sock)
    (hlo : 0 ≤ x.cnt) (hhi : x.cnt < 5)
    (hok : 0 ≤ (recv s (toSizeT ((ACKSZ : Int) - x.cnt))).ret)
    (h : RecvAck e x s tv = Outcome.returns r x1) : 0 ≤ x1.cnt ∧ x1.cnt < 5 := by
  have h05 : (0 : Int) < 5 := by decide
  unfold RecvAck at h
  simp only [] at h
  split at h
  · cases h
  · split at h
    · injection h with _ hx
      subst hx
      exact ⟨hlo, hhi⟩
    · split at h
      · rename_i hlt
        injection h with _ hx
        subst hx
        exact ⟨Int.add_nonneg hlo hok, by simpa [ACKSZ] using hlt⟩
      · split at h
        · injection h with _ hx
          subst hx
          exact ⟨le_refl _, h05⟩
        · split at h
          · injection h with _ hx
            subst hx
            exact ⟨le_refl _, h05⟩
          · split at h
            · cases h
            · split at h
              · cases h
              · cases h
              · injection h with _ hx
                subst hx
                exact ⟨le_refl _, h05⟩

/-! ### What a statistics emission resets -/

/-- C21 (`ServerXOI::statistic`, `ServerXOI::init_cnt`), amended: for every counter
state with `msgid ≠ 0` the call of `statistic` returns and sets to zero the counters
`msgid`, `cn_in`, `cn_ack_out`, `cn_ack_in`, `time_out`, `time_out_max`, and with them
`Lost`, `sr_time` and the accumulated byte count `cnt` of `RecvAck`; the slot pool,
the timer manager, the scratch bytes `ack`, `mid`, `end`, the capacity `size_in` and
the array `msgin` are the same after the call as before it. -/
theorem statistic_resets_counters_and_cnt {P : TimerQueue Callback} (x : XOUT P) (xin : XIN)
    (h : x.msgid ≠ 0) :
    ∃ (t : StatTable) (l : StatLog) (x1 : XOUT P) (xin1 : XIN),
      statistic x xin = Outcome.returns (t, l) (x1, xin1) ∧
      x1.msgid = 0 ∧ xin1.cn_in = 0 ∧ x1.cn_ack_out = 0 ∧ xin1.cn_ack_in = 0 ∧
      x1.time_out = 0 ∧ x1.time_out_max = 0 ∧
      xin1.Lost = 0 ∧ x1.sr_time = 0 ∧ x1.cnt = 0 ∧
      x1.mr = x.mr ∧ x1.TimeXout = x.TimeXout ∧ x1.ack = x.ack ∧ x1.mid = x.mid ∧
      x1.end_tv = x.end_tv ∧ xin1.size_in = xin.size_in ∧ xin1.msgin = xin.msgin := by
  unfold statistic
  rw [if_neg h]
  exact ⟨_, _, _, _, rfl, rfl, rfl, rfl, rfl, rfl, rfl, rfl, rfl, rfl, rfl, rfl, rfl, rfl, rfl,
    rfl, rfl⟩

/-- C21 at the end of a window with `msgid = 250`. -/
theorem statistic_resets_counters_and_cnt_witness :
    ∃ (t : StatTable) (l : StatLog) (x1 : XOUT (listQueue Callback)) (xin1 : XIN),
      statistic windowTracker xinFresh = Outcome.returns (t, l) (x1, xin1) ∧
      x1.msgid = 0 ∧ xin1.cn_in = 0 ∧ x1.cn_ack_out = 0 ∧ xin1.cn_ack_in = 0 ∧
      x1.time_out = 0 ∧ x1.time_out_max = 0 ∧
      xin1.Lost = 0 ∧ x1.sr_time = 0 ∧ x1.cnt = 0 ∧
      x1.mr = windowTracker.mr ∧ x1.TimeXout = windowTracker.TimeXout ∧
      x1.ack = windowTracker.ack ∧ x1.mid = windowTracker.mid ∧
      x1.end_tv = windowTracker.end_tv ∧ xin1.size_in = xinFresh.size_in ∧
      xin1.msgin = xinFresh.msgin :=
  statistic_resets_counters_and_cnt windowTracker xinFresh (by decide)

/-- C21 fails as stated: when two bytes of an ACK are accumulated (`cnt = 2`) at the
time of the emission, `statistic` leaves `cnt = 0`, while the two bytes stay in `ack`. -/
theorem statistic_resets_partial_ack_count :
    ∃ (t : StatTable) (l : StatLog) (x1 : XOUT (listQueue Callback)) (xin1 : XIN),
      statistic partialAckTracker xinFresh = Outcome.returns (t, l) (x1, xin1) ∧
      partialAckTracker.cnt = 2 ∧ x1.cnt = 0 ∧ x1.ack = partialAckTracker.ack :=
  ⟨_, _, _, _, rfl, rfl, rfl, rfl⟩

/-! ### The capacity that the run loop passes to `readvrec` -/

theorem writeAt_overrun (done tail bs : List Nat) (hne : bs ≠ [])
    (h : tail.length < bs.length) :
    writeAt (done ++ tail) (done.length : Int) bs = none := by
  unfold writeAt
  rw [if_neg hne, if_neg]
  intro hc
  have := hc.2
  simp only [Int.toNat_ofNat, List.length_append] at this
  omega

/-- Reading more bytes than the buffer holds: `readn` stores outside the buffer. -/
theorem readnLoop_overrun (len : Nat) :
    ∀ (s : Sock) (fuel : Nat) (done tail : List Nat) (cnt : Nat),
      s.length + 1 ≤ fuel → cnt ≤ (streamBytes s).length → tail.length < cnt → cnt < U32 →
      readnLoop len fuel s (done ++ tail) done.length cnt =
        some (Outcome.undefined Fault.outOfBounds) := by
  intro s
  induction s with
  | nil =>
    intro fuel done tail cnt _ hc ht _
    simp only [streamBytes, List.length_nil] at hc
    omega
  | cons item rest ih =>
    intro fuel done tail cnt hf hc ht hu
    obtain ⟨f, rfl⟩ : ∃ f, fuel = f + 1 := ⟨fuel - 1, by omega⟩
    have hf1 : rest.length + 1 ≤ f := by
      simp only [List.length_cons] at hf
      omega
    have hpos : 0 < cnt := by omega
    cases item with
    | err en => simp [streamBytes] at hc; omega
    | data B =>
      cases B with
      | nil => simp [streamBytes] at hc; omega
      | cons b bs =>
        have hsb : streamBytes (RecvItem.data (b :: bs) :: rest) =
            (b :: bs) ++ streamBytes rest := rfl
        rw [hsb] at hc
        by_cases hle : (b :: bs).length ≤ cnt
        · have hrecv : recv (RecvItem.data (b :: bs) :: rest) cnt =
              { ret := ((b :: bs).length : Int), bytes := b :: bs, errno := none,
                sock := rest } := by
            simp only [recv, hle, if_true]
          by_cases hfit : (b :: bs).length ≤ tail.length
          · have hrc : toU32 (((b :: bs).length : Nat) : Int) = (b :: bs).length :=
              toU32_natCast _ (by omega)
            have hw := writeAt_append done tail (b :: bs) (by simp) hfit
            have hcnt1 : (cnt + U32 - (b :: bs).length) % U32 = cnt - (b :: bs).length := by
              unfold U32 at hu ⊢
              omega
            have hrec := ih f (done ++ (b :: bs)) (tail.drop (b :: bs).length)
              (cnt - (b :: bs).length) hf1
              (by simp only [List.length_append] at hc; omega)
              (by simp only [List.length_drop]; omega) (by omega)
            have hne0 : ¬ ((b :: bs).length = 0) := by simp
            rw [readnLoop]
            simp only [hpos, if_true, hrecv, hrc, hw, Nat.not_lt_zero, if_false, hne0, hcnt1]
            have hoff : done.length + (b :: bs).length = (done ++ (b :: bs)).length := by
              simp
            rw [hoff, hrec]
          · have hw := writeAt_overrun done tail (b :: bs) (by simp) (by omega)
            rw [readnLoop]
            simp only [hpos, if_true, hrecv, hw]
        · have hrecv : recv (RecvItem.data (b :: bs) :: rest) cnt =
              { ret := (cnt : Int), bytes := (b :: bs).take cnt, errno := none,
                sock := RecvItem.data ((b :: bs).drop cnt) :: rest } := by
            simp only [recv, hle, if_false]
          have hlen : ((b :: bs).take cnt).length = cnt := by
            rw [List.length_take]; omega
          have hne : (b :: bs).take cnt ≠ [] := by
            intro h0
            rw [h0] at hlen
            simp at hlen
            omega
          have hw := writeAt_overrun done tail ((b :: bs).take cnt) hne (by omega)
          rw [readnLoop]
          simp only [hpos, if_true, hrecv, hw]

theorem readn_overrun (s : Sock) (buffer : List Nat) (len : Nat)
    (hs : len ≤ (streamBytes s).length) (hb : buffer.length < len) (hu : len < U32) :
    readn s buffer len = some (Outcome.undefined Fault.outOfBounds) := by
  have := readnLoop_overrun len s (s.length + 2) [] buffer len (by omega) hs hb hu
  simpa [readn] using this

/-- The reading of a framed record that fits the capacity passed but not the target
buffer. -/
theorem readvrec_fits_overrun (e : Endian) (s : Sock) (bp : List Nat) (len L : Nat)
    (body more : List Nat)
    (hs : streamBytes s = beBytes L ++ body ++ more) (hbody : body.length = L)
    (hL : L < U32) (hfit : L ≤ len) (hbp : bp.length < L) :
    readvrec e s bp len = some (Outcome.undefined Fault.outOfBounds) := by
  have h4 : 4 ≤ (streamBytes s).length := by
    rw [hs]; simp only [List.length_append, beBytes_length]; omega
  have hr1 := readn_available s [0, 0, 0, 0] 4 h4 (by simp) (by unfold U32; omega)
  have ht4 : (streamBytes s).take 4 = beBytes L := by
    rw [hs, List.append_assoc, List.take_append_of_le_length (by simp [beBytes_length])]
    exact List.take_of_length_le (by simp [beBytes_length])
  have hs1 : streamBytes (consume s 4) = body ++ more := by
    rw [streamBytes_consume s 4 h4, hs, List.append_assoc,
      List.drop_append_of_le_length (by simp [beBytes_length])]
    have : List.drop 4 (beBytes L) = [] := rfl
    rw [this, List.nil_append]
  have hr2 := readn_overrun (consume s 4) bp L
    (by rw [hs1]; simp only [List.length_append]; omega) hbp hL
  have hnot : ¬ (L > len) := by omega
  unfold readvrec
  simp only [hr1, ht4, List.drop_succ_cons, List.drop_nil, List.append_nil, ne_eq,
    not_true_eq_false, if_false, ntohl_wire e L hL, hnot, hr2]

/-- C25 (`ServerXOI::ClientHandler`, `XIN::Eсho`, `readvrec`), a defect of the code: the
run loop assigns `size_in = sizeof(buf) = 8 + BUF` before each call of `Eсho`, more
than the `BUF` bytes of `msgin`.  A framed record of `L` bytes with `BUF < L ≤ 8 + BUF`
is accepted by `readvrec` under that capacity — into a buffer of `8 + BUF` bytes it
is read in full, without `EMSGSIZE` — and is stored beyond the end of `msgin`. -/
theorem ClientHandlerIn_capacity_exceeds_msgin (e : Endian) (xin : XIN) (s : Sock)
    (sendRet : Int) (L : Nat) (body more : List Nat)
    (hs : streamBytes s = beBytes L ++ body ++ more) (hbody : body.length = L)
    (hlo : BUF < L) (hhi : L ≤ 8 + BUF) (hbp : xin.msgin.length = BUF) :
    toU32 ((4 * 2 + BUF : Nat) : Int) = 8 + BUF ∧ xin.msgin.length < 8 + BUF ∧
    (∃ s1, readvrec e s (List.replicate (8 + BUF) 0) (8 + BUF) =
      some (Outcome.returns
        { ret := L, bp := body ++ (List.replicate (8 + BUF) 0).drop L, errno := none } s1)) ∧
    ClientHandlerIn e xin s sendRet = some (Outcome.undefined Fault.outOfBounds) := by
  have hc : toU32 ((4 * 2 + BUF : Nat) : Int) = 8 + BUF := by decide
  have hL : L < U32 := by
    unfold U32
    unfold BUF at hhi
    omega
  refine ⟨hc, by rw [hbp]; omega, ⟨_, readvrec_fits e s _ (8 + BUF) L body more hs hbody hL hhi
    (by rw [List.length_replicate]; exact hhi)⟩, ?_⟩
  have hr := readvrec_fits_overrun e s xin.msgin (8 + BUF) L body more hs hbody hL hhi
    (by rw [hbp]; exact hlo)
  unfold ClientHandlerIn Echo
  simp only [hc, hr]

/-- C25 at a record of `BUF + 1` bytes arriving for a fresh `XIN`. -/
theorem ClientHandlerIn_capacity_exceeds_msgin_witness :
    toU32 ((4 * 2 + BUF : Nat) : Int) = 8 + BUF ∧ xinFresh.msgin.length < 8 + BUF ∧
    (∃ s1, readvrec Endian.little oversizeSock (List.replicate (8 + BUF) 0) (8 + BUF) =
      some (Outcome.returns
        { ret := BUF + 1
          bp := List.replicate (BUF + 1) 65 ++ (List.replicate (8 + BUF) 0).drop (BUF + 1)
          errno := none } s1)) ∧
    ClientHandlerIn Endian.little xinFresh oversizeSock 5 =
      some (Outcome.undefined Fault.outOfBounds) :=
  ClientHandlerIn_capacity_exceeds_msgin Endian.little xinFresh oversizeSock 5 (BUF + 1)
    (List.replicate (BUF + 1) 65) [] streamBytes_oversizeSock (List.length_replicate _ _)
    (by decide) (by decide) (by rw [xinFresh, List.length_replicate])

/-! ### The state in which `tselect` invokes a callback -/

/-- C23 (`TimerManager::tselect`), amended: for the timer `te` that the firing loop of
`tselect` finds on top and due, the callback is invoked in a state in which the event
has been popped from the heap `active` but the map `timers` is as before, so the id
of the timer is still a key of the map if it was one; a `unitimeout` of the timer's
own id in that state returns without throwing.  The id is erased from the map after
the callback has returned, and the loop goes on from there. -/
theorem tselect_erases_after_callback {F σ : Type} {P : TimerQueue F} (H : Host P σ)
    (now_time : Int) (n : Nat) (s : σ) (te : TimerEvent F)
    (htop : P.top (H.tm s).active = some te) (hdue : te.time ≤ now_time) :
    (te :: P.elems (H.tm (H.setTm s { H.tm s with active := P.pop (H.tm s).active })).active).Perm
      (P.elems (H.tm s).active) ∧
    (H.tm (H.setTm s { H.tm s with active := P.pop (H.tm s).active })).timers =
      (H.tm s).timers ∧
    (∀ v, mapFind (H.tm s).timers te.id = some v →
      ∃ tm1, unitimeout (H.tm (H.setTm s { H.tm s with active := P.pop (H.tm s).active }))
        te.id = Outcome.returns () tm1) ∧
    (∀ s2, H.call te.func (H.setTm s { H.tm s with active := P.pop (H.tm s).active }) =
        Outcome.throws s2 →
      tselect_fire H now_time (n + 1) s = some ([te], Outcome.throws s2)) ∧
    (∀ s2, H.call te.func (H.setTm s { H.tm s with active := P.pop (H.tm s).active }) =
        Outcome.returns () s2 →
      tselect_fire H now_time (n + 1) s =
        (tselect_fire H now_time n
          (H.setTm s2 { H.tm s2 with timers := mapErase (H.tm s2).timers te.id })).map
          (fun p => (te :: p.1, p.2))) := by
  refine ⟨?_, ?_, ?_, ?_, ?_⟩
  · rw [H.tm_setTm]
    exact P.elems_pop _ te htop
  · rw [H.tm_setTm]
  · intro v hv
    rw [H.tm_setTm]
    obtain ⟨tm1, h1, _⟩ :=
      unitimeout_found ({ H.tm s with active := P.pop (H.tm s).active } : TimerManager P)
        te.id v hv
    exact ⟨tm1, h1⟩
  · intro s2 hcall
    rw [tselect_fire]
    simp only [htop, hdue, if_true, hcall]
  · intro s2 hcall
    rw [tselect_fire]
    simp only [htop, hdue, if_true, hcall]
    cases tselect_fire H now_time n
      (H.setTm s2 { H.tm s2 with timers := mapErase (H.tm s2).timers te.id }) with
    | none => rfl
    | some p => rfl

/-- C23 at a timer whose callback cancels the timer's own id: it is on top and due, and
in the state of its callback it is off the heap and still in the map. -/
theorem tselect_erases_after_callback_witness :
    (listQueue Nat).top ((cancelHost (listQueue Nat)).tm selfCancelTimer).active =
      some { time := 0, func := 1, id := 1 } ∧
    ({ time := 0, func := 1, id := 1 } ::
        (listQueue Nat).elems ((cancelHost (listQueue Nat)).tm
          ((cancelHost (listQueue Nat)).setTm selfCancelTimer
            { (cancelHost (listQueue Nat)).tm selfCancelTimer with
              active := (listQueue Nat).pop
                ((cancelHost (listQueue Nat)).tm selfCancelTimer).active })).active).Perm
      ((listQueue Nat).elems ((cancelHost (listQueue Nat)).tm selfCancelTimer).active) ∧
    ((cancelHost (listQueue Nat)).tm
        ((cancelHost (listQueue Nat)).setTm selfCancelTimer
          { (cancelHost (listQueue Nat)).tm selfCancelTimer with
            active := (listQueue Nat).pop
              ((cancelHost (listQueue Nat)).tm selfCancelTimer).active })).timers =
      ((cancelHost (listQueue Nat)).tm selfCancelTimer).timers ∧
    (∃ tm1, unitimeout ((cancelHost (listQueue Nat)).tm
        ((cancelHost (listQueue Nat)).setTm selfCancelTimer
          { (cancelHost (listQueue Nat)).tm selfCancelTimer with
            active := (listQueue Nat).pop
              ((cancelHost (listQueue Nat)).tm selfCancelTimer).active })) 1 =
      Outcome.returns () tm1) := by
  have h := tselect_erases_after_callback (cancelHost (listQueue Nat)) 0 1 selfCancelTimer
    { time := 0, func := 1, id := 1 } rfl (by decide)
  exact ⟨rfl, h.1, h.2.1, h.2.2.1 { time := 0, func := 1, id := 1 } rfl⟩

/-- C23 fails as stated: a timer with id 1 whose callback is `unitimeout(1)` fires; the
id is still a key of the map when the callback runs, so the `unitimeout` returns, and
the firing loop ends by returning, not by the exception of `unitimeout`. -/
theorem unitimeout_of_own_id_in_callback_returns :
    mapFind
        ({ selfCancelTimer with
          active := (listQueue Nat).pop selfCancelTimer.active } :
          TimerManager (listQueue Nat)).timers 1 =
      some { time := 0, func := 1, id := 1 } ∧
    unitimeout
        ({ selfCancelTimer with
          active := (listQueue Nat).pop selfCancelTimer.active } :
          TimerManager (listQueue Nat)) 1 =
      Outcome.returns () { active := [], timers := [], next_id := 2 } ∧
    tselect_fire (cancelHost (listQueue Nat)) 0 2 selfCancelTimer =
      some ([{ time := 0, func := 1, id := 1 }],
        Outcome.returns () { active := [], timers := [], next_id := 2 }) :=
  ⟨rfl, rfl, rfl⟩

/-! ### The value that `tselect` returns -/

theorem tselectLoop_spec {F σ : Type} {P : TimerQueue F} (H : Host P σ) (fireFuel : Nat)
    (rmask wmask emask : Option FdSet) :
    ∀ (envs : List RoundEnv) (re we ee : Option FdSet) (k : Nat) (s s1 : σ)
      (r : TselectResult),
      (re = none ↔ rmask = none) → (we = none ↔ wmask = none) → (ee = none ↔ emask = none) →
      tselectLoop H fireFuel rmask wmask emask envs re we ee k s =
        some (Outcome.returns r s1) →
      (r.ret = 0 ↔
        (rmask = none ∧ wmask = none ∧ emask = none ∧ P.top (H.tm s1).active = none)) ∧
      (r.ret = 0 → r.selects + 1 = r.rounds) ∧
      (r.ret ≠ 0 → r.selects = r.rounds ∧ (r.ret = -1 ∨ 0 < r.ret)) := by
  intro envs
  induction envs with
  | nil => intro re we ee k s s1 r _ _ _ h; simp [tselectLoop] at h
  | cons env rest ih =>
    intro re we ee k s s1 r hr hw he h
    rw [tselectLoop] at h
    split at h
    · cases h
    · cases h
    · cases h
    · rename_i tr u s2 hfire
      split at h
      · rename_i hc
        obtain ⟨htop, h1, h2, h3⟩ := hc
        injection h with h
        injection h with hr1 hs1
        subst hr1
        subst hs1
        have htn : P.top (H.tm s2).active = none := Option.isNone_iff_eq_none.mp htop
        refine ⟨⟨fun _ => ⟨hr.mp h1, hw.mp h2, he.mp h3, htn⟩, fun _ => rfl⟩,
          fun _ => rfl, fun hne => absurd rfl hne⟩
      · rename_i hc
        have hnot : ¬ (rmask = none ∧ wmask = none ∧ emask = none ∧
            P.top (H.tm s2).active = none) := by
          intro ⟨a1, a2, a3, a4⟩
          exact hc ⟨Option.isNone_iff_eq_none.mpr a4, hr.mpr a1, hw.mpr a2, he.mpr a3⟩
        split at h
        · injection h with h
          injection h with hr1 hs1
          subst hr1
          subst hs1
          have hm1 : ¬ ((-1 : Int) = 0) := by decide
          refine ⟨⟨fun h0 => absurd h0 hm1, fun hx => absurd hx hnot⟩,
            fun h0 => absurd h0 hm1, fun _ => ⟨rfl, Or.inl rfl⟩⟩
        · split at h
          · rename_i hneg hpos
            injection h with h
            injection h with hr1 hs1
            subst hr1
            subst hs1
            have hne : env.n ≠ 0 := by omega
            refine ⟨⟨fun h0 => absurd h0 hne, fun hx => absurd hx hnot⟩,
              fun h0 => absurd h0 hne, fun _ => ⟨rfl, Or.inr hpos⟩⟩
          · exact ih rmask wmask emask (k + 1) s2 s1 r Iff.rfl Iff.rfl Iff.rfl h

/-- C22 (`TimerManager::tselect`): when a call of `tselect` returns, the value is 0
exactly when all three fd-set arguments are null and no timer is in the heap after
the firing loop of the last round; in that case the last round has not called
`select`.  Whenever an fd-set argument is not null the value is not 0: it is `-1` or
positive, and it comes from the call of `select` of the last round. -/
theorem tselect_returns_zero_iff {F σ : Type} {P : TimerQueue F} (H : Host P σ)
    (fireFuel : Nat) (envs : List RoundEnv) (re we ee : Option FdSet) (s s1 : σ)
    (r : TselectResult)
    (hrun : tselect H fireFuel envs re we ee s = some (Outcome.returns r s1)) :
    (r.ret = 0 ↔ (re = none ∧ we = none ∧ ee = none ∧ P.top (H.tm s1).active = none)) ∧
    (r.ret = 0 → r.selects + 1 = r.rounds) ∧
    ((re ≠ none ∨ we ≠ none ∨ ee ≠ none) →
      r.ret ≠ 0 ∧ (r.ret = -1 ∨ 0 < r.ret) ∧ r.selects = r.rounds) := by
  obtain ⟨h1, h2, h3⟩ :=
    tselectLoop_spec H fireFuel re we ee envs re we ee 0 s s1 r Iff.rfl Iff.rfl Iff.rfl hrun
  refine ⟨h1, h2, ?_⟩
  intro hnn
  have hne : r.ret ≠ 0 := by
    intro h0
    obtain ⟨a1, a2, a3, _⟩ := h1.mp h0
    rcases hnn with h | h | h
    · exact h a1
    · exact h a2
    · exact h a3
  exact ⟨hne, (h3 hne).2, (h3 hne).1⟩

/-- With three null fd-set arguments, a round whose firing loop leaves the heap empty
ends the call: `tselect` returns 0 in that round without calling `select`. -/
theorem tselect_null_empty_returns_zero {F σ : Type} {P : TimerQueue F} (H : Host P σ)
    (fireFuel : Nat) (env : RoundEnv) (rest : List RoundEnv) (s s1 : σ)
    (tr : List (TimerEvent F))
    (hfire : tselect_fire H env.now_time fireFuel s = some (tr, Outcome.returns () s1))
    (hempty : P.top (H.tm s1).active = none) :
    tselect H fireFuel (env :: rest) none none none s =
      some (Outcome.returns
        { ret := 0, re := none, we := none, ee := none, rounds := 1, selects := 0 } s1) := by
  unfold tselect
  rw [tselectLoop]
  simp only [hfire, hempty, Option.isNone_none, and_self, if_true]

/-- C22 at a call with three null arguments on a manager without timers: it returns 0
in its first round, without a call of `select`. -/
theorem tselect_returns_zero_iff_witness :
    tselect (plainHost (listQueue Callback)) 1
        [{ now_time := 0, n := 5, re := [], we := [], ee := [] }]
        none none none (TimerManager.init (listQueue Callback)) =
      some (Outcome.returns
        { ret := 0, re := none, we := none, ee := none, rounds := 1, selects := 0 }
        (TimerManager.init (listQueue Callback))) ∧
    ((0 : Int) = 0 ↔
      ((none : Option FdSet) = none ∧ (none : Option FdSet) = none ∧
        (none : Option FdSet) = none ∧
        (listQueue Callback).top
          ((plainHost (listQueue Callback)).tm (TimerManager.init (listQueue Callback))).active =
          none)) :=
  ⟨rfl,
    (tselect_returns_zero_iff (plainHost (listQueue Callback)) 1
      [{ now_time := 0, n := 5, re := [], we := [], ee := [] }] none none none
      (TimerManager.init (listQueue Callback)) (TimerManager.init (listQueue Callback))
      { ret := 0, re := none, we := none, ee := none, rounds := 1, selects := 0 } rfl).1⟩

/-! ### The bookkeeping of the timer manager -/

theorem tmInv_init {F : Type} (P : TimerQueue F) : TmInv (TimerManager.init P) none := by
  have he : P.elems (TimerManager.init P).active = [] := P.elems_empty
  refine ⟨?_, ?_, ?_, ?_, ?_, ?_⟩
  · rw [he]; exact List.nodup_nil
  · intro k v h _
    simp [TimerManager.init, mapFind] at h
  · intro ev hev
    rw [he] at hev
    cases hev
  · intro ev hev
    rw [he] at hev
    cases hev
  · intro _
    refine ⟨?_, ?_, ?_⟩
    · intro ev hev
      rw [he] at hev
      cases hev
    · intro k h
      simp [TimerManager.init, mapFind] at h
    · intro id h
      cases h
  · show 1 < U32
    decide

theorem tmInv_timeout {F : Type} {P : TimerQueue F} (tm : TimerManager P) (m : Option Nat)
    (func : F) (ms now : Int) (h : TmInv tm m) (hn : tm.next_id ≠ 0) :
    TmInv (timeout tm func ms now).2 m := by
  obtain ⟨h1, h2, h3, h4, h5, h6⟩ := h
  obtain ⟨h5a, h5b, h5c⟩ := h5 hn
  have hp := P.elems_push tm.active
    ({ time := now + ms * 1000000, func := func, id := tm.next_id } : TimerEvent F)
  have hmem : ∀ ev, ev ∈ P.elems (timeout tm func ms now).2.active ↔
      ev = ({ time := now + ms * 1000000, func := func, id := tm.next_id } : TimerEvent F) ∨
        ev ∈ P.elems tm.active := by
    intro ev
    show ev ∈ P.elems (P.push tm.active _) ↔ _
    rw [hp.mem_iff, List.mem_cons]
  have hfind : ∀ k, mapFind (timeout tm func ms now).2.timers k =
      if tm.next_id = k then
        some ({ time := now + ms * 1000000, func := func, id := tm.next_id } : TimerEvent F)
      else mapFind (mapErase tm.timers tm.next_id) k := by
    intro k
    exact mapFind_mapAssign _ _ _ _
  refine ⟨?_, ?_, ?_, ?_, ?_, ?_⟩
  · have hp2 := hp.map (fun ev => ev.id)
    show ((P.elems (P.push tm.active _)).map (fun ev => ev.id)).Nodup
    rw [hp2.nodup_iff, List.map_cons, List.nodup_cons]
    refine ⟨?_, h1⟩
    intro hin
    obtain ⟨ev, hev, hid⟩ := List.mem_map.1 hin
    have := h5a ev hev
    simp only at hid
    omega
  · intro k v hk hkm
    rw [hfind] at hk
    by_cases hkn : tm.next_id = k
    · rw [if_pos hkn] at hk
      injection hk with hk
      subst hk
      exact ⟨(hmem _).2 (Or.inl rfl), hkn⟩
    · rw [if_neg hkn, mapFind_mapErase_ne _ _ _ (fun h => hkn h.symm)] at hk
      obtain ⟨hv, hid⟩ := h2 k v hk hkm
      exact ⟨(hmem _).2 (Or.inr hv), hid⟩
  · intro ev hev
    rw [hfind]
    rcases (hmem ev).1 hev with he | he
    · subst he
      simp
    · have hlt := h5a ev he
      have hne : tm.next_id ≠ ev.id := by omega
      rw [if_neg hne, mapFind_mapErase_ne _ _ _ (fun h => hne h.symm)]
      exact h3 ev he
  · intro ev hev
    rcases (hmem ev).1 hev with he | he
    · subst he
      intro hm
      have := h5c _ hm.symm
      simp only at this
      omega
    · exact h4 ev he
  · intro hn1
    have hnx : (timeout tm func ms now).2.next_id = (tm.next_id + 1) % U32 := rfl
    have hlt : tm.next_id + 1 < U32 := by
      by_contra hc
      have : tm.next_id + 1 = U32 := by omega
      rw [hnx, this, Nat.mod_self] at hn1
      exact hn1 rfl
    have hnx2 : (timeout tm func ms now).2.next_id = tm.next_id + 1 := by
      rw [hnx, Nat.mod_eq_of_lt hlt]
    rw [hnx2]
    refine ⟨?_, ?_, ?_⟩
    · intro ev hev
      rcases (hmem ev).1 hev with he | he
      · subst he
        exact Nat.lt_succ_self _
      · exact Nat.lt_succ_of_lt (h5a ev he)
    · intro k hk
      rw [hfind] at hk
      by_cases hkn : tm.next_id = k
      · omega
      · rw [if_neg hkn] at hk
        exact Nat.lt_succ_of_lt (h5b k (mapFind_mapErase_isSome _ _ _ hk))
    · intro id hid
      exact Nat.lt_succ_of_lt (h5c id hid)
  · exact Nat.mod_lt _ (by decide)

theorem tmInv_unitimeout {F : Type} {P : TimerQueue F} (tm tm1 : TimerManager P)
    (m : Option Nat) (id : Nat) (h : TmInv tm m)
    (hu : unitimeout tm id = Outcome.returns () tm1) : TmInv tm1 m := by
  obtain ⟨h1, h2, h3, h4, h5, h6⟩ := h
  obtain ⟨v0, _, hp, ht, hnx⟩ := unitimeout_returns tm tm1 id hu
  have hmem : ∀ ev, ev ∈ P.elems tm1.active ↔ ev ∈ P.elems tm.active ∧ ev.id ≠ id := by
    intro ev
    rw [hp.mem_iff, List.mem_filter]
    simp
  refine ⟨?_, ?_, ?_, ?_, ?_, ?_⟩
  · rw [(hp.map (fun ev => ev.id)).nodup_iff]
    exact h1.sublist ((List.filter_sublist _).map _)
  · intro k v hk hkm
    rw [ht] at hk
    have hne : k ≠ id := by
      intro hc
      rw [hc, mapFind_mapErase_self] at hk
      cases hk
    rw [mapFind_mapErase_ne _ _ _ hne] at hk
    obtain ⟨hv, hid⟩ := h2 k v hk hkm
    exact ⟨(hmem v).2 ⟨hv, by rw [hid]; exact hne⟩, hid⟩
  · intro ev hev
    obtain ⟨he, hne⟩ := (hmem ev).1 hev
    rw [ht, mapFind_mapErase_ne _ _ _ hne]
    exact h3 ev he
  · intro ev hev
    exact h4 ev ((hmem ev).1 hev).1
  · rw [hnx]
    intro hn
    obtain ⟨h5a, h5b, h5c⟩ := h5 hn
    refine ⟨?_, ?_, h5c⟩
    · intro ev hev
      exact h5a ev ((hmem ev).1 hev).1
    · intro k hk
      rw [ht] at hk
      exact h5b k (mapFind_mapErase_isSome _ _ _ hk)
  · rw [hnx]
    exact h6

theorem tmInv_pop {F : Type} {P : TimerQueue F} (tm : TimerManager P) (te : TimerEvent F)
    (h : TmInv tm none) (htop : P.top tm.active = some te) :
    TmInv { tm with active := P.pop tm.active } (some te.id) := by
  obtain ⟨h1, h2, h3, h4, h5, h6⟩ := h
  have hp := P.elems_pop tm.active te htop
  have hnd : ((te :: P.elems (P.pop tm.active)).map (fun ev => ev.id)).Nodup := by
    rw [(hp.map (fun ev => ev.id)).nodup_iff]
    exact h1
  rw [List.map_cons, List.nodup_cons] at hnd
  have hsub : ∀ ev, ev ∈ P.elems (P.pop tm.active) → ev ∈ P.elems tm.active := by
    intro ev hev
    exact hp.mem_iff.1 (List.mem_cons_of_mem _ hev)
  have hfresh : ∀ ev, ev ∈ P.elems (P.pop tm.active) → ev.id ≠ te.id := by
    intro ev hev hc
    exact hnd.1 (List.mem_map.2 ⟨ev, hev, hc⟩)
  refine ⟨hnd.2, ?_, ?_, ?_, ?_, h6⟩
  · intro k v hk hkm
    obtain ⟨hv, hid⟩ := h2 k v hk (by intro hc; cases hc)
    refine ⟨?_, hid⟩
    rcases List.mem_cons.1 (hp.mem_iff.2 hv) with he | he
    · exfalso
      apply hkm
      rw [← hid, he]
    · exact he
  · intro ev hev
    exact h3 ev (hsub ev hev)
  · intro ev hev hc
    injection hc with hc
    exact hfresh ev hev hc
  · intro hn
    obtain ⟨h5a, h5b, _⟩ := h5 hn
    refine ⟨?_, h5b, ?_⟩
    · intro ev hev
      exact h5a ev (hsub ev hev)
    · intro id hid
      injection hid with hid
      rw [← hid]
      exact h5a te (P.top_mem _ _ htop)

theorem tmInv_erase {F : Type} {P : TimerQueue F} (tm : TimerManager P) (id : Nat)
    (h : TmInv tm (some id)) : TmInv { tm with timers := mapErase tm.timers id } none := by
  obtain ⟨h1, h2, h3, h4, h5, h6⟩ := h
  refine ⟨h1, ?_, ?_, ?_, ?_, h6⟩
  · intro k v hk _
    have hk2 : mapFind (mapErase tm.timers id) k = some v := hk
    have hne : k ≠ id := by
      intro hc
      rw [hc, mapFind_mapErase_self] at hk2
      cases hk2
    rw [mapFind_mapErase_ne _ _ _ hne] at hk2
    exact h2 k v hk2 (by intro hc; injection hc with hc; exact hne hc)
  · intro ev hev
    have hne : ev.id ≠ id := by
      intro hc
      exact h4 ev hev (by rw [hc])
    show mapFind (mapErase tm.timers id) ev.id = some ev
    rw [mapFind_mapErase_ne _ _ _ hne]
    exact h3 ev hev
  · intro ev _ hc
    cases hc
  · intro hn
    obtain ⟨h5a, h5b, _⟩ := h5 hn
    refine ⟨h5a, ?_, ?_⟩
    · intro k hk
      exact h5b k (mapFind_mapErase_isSome _ _ _ hk)
    · intro id2 hc
      cases hc

theorem tmRun_inv {F : Type} (P : TimerQueue F) (tm : TimerManager P) (m : Option Nat)
    (h : TmRun P tm m) : TmInv tm m := by
  induction h with
  | init => exact tmInv_init P
  | timeout tm m func ms now _ hn ih => exact tmInv_timeout tm m func ms now ih hn
  | unitimeout tm tm1 m id _ hu ih => exact tmInv_unitimeout tm tm1 m id ih hu
  | pop tm te _ htop ih => exact tmInv_pop tm te ih htop
  | erase tm id _ ih => exact tmInv_erase tm id ih

theorem tmInv_book {F : Type} {P : TimerQueue F} (tm : TimerManager P)
    (h : TmInv tm none) : TmBook tm := by
  obtain ⟨h1, h2, h3, _, _, _⟩ := h
  refine ⟨h1, ?_, ?_⟩
  · intro k
    constructor
    · intro hk
      cases hf : mapFind tm.timers k with
      | none => rw [hf] at hk; cases hk
      | some v =>
        obtain ⟨hv, hid⟩ := h2 k v hf (by intro hc; cases hc)
        exact ⟨v, hv, hid⟩
    · rintro ⟨ev, hev, hid⟩
      rw [← hid, h3 ev hev]
      rfl
  · intro k v hk
    obtain ⟨hv, hid⟩ := h2 k v hk (by intro hc; cases hc)
    exact ⟨v, hv, hid, rfl⟩

/-- Rounds of the firing loop of `tselect` keep the manager within the runs `TmRun`
when the callbacks of the host do: the loop pops the top event, runs the callback, and
erases the id of the event. -/
theorem tselect_fire_tmRun {F σ : Type} {P : TimerQueue F} (H : Host P σ)
    (hcall : ∀ (f : F) (s s2 : σ) (m : Option Nat), TmRun P (H.tm s) m →
      H.call f s = Outcome.returns () s2 → TmRun P (H.tm s2) m)
    (now_time : Int) (n : Nat) :
    ∀ (s s1 : σ) (tr : List (TimerEvent F)), TmRun P (H.tm s) none →
      tselect_fire H now_time n s = some (tr, Outcome.returns () s1) →
      TmRun P (H.tm s1) none := by
  induction n with
  | zero =>
    intro s s1 tr _ h
    simp only [tselect_fire] at h
    cases h
  | succ n ih =>
    intro s s1 tr hs h
    unfold tselect_fire at h
    cases htop : P.top (H.tm s).active with
    | none =>
      rw [htop] at h
      simp only [Option.some.injEq, Prod.mk.injEq] at h
      obtain ⟨_, h2⟩ := h
      injection h2 with _ h3
      rw [← h3]
      exact hs
    | some te =>
      rw [htop] at h
      simp only at h
      by_cases hdue : te.time ≤ now_time
      · rw [if_pos hdue] at h
        have hpop := TmRun.pop (H.tm s) te hs htop
        rw [← H.tm_setTm s { H.tm s with active := P.pop (H.tm s).active }] at hpop
        cases hc : H.call te.func
            (H.setTm s { H.tm s with active := P.pop (H.tm s).active }) with
        | returns u s2 =>
          rw [hc] at h
          simp only at h
          have h2 := hcall _ _ _ _ hpop hc
          have h3 := TmRun.erase (H.tm s2) te.id h2
          rw [← H.tm_setTm s2 { H.tm s2 with timers := mapErase (H.tm s2).timers te.id }] at h3
          cases hr : tselect_fire H now_time n
              (H.setTm s2 { H.tm s2 with timers := mapErase (H.tm s2).timers te.id }) with
          | none =>
            rw [hr] at h
            cases h
          | some p =>
            obtain ⟨tr2, o⟩ := p
            rw [hr] at h
            simp only [Option.some.injEq, Prod.mk.injEq] at h
            obtain ⟨_, h4⟩ := h
            rw [h4] at hr
            exact ih _ _ _ h3 hr
        | throws s2 =>
          rw [hc] at h
          simp only [Option.some.injEq, Prod.mk.injEq] at h
          obtain ⟨_, h4⟩ := h
          cases h4
        | undefined f =>
          rw [hc] at h
          simp only [Option.some.injEq, Prod.mk.injEq] at h
          obtain ⟨_, h4⟩ := h
          cases h4
      · rw [if_neg hdue] at h
        simp only [Option.some.injEq, Prod.mk.injEq] at h
        obtain ⟨_, h2⟩ := h
        injection h2 with _ h3
        rw [← h3]
        exact hs

/-- C30: in every state of a timer manager that a run of `timeout`, `unitimeout` and
completed rounds of the firing loop of `tselect` reaches from the fresh manager, with
`timeout` called only while `next_id` has not wrapped to 0 (at most `2^32 - 1`
registrations), the ids of the events in the heap are pairwise distinct, they are
exactly the keys of the map, and each entry of the map has the deadline of the event in
the heap with its id. -/
theorem timer_bookkeeping_in_step {F : Type} (P : TimerQueue F) (tm : TimerManager P)
    (h : TmRun P tm none) :
    ((P.elems tm.active).map (fun ev => ev.id)).Nodup ∧
    (∀ k, (mapFind tm.timers k).isSome = true ↔ ∃ ev ∈ P.elems tm.active, ev.id = k) ∧
    (∀ k v, mapFind tm.timers k = some v →
      ∃ ev ∈ P.elems tm.active, ev.id = k ∧ ev.time = v.time) ∧
    TmBook tm :=
  have hb := tmInv_book tm (tmRun_inv P tm none h)
  ⟨hb.1, hb.2.1, hb.2.2, hb⟩

/-- C30 at the manager with two timers after a round of the firing loop whose callback
registers a third timer: the heap holds the ids 1 and 3, which are the keys of the map,
with the same deadlines. -/
theorem timer_bookkeeping_in_step_witness :
    TmRun (listQueue Callback) twoTimersFired none ∧
    ((listQueue Callback).elems twoTimersFired.active).map (fun ev => ev.id) = [1, 3] ∧
    twoTimersFired.timers.map (fun p => (p.1, p.2.time)) = [(3, 5000000), (1, 20000000)] ∧
    TmBook twoTimersFired :=
  have hrun : TmRun (listQueue Callback) twoTimersFired none :=
    TmRun.erase _ 2
      (TmRun.timeout _ (some 2) (Callback.drop 2) 5 0
        (TmRun.pop twoTimers { time := 10000000, func := Callback.drop 1, id := 2 }
          (TmRun.timeout _ none (Callback.drop 1) 10 0
            (TmRun.timeout _ none (Callback.drop 0) 20 0 TmRun.init (by decide)) (by decide))
          rfl)
        (by decide))
  ⟨hrun, by decide, by decide,
    (timer_bookkeeping_in_step (listQueue Callback) twoTimersFired hrun).2.2.2⟩

/-! ### The count of ACKs against the count of messages -/

theorem allFree_trackerOf (P : TimerQueue Callback) : AllFree (trackerOf P freePool) 0 1 0 := by
  refine ⟨?_, ?_, P.elems_empty, fun k => rfl, rfl, rfl, rfl, rfl, rfl⟩
  · show freePool.length = MRSZ
    simp [freePool]
  · intro d hd
    rw [List.eq_of_mem_replicate hd]
    rfl

theorem completesAck_whole {P : TimerQueue Callback} (e : Endian) (x : XOUT P) (c : Nat)
    (hcnt : x.cnt = 0) (hack : x.ack.length = 5) :
    CompletesAck x [RecvItem.data (ACK :: store32 e c)] (ACK :: store32 e c) := by
  refine ⟨0, ACK :: store32 e c, [], by simpa using hcnt, by decide, hack, rfl, ?_, ?_⟩
  · simp [store32_length]
  · have : (ACK :: store32 e c).length = 5 := by simp [store32_length]
    simp only [List.take_zero, List.nil_append, Nat.sub_zero]
    exact List.take_of_length_le (by omega)

theorem allFree_stray_ack {P : TimerQueue Callback} (e : Endian) (x : XOUT P) (m n a c : Nat)
    (h : AllFree x m n a) :
    ∃ (x1 : XOUT P) (s1 : Sock),
      RecvAck e x [RecvItem.data (ACK :: store32 e c)] { tv_sec := 0, tv_usec := 0 } =
        Outcome.returns (result.Error, s1) x1 ∧
      AllFree x1 m n ((a + 1) % U32) := by
  obtain ⟨hlen, hfree, helems, hmap, hm, hn, ha, hcnt, hack⟩ := h
  have hfr := completesAck_whole e x c hcnt hack
  have hno : ∀ d ∈ x.mr, d.pkt.len ≠ FREE → d.pkt.cookie ≠ load32 e (store32 e c) :=
    fun d hd hl => absurd (hfree d hd) hl
  have hrecv := RecvAck_unmatched e x _ { tv_sec := 0, tv_usec := 0 } (store32 e c) hfr hno
  refine ⟨_, _, hrecv, hlen, hfree, helems, hmap, hm, hn, ?_, rfl, ?_⟩
  · show (x.cn_ack_out + 1) % U32 = _
    rw [ha]
  · show (ACK :: store32 e c).length = 5
    simp [store32_length]

theorem allFree_cycle {P : TimerQueue Callback} (e : Endian) (x : XOUT P) (m n a : Nat)
    (h : AllFree x m n a) (hmu : m < U32) :
    ∃ (x1 x2 : XOUT P) (w : List Nat) (s2 : Sock),
      SendMsg e x [0] 1 1 0 { tv_sec := 0, tv_usec := 0 } =
        Outcome.returns (result.True, w) x1 ∧
      RecvAck e x1 [RecvItem.data (ACK :: store32 e m)] { tv_sec := 0, tv_usec := 0 } =
        Outcome.returns (result.True, s2) x2 ∧
      AllFree x2 ((m + 1) % U32) ((n + 1) % U32) ((a + 1) % U32) := by
  obtain ⟨hlen, hfree, helems, hmap, hm, hn, ha, hcnt, hack⟩ := h
  have h0lt : 0 < x.mr.length := by rw [hlen]; decide
  have hex : ∃ d ∈ x.mr, d.pkt.len = FREE :=
    ⟨x.mr[0], List.getElem_mem h0lt, hfree _ (List.getElem_mem h0lt)⟩
  obtain ⟨i, d, hget, hi, _⟩ := getfreerec_of_free x.mr hex
  have hilt : i < x.mr.length := (List.getElem?_eq_some.mp hi).1
  have hsent := SendMsg_sent e x [0] 1 1 0 { tv_sec := 0, tv_usec := 0 } i d hget hi
    (by decide) (by decide)
  obtain ⟨x1, hx1⟩ : ∃ x1 : XOUT P, x1 =
      { x with
        msgid := (x.msgid + 1) % U32
        mr := x.mr.set i
          { pkt :=
              { len := htonl e ((4 + 1) % U32)
                cookie := x.msgid
                buf := storeMsg d.pkt.buf [0] 1 }
            id := x.TimeXout.next_id
            start := { tv_sec := 0, tv_usec := 0 } }
        TimeXout := (timeout x.TimeXout (Callback.drop i) T1 0).2 } := ⟨_, rfl⟩
  rw [← hx1] at hsent
  obtain ⟨dnew, hdnew⟩ : ∃ dnew : msgrec_t, dnew =
      { pkt :=
          { len := htonl e ((4 + 1) % U32)
            cookie := x.msgid
            buf := storeMsg d.pkt.buf [0] 1 }
        id := x.TimeXout.next_id
        start := { tv_sec := 0, tv_usec := 0 } } := ⟨_, rfl⟩
  have hmr1 : x1.mr = x.mr.set i dnew := by rw [hx1, hdnew]
  have htm1 : x1.TimeXout = (timeout x.TimeXout (Callback.drop i) T1 0).2 := by rw [hx1]
  have hmsg1 : x1.msgid = (m + 1) % U32 := by rw [hx1, ← hm]
  have hack1 : x1.cn_ack_out = a := by rw [hx1]; exact ha
  have hcnt1 : x1.cnt = 0 := by rw [hx1]; exact hcnt
  have hackl1 : x1.ack.length = 5 := by rw [hx1]; exact hack
  have hi1 : x1.mr[i]? = some dnew := by
    rw [hmr1]
    exact List.getElem?_set_self hilt
  have hlive : dnew.pkt.len ≠ FREE := by
    rw [hdnew]
    exact htonl_ne_FREE e _ (by decide)
  have hcookie : dnew.pkt.cookie = m := by rw [hdnew]; exact hm
  have hid : dnew.id = n := by rw [hdnew]; exact hn
  have hothers : ∀ (j : Nat) (dj : msgrec_t), x1.mr[j]? = some dj → dj.pkt.len ≠ FREE →
      j = i := by
    intro j dj hj hlj
    rw [hmr1] at hj
    rcases set_getElem?_cases x.mr i j dnew dj hj with ⟨h1, _⟩ | ⟨_, h2⟩
    · exact h1
    · exact absurd (hfree dj (List.getElem?_mem h2)) hlj
  have hdist : CookiesDistinct x1.mr := by
    intro j k dj dk hj hk hlj hlk _
    rw [hothers j dj hj hlj, hothers k dk hk hlk]
  have hfr := completesAck_whole e x1 m hcnt1 hackl1
  have hbody : load32 e (store32 e m) = dnew.pkt.cookie := by
    rw [load32_store32 e m hmu, hcookie]
  have hpend : mapFind x1.TimeXout.timers dnew.id =
      some { time := 0 + (T1 : Int) * 1000000, func := Callback.drop i, id := n } := by
    rw [htm1, hid]
    show mapFind (mapAssign x.TimeXout.timers x.TimeXout.next_id _) n = _
    rw [hn, mapFind_mapAssign, if_pos rfl]
  have hrecv := RecvAck_matched e x1 [RecvItem.data (ACK :: store32 e m)]
    { tv_sec := 0, tv_usec := 0 } (store32 e m) i dnew _ hdist hi1 hlive hfr hbody hpend
  refine ⟨x1, _, _, _, hsent, hrecv, ?_, ?_, ?_, ?_, hmsg1, ?_, ?_, rfl, ?_⟩
  · show (x1.mr.set i (freemsgrec dnew)).length = MRSZ
    rw [List.length_set, hmr1, List.length_set]
    exact hlen
  · intro dj hdj
    have hdj2 : dj ∈ x1.mr.set i (freemsgrec dnew) := hdj
    rcases List.getElem?_of_mem hdj2 with ⟨j, hj⟩
    rcases set_getElem?_cases x1.mr i j (freemsgrec dnew) dj hj with ⟨_, h2⟩ | ⟨h1, h2⟩
    · rw [h2]; rfl
    · by_contra hl
      exact h1 (hothers j dj h2 hl)
  · have hp := unitimeoutLoop_elems P dnew.id (P.elems x1.TimeXout.active).length
      x1.TimeXout.active P.empty (le_refl _)
    simp only [P.elems_empty, List.nil_append] at hp
    have hpush : (P.elems x1.TimeXout.active).Perm
        [{ time := 0 + (T1 : Int) * 1000000, func := Callback.drop i, id := n }] := by
      rw [htm1]
      have hp2 := P.elems_push x.TimeXout.active
        { time := 0 + (T1 : Int) * 1000000, func := Callback.drop i, id := x.TimeXout.next_id }
      rw [helems] at hp2
      rw [← hn]
      exact hp2
    have hf := hpush.filter (fun te => te.id != dnew.id)
    have hb1 : ((n : Nat) != dnew.id) = false := by simp [hid]
    simp only [List.filter_cons, hb1, List.filter_nil] at hf
    exact List.Perm.eq_nil (hp.trans hf)
  · intro k
    show mapFind (mapErase x1.TimeXout.timers dnew.id) k = none
    rw [hid, htm1]
    show mapFind (mapErase (mapAssign x.TimeXout.timers x.TimeXout.next_id _) n) k = none
    rw [hn]
    by_cases hk : k = n
    · rw [hk, mapFind_mapErase_self]
    · rw [mapFind_mapErase_ne _ _ _ hk, mapFind_mapAssign, if_neg (fun h2 => hk h2.symm),
        mapFind_mapErase_ne _ _ _ hk]
      exact hmap k
  · show x1.TimeXout.next_id = (n + 1) % U32
    rw [htm1]
    show (x.TimeXout.next_id + 1) % U32 = _
    rw [hn]
  · show (x1.cn_ack_out + 1) % U32 = _
    rw [hack1]
  · show (ACK :: store32 e m).length = 5
    simp [store32_length]

theorem ackedSends_allFree {P : TimerQueue Callback} (e : Endian)
    (g : XOUT P → OpKind → Prop) (hg : ∀ x, g x OpKind.send ∧ g x OpKind.ack) :
    ∀ (k : Nat) (x : XOUT P) (m n a : Nat), AllFree x m n a → Reach e g x →
      m + k < U32 → n + k < U32 → a + k < U32 →
      ∃ x2 : XOUT P, ackedSends e k x = some x2 ∧ Reach e g x2 ∧
        AllFree x2 (m + k) (n + k) (a + k) := by
  intro k
  induction k with
  | zero =>
    intro x m n a h hr _ _ _
    exact ⟨x, rfl, hr, h⟩
  | succ k ih =>
    intro x m n a h hr hm hn ha
    obtain ⟨x1, x2, w, s2, hsend, hrecv, hfree2⟩ := allFree_cycle e x m n a h (by omega)
    have hxm : x.msgid = m := h.2.2.2.2.1
    rw [Nat.mod_eq_of_lt (by omega), Nat.mod_eq_of_lt (by omega),
      Nat.mod_eq_of_lt (by omega)] at hfree2
    have hr1 : Reach e g x1 := Reach.send x x1 _ _ _ _ _ _ hr (hg x).1 hsend
    have hr2 : Reach e g x2 := Reach.ack x1 x2 _ _ _ hr1 (hg x1).2 hrecv
    obtain ⟨x3, hrun, hr3, hfree3⟩ := ih x2 (m + 1) (n + 1) (a + 1) hfree2 hr2
      (by omega) (by omega) (by omega)
    refine ⟨x3, ?_, hr3, ?_⟩
    · rw [ackedSends]
      simp only [hsend, hxm, hrecv]
      exact hrun
    · have e1 : m + 1 + k = m + (k + 1) := by omega
      have e2 : n + 1 + k = n + (k + 1) := by omega
      have e3 : a + 1 + k = a + (k + 1) := by omega
      rw [e1, e2, e3] at hfree3
      exact hfree3

theorem statistic_eq {P : TimerQueue Callback} (x : XOUT P) (xin : XIN) (h : x.msgid ≠ 0) :
    statistic x xin = Outcome.returns
      ({ seconds := TSTAT / 1000
         row1_sent_out := x.msgid
         row2_received_in := xin.cn_in
         row3_ack_out := x.cn_ack_out
         row4_ack_in := xin.cn_ack_in
         row5_lost_ack_out := (x.msgid + U32 - x.cn_ack_out) % U32
         row6_unconfirmed_in := xin.Lost
         row7_rtt_total := (x.msgid : Int)
         row8_rtt_mean := (x.msgid : Int)
         row9_rtt_max := (x.msgid : Int) },
       { seconds := TSTAT / 1000
         sent_out := x.msgid
         received_in := xin.cn_in
         ack_out := x.cn_ack_out
         ack_in := xin.cn_ack_in
         lost_ack_out := (x.msgid + U32 - x.cn_ack_out) % U32
         rtt_total := x.time_out
         rtt_mean := Int.tdiv x.time_out (x.msgid : Int)
         rtt_max := x.time_out_max })
      (init_cnt { x with sr_time := Int.tdiv x.time_out (x.msgid : Int) }, init_cnt_in xin) := by
  unfold statistic
  rw [if_neg h]

/-- C27 fails as stated: a tracker with zeroed counters and a free pool reads one ACK
frame for cookie 7, which matches no slot (`RecvAck` returns `Error`, `cn_ack_out`
becomes 1); then 250 one-byte messages are sent and each is acknowledged at once.  At
`msgid = TSTAT/T0 = 250` the counter `cn_ack_out` is 251, and the statistics show
`2^32 - 1` lost ACKs. -/
theorem lost_ack_figure_wraps :
    ∃ (x1 x2 : XOUT (listQueue Callback)) (s1 : Sock) (t : StatTable) (l : StatLog)
      (st : XOUT (listQueue Callback) × XIN),
      RecvAck Endian.little (trackerOf (listQueue Callback) freePool)
        [RecvItem.data [6, 7, 0, 0, 0]] { tv_sec := 0, tv_usec := 0 } =
        Outcome.returns (result.Error, s1) x1 ∧
      x1.msgid = 0 ∧ x1.cn_ack_out = 1 ∧
      ackedSends Endian.little 250 x1 = some x2 ∧
      Reach Endian.little statGate x2 ∧
      x2.msgid = TSTAT / T0 ∧ x2.cn_ack_out = 251 ∧
      statistic x2 xinFresh = Outcome.returns (t, l) st ∧
      t.row1_sent_out = 250 ∧ t.row3_ack_out = 251 ∧
      t.row5_lost_ack_out = 4294967295 ∧ l.lost_ack_out = 4294967295 := by
  obtain ⟨x1, s1, hrecv, hfree1⟩ := allFree_stray_ack Endian.little
    (trackerOf (listQueue Callback) freePool) 0 1 0 7 (allFree_trackerOf _)
  have hr1 : Reach Endian.little statGate x1 :=
    Reach.ack _ x1 _ _ _ (Reach.init _ (initialTracker_trackerOf _)) (statGate_allows _).2 hrecv
  obtain ⟨x2, hrun, hr2, hfree2⟩ := ackedSends_allFree Endian.little statGate statGate_allows
    250 x1 0 1 1 hfree1 hr1 (by decide) (by decide) (by decide)
  have hm1 : x1.msgid = 0 := hfree1.2.2.2.2.1
  have ha1 : x1.cn_ack_out = 1 := hfree1.2.2.2.2.2.2.1
  have hm2 : x2.msgid = 250 := hfree2.2.2.2.2.1
  have ha2 : x2.cn_ack_out = 251 := hfree2.2.2.2.2.2.2.1
  have hne : x2.msgid ≠ 0 := by rw [hm2]; decide
  refine ⟨x1, x2, s1, _, _, _, hrecv, hm1, ha1, hrun, hr2, hm2, ha2,
    statistic_eq x2 xinFresh hne, ?_, ?_, ?_, ?_⟩
  · exact hm2
  · exact ha2
  · show (x2.msgid + U32 - x2.cn_ack_out) % U32 = 4294967295
    rw [hm2, ha2]
    decide
  · show (x2.msgid + U32 - x2.cn_ack_out) % U32 = 4294967295
    rw [hm2, ha2]
    decide

/-- C27 (amended): at an emission of statistics with `msgid ≠ 0`, the figure of lost
ACKs in the table and in the log is `msgid - cn_ack_out` in unsigned 32-bit arithmetic.
It is the mathematical difference exactly when `cn_ack_out ≤ msgid`; when `cn_ack_out`
exceeds `msgid`, which the tracker does not exclude, the figure is
`2^32 - (cn_ack_out - msgid)`. -/
theorem lost_ack_figure_is_modular {P : TimerQueue Callback} (x : XOUT P) (xin : XIN)
    (h : x.msgid ≠ 0) (hm : x.msgid < U32) (ha : x.cn_ack_out < U32) :
    ∃ (t : StatTable) (l : StatLog) (st : XOUT P × XIN),
      statistic x xin = Outcome.returns (t, l) st ∧
      t.row1_sent_out = x.msgid ∧ t.row3_ack_out = x.cn_ack_out ∧
      t.row5_lost_ack_out = (x.msgid + U32 - x.cn_ack_out) % U32 ∧
      l.lost_ack_out = t.row5_lost_ack_out ∧
      (x.cn_ack_out ≤ x.msgid → t.row5_lost_ack_out = x.msgid - x.cn_ack_out) ∧
      (x.msgid < x.cn_ack_out → t.row5_lost_ack_out = U32 - (x.cn_ack_out - x.msgid)) ∧
      ((t.row5_lost_ack_out : Int) = (x.msgid : Int) - (x.cn_ack_out : Int) ↔
        x.cn_ack_out ≤ x.msgid) := by
  refine ⟨_, _, _, statistic_eq x xin h, rfl, rfl, rfl, rfl, ?_, ?_, ?_⟩
  · intro hle
    show (x.msgid + U32 - x.cn_ack_out) % U32 = x.msgid - x.cn_ack_out
    have e1 : x.msgid + U32 - x.cn_ack_out = (x.msgid - x.cn_ack_out) + U32 := by omega
    rw [e1, Nat.add_mod_right, Nat.mod_eq_of_lt (by omega)]
  · intro hlt
    show (x.msgid + U32 - x.cn_ack_out) % U32 = U32 - (x.cn_ack_out - x.msgid)
    have e1 : x.msgid + U32 - x.cn_ack_out = U32 - (x.cn_ack_out - x.msgid) := by omega
    rw [e1, Nat.mod_eq_of_lt (by omega)]
  · show (((x.msgid + U32 - x.cn_ack_out) % U32 : Nat) : Int) =
      (x.msgid : Int) - (x.cn_ack_out : Int) ↔ x.cn_ack_out ≤ x.msgid
    constructor
    · intro heq
      by_contra hc
      have hnn : (0 : Int) ≤ (((x.msgid + U32 - x.cn_ack_out) % U32 : Nat) : Int) :=
        Int.ofNat_nonneg _
      omega
    · intro hle
      have e1 : x.msgid + U32 - x.cn_ack_out = (x.msgid - x.cn_ack_out) + U32 := by omega
      rw [e1, Nat.add_mod_right, Nat.mod_eq_of_lt (by omega)]
      omega

/-- C27 (amended) at the end of a window with 250 messages sent and 240 ACKs received:
the figure is 10. -/
theorem lost_ack_figure_is_modular_witness :
    ∃ (t : StatTable) (l : StatLog) (st : XOUT (listQueue Callback) × XIN),
      statistic windowTracker xinFresh = Outcome.returns (t, l) st ∧
      t.row1_sent_out = 250 ∧ t.row3_ack_out = 240 ∧
      t.row5_lost_ack_out = 10 ∧ l.lost_ack_out = 10 ∧
      ((t.row5_lost_ack_out : Int) = 250 - 240) := by
  obtain ⟨t, l, st, h1, h2, h3, _, h5, h6, _, h8⟩ :=
    lost_ack_figure_is_modular windowTracker xinFresh (by decide) (by decide) (by decide)
  have hle : windowTracker.cn_ack_out ≤ windowTracker.msgid := by decide
  exact ⟨t, l, st, h1, h2, h3, h6 hle, h5.trans (h6 hle), h8.2 hle⟩

/-! ### The statistics test of the run loop -/

set_option maxRecDepth 100000

/-- The head of a round of the run loop emits statistics only when `msgid` equals
`TSTAT/T0` at the test, whatever the call of `tselect` that follows does to `msgid`. -/
theorem ClientHandlerHead_tests_once {P : TimerQueue Callback} (e : Endian) (fireFuel : Nat)
    (envs : List RoundEnv) (allreads : FdSet) (sv sv1 : Server P) (xin xin1 : XIN)
    (emitted : Option (StatTable × StatLog)) (r : TselectResult)
    (hne : sv.xout.msgid ≠ TSTAT / T0)
    (h : ClientHandlerHead e fireFuel envs allreads sv xin =
      some (Outcome.returns (emitted, r) (sv1, xin1))) :
    emitted = none ∧
    tselect (serverHost e) fireFuel envs (some allreads) none none sv =
      some (Outcome.returns r sv1) := by
  unfold ClientHandlerHead at h
  simp only [hne, if_false] at h
  cases ht : tselect (serverHost e) fireFuel envs (some allreads) none none sv with
  | none =>
    rw [ht] at h
    cases h
  | some o =>
    rw [ht] at h
    cases o with
    | returns r2 sv2 =>
      simp only [Option.some.injEq, Outcome.returns.injEq, Prod.mk.injEq] at h
      obtain ⟨⟨h1, h2⟩, h3, _⟩ := h
      rw [← h2, ← h3]
      exact ⟨h1.symm, rfl⟩
    | throws sv2 =>
      simp only [Option.some.injEq] at h
      cases h
    | undefined f =>
      simp only [Option.some.injEq] at h
      cases h

/-- C26: the run loop lets `msgid` pass `TSTAT/T0`.  At the head of a round `msgid` is
249, so the test `msgid == TSTAT/T0` emits nothing; the call of `tselect` fires the
timer of `sendrev` at 20 ms (`msgid` becomes 250), `select` returns 0 because nothing
arrives before the next timer is due, and the same call fires the timer of `sendrev`
again at 40 ms: `SendMsg` runs with `msgid = 250 = TSTAT/T0` and leaves 251, without
statistics in between.  At the head of the next round `msgid` is 251 and the test
emits nothing again. -/
theorem run_loop_msgid_passes_window :
    ∃ (r r2 : TselectResult) (sv1 sv2 : Server (listQueue Callback)) (xin1 xin2 : XIN),
      silentPeerServer.xout.msgid = 249 ∧ TSTAT / T0 = 250 ∧
      ClientHandlerHead Endian.little 4 silentPeerRounds [0, 4, 5] silentPeerServer xinFresh =
        some (Outcome.returns (none, r) (sv1, xin1)) ∧
      r.ret = 1 ∧ r.rounds = 2 ∧ r.selects = 2 ∧
      sv1.calls = 2 ∧ sv1.xout.msgid = 251 ∧ TSTAT / T0 < sv1.xout.msgid ∧
      ClientHandlerHead Endian.little 4
          [{ now_time := 45000000, n := 1, re := [5], we := [], ee := [] }] [0, 4, 5] sv1 xin1 =
        some (Outcome.returns (none, r2) (sv2, xin2)) ∧
      sv2.xout.msgid = 251 :=
  ⟨_, _, _, _, _, _, rfl, rfl, rfl, rfl, rfl, rfl, rfl, rfl, by decide, rfl, rfl⟩

/-! ### The run loop within the sessions -/

theorem tselectLoop_run {P : TimerQueue Callback} (e : Endian)
    (guard : XOUT P → RunOp → Prop) (hg : ∀ y, guard y RunOp.round) (fireFuel : Nat)
    (rmask wmask emask : Option FdSet) :
    ∀ (envs : List RoundEnv) (re we ee : Option FdSet) (k : Nat) (sv sv1 : Server P)
      (r : TselectResult), Run e guard sv.xout →
      tselectLoop (serverHost e) fireFuel rmask wmask emask envs re we ee k sv =
        some (Outcome.returns r sv1) →
      Run e guard sv1.xout := by
  intro envs
  induction envs with
  | nil => intro re we ee k sv sv1 r _ h; simp [tselectLoop] at h
  | cons env rest ih =>
    intro re we ee k sv sv1 r hrun h
    rw [tselectLoop] at h
    split at h
    · cases h
    · cases h
    · cases h
    · rename_i tr u s2 hfire
      have hs2 : Run e guard s2.xout :=
        tselect_fire_run e guard hg env.now_time fireFuel sv s2 tr hrun hfire
      split at h
      · injection h with h
        injection h with _ hs1
        rw [← hs1]
        exact hs2
      · split at h
        · injection h with h
          injection h with _ hs1
          rw [← hs1]
          exact hs2
        · split at h
          · injection h with h
            injection h with _ hs1
            rw [← hs1]
            exact hs2
          · exact ih rmask wmask emask (k + 1) s2 sv1 r hs2 h

/-- The head of a round of the run loop (the statistics test and the call of
`tselect`) that returns leads from a state of the sessions `Run` of the gate
`runGate` to a state of these sessions; `ClientHandler` enters its loop in the state
`Run.arm` of an initial tracker. -/
theorem ClientHandlerHead_run {P : TimerQueue Callback} (e : Endian) (fireFuel : Nat)
    (envs : List RoundEnv) (allreads : FdSet) (sv sv1 : Server P) (xin xin1 : XIN)
    (emitted : Option (StatTable × StatLog)) (r : TselectResult)
    (hrun : Run e runGate sv.xout)
    (h : ClientHandlerHead e fireFuel envs allreads sv xin =
      some (Outcome.returns (emitted, r) (sv1, xin1))) :
    Run e runGate sv1.xout := by
  have hg : ∀ y : XOUT P, runGate y RunOp.round := fun _ hk => by cases hk
  unfold ClientHandlerHead at h
  by_cases hm : sv.xout.msgid = TSTAT / T0
  · have hne : sv.xout.msgid ≠ 0 := by rw [hm]; decide
    simp only [hm, if_true] at h
    have hst := statistic_eq sv.xout xin hne
    rw [hm] at hst
    simp only [hst] at h
    have hrun2 : Run e runGate (init_cnt sv.xout) := Run.stat sv.xout hrun (fun _ => hm)
    split at h
    · cases h
    · rename_i r2 sv2 ht
      injection h with h
      injection h with _ hs
      injection hs with hs1 _
      rw [← hs1]
      exact tselectLoop_run e runGate hg fireFuel _ _ _ envs _ _ _ 0 _ sv2 r2 hrun2 ht
    · cases h
    · cases h
  · simp only [hm, if_false] at h
    split at h
    · cases h
    · rename_i r2 sv2 ht
      injection h with h
      injection h with _ hs
      injection hs with hs1 _
      rw [← hs1]
      exact tselectLoop_run e runGate hg fireFuel _ _ _ envs _ _ _ 0 sv sv2 r2 hrun ht
    · cases h
    · cases h

theorem serverHost_call_counters {P : TimerQueue Callback} (e : Endian) (f : Callback)
    (sv sv2 : Server P) (h : (serverHost e).call f sv = Outcome.returns () sv2) :
    sv2.xout.msgid ≤ sv.xout.msgid + 1 ∧
    sv2.xout.TimeXout.next_id ≤ sv.xout.TimeXout.next_id + 2 := by
  cases f with
  | drop i => cases h
  | sendrev =>
    have h2 : sendrev e sv = Outcome.returns () sv2 := h
    obtain ⟨r, x1, hs, hcase⟩ := sendrev_effect e sv sv2 h2
    obtain ⟨i, d, dnew, _, _, _, _, hmsgid, hcase2⟩ := SendMsg_effect e _ x1 _ _ _ _ _ r hs
    have hm : x1.msgid ≤ sv.xout.msgid + 1 := by
      rw [hmsgid]
      exact Nat.mod_le _ _
    have hn : x1.TimeXout.next_id ≤ sv.xout.TimeXout.next_id + 1 := by
      rcases hcase2 with ⟨_, htm, _⟩ | ⟨_, _, _, htm, _⟩
      · rw [htm]
        exact Nat.le_succ _
      · rw [htm]
        exact Nat.mod_le _ _
    rcases hcase with ⟨_, hsv2⟩ | ⟨_, hsv2⟩
    · rw [hsv2]
      refine ⟨hm, ?_⟩
      show (x1.TimeXout.next_id + 1) % U32 ≤ sv.xout.TimeXout.next_id + 2
      have := Nat.mod_le (x1.TimeXout.next_id + 1) U32
      omega
    · rw [hsv2]
      exact ⟨hm, by omega⟩

/-- A firing loop of `tselect` that returns keeps the tracker within the sessions
`Run` of a guard, when a budget `B` that covers the rounds of the loop admits each
round and goes down by one with it. -/
theorem tselect_fire_run_within {P : TimerQueue Callback} (e : Endian)
    (guard : XOUT P → RunOp → Prop) (B : XOUT P → Nat → Prop)
    (hB : ∀ y n, B y (n + 1) → guard y RunOp.round)
    (hstep : ∀ (s s2 : Server P) (f : Callback) (tm : TimerManager P)
      (timers : List (Nat × TimerEvent Callback)) (n : Nat),
      B s.xout (n + 1) →
      (serverHost e).call f ((serverHost e).setTm s tm) = Outcome.returns () s2 →
      tm.next_id = s.xout.TimeXout.next_id →
      B { s2.xout with TimeXout := { s2.xout.TimeXout with timers := timers } } n)
    (now_time : Int) :
    ∀ (fuel : Nat) (sv sv1 : Server P) (tr : List (TimerEvent Callback)),
      Run e guard sv.xout → B sv.xout fuel →
      tselect_fire (serverHost e) now_time fuel sv = some (tr, Outcome.returns () sv1) →
      Run e guard sv1.xout := by
  intro fuel
  induction fuel with
  | zero =>
    intro sv sv1 tr _ _ h
    simp only [tselect_fire] at h
    cases h
  | succ n ih =>
    intro sv sv1 tr hrun hb h
    unfold tselect_fire at h
    cases htop : P.top ((serverHost e).tm sv).active with
    | none =>
      rw [htop] at h
      simp only [Option.some.injEq, Prod.mk.injEq] at h
      obtain ⟨_, h2⟩ := h
      injection h2 with _ h3
      rw [← h3]
      exact hrun
    | some te =>
      rw [htop] at h
      simp only at h
      by_cases hdue : te.time ≤ now_time
      · rw [if_pos hdue] at h
        cases hc : (serverHost e).call te.func
            ((serverHost e).setTm sv
              { (serverHost e).tm sv with active := P.pop ((serverHost e).tm sv).active }) with
        | returns u s2 =>
          rw [hc] at h
          simp only at h
          have hr2 := Run.round sv.xout sv.env sv.calls te s2 hrun (hB _ _ hb) htop hc
          have hb2 := hstep sv s2 te.func _
            (mapErase ((serverHost e).tm s2).timers te.id) n hb hc rfl
          cases hr : tselect_fire (serverHost e) now_time n
              ((serverHost e).setTm s2
                { (serverHost e).tm s2 with
                  timers := mapErase ((serverHost e).tm s2).timers te.id }) with
          | none =>
            rw [hr] at h
            cases h
          | some p =>
            obtain ⟨tr2, o⟩ := p
            rw [hr] at h
            simp only [Option.some.injEq, Prod.mk.injEq] at h
            obtain ⟨_, h4⟩ := h
            rw [h4] at hr
            exact ih _ _ _ hr2 hb2 hr
        | throws s2 =>
          rw [hc] at h
          simp only [Option.some.injEq, Prod.mk.injEq] at h
          obtain ⟨_, h4⟩ := h
          cases h4
        | undefined f =>
          rw [hc] at h
          simp only [Option.some.injEq, Prod.mk.injEq] at h
          obtain ⟨_, h4⟩ := h
          cases h4
      · rw [if_neg hdue] at h
        simp only [Option.some.injEq, Prod.mk.injEq] at h
        obtain ⟨_, h2⟩ := h
        injection h2 with _ h3
        rw [← h3]
        exact hrun

/-- A firing loop of `tselect` that returns keeps the tracker within the sessions of
`cookieGuard`, when `msgid` is more than the number of its rounds below `2^32`. -/
theorem tselect_fire_run_cookieGuard {P : TimerQueue Callback} (e : Endian) (now_time : Int)
    (fuel : Nat) (sv sv1 : Server P) (tr : List (TimerEvent Callback))
    (h : Run e cookieGuard sv.xout) (hm : sv.xout.msgid + fuel < U32)
    (hrun : tselect_fire (serverHost e) now_time fuel sv = some (tr, Outcome.returns () sv1)) :
    Run e cookieGuard sv1.xout := by
  refine tselect_fire_run_within e cookieGuard (fun y n => y.msgid + n < U32) ?_ ?_ now_time
    fuel sv sv1 tr h hm hrun
  · intro y n hb
    refine ⟨fun hk => (by cases hk), fun _ => ?_⟩
    have hb2 : y.msgid + (n + 1) < U32 := hb
    omega
  · intro s s2 f tm timers n hb hc _
    have hb2 : s.xout.msgid + (n + 1) < U32 := hb
    have h1 := (serverHost_call_counters e f _ s2 hc).1
    have h2 : s2.xout.msgid ≤ s.xout.msgid + 1 := h1
    show s2.xout.msgid + n < U32
    omega

/-- A firing loop of `tselect` that returns keeps the tracker within the sessions of
`timerGuard`, when `next_id` is more than twice the number of its rounds below
`2^32`. -/
theorem tselect_fire_run_timerGuard {P : TimerQueue Callback} (e : Endian) (now_time : Int)
    (fuel : Nat) (sv sv1 : Server P) (tr : List (TimerEvent Callback))
    (h : Run e timerGuard sv.xout) (hm : sv.xout.TimeXout.next_id + 2 * fuel < U32)
    (hrun : tselect_fire (serverHost e) now_time fuel sv = some (tr, Outcome.returns () sv1)) :
    Run e timerGuard sv1.xout := by
  refine tselect_fire_run_within e timerGuard
    (fun y n => y.TimeXout.next_id + 2 * n < U32) ?_ ?_ now_time fuel sv sv1 tr h hm hrun
  · intro y n hb
    have hb2 : y.TimeXout.next_id + 2 * (n + 1) < U32 := hb
    refine ⟨fun hk => (by rcases hk with hk | hk <;> cases hk), fun _ => ?_⟩
    omega
  · intro s s2 f tm timers n hb hc htm
    have hb2 : s.xout.TimeXout.next_id + 2 * (n + 1) < U32 := hb
    have h1 := (serverHost_call_counters e f _ s2 hc).2
    have h2 : s2.xout.TimeXout.next_id ≤ tm.next_id + 2 := h1
    show s2.xout.TimeXout.next_id + 2 * n < U32
    omega

/-- The run loop from its start against a peer that sends nothing for 1.02 s: the
first call of `tselect` fires the timer of `sendrev` in each of its rounds, and in the
round at 1020 ms the drop timer of the first message is due; invoking its callback is
undefined behaviour. -/
theorem run_loop_silent_peer_drop_expiry :
    ClientHandlerHead Endian.little 4 (silentRounds 51) [0, 4, 5] silentPeerStart xinFresh =
      some (Outcome.undefined Fault.danglingRef) :=
  rfl

end ServerX
